import Mathlib

/-!
# Four-seat Texas Hold'em engine (`script.js`): shallow embedding

The global variables of `script.js` become the fields of `GameState`; every
function of the script that reads or writes them becomes a Lean function that
takes the state and returns the new state (with the JavaScript return value
when there is one).  Chip amounts are JavaScript numbers holding integers and
are modelled by `Int`.  Calls that only touch the DOM or the console
(`updateInfo`, `moveChipsToPot`, `disableActionButtons`, `showCards`, ...) do
not change any of the modelled variables and are left out; callbacks handed to
`setTimeout` are not run by the caller and are recorded in `timers`.
-/

namespace Poker

/-! ## Cards -/

/-- The entries of `SUITS`. -/
inductive Suit
  | spades | hearts | diamonds | clubs
  deriving DecidableEq, Repr, Fintype

/-- The entries of `VALUES` (`'2'` .. `'9'`, `'T'`, `'J'`, `'Q'`, `'K'`, `'A'`). -/
inductive Value
  | v2 | v3 | v4 | v5 | v6 | v7 | v8 | v9 | vT | vJ | vQ | vK | vA
  deriving DecidableEq, Repr

/-- A card string `v + s` as built by `createDeck`: `card[0]` is `value`,
`card[1]` is `suit`.  Every inhabitant is a valid card, so the validity filters
of the script (`typeof card === 'string' && card.length >= 2`, `!RANKS[rank]`)
keep every card. -/
structure Card where
  value : Value
  suit : Suit
  deriving DecidableEq, Repr

/-- The table `RANKS`. -/
def RANKS : Value → Int
  | .v2 => 2 | .v3 => 3 | .v4 => 4 | .v5 => 5 | .v6 => 6 | .v7 => 7 | .v8 => 8
  | .v9 => 9 | .vT => 10 | .vJ => 11 | .vQ => 12 | .vK => 13 | .vA => 14

/-! ## Game state -/

/-- Index of a seat in the arrays `chips`, `currentBets`, `players`,
`playerStates`, `playerHasActed`. -/
abbrev Seat := Fin 4

/-- Seats in the order of `for (let i = 0; i < 4; i++)`. -/
def seats : List Seat := [0, 1, 2, 3]

/-- Callbacks passed to `setTimeout` that act on the game state. -/
inductive Timer
  | awardPotToPlayer (playerIdx : Int) (reason : String)
  | showdownAward (winners : List Seat) (winningHand : String)
  | runOutRemainingCards
  | showdown
  | nextRound
  | newGame
  | aiTakeTurn (guarded : Bool)
  | runOutFlop
  | runOutTurn
  | runOutRiver
  deriving DecidableEq, Repr

/-- The top-level variables of the script. -/
structure GameState where
  deck : List Card
  players : Seat → List Card
  chips : Seat → Int
  currentBets : Seat → Int
  pot : Int
  communityCards : List Card
  currentPlayer : Int
  roundStage : Int
  bettingRoundActive : Bool
  currentBet : Int
  lastToAct : Int
  lastRaiseAmount : Int
  folded : Seat → Bool
  playerHasActed : Seat → Bool
  isStartOfBettingRound : Bool
  potHasBeenAwarded : Bool
  lastAwardedPotTransactionId : Int
  currentAwardTransactionId : Int
  timers : List Timer

/-- The seat addressed by a JavaScript index, when `0 <= i <= 3`. -/
def seatOf (i : Int) : Option Seat :=
  if 0 ≤ i ∧ i ≤ 3 then some (Fin.ofNat i.toNat) else none

/-- The JavaScript index of a seat. -/
def seatIndex (p : Seat) : Int := (p.val : Int)

/-- Assignment `arr[i] = v` for a JavaScript index: outside `0..3` it does not
change any of the four seats. -/
def setAt {α : Type} (arr : Seat → α) (i : Int) (v : α) : Seat → α :=
  match seatOf i with
  | some p => Function.update arr p v
  | none => arr

/-- The quantity `Σ chips + Σ currentBets + pot`. -/
def total (s : GameState) : Int :=
  s.chips 0 + s.chips 1 + s.chips 2 + s.chips 3
    + (s.currentBets 0 + s.currentBets 1 + s.currentBets 2 + s.currentBets 3) + s.pot

/-- All chip amounts are non-negative. -/
def NonNeg (s : GameState) : Prop :=
  (∀ i, 0 ≤ s.chips i) ∧ (∀ i, 0 ≤ s.currentBets i) ∧ 0 ≤ s.pot

/-! ## Pot ledger -/

/-- One iteration of the validation loop of `updateChipsAndBets`: negative
chips and negative bets of seat `i` are reset to 0. -/
def sanitizeSeat (s : GameState) (i : Seat) : GameState :=
  let s := if s.chips i < 0 then { s with chips := Function.update s.chips i 0 } else s
  if s.currentBets i < 0 then { s with currentBets := Function.update s.currentBets i 0 } else s

/-- The function `updateChipsAndBets` (with the `updatePot` it calls): besides
refreshing the display it resets negative chips, bets and pot to 0. -/
def updateChipsAndBets (s : GameState) : GameState :=
  let s := seats.foldl sanitizeSeat s
  if s.pot < 0 then { s with pot := 0 } else s

/-- The function `placeBet(playerIndex, amount)`; returns the amount moved. -/
def placeBet (s : GameState) (playerIndex : Int) (amount : Int) : Int × GameState :=
  match seatOf playerIndex with
  | none => (0, s)
  | some p =>
    if amount ≤ 0 then (0, s)
    else
      let actualAmount := min amount (s.chips p)
      if actualAmount ≤ 0 then (0, s)
      else
        let s := { s with chips := Function.update s.chips p (s.chips p - actualAmount) }
        let s := { s with
          currentBets := Function.update s.currentBets p (s.currentBets p + actualAmount) }
        (actualAmount, s)

/-- One iteration of the loop `pot += currentBets[i]; currentBets[i] = 0`. -/
def bankSeat (s : GameState) (i : Seat) : GameState :=
  let s := { s with pot := s.pot + s.currentBets i }
  { s with currentBets := Function.update s.currentBets i 0 }

/-- The loop that opens `nextRound` (and `showdown`, `runOutRemainingCards`):
`for (let i = 0; i < 4; i++) { pot += currentBets[i]; currentBets[i] = 0; }`. -/
def bankBets (s : GameState) : GameState :=
  seats.foldl bankSeat s

/-- Loop state of the "safety check" loops that collect outstanding bets:
`additionalChips` and the game state. -/
def collectSeat (acc : Int × GameState) (i : Seat) : Int × GameState :=
  let (additionalChips, s) := acc
  if s.currentBets i > 0 then
    (additionalChips + s.currentBets i,
      { s with currentBets := Function.update s.currentBets i 0 })
  else (additionalChips, s)

/-- The block `let additionalChips = 0; for (...) if (currentBets[i] > 0) {...};
if (additionalChips > 0) pot += additionalChips;` of `handleFold` and
`checkBettingRoundEnd`. -/
def collectOutstandingBets (s : GameState) : GameState :=
  let (additionalChips, s) := seats.foldl collectSeat (0, s)
  if additionalChips > 0 then { s with pot := s.pot + additionalChips } else s

/-! ## Betting handlers -/

/-- A value returned by `handleCall` and `handleRaise`: `true`, `false`, or the
number returned by `handleAllIn`. -/
inductive JSVal
  | bool (b : Bool)
  | num (n : Int)
  deriving DecidableEq, Repr

/-- JavaScript truthiness of a returned value (`0` is falsy). -/
def JSVal.truthy : JSVal → Bool
  | .bool b => b
  | .num n => n != 0

/-- The function `handleAllIn(playerIndex, isRaise)`; returns the amount bet. -/
def handleAllIn (s : GameState) (playerIndex : Int) (isRaise : Bool) : Int × GameState :=
  match seatOf playerIndex with
  | none => (0, s)
  | some p =>
    let allInAmount := s.chips p
    if allInAmount ≤ 0 then (0, s)
    else
      let (amountBet, s) := placeBet s playerIndex allInAmount
      if s.currentBets p > s.currentBet then
        let s := if isRaise then
            { s with lastRaiseAmount := s.currentBets p - s.currentBet, lastToAct := playerIndex }
          else s
        let s := { s with currentBet := s.currentBets p }
        (amountBet, s)
      else (amountBet, s)

/-- The function `handleCall(playerIndex)` for a seat index in `0..3` (for any
other index its first statement throws before anything is written). -/
def handleCall (s : GameState) (p : Seat) : JSVal × GameState :=
  if s.folded p then (.bool false, s)
  else
    let toCall := s.currentBet - s.currentBets p
    if toCall ≤ 0 then (.bool true, s)
    else if toCall ≥ s.chips p then
      let (amountBet, s) := handleAllIn s (seatIndex p) false
      (.num amountBet, s)
    else
      let s := (placeBet s (seatIndex p) toCall).2
      (.bool true, updateChipsAndBets s)

/-- The function `handleRaise(playerIndex, raiseAmount)` for a seat index in
`0..3` (for any other index its first statement throws). -/
def handleRaise (s : GameState) (p : Seat) (raiseAmount : Int) : JSVal × GameState :=
  if s.folded p then (.bool false, s)
  else
    let toCall := s.currentBet - s.currentBets p
    let minRaiseAmount := max s.lastRaiseAmount 1
    let totalRequired := toCall + raiseAmount
    if raiseAmount < minRaiseAmount ∧ s.currentBet > 0 then (.bool false, s)
    else if totalRequired ≥ s.chips p then
      let (amountBet, s) := handleAllIn s (seatIndex p) true
      (.num amountBet, s)
    else
      let s := (placeBet s (seatIndex p) totalRequired).2
      let newBet := s.currentBets p
      let actualRaiseAmount := newBet - s.currentBet
      let s := { s with currentBet := newBet }
      let s := { s with lastRaiseAmount := actualRaiseAmount }
      let s := { s with lastToAct := seatIndex p }
      (.bool true, updateChipsAndBets s)

/-- The function `handleBet(playerIndex, amount)` for a seat index in `0..3`
(for any other index its first statement throws). -/
def handleBet (s : GameState) (p : Seat) (amount : Int) : Bool × GameState :=
  if s.folded p then (false, s)
  else if amount > s.chips p then (false, s)
  else
    let s := (placeBet s (seatIndex p) amount).2
    let s := if s.currentBets p > s.currentBet then
        { s with currentBet := s.currentBets p, lastToAct := seatIndex p }
      else s
    (true, updateChipsAndBets s)

/-! ## Turn order and round completion -/

/-- The `do ... while (playerStates[idx].folded)` loop of
`findNextActivePlayer`; `n` bounds the number of iterations (the loop leaves
through the `loopCounter > 4` branch at the fifth iteration at the latest). -/
def findNextLoop (s : GameState) : Nat → Seat → Nat → Int
  | 0, _, _ => -1
  | n + 1, idx, loopCounter =>
    let idx := idx + 1
    let loopCounter := loopCounter + 1
    if loopCounter > 4 then
      match seats.find? (fun i => !s.folded i) with
      | some i => seatIndex i
      | none => -1
    else if s.folded idx then findNextLoop s n idx loopCounter
    else seatIndex idx

/-- The function `findNextActivePlayer(startIndex)`. -/
def findNextActivePlayer (s : GameState) (startIndex : Int) : Int :=
  let startIndex := (Int.tmod startIndex 4 + 4).tmod 4
  let activePlayers := (seats.filter (fun i => !s.folded i)).length
  if activePlayers = 0 then -1
  else findNextLoop s 5 (Fin.ofNat startIndex.toNat) 0

/-- The function `shouldRunOutCards()`. -/
def shouldRunOutCards (s : GameState) : Bool :=
  let activePlayers := seats.filter (fun i => !s.folded i)
  if activePlayers.length ≤ 1 then false
  else
    let allInPlayers := activePlayers.filter (fun i => s.chips i = 0)
    if allInPlayers.length = 0 then false
    else
      let nonAllInCount := activePlayers.length - allInPlayers.length
      let betsMatched := activePlayers.all
        (fun i => if s.chips i = 0 then true else decide (s.currentBets i = s.currentBet))
      nonAllInCount = 0 || (nonAllInCount = 1 && betsMatched)

/-- Read `playerStates[i].folded` for a JavaScript index; `none` when the index
is outside `0..3` (the read throws). -/
def foldedAt (s : GameState) (i : Int) : Option Bool :=
  (seatOf i).map s.folded

/-- Schedule a callback with `setTimeout`. -/
def schedule (s : GameState) (t : Timer) : GameState :=
  { s with timers := s.timers ++ [t] }

/-- The `catch (nextPlayerError)` block of `checkBettingRoundEnd`. -/
def nextPlayerRecovery (s : GameState) (activePlayers : List Seat) (latestActor : Int) :
    GameState :=
  if activePlayers.length > 1 then
    match activePlayers.find?
        (fun i => decide (seatIndex i ≠ latestActor) && !s.playerHasActed i) with
    | some playerIdx =>
      let s := { s with currentPlayer := seatIndex playerIdx }
      if s.currentPlayer = 3 then s else schedule s (.aiTakeTurn false)
    | none =>
      if s.roundStage = 3 then schedule s .showdown else schedule s .nextRound
  else if activePlayers.length = 1 then
    schedule s (.awardPotToPlayer (seatIndex (activePlayers.headD 0)) "uncontested")
  else schedule s .newGame

/-- The body of `checkBettingRoundEnd(latestActor)`; `recurse` stands for the
call `checkBettingRoundEnd(currentPlayer)` made when the next player is found
folded. -/
def checkBettingRoundEndBody (recurse : GameState → Int → GameState) (s : GameState)
    (latestActor : Int) : GameState :=
  let latestActor :=
    if latestActor < 0 ∨ latestActor > 3 then s.currentPlayer else latestActor
  let s := { s with playerHasActed := setAt s.playerHasActed latestActor true }
  let activePlayers := seats.filter (fun i => !s.folded i)
  if activePlayers.length = 1 then
    let s := collectOutstandingBets s
    schedule s (.awardPotToPlayer (seatIndex (activePlayers.headD 0)) "uncontested")
  else
    let allMatched := activePlayers.all
      (fun i => !(decide (s.currentBets i ≠ s.currentBet) && !decide (s.chips i = 0)))
    let allHaveActed := activePlayers.all (fun i => s.playerHasActed i)
    if allMatched && allHaveActed then
      let s := { s with bettingRoundActive := false }
      if shouldRunOutCards s then schedule s .runOutRemainingCards
      else if s.roundStage = 3 then schedule s .showdown
      else schedule s .nextRound
    else
      let s := { s with currentPlayer := findNextActivePlayer s latestActor }
      if s.currentPlayer = -1 then nextPlayerRecovery s activePlayers latestActor
      else
        let s := { s with isStartOfBettingRound := false }
        match foldedAt s s.currentPlayer with
        | none => nextPlayerRecovery s activePlayers latestActor
        | some false =>
          if s.currentPlayer = 3 then s else schedule s (.aiTakeTurn true)
        | some true => recurse s s.currentPlayer

/-- The function `checkBettingRoundEnd(latestActor)`.  The first argument
bounds the depth of the recursive call made when the next player is found
folded. -/
def checkBettingRoundEnd : Nat → GameState → Int → GameState
  | 0, s, latestActor => checkBettingRoundEndBody (fun s _ => s) s latestActor
  | n + 1, s, latestActor => checkBettingRoundEndBody (checkBettingRoundEnd n) s latestActor

/-- The function `handleCheck(playerIndex)`. -/
def handleCheck (s : GameState) (playerIndex : Int) : Bool × GameState :=
  match seatOf playerIndex with
  | none => (false, s)
  | some p =>
    if s.folded p then (false, s)
    else if s.currentBets p < s.currentBet then (false, s)
    else if s.currentPlayer ≠ playerIndex then (false, s)
    else
      let s := { s with playerHasActed := Function.update s.playerHasActed p true }
      let s := if s.isStartOfBettingRound ∧ playerIndex = s.currentPlayer then
          { s with isStartOfBettingRound := false }
        else s
      (true, checkBettingRoundEnd 4 s playerIndex)

/-- The function `handleFold(playerIndex)` up to its `return`; the award of an
uncontested pot is the scheduled callback `awardPotToPlayer(winnerIndex,
"uncontested")`. -/
def handleFold (s : GameState) (playerIndex : Int) : Bool × GameState :=
  match seatOf playerIndex with
  | none => (false, s)
  | some p =>
    if s.folded p then (false, s)
    else
      let s := { s with folded := Function.update s.folded p true }
      let s := { s with playerHasActed := Function.update s.playerHasActed p true }
      let activePlayers := seats.filter (fun i => !s.folded i)
      if activePlayers.length = 1 then
        let winnerIndex := seatIndex (activePlayers.headD 0)
        let s := collectOutstandingBets s
        (true, schedule s (.awardPotToPlayer winnerIndex "uncontested"))
      else
        (true, checkBettingRoundEnd 4 s playerIndex)

/-- The function `awardPotToPlayer(playerIdx, reason)`. -/
def awardPotToPlayer (s : GameState) (playerIdx : Int) (_reason : String) : Bool × GameState :=
  let s := { s with currentAwardTransactionId := s.currentAwardTransactionId + 1 }
  let thisTransactionId := s.currentAwardTransactionId
  match seatOf playerIdx with
  | none => (false, s)
  | some p =>
    if s.potHasBeenAwarded then (false, s)
    else if thisTransactionId ≤ s.lastAwardedPotTransactionId then (false, s)
    else
      let (totalPot, s) := seats.foldl collectSeat (s.pot, s)
      if totalPot ≤ 0 then (false, s)
      else
        let s := { s with potHasBeenAwarded := true }
        let s := { s with lastAwardedPotTransactionId := thisTransactionId }
        let s := { s with chips := Function.update s.chips p (s.chips p + totalPot) }
        let s := { s with pot := 0 }
        let s := updateChipsAndBets s
        let s := { s with bettingRoundActive := false }
        let s := { s with isStartOfBettingRound := false }
        (true, schedule s .newGame)

/-- The state left by a `placeBet` that moves chips. -/
def moved (s : GameState) (p : Seat) (a : Int) : GameState :=
  { s with
    chips := Function.update s.chips p (s.chips p - a)
    currentBets := Function.update s.currentBets p (s.currentBets p + a) }


/-- The ledger fields (`chips`, `currentBets`, `pot`) of `t` are those of `s`. -/
def SameLedger (s t : GameState) : Prop :=
  t.chips = s.chips ∧ t.currentBets = s.currentBets ∧ t.pot = s.pot

/-- The values the script gives its variables at load time (`chips = [100,
100, 100, 100]`, empty deck and hands, no bets). -/
def initialState : GameState where
  deck := []
  players := fun _ => []
  chips := fun _ => 100
  currentBets := fun _ => 0
  pot := 0
  communityCards := []
  currentPlayer := 0
  roundStage := 0
  bettingRoundActive := false
  currentBet := 0
  lastToAct := -1
  lastRaiseAmount := 0
  folded := fun _ => false
  playerHasActed := fun _ => false
  isStartOfBettingRound := true
  potHasBeenAwarded := false
  lastAwardedPotTransactionId := 0
  currentAwardTransactionId := 0
  timers := []

/-- A state in the middle of a betting round: seat 0 has bet 10, seat 1 has
raised to 30, seat 2 has folded, 25 chips are already in the pot and it is
seat 3's turn. -/
def midRoundState : GameState :=
  { initialState with
    chips := fun i => if i = 0 then 80 else if i = 1 then 60 else if i = 2 then 95 else 90
    currentBets := fun i => if i = 0 then 10 else if i = 1 then 30 else 0
    pot := 25
    currentPlayer := 3
    bettingRoundActive := true
    currentBet := 30
    lastToAct := 1
    lastRaiseAmount := 20
    folded := fun i => decide (i = 2)
    playerHasActed := fun i => decide (i ≠ 3)
    isStartOfBettingRound := false }

/-- The award counter has not fallen behind the id of the last award.  Both
variables start at 0 and are written only by `awardPotToPlayer` (which
increments the counter and copies it into `lastAwardedPotTransactionId`), by
`nextRound` (which resets `lastAwardedPotTransactionId` to 0) and by `newGame`
(which resets both to 0), so every state the script reaches satisfies it. -/
def TxnOk (s : GameState) : Prop :=
  s.lastAwardedPotTransactionId ≤ s.currentAwardTransactionId

/-- The sum of the four outstanding bets. -/
def betsSum (s : GameState) : Int :=
  s.currentBets 0 + s.currentBets 1 + s.currentBets 2 + s.currentBets 3

/-- The state `awardPotToPlayer(w, reason)` leaves when it awards. -/
def awarded (s : GameState) (w : Seat) : GameState :=
  { s with
    currentAwardTransactionId := s.currentAwardTransactionId + 1
    potHasBeenAwarded := true
    lastAwardedPotTransactionId := s.currentAwardTransactionId + 1
    currentBets := fun _ => 0
    chips := Function.update s.chips w (s.chips w + (s.pot + betsSum s))
    pot := 0
    bettingRoundActive := false
    isStartOfBettingRound := false
    timers := s.timers ++ [.newGame] }

/-- State `t` differs from `s` at most in the ledger fields `chips`,
`currentBets` and `pot`. -/
def LedgerOnly (s t : GameState) : Prop :=
  ∃ c b p, t = { s with chips := c, currentBets := b, pot := p }

/-- A sequence of calls `awardPotToPlayer(playerIdx, reason)`, one after the
other (nothing else runs in between). -/
def awardCalls (s : GameState) : List (Int × String) → GameState
  | [] => s
  | c :: cs => awardCalls (awardPotToPlayer s c.1 c.2).2 cs

/-! ## Hand evaluation -/

/-- JavaScript `arr.sort((a, b) => b - a)` on numbers. -/
def sortDesc (l : List Int) : List Int :=
  l.insertionSort (fun a b => a ≥ b)

instance : IsTotal Int (fun a b => a ≥ b) := ⟨fun a b => le_total b a⟩

instance : IsTrans Int (fun a b => a ≥ b) := ⟨fun _ _ _ h1 h2 => le_trans h2 h1⟩

instance : IsAntisymm Int (fun a b => a ≥ b) := ⟨fun _ _ h1 h2 => le_antisymm h2 h1⟩

/-- The elements in order of first occurrence: the iteration order of
`new Set(arr)` and the insertion order of the keys of a counting object. -/
def uniqFirst {α : Type} [DecidableEq α] : List α → List α
  | [] => []
  | a :: l => a :: (uniqFirst l).filter (fun b => b ≠ a)

/-- Whether a card value is an integer-like property key (`'2'` .. `'9'`);
`Object.entries` lists such keys first, in ascending numeric order. -/
def isIndexKey : Value → Bool
  | .vT | .vJ | .vQ | .vK | .vA => false
  | _ => true

/-- Key order of `Object.entries(obj)` / `Object.keys(obj)` for an object
whose keys were inserted in the order `inserted`: integer-like keys ascending,
then the other keys in insertion order. -/
def objectKeys (inserted : List Value) : List Value :=
  let ks := uniqFirst inserted
  (ks.filter isIndexKey).insertionSort (fun a b => RANKS a ≤ RANKS b)
    ++ ks.filter (fun k => !isIndexKey k)

/-- JavaScript truthiness of a variable that holds `null` or a number. -/
def truthy : Option Int → Bool
  | none => false
  | some n => n != 0

/-- `while (arr.length < n) arr.push(0)`. -/
def padZeros (arr : List Int) (n : Nat) : List Int :=
  arr ++ List.replicate (n - arr.length) 0

/-- The loop `for (i = 0; i <= u.length - 5; i++) if (u[i] - u[i+4] === 4)
{ high = u[i]; break; }` of `evaluateHand`. -/
def findStraightHigh (u : List Int) : Option Int :=
  (List.range (u.length - 4)).findSome?
    (fun i => if u.getD i 0 - u.getD (i + 4) 0 = 4 then some (u.getD i 0) else none)

/-- The test `u.includes(14) && u.includes(2) && u.includes(3) && u.includes(4)
&& u.includes(5)`. -/
def hasWheel (u : List Int) : Bool :=
  u.contains 14 && u.contains 2 && u.contains 3 && u.contains 4 && u.contains 5

/-- An entry `{ rank, count }` of the array `counts` of `evaluateHand`. -/
structure RankCount where
  rank : Int
  count : Nat
  deriving DecidableEq, Repr

/-- The order produced by `counts.sort((a, b) => b.count !== a.count ?
b.count - a.count : b.rank - a.rank)`: `a` may stand before `b`. -/
def countsOrder (a b : RankCount) : Prop :=
  if b.count ≠ a.count then (b.count : Int) - a.count ≤ 0 else b.rank - a.rank ≤ 0

instance : DecidableRel countsOrder := fun a b => by
  unfold countsOrder
  exact inferInstance

instance : IsTotal RankCount countsOrder := ⟨fun a b => by
  unfold countsOrder
  split <;> split <;> omega⟩

instance : IsTrans RankCount countsOrder := ⟨fun a b c h1 h2 => by
  unfold countsOrder at h1 h2 ⊢
  split at h1 <;> split at h2 <;> split <;> omega⟩

instance : IsAntisymm RankCount countsOrder := ⟨fun a b h1 h2 => by
  unfold countsOrder at h1 h2
  cases a
  cases b
  simp only [RankCount.mk.injEq] at *
  split at h1 <;> split at h2 <;> omega⟩

/-- The array `ranks` returned by `analyzeHand`: the numeric ranks of the
cards, sorted high to low. -/
def analyzeRanks (cards : List Card) : List Int :=
  sortDesc (cards.map (fun c => RANKS c.value))

/-- The array `counts` of `evaluateHand`: the entries of `ranksCount` (built by
`analyzeHand`) as `{ rank, count }`, those with `count > 0`, sorted by count,
then by rank, high to low. -/
def rankCounts (cards : List Card) : List RankCount :=
  let values := cards.map (fun c => c.value)
  (((objectKeys values).map (fun v => RankCount.mk (RANKS v) (values.count v))).filter
    (fun e => e.count > 0)).insertionSort countsOrder

/-- The value `flushSuit` of `evaluateHand`:
`Object.keys(suitsCount).find(s => suitsCount[s] >= 5)`. -/
def flushSuitOf (cards : List Card) : Option Suit :=
  let suits := cards.map (fun c => c.suit)
  (uniqFirst suits).find? (fun s => suits.count s ≥ 5)

/-- The last part of `evaluateHand` ("Evaluate hand value from strongest to
weakest"), as a function of the values computed before it; `flushRanks` is
`flushCards.map(c => RANKS[c[0]])`. -/
def handValue (ranks : List Int) (counts : List RankCount) (isFlush : Bool)
    (flushRanks : List Int) (straightHigh straightFlushHigh : Option Int)
    (isRoyalFlush : Bool) : List Int :=
  match counts with
  | [] => [0, 0]
  | c0 :: rest =>
    if isRoyalFlush then [9, 14]
    else if truthy straightFlushHigh then [8, straightFlushHigh.getD 0]
    else if c0.count = 4 then
      let kickers := ranks.filter (fun r => r ≠ c0.rank)
      let kicker := if kickers.length > 0 then kickers.getD 0 0 else 0
      [7, c0.rank, kicker]
    else if c0.count = 3 ∧ (rest.head?.map (fun c1 => decide (c1.count ≥ 2))).getD false then
      [6, c0.rank, (rest.map (fun c => c.rank)).getD 0 0]
    else if isFlush then
      let flushRanksSorted := (sortDesc flushRanks).take 5
      5 :: padZeros flushRanksSorted 5
    else if truthy straightHigh then [4, straightHigh.getD 0]
    else if c0.count = 3 then
      let kickers := (ranks.filter (fun r => r ≠ c0.rank)).take 2
      [3, c0.rank] ++ padZeros kickers 2
    else if c0.count = 2 ∧ (rest.head?.map (fun c1 => decide (c1.count = 2))).getD false then
      let pairRanks := sortDesc [c0.rank, (rest.map (fun c => c.rank)).getD 0 0]
      let p0 := pairRanks.getD 0 0
      let p1 := pairRanks.getD 1 0
      let kickers := (ranks.filter (fun r => r ≠ p0 ∧ r ≠ p1)).take 1
      let kicker := if kickers.length > 0 then kickers.getD 0 0 else 0
      [2, p0, p1, kicker]
    else if c0.count = 2 then
      let kickers := (ranks.filter (fun r => r ≠ c0.rank)).take 3
      [1, c0.rank] ++ padZeros kickers 3
    else
      let highCardKickers := ranks.take 5
      0 :: padZeros highCardKickers 5

/-- The straight search of `evaluateHand` on a list of distinct ranks sorted
high to low: the regular loop, then the wheel test `if (!high && ...) high =
5`. -/
def straightHighOf (u : List Int) : Option Int :=
  let high := findStraightHigh u
  if !truthy high && hasWheel u then some 5 else high

/-- The function `evaluateHand(cards)`. -/
def evaluateHand (cards : List Card) : List Int :=
  let validCards := cards
  if validCards.length < 5 then [0, 0]
  else
    let ranks := analyzeRanks validCards
    if ranks.length = 0 then [0, 0]
    else
      let flushSuit := flushSuitOf validCards
      let isFlush := flushSuit.isSome
      let flushCards :=
        if isFlush then validCards.filter (fun c => some c.suit = flushSuit) else []
      let uniqueRanks := sortDesc (uniqFirst ranks)
      let straightHigh := straightHighOf uniqueRanks
      let flushRanks := flushCards.map (fun c => RANKS c.value)
      let flushUniqueRanks := uniqFirst (sortDesc flushRanks)
      let inFlush := isFlush && decide (flushCards.length ≥ 5)
      let isRoyalFlush := inFlush && decide (findStraightHigh flushUniqueRanks = some 14)
      let straightFlushHigh := if inFlush then straightHighOf flushUniqueRanks else none
      handValue ranks (rankCounts validCards) isFlush flushRanks straightHigh straightFlushHigh
        isRoyalFlush

/-- The function `compareHands(handA, handB)`: 1, -1 or 0. -/
def compareHands (handA handB : List Int) : Int :=
  if handA.length = 0 ∨ handB.length = 0 then 0
  else
    let maxLength := max handA.length handB.length
    let firstDifference := (List.range maxLength).findSome? (fun i =>
      let valA := handA.getD i 0
      let valB := handB.getD i 0
      if valA > valB then some (1 : Int)
      else if valA < valB then some (-1)
      else none)
    firstDifference.getD 0

/-- The position of a card value in `valueOrder = '23456789TJQKA'`. -/
def valueOrderIndexOf : Value → Int
  | .v2 => 0 | .v3 => 1 | .v4 => 2 | .v5 => 3 | .v6 => 4 | .v7 => 5 | .v8 => 6
  | .v9 => 7 | .vT => 8 | .vJ => 9 | .vQ => 10 | .vK => 11 | .vA => 12

/-- The character `valueOrder[i]`. -/
def valueOrderAt (i : Int) : Option Value :=
  [Value.v2, .v3, .v4, .v5, .v6, .v7, .v8, .v9, .vT, .vJ, .vQ, .vK, .vA].find?
    (fun v => valueOrderIndexOf v = i)

/-- The order produced by the comparator of `valuesByFreq` in `getBestHand`:
`(a, b) => b[1] === a[1] ? valueOrder.indexOf(b[0]) - valueOrder.indexOf(a[0])
: b[1] - a[1]`. -/
def freqOrder (a b : Value × Nat) : Prop :=
  if b.2 = a.2 then valueOrderIndexOf b.1 - valueOrderIndexOf a.1 ≤ 0
  else (b.2 : Int) - a.2 ≤ 0

instance : DecidableRel freqOrder := fun a b => by
  unfold freqOrder
  exact inferInstance

/-- The helper `getStraight(vals)` of `getBestHand`. -/
def getStraight (vals : List Value) : Option (List Value) :=
  if vals.length < 5 then none
  else
    let idxs := sortDesc (vals.map valueOrderIndexOf)
    let regular := (List.range (idxs.length - 4)).findSome? (fun i =>
      let window := (idxs.drop i).take 5
      if idxs.getD i 0 - idxs.getD (i + 4) 0 = 4 ∧ (uniqFirst window).length = 5 then
        some (window.filterMap valueOrderAt)
      else none)
    match regular with
    | some r => some r
    | none =>
      if vals.contains .vA && vals.contains .v2 && vals.contains .v3 && vals.contains .v4
          && vals.contains .v5 then
        some [.v5, .v4, .v3, .v2, .vA]
      else none

/-- The object `{ rank, name, value }` returned by `getBestHand`. -/
structure BestHand where
  rank : Int
  name : String
  value : List Value
  deriving DecidableEq, Repr

/-- The function `getBestHand(cards)`. -/
def getBestHand (cards : List Card) : BestHand :=
  if cards.length < 5 then ⟨0, "Invalid Hand", []⟩
  else
    let validCards := cards
    let cardObjs := validCards
    let valueCount := fun v => (cardObjs.map (fun c => c.value)).count v
    let suitCount := fun s => (cardObjs.map (fun c => c.suit)).count s
    let valuesByFreq := ((objectKeys (cardObjs.map (fun c => c.value))).map
      (fun v => (v, valueCount v))).insertionSort freqOrder
    let sortedValues := (uniqFirst (cardObjs.map (fun c => c.value))).insertionSort
      (fun a b => valueOrderIndexOf b - valueOrderIndexOf a ≤ 0)
    let flushSuit := (uniqFirst (cardObjs.map (fun c => c.suit))).find? (fun s => suitCount s ≥ 5)
    let flushCards := match flushSuit with
      | some fs => (cardObjs.filter (fun c => c.suit = fs)).map (fun c => c.value)
      | none => []
    let flushStraight := if flushCards.length ≥ 5 then getStraight flushCards else none
    match flushStraight with
    | some fs =>
      if fs.get? 0 = some .vA ∧ fs.get? 1 = some .vK then ⟨9, "Royal Flush", fs⟩
      else ⟨8, "Straight Flush", fs⟩
    | none =>
      let f0 := valuesByFreq.get? 0
      let f1 := valuesByFreq.get? 1
      if valuesByFreq.length > 0 ∧ f0.map (fun e => e.2) = some 4 then
        let kickers := (sortedValues.filter (fun v => some v ≠ f0.map (fun e => e.1))).take 1
        ⟨7, "Four of a Kind", (valuesByFreq.take 1).map (fun e => e.1) ++ kickers⟩
      else if valuesByFreq.length > 1 ∧ f0.map (fun e => e.2) = some 3
          ∧ (f1.map (fun e => decide (e.2 ≥ 2))).getD false then
        ⟨6, "Full House", (valuesByFreq.take 2).map (fun e => e.1)⟩
      else if flushCards.length ≥ 5 then ⟨5, "Flush", flushCards.take 5⟩
      else
        match getStraight sortedValues with
        | some straight => ⟨4, "Straight", straight⟩
        | none =>
          if valuesByFreq.length > 0 ∧ f0.map (fun e => e.2) = some 3 then
            let kickers := (sortedValues.filter (fun v => some v ≠ f0.map (fun e => e.1))).take 2
            ⟨3, "Three of a Kind", (valuesByFreq.take 1).map (fun e => e.1) ++ kickers⟩
          else if valuesByFreq.length > 1 ∧ f0.map (fun e => e.2) = some 2
              ∧ f1.map (fun e => e.2) = some 2 then
            let kickers := (sortedValues.filter (fun v =>
              some v ≠ f0.map (fun e => e.1) ∧ some v ≠ f1.map (fun e => e.1))).take 1
            ⟨2, "Two Pair", (valuesByFreq.take 2).map (fun e => e.1) ++ kickers⟩
          else if valuesByFreq.length > 0 ∧ f0.map (fun e => e.2) = some 2 then
            let kickers := (sortedValues.filter (fun v => some v ≠ f0.map (fun e => e.1))).take 3
            ⟨1, "One Pair", (valuesByFreq.take 1).map (fun e => e.1) ++ kickers⟩
          else ⟨0, "High Card", sortedValues.take 5⟩

/-- The array `score = [bestHand.rank, ...bestHand.value.map(v => RANKS[v] || 0)]`
that `showdown` builds from `getBestHand(fullHand)`. -/
def showdownScore (fullHand : List Card) : List Int :=
  let bestHand := getBestHand fullHand
  bestHand.rank :: bestHand.value.map RANKS

/-! ## Showdown -/

/-- An entry `{ player, score, handName }` of `playerScores` in `showdown`. -/
structure PlayerScore where
  player : Seat
  score : List Int
  handName : String
  deriving DecidableEq, Repr

/-- The loop of `showdown` that evaluates every non-folded seat: seats with
fewer than two hole cards or fewer than five cards in all are skipped. -/
def showdownScores (s : GameState) : List PlayerScore :=
  (seats.filter (fun i => !s.folded i)).filterMap (fun i =>
    if (s.players i).length < 2 then none
    else
      let fullHand := s.players i ++ s.communityCards
      if fullHand.length < 5 then none
      else
        let bestHand := getBestHand fullHand
        some ⟨i, bestHand.rank :: bestHand.value.map RANKS, bestHand.name⟩)

/-- The order produced by `playerScores.sort((a, b) => compareHands(b.score,
a.score))`: `a` may stand before `b`. -/
def scoreOrder (a b : PlayerScore) : Prop :=
  compareHands b.score a.score ≤ 0

instance : DecidableRel scoreOrder := fun a b => by
  unfold scoreOrder
  exact inferInstance

/-- The sorted array `playerScores` of `showdown` (JavaScript's sort is
stable). -/
def rankedScores (s : GameState) : List PlayerScore :=
  (showdownScores s).insertionSort scoreOrder

/-- The array `winners` of `showdown`: the players of the sorted
`playerScores` whose score ties `playerScores[0].score`. -/
def showdownWinners (s : GameState) : List Seat :=
  match rankedScores s with
  | [] => []
  | best :: rest =>
    ((best :: rest).filter (fun p => compareHands p.score best.score = 0)).map
      (fun p => p.player)

/-- The function `showdown()` up to its return: bank the bets, then schedule
the award. -/
def showdown (s : GameState) : GameState :=
  let s := bankBets s
  let s := updateChipsAndBets s
  if s.potHasBeenAwarded then s
  else
    let activePlayers := seats.filter (fun i => !s.folded i)
    if activePlayers.length = 0 then schedule s .newGame
    else if activePlayers.length = 1 then
      schedule s (.awardPotToPlayer (seatIndex (activePlayers.headD 0)) "uncontested")
    else if (showdownScores s).length = 0 then schedule s .newGame
    else
      let winners := showdownWinners s
      let winningHand := (((rankedScores s).find? (fun p => some p.player = winners.head?)).map
        (fun p => p.handName)).getD "winning hand"
      schedule s (.showdownAward winners winningHand)

/-- The loop `winners.forEach((winner, index) => { chips[winner] += splitAmount
+ (index === 0 ? remainder : 0); })`, from position `index` on. -/
def creditWinners (splitAmount remainder : Int) : List Seat → Nat → (Seat → Int) → (Seat → Int)
  | [], _, chips => chips
  | winner :: rest, index, chips =>
    let extraAmount := if index = 0 then remainder else 0
    creditWinners splitAmount remainder rest (index + 1)
      (Function.update chips winner (chips winner + (splitAmount + extraAmount)))

/-- The callback that `showdown` schedules to award the pot, run on the state
of that moment: one winner is paid through `awardPotToPlayer` (scheduled in
turn), several winners split `pot`. -/
def showdownAward (s : GameState) (winners : List Seat) (winningHand : String) : GameState :=
  if winners.length = 1 then
    schedule s (.awardPotToPlayer (seatIndex (winners.headD 0)) ("with " ++ winningHand))
  else if winners.length > 1 then
    let splitAmount := s.pot / (winners.length : Int)
    let remainder := s.pot - splitAmount * (winners.length : Int)
    let s := { s with pot := 0 }
    let s := { s with chips := creditWinners splitAmount remainder winners 0 s.chips }
    let s := { s with potHasBeenAwarded := true }
    let s := updateChipsAndBets s
    schedule s .newGame
  else s

/-- Entry `i` of a score array padded with trailing zeros. -/
def entry (a : List Int) (i : Nat) : Int := a.getD i 0

/-- The loop of `compareHands` over the first `n` positions of two padded
arrays given by their entries. -/
def firstDifference (f g : Nat → Int) (n : Nat) : Option Int :=
  (List.range n).findSome? (fun i =>
    if f i > g i then some (1 : Int) else if f i < g i then some (-1) else none)

/-! ## Concrete hands and states used to evaluate the model -/

/-- Spade flush `A K Q J 9`, highest card first. -/
def flushHighFirst : List Card :=
  [⟨.vA, .spades⟩, ⟨.vK, .spades⟩, ⟨.vQ, .spades⟩, ⟨.vJ, .spades⟩, ⟨.v9, .spades⟩]

/-- The same five cards, lowest card first. -/
def flushLowFirst : List Card :=
  [⟨.v9, .spades⟩, ⟨.vJ, .spades⟩, ⟨.vQ, .spades⟩, ⟨.vK, .spades⟩, ⟨.vA, .spades⟩]

/-- Hole cards of the showdown example: seat 0 holds `2♠ A♠`, seat 1 holds
`3♠ K♠`, seat 2 holds `2♥ 7♣`, seat 3 holds `4♣ 8♦`. -/
def exampleHoleCards : Seat → List Card := fun i =>
  if i = 0 then [⟨.v2, .spades⟩, ⟨.vA, .spades⟩]
  else if i = 1 then [⟨.v3, .spades⟩, ⟨.vK, .spades⟩]
  else if i = 2 then [⟨.v2, .hearts⟩, ⟨.v7, .clubs⟩]
  else [⟨.v4, .clubs⟩, ⟨.v8, .diamonds⟩]

/-- Board of the showdown example: `5♠ 7♠ 9♠ J♦ Q♦`. -/
def exampleBoard : List Card :=
  [⟨.v5, .spades⟩, ⟨.v7, .spades⟩, ⟨.v9, .spades⟩, ⟨.vJ, .diamonds⟩, ⟨.vQ, .diamonds⟩]

/-- A river showdown between seat 0 (ace-high spade flush) and seat 1
(king-high spade flush); seats 2 and 3 have folded; 60 chips are in the pot. -/
def flushShowdownState : GameState :=
  { initialState with
    players := exampleHoleCards
    communityCards := exampleBoard
    chips := fun i => if i = 0 then 70 else if i = 1 then 70 else 100
    pot := 60
    roundStage := 3
    folded := fun i => decide (i = 2 ∨ i = 3) }

/-- Hole cards of the side-pot example: seat 0 holds `Q♣ Q♥` (three queens
with the board), seat 1 holds `2♥ 7♣` (pair of sevens), seat 2 holds `J♣ 4♦`
(pair of jacks), seat 3 holds `4♣ 8♦` (queen high). -/
def sidePotHoleCards : Seat → List Card := fun i =>
  if i = 0 then [⟨.vQ, .clubs⟩, ⟨.vQ, .hearts⟩]
  else if i = 1 then [⟨.v2, .hearts⟩, ⟨.v7, .clubs⟩]
  else if i = 2 then [⟨.vJ, .clubs⟩, ⟨.v4, .diamonds⟩]
  else [⟨.v4, .clubs⟩, ⟨.v8, .diamonds⟩]

/-- Start of a betting round on the river in which seats 0 and 1 hold 10 chips
and seats 2 and 3 hold 100, nothing is in the pot yet, and seat 0 holds the
best hand. -/
def shortStackState : GameState :=
  { initialState with
    players := sidePotHoleCards
    communityCards := exampleBoard
    chips := fun i => if i = 0 then 10 else if i = 1 then 10 else 100
    roundStage := 3
    bettingRoundActive := true }

/-- The betting of the side-pot example: seat 0 bets its 10 chips, seat 1
calls all-in for 10, seat 2 raises by 40 to 50, seat 3 calls 50; the seats
have then contributed `[10, 10, 50, 50]`. -/
def shortStackBetting : GameState :=
  let s := (handleBet shortStackState 0 10).2
  let s := (handleCall s 1).2
  let s := (handleRaise s 2 40).2
  (handleCall s 3).2

/-- The showdown of the side-pot example: `showdown()`, then the award
callback it schedules (with the winners it computed), then the
`awardPotToPlayer` call which that callback schedules for the single winner. -/
def shortStackShowdown : GameState :=
  let s := showdown shortStackBetting
  let winners := showdownWinners s
  let s := showdownAward s winners "Three of a Kind"
  (awardPotToPlayer s (seatIndex (winners.headD 0)) "with Three of a Kind").2

/-- The most a seat that contributed `contrib w` could win under side-pot
rules: `Σ_s min(contrib w, contrib s)`. -/
def sidePotCap (contrib : Seat → Int) (w : Seat) : Int :=
  min (contrib w) (contrib 0) + min (contrib w) (contrib 1) + min (contrib w) (contrib 2)
    + min (contrib w) (contrib 3)

/-- The sum of the four stacks. -/
def chipsSum (chips : Seat → Int) : Int :=
  chips 0 + chips 1 + chips 2 + chips 3

/-- A river showdown in which the board `T♠ J♦ Q♣ K♥ A♠` is the best hand of
every seat: seats 0, 2 and 3 are in (seat 1 has folded) and 100 chips are in
the pot. -/
def tieShowdownState : GameState :=
  { initialState with
    players := fun i =>
      if i = 0 then [⟨.v2, .clubs⟩, ⟨.v3, .diamonds⟩]
      else if i = 1 then [⟨.v9, .clubs⟩, ⟨.v9, .diamonds⟩]
      else if i = 2 then [⟨.v4, .clubs⟩, ⟨.v5, .diamonds⟩]
      else [⟨.v6, .hearts⟩, ⟨.v7, .hearts⟩]
    communityCards :=
      [⟨.vT, .spades⟩, ⟨.vJ, .diamonds⟩, ⟨.vQ, .clubs⟩, ⟨.vK, .hearts⟩, ⟨.vA, .spades⟩]
    chips := fun i => if i = 1 then 90 else 70
    pot := 100
    roundStage := 3
    folded := fun i => decide (i = 1) }

/-! ## Standard description of five-card hands -/

/-- The numeric ranks of the cards, in the order of the cards. -/
def ranksOf (cards : List Card) : List Int :=
  cards.map (fun c => RANKS c.value)

/-- All cards are of one suit. -/
def SameSuit (cards : List Card) : Prop :=
  ∀ c, c ∈ cards → ∀ d, d ∈ cards → c.suit = d.suit

/-- The ranks of the cards are, in some order, the ranks listed. -/
def HasRanks (cards : List Card) (ranks : List Int) : Prop :=
  (ranksOf cards).Perm ranks

/-- The five cards are of consecutive ranks with high card `high`; the ace
counts low in `A 2 3 4 5`, whose high card is 5. -/
def Consecutive (cards : List Card) (high : Int) : Prop :=
  HasRanks cards [high, high - 1, high - 2, high - 3, high - 4]
    ∨ (high = 5 ∧ HasRanks cards [5, 4, 3, 2, 14])

/-- The array `counts` as a function of the sorted ranks: one entry per
distinct rank with its multiplicity, sorted by count, then rank, high to
low. -/
def countsCanon (ranks : List Int) : List RankCount :=
  ((uniqFirst ranks).map (fun r => RankCount.mk r (ranks.count r))).insertionSort countsOrder

instance (cards : List Card) : Decidable (SameSuit cards) := by
  unfold SameSuit
  exact inferInstance

instance (cards : List Card) (ranks : List Int) : Decidable (HasRanks cards ranks) := by
  unfold HasRanks
  exact inferInstance

instance (cards : List Card) (high : Int) : Decidable (Consecutive cards high) := by
  unfold Consecutive
  exact inferInstance

/-- The hand `AS KS QS JS TS`. -/
def royalFlushHand : List Card :=
  [⟨.vA, .spades⟩, ⟨.vK, .spades⟩, ⟨.vQ, .spades⟩, ⟨.vJ, .spades⟩, ⟨.vT, .spades⟩]

/-- The hand `2H 2D 2C 3S 3H`. -/
def fullHouseHand : List Card :=
  [⟨.v2, .hearts⟩, ⟨.v2, .diamonds⟩, ⟨.v2, .clubs⟩, ⟨.v3, .spades⟩, ⟨.v3, .hearts⟩]

/-- The hand `AS KS QH JD 9C`. -/
def highCardHand : List Card :=
  [⟨.vA, .spades⟩, ⟨.vK, .spades⟩, ⟨.vQ, .hearts⟩, ⟨.vJ, .diamonds⟩, ⟨.v9, .clubs⟩]

/-- The hand `AS 2H 3D 4C 5S`. -/
def wheelHand : List Card :=
  [⟨.vA, .spades⟩, ⟨.v2, .hearts⟩, ⟨.v3, .diamonds⟩, ⟨.v4, .clubs⟩, ⟨.v5, .spades⟩]

/-! ## Comparison of padded score arrays, position by position -/

/-- Lexicographic comparison of two arrays read as padded with trailing zeros:
the result of the loop of `compareHands`. -/
def comparePadded : List Int → List Int → Int
  | [], [] => 0
  | x :: a, [] => if x > 0 then 1 else if x < 0 then -1 else comparePadded a []
  | [], y :: b => if 0 > y then 1 else if 0 < y then -1 else comparePadded [] b
  | x :: a, y :: b => if x > y then 1 else if x < y then -1 else comparePadded a b

/-! ## Straights among a list of ranks -/

/-- The ranks `high, high - 1, ..., high - 4` all occur in `u`, or `high` is 5
and ace, 5, 4, 3, 2 occur. -/
def IsStraight (u : List Int) (high : Int) : Prop :=
  (high ∈ u ∧ high - 1 ∈ u ∧ high - 2 ∈ u ∧ high - 3 ∈ u ∧ high - 4 ∈ u)
    ∨ (high = 5 ∧ 14 ∈ u ∧ 5 ∈ u ∧ 4 ∈ u ∧ 3 ∈ u ∧ 2 ∈ u)

/-- The seven cards `2H 2D 2C 3S 3H KS 9D`. -/
def sevenCardHand : List Card :=
  [⟨.v2, .hearts⟩, ⟨.v2, .diamonds⟩, ⟨.v2, .clubs⟩, ⟨.v3, .spades⟩, ⟨.v3, .hearts⟩,
    ⟨.vK, .spades⟩, ⟨.v9, .diamonds⟩]

/-! ## Turn order and round completion, stated directly -/

/-- The seat `i mod 4` for an integer `i`. -/
def seatMod (i : Int) : Seat := Fin.ofNat (i % 4).toNat

/-- The first non-folded seat among `start + 1`, `start + 2`, `start + 3`,
`start + 4` (mod 4), or `-1` when these four seats are all folded. -/
def firstNonFoldedAfter (s : GameState) (start : Int) : Int :=
  match ([1, 2, 3, 4].map (fun k => seatMod (start + k))).find? (fun i => !s.folded i) with
  | some i => seatIndex i
  | none => -1

/-- The seats that have not folded, in seat order. -/
def nonFolded (s : GameState) : List Seat := seats.filter (fun i => !s.folded i)

/-- Fold flags given seat by seat. -/
def flags (b0 b1 b2 b3 : Bool) : Seat → Bool :=
  fun i => if i = 0 then b0 else if i = 1 then b1 else if i = 2 then b2 else b3

/-- The state at load time with the fold flags replaced. -/
def foldState (f : Seat → Bool) : GameState := { initialState with folded := f }

/-- The test `allMatched && allHaveActed` of `checkBettingRoundEnd`: every
non-folded seat has matched the current bet or has no chips left, and every
non-folded seat has acted. -/
def roundComplete (s : GameState) : Bool :=
  (nonFolded s).all
      (fun i => !(decide (s.currentBets i ≠ s.currentBet) && !decide (s.chips i = 0)))
    && (nonFolded s).all (fun i => s.playerHasActed i)

/-- The statements of `checkBettingRoundEnd(latestActor)` that can be reached:
the three `catch` blocks, the branch for `currentPlayer === -1` and the branch
for a folded next player are left out. -/
def checkBettingRoundEndReached (s : GameState) (latestActor : Int) : GameState :=
  let latestActor :=
    if latestActor < 0 ∨ latestActor > 3 then s.currentPlayer else latestActor
  let s := { s with playerHasActed := setAt s.playerHasActed latestActor true }
  if (nonFolded s).length = 1 then
    let s := collectOutstandingBets s
    schedule s (.awardPotToPlayer (seatIndex ((nonFolded s).headD 0)) "uncontested")
  else if roundComplete s then
    let s := { s with bettingRoundActive := false }
    if shouldRunOutCards s then schedule s .runOutRemainingCards
    else if s.roundStage = 3 then schedule s .showdown
    else schedule s .nextRound
  else
    let s := { s with currentPlayer := findNextActivePlayer s latestActor }
    let s := { s with isStartOfBettingRound := false }
    if s.currentPlayer = 3 then s else schedule s (.aiTakeTurn true)

/-! ## The betting actions as their callers run them -/

/-- What every caller of `handleBet` does (`executeAIAction`, `aiTakeTurn`,
`playerAction`): `if (handleBet(p, a)) { lastRaiseAmount = a; lastToAct = p;
checkBettingRoundEnd(p); }`.  The flag tells whether `handleBet` accepted. -/
def betAction (s : GameState) (p : Seat) (amount : Int) : Bool × GameState :=
  let (ok, s) := handleBet s p amount
  if ok then
    let s := { s with lastRaiseAmount := amount }
    let s := { s with lastToAct := seatIndex p }
    (true, checkBettingRoundEnd 4 s (seatIndex p))
  else (false, s)

/-- What every caller of `handleCall` does: `if (handleCall(p))
checkBettingRoundEnd(p);`. -/
def callAction (s : GameState) (p : Seat) : Bool × GameState :=
  let (ok, s) := handleCall s p
  if ok.truthy then (true, checkBettingRoundEnd 4 s (seatIndex p)) else (false, s)

/-- What every caller of `handleRaise` does: `if (handleRaise(p, r))
checkBettingRoundEnd(p);`. -/
def raiseAction (s : GameState) (p : Seat) (raiseAmount : Int) : Bool × GameState :=
  let (ok, s) := handleRaise s p raiseAmount
  if ok.truthy then (true, checkBettingRoundEnd 4 s (seatIndex p)) else (false, s)

/-- The condition under which `checkBettingRoundEnd` ends the round, stated
seat by seat for the state in which the latest actor is already marked: every
non-folded seat has matched the current bet or has no chips, and every
non-folded seat has acted. -/
def RoundOver (s : GameState) : Prop :=
  (∀ i, s.folded i = false → s.currentBets i = s.currentBet ∨ s.chips i = 0)
    ∧ (∀ i, s.folded i = false → s.playerHasActed i = true)

/-- A street opens heads-up between seats `a` and `b`: they are the two seats
not folded, no bet has been made, neither has acted, it is `a`'s turn. -/
def HeadsUpStart (s : GameState) (a b : Seat) : Prop :=
  a ≠ b ∧ (∀ i, s.folded i = false ↔ i = a ∨ i = b)
    ∧ s.currentBet = 0 ∧ (∀ i, s.currentBets i = 0)
    ∧ s.playerHasActed a = false ∧ s.playerHasActed b = false
    ∧ s.currentPlayer = seatIndex a ∧ s.bettingRoundActive = true
    ∧ NonNeg s

/-- Seats 0 and 1 open a street heads-up with 100 and 300 chips; seats 2 and 3
have folded and 40 chips are in the pot. -/
def headsUpState : GameState :=
  { initialState with
    chips := fun i => if i = 0 then 100 else if i = 1 then 300 else 80
    pot := 40
    currentPlayer := 0
    roundStage := 1
    bettingRoundActive := true
    folded := fun i => decide (i = 2 ∨ i = 3)
    isStartOfBettingRound := true }

/-- State `t` differs from `s` at most in `currentBets` and `pot`. -/
def BetsOnly (s t : GameState) : Prop :=
  ∃ b p, t = { s with currentBets := b, pot := p }

/-- The variables that `checkBettingRoundEnd` never writes are the same in `t`
as in `s`, and every seat marked as having acted in `s` is still marked in
`t`. -/
def KeepsTable (s t : GameState) : Prop :=
  t.deck = s.deck ∧ t.players = s.players ∧ t.chips = s.chips
    ∧ t.communityCards = s.communityCards ∧ t.roundStage = s.roundStage
    ∧ t.currentBet = s.currentBet ∧ t.lastToAct = s.lastToAct
    ∧ t.lastRaiseAmount = s.lastRaiseAmount ∧ t.folded = s.folded
    ∧ t.potHasBeenAwarded = s.potHasBeenAwarded
    ∧ t.lastAwardedPotTransactionId = s.lastAwardedPotTransactionId
    ∧ t.currentAwardTransactionId = s.currentAwardTransactionId
    ∧ (∀ i, s.playerHasActed i = true → t.playerHasActed i = true)

/-- Heads-up after seat 0 has bet 25: it is seat 1's turn. -/
def headsUpBetState : GameState :=
  { headsUpState with
    chips := fun i => if i = 0 then 75 else if i = 1 then 300 else 80
    currentBets := fun i => if i = 0 then 25 else 0
    currentPlayer := 1
    currentBet := 25
    lastToAct := 0
    lastRaiseAmount := 25
    playerHasActed := fun i => decide (i = 0)
    isStartOfBettingRound := false }

/-! ## Sequences of handler calls -/

/-- One call of a betting handler: `handleBet(p, amount)`, `handleCall(p)`,
`handleRaise(p, raiseAmount)`, `handleAllIn(playerIndex, isRaise)`,
`handleCheck(playerIndex)` or `handleFold(playerIndex)`. -/
inductive Action
  | bet (p : Seat) (amount : Int)
  | call (p : Seat)
  | raise (p : Seat) (raiseAmount : Int)
  | allIn (playerIndex : Int) (isRaise : Bool)
  | check (playerIndex : Int)
  | fold (playerIndex : Int)
  deriving DecidableEq, Repr

/-- The state after one handler call. -/
def applyAction (s : GameState) : Action → GameState
  | .bet p amount => (handleBet s p amount).2
  | .call p => (handleCall s p).2
  | .raise p raiseAmount => (handleRaise s p raiseAmount).2
  | .allIn playerIndex isRaise => (handleAllIn s playerIndex isRaise).2
  | .check playerIndex => (handleCheck s playerIndex).2
  | .fold playerIndex => (handleFold s playerIndex).2

/-- The state after a sequence of handler calls, made in list order. -/
def runActions (s : GameState) (acts : List Action) : GameState :=
  acts.foldl applyAction s

/-- State `t` is `s` after seat `p` put `a` more chips in front of it, the bet
to match raised to the seat's bet if that is higher. -/
def MoveTo (s t : GameState) (p : Seat) (a : Int) : Prop :=
  t.chips = (moved s p a).chips ∧ t.currentBets = (moved s p a).currentBets ∧ t.pot = s.pot
    ∧ t.currentBet = max s.currentBet (s.currentBets p + a)

/-- The amounts are non-negative and `currentBet` is the largest entry of
`currentBets`, folded seats included. -/
def BetInv (s : GameState) : Prop :=
  NonNeg s ∧ (∀ i, s.currentBets i ≤ s.currentBet) ∧ ∃ i, s.currentBets i = s.currentBet

/-! ## Betting-round reset, street dealing and run-out -/

/-- One iteration of the loop `currentBets[i] = 0; playerHasActed[i] = false`
of `forceResetBettingState`. -/
def resetSeat (s : GameState) (i : Seat) : GameState :=
  let s := { s with currentBets := Function.update s.currentBets i 0 }
  { s with playerHasActed := Function.update s.playerHasActed i false }

/-- The function `forceResetBettingState()`.  The sum `totalBetsToTransfer` of
the outstanding bets is only logged: the line `pot += totalBetsToTransfer` is
commented out in the script. -/
def forceResetBettingState (s : GameState) : GameState :=
  let s := { s with currentBet := 0 }
  let s := { s with lastRaiseAmount := 0 }
  let s := { s with lastToAct := -1 }
  let s := seats.foldl resetSeat s
  let s := { s with isStartOfBettingRound := true }
  let s := if !s.bettingRoundActive then { s with bettingRoundActive := true } else s
  updateChipsAndBets s

/-- One iteration of the loop `playerHasActed[i] = false` of
`startBettingRound`. -/
def clearActed (s : GameState) (i : Seat) : GameState :=
  { s with playerHasActed := Function.update s.playerHasActed i false }

/-- The function `startBettingRound()`. -/
def startBettingRound (s : GameState) : GameState :=
  let s := { s with isStartOfBettingRound := true }
  let s := { s with bettingRoundActive := true }
  let s := forceResetBettingState s
  let s := seats.foldl clearActed s
  let activePlayers := (seats.filter (fun i => !s.folded i)).length
  if activePlayers < 2 ∧ activePlayers = 1 then schedule s .showdown
  else
    let s := { s with currentPlayer := findNextActivePlayer s (-1) }
    if s.currentPlayer = -1 then schedule s .newGame
    else if s.currentPlayer = 3 ∧ s.folded 3 = false then s
    else schedule s (.aiTakeTurn true)

/-- The function `runOutRemainingCards()` up to its return: it banks the bets,
closes the betting round, schedules the callbacks that deal the missing
streets, sets `roundStage = 3` at once and schedules `showdown`. -/
def runOutRemainingCards (s : GameState) : GameState :=
  let s := bankBets s
  let s := { s with bettingRoundActive := false }
  let cardsToAdd : Nat :=
    if s.roundStage = 0 then 5
    else if s.roundStage = 1 then 2
    else if s.roundStage = 2 then 1
    else 0
  if cardsToAdd > 0 then
    let roundStage := s.roundStage
    let s := if roundStage = 0 then schedule s .runOutFlop else s
    let s := if roundStage ≤ 1 then schedule s .runOutTurn else s
    let s := if roundStage ≤ 2 then schedule s .runOutRiver else s
    let s := { s with roundStage := 3 }
    schedule s .showdown
  else schedule s .showdown

/-- The call `deck.pop()`: the last card of the deck and the cards before it;
`none` on an empty deck, where the script gets `undefined`, which is not a
card. -/
def popCard (deck : List Card) : Option (Card × List Card) :=
  deck.getLast?.map (fun c => (c, deck.dropLast))

/-- The statement `communityCards.push(deck.pop(), ...)` with `n` pops. -/
def dealCommunity : Nat → GameState → Option GameState
  | 0, s => some s
  | n + 1, s =>
    match popCard s.deck with
    | none => none
    | some (c, rest) =>
      dealCommunity n { s with deck := rest, communityCards := s.communityCards ++ [c] }

/-- The end of `nextRound()`, after a street has been dealt: the run-out test,
then `startBettingRound()`. -/
def afterDeal (s : GameState) : GameState :=
  if shouldRunOutCards s then runOutRemainingCards s
  else startBettingRound s

/-- The function `nextRound()`; `none` when the deck has too few cards for the
street. -/
def nextRound (s : GameState) : Option GameState :=
  let s := bankBets s
  let s := { s with isStartOfBettingRound := true }
  let s := { s with potHasBeenAwarded := false }
  let s := { s with lastAwardedPotTransactionId := 0 }
  if s.roundStage = 0 then
    (dealCommunity 3 s).map (fun s => afterDeal { s with roundStage := 1 })
  else if s.roundStage = 1 then
    (dealCommunity 1 s).map (fun s => afterDeal { s with roundStage := 2 })
  else if s.roundStage = 2 then
    (dealCommunity 1 s).map (fun s => afterDeal { s with roundStage := 3 })
  else some (schedule s .showdown)

/-! ## The entry points of the actors -/

/-- The variable `decision` of `aiTakeTurn` and the argument `decision` of
`executeAIAction`, one of `'check'`, `'bet'`, `'call'`, `'raise'`, `'fold'`
(`executeAIAction` refuses any other value before the callback is
scheduled). -/
inductive AIDecision
  | check
  | bet
  | call
  | raise
  | fold
  deriving DecidableEq, Repr

/-- The block `if (handleCall(aiIndex)) { checkBettingRoundEnd(aiIndex); }
else { handleFold(aiIndex); }`, which stands in the callback of `aiTakeTurn`
and in that of `executeAIAction`. -/
def callOrFold (s : GameState) (aiIndex : Seat) : GameState :=
  let (ok, s) := handleCall s aiIndex
  if ok.truthy then checkBettingRoundEnd 4 s (seatIndex aiIndex)
  else (handleFold s (seatIndex aiIndex)).2

/-- The block `if (handleBet(aiIndex, betAmount)) { lastRaiseAmount =
betAmount; lastToAct = aiIndex; checkBettingRoundEnd(aiIndex); } else {
checkBettingRoundEnd(aiIndex); }`, which stands in the callback of
`aiTakeTurn` and in that of `executeAIAction`. -/
def betOrCheck (s : GameState) (aiIndex : Seat) (betAmount : Int) : GameState :=
  let (ok, s) := handleBet s aiIndex betAmount
  if ok then
    let s := { s with lastRaiseAmount := betAmount }
    let s := { s with lastToAct := seatIndex aiIndex }
    checkBettingRoundEnd 4 s (seatIndex aiIndex)
  else checkBettingRoundEnd 4 s (seatIndex aiIndex)

/-- The block `if (handleRaise(aiIndex, betAmount)) {
checkBettingRoundEnd(aiIndex); } else { <call or fold> }`, which stands in
the callback of `aiTakeTurn` and in that of `executeAIAction`. -/
def raiseOrCall (s : GameState) (aiIndex : Seat) (betAmount : Int) : GameState :=
  let (ok, s) := handleRaise s aiIndex betAmount
  if ok.truthy then checkBettingRoundEnd 4 s (seatIndex aiIndex)
  else callOrFold s aiIndex

/-- The callback that `executeAIAction(aiIndex, decision, betAmount, delay)`
passes to `setTimeout`, run on the state of that moment.  The script holds no
call of `executeAIAction`: the opponents act through `aiTakeTurn`. -/
def executeAIActionCallback (s : GameState) (aiIndex : Seat) (decision : AIDecision)
    (betAmount : Int) : GameState :=
  if s.bettingRoundActive = false ∨ s.currentPlayer ≠ seatIndex aiIndex
      ∨ s.folded aiIndex = true then s
  else
    match decision with
    | .check => checkBettingRoundEnd 4 s (seatIndex aiIndex)
    | .bet =>
      if s.currentBet > 0 then raiseOrCall s aiIndex betAmount
      else betOrCheck s aiIndex betAmount
    | .call => callOrFold s aiIndex
    | .raise =>
      if s.currentBet = 0 then betOrCheck s aiIndex betAmount
      else raiseOrCall s aiIndex betAmount
    | .fold => (handleFold s (seatIndex aiIndex)).2

/-- The start of `aiTakeTurn(aiIndex)`: `playerHasActed[aiIndex] = true`, then
the early exit `if (playerStates[aiIndex].folded || playerStates.filter(p =>
!p.folded).length <= 1) return;`, the only one of the function.  The flag
tells whether `aiTakeTurn` goes on to choose a decision and to schedule its
callback. -/
def aiTakeTurnStart (s : GameState) (aiIndex : Seat) : Bool × GameState :=
  let s := { s with playerHasActed := Function.update s.playerHasActed aiIndex true }
  if s.folded aiIndex = true ∨ (seats.filter (fun i => !s.folded i)).length ≤ 1 then (false, s)
  else (true, s)

/-- The callback that `aiTakeTurn(aiIndex)` passes to `setTimeout` ("Actually
execute the decision after the thinking time"), run on the state of that
moment with the `decision` and `betAmount` that `aiTakeTurn` chose.  It tests
neither `bettingRoundActive` nor `currentPlayer` nor `potHasBeenAwarded`. -/
def aiTakeTurnCallback (s : GameState) (aiIndex : Seat) (decision : AIDecision)
    (betAmount : Int) : GameState :=
  match decision with
  | .check => checkBettingRoundEnd 4 s (seatIndex aiIndex)
  | .bet => betOrCheck s aiIndex betAmount
  | .call => callOrFold s aiIndex
  | .raise => raiseOrCall s aiIndex betAmount
  | .fold => (handleFold s (seatIndex aiIndex)).2

/-- The argument `action` of `playerAction`, one of `'bet-slider'`, `'call'`,
`'fold'`, `'check'` (any other value is refused at once). -/
inductive PlayerActionKind
  | betSlider
  | call
  | fold
  | check
  deriving DecidableEq, Repr

/-- The helper `handlePlayerCheck()` of `playerAction`.  The helpers are nested
in `playerAction` and run only after its test `currentPlayer !== 3`, so in them
`currentPlayer` is seat 3, the human player. -/
def handlePlayerCheck (s : GameState) : Bool × GameState :=
  if s.isStartOfBettingRound then
    let s := { s with currentBet := 0 }
    let s := { s with isStartOfBettingRound := false }
    (true, checkBettingRoundEnd 4 s 3)
  else if s.currentBets 3 < s.currentBet then (false, s)
  else (true, checkBettingRoundEnd 4 s 3)

/-- The helper `handlePlayerCall()` of `playerAction`. -/
def handlePlayerCall (s : GameState) : Bool × GameState :=
  let toCall := s.currentBet - s.currentBets 3
  if toCall ≤ 0 then handlePlayerCheck s
  else
    let (ok, s) := handleCall s 3
    if ok.truthy then
      let s := if s.isStartOfBettingRound then { s with isStartOfBettingRound := false } else s
      (true, checkBettingRoundEnd 4 s 3)
    else (false, s)

/-- The helper `handlePlayerFold()` of `playerAction`. -/
def handlePlayerFold (s : GameState) : Bool × GameState :=
  (true, (handleFold s 3).2)

/-- The helper `handlePlayerBetSlider()` of `playerAction`; `slider` is
`parseInt(slider.value, 10)`, `none` when the slider is missing or its value
is not a number. -/
def handlePlayerBetSlider (s : GameState) (slider : Option Int) : Bool × GameState :=
  match slider with
  | none => (false, s)
  | some betAmount =>
    if betAmount ≤ 0 then (false, s)
    else if s.currentBet > 0 then
      let minRaiseAmount := max s.lastRaiseAmount 1
      let toCall := s.currentBet - s.currentBets 3
      if betAmount < minRaiseAmount then (false, s)
      else if toCall + betAmount > s.chips 3 then (false, s)
      else
        let (ok, s) := handleRaise s 3 betAmount
        if ok.truthy then
          let s := if s.isStartOfBettingRound then { s with isStartOfBettingRound := false }
            else s
          (true, checkBettingRoundEnd 4 s 3)
        else (false, s)
    else
      if betAmount < 1 then (false, s)
      else if betAmount > s.chips 3 then (false, s)
      else
        let (ok, s) := handleBet s 3 betAmount
        if ok then
          let s := { s with lastToAct := 3 }
          let s := { s with lastRaiseAmount := betAmount }
          let s := if s.isStartOfBettingRound then { s with isStartOfBettingRound := false }
            else s
          (true, checkBettingRoundEnd 4 s 3)
        else (false, s)

/-- The function `playerAction(action)` for the four valid actions. -/
def playerAction (s : GameState) (action : PlayerActionKind) (slider : Option Int) :
    Bool × GameState :=
  if s.currentPlayer ≠ 3 then (false, s)
  else if s.folded 3 then (false, s)
  else if !s.bettingRoundActive then (false, s)
  else
    let s := { s with playerHasActed := setAt s.playerHasActed s.currentPlayer true }
    match action with
    | .betSlider => handlePlayerBetSlider s slider
    | .call => handlePlayerCall s
    | .fold => handlePlayerFold s
    | .check => handlePlayerCheck s

/-- The mid-round state with seat 3 short of chips: it holds 40, faces a bet
of 30 and the last raise was 20, so after calling it has 10 left. -/
def shortRaiseState : GameState :=
  { midRoundState with
    chips := fun i => if i = 0 then 80 else if i = 1 then 60 else if i = 2 then 95 else 40 }

/-- Before the flop, seats 0 and 1 are both all-in for 100 (seats 2 and 3 have
folded); the deck holds six cards. -/
def allInPreflopState : GameState :=
  { initialState with
    deck := [⟨.v2, .clubs⟩, ⟨.v9, .hearts⟩, ⟨.vK, .spades⟩, ⟨.v7, .diamonds⟩, ⟨.v3, .hearts⟩,
      ⟨.vA, .clubs⟩]
    chips := fun i => if i = 0 then 0 else if i = 1 then 0 else 80
    currentBets := fun i => if i = 0 then 100 else if i = 1 then 100 else 0
    pot := 40
    currentPlayer := 1
    currentBet := 100
    lastToAct := 0
    lastRaiseAmount := 100
    bettingRoundActive := false
    folded := fun i => decide (i = 2 ∨ i = 3)
    playerHasActed := fun _ => true
    isStartOfBettingRound := false }

/-- Before the flop with nobody all-in: the blinds-free opening state of the
script with a deck of six cards and the first betting round closed. -/
def preflopState : GameState :=
  { initialState with
    deck := [⟨.v2, .clubs⟩, ⟨.v9, .hearts⟩, ⟨.vK, .spades⟩, ⟨.v7, .diamonds⟩, ⟨.v3, .hearts⟩,
      ⟨.vA, .clubs⟩]
    currentBets := fun _ => 10
    chips := fun _ => 90
    currentBet := 10
    lastRaiseAmount := 10
    lastToAct := 0
    playerHasActed := fun _ => true
    isStartOfBettingRound := false }

/-- The mid-round state with seat 0 to act and out of chips: it has 10 in
front of it and faces the bet of 30. -/
def allInCallerState : GameState :=
  { midRoundState with
    chips := fun i => if i = 0 then 0 else if i = 1 then 60 else if i = 2 then 95 else 90
    currentPlayer := 0
    playerHasActed := fun i => decide (i = 1 ∨ i = 2) }

/-- The mid-round state after the pot has been awarded: the award flag is set
and the betting round is closed. -/
def awardedState : GameState :=
  { midRoundState with
    potHasBeenAwarded := true
    bettingRoundActive := false }

/-- The number of community cards matches the street: none before the flop
(`roundStage = 0`), three on the flop, four on the turn, five on the river. -/
def StreetOk (s : GameState) : Prop :=
  (s.roundStage = 0 ∧ s.communityCards.length = 0)
    ∨ (s.roundStage = 1 ∧ s.communityCards.length = 3)
    ∨ (s.roundStage = 2 ∧ s.communityCards.length = 4)
    ∨ (s.roundStage = 3 ∧ s.communityCards.length = 5)

/-- The number of cards `nextRound` deals at a street: three at
`roundStage = 0`, one at 1 and at 2, none otherwise. -/
def streetCards (roundStage : Int) : Nat :=
  if roundStage = 0 then 3 else if roundStage = 1 then 1 else if roundStage = 2 then 1 else 0

/-- The state `nextRound()` has reached when it makes its run-out test: the
bets are banked, the award flags are reset, the cards of the street have gone
from the end of the deck to the board and `roundStage` is one higher. -/
def dealtState (s : GameState) : GameState :=
  { bankBets s with
    isStartOfBettingRound := true
    potHasBeenAwarded := false
    lastAwardedPotTransactionId := 0
    deck := (s.deck.reverse.drop (streetCards s.roundStage)).reverse
    communityCards := s.communityCards ++ s.deck.reverse.take (streetCards s.roundStage)
    roundStage := s.roundStage + 1 }

/-! ## The simplified score used by the AI -/

/-- JavaScript `arr.sort((a, b) => a - b)` on numbers. -/
def sortAsc (l : List Int) : List Int :=
  l.insertionSort (fun a b => a ≤ b)

/-- The loop `for (i = 0; i <= v.length - 5; i++) if (v[i + 4] - v[i] === 4)
{ found = true; high = v[i + 4]; break; }` of `getHandScore`, on a list sorted
low to high. -/
def findStraightAsc (v : List Int) : Option Int :=
  (List.range (v.length - 4)).findSome?
    (fun i => if v.getD (i + 4) 0 - v.getD i 0 = 4 then some (v.getD (i + 4) 0) else none)

/-- The test `v.includes(0) && v.includes(1) && v.includes(2) && v.includes(3)
&& v.includes(12)` of `getHandScore` (2, 3, 4, 5 and ace as positions in
`'23456789TJQKA'`). -/
def hasWheelIdx (v : List Int) : Bool :=
  v.contains 0 && v.contains 1 && v.contains 2 && v.contains 3 && v.contains 12

/-- The straight test of `getHandScore` on a list of positions sorted low to
high: the regular loop, then the wheel test. -/
def straightIdx (v : List Int) : Bool :=
  (findStraightAsc v).isSome || hasWheelIdx v

/-- The variable `isFlush` of `getHandScore`:
`Object.values(suits).some(count => count >= 5)`. -/
def scoreIsFlush (cards : List Card) : Bool :=
  let suits := cards.map (fun c => c.suit)
  (uniqFirst suits).any (fun s => suits.count s ≥ 5)

/-- The variable `flushSuit` of `getHandScore`: `isFlush ?
Object.entries(suits).find(([_, count]) => count >= 5)?.[0] : null`. -/
def scoreFlushSuit (cards : List Card) : Option Suit :=
  let suits := cards.map (fun c => c.suit)
  if scoreIsFlush cards then (uniqFirst suits).find? (fun s => suits.count s ≥ 5) else none

/-- The variable `sortedVals` of `getHandScore`: `[...new Set(vals.map(v =>
values.indexOf(v)).sort((a, b) => a - b))]`. -/
def scoreSortedVals (cards : List Card) : List Int :=
  uniqFirst (sortAsc (cards.map (fun c => valueOrderIndexOf c.value)))

/-- The variable `isStraightFlush` of `getHandScore`. -/
def scoreIsStraightFlush (cards : List Card) : Bool :=
  if scoreIsFlush cards && straightIdx (scoreSortedVals cards) then
    let flushCards := cards.filter (fun c => some c.suit = scoreFlushSuit cards)
    let flushVals := sortAsc (uniqFirst (flushCards.map (fun c => valueOrderIndexOf c.value)))
    straightIdx flushVals
  else false

/-- The variable `isRoyalFlush` of `getHandScore`; the positions of `T`, `J`,
`Q`, `K`, `A` in `'23456789TJQKA'` are 8 to 12. -/
def scoreIsRoyalFlush (cards : List Card) : Bool :=
  if scoreIsStraightFlush cards then
    let flushCards := cards.filter (fun c => some c.suit = scoreFlushSuit cards)
    let flushVals := flushCards.map (fun c => valueOrderIndexOf c.value)
    [8, 9, 10, 11, 12].all (fun v => flushVals.contains v)
  else false

/-- The variable `countsArray` of `getHandScore`:
`Object.values(counts).sort((a, b) => b - a)`. -/
def countsArray (cards : List Card) : List Int :=
  let vals := cards.map (fun c => c.value)
  sortDesc ((objectKeys vals).map (fun v => (vals.count v : Int)))

/-- The function `getHandScore(cards)` on valid cards. -/
def getHandScore (cards : List Card) : Int :=
  let validCards := cards
  if validCards.length < 5 then 0
  else
    let vals := validCards.map (fun c => c.value)
    if vals.length < 5 then 0
    else
      let isFlush := scoreIsFlush validCards
      let isStraight := straightIdx (scoreSortedVals validCards)
      let isStraightFlush := scoreIsStraightFlush validCards
      let isRoyalFlush := scoreIsRoyalFlush validCards
      let countsArray := countsArray validCards
      if isRoyalFlush then 9
      else if isStraightFlush then 8
      else if countsArray.get? 0 = some 4 then 7
      else if countsArray.get? 0 = some 3
          ∧ (countsArray.get? 1).any (fun c => decide (c ≥ 2)) then 6
      else if isFlush then 5
      else if isStraight then 4
      else if countsArray.get? 0 = some 3 then 3
      else if countsArray.get? 0 = some 2 ∧ countsArray.get? 1 = some 2 then 2
      else if countsArray.get? 0 = some 2 then 1
      else 0

/-- The order in which the evaluators test for the hand categories, as a
function of the nine tests. -/
def handCategory (royalFlush straightFlush quads fullHouse flush straight trips twoPair
    pair : Bool) : Int :=
  if royalFlush then 9
  else if straightFlush then 8
  else if quads then 7
  else if fullHouse then 6
  else if flush then 5
  else if straight then 4
  else if trips then 3
  else if twoPair then 2
  else if pair then 1
  else 0

instance : IsTotal (Value × Nat) freqOrder := ⟨fun a b => by
  unfold freqOrder
  split <;> split <;> omega⟩

instance : IsTrans (Value × Nat) freqOrder := ⟨fun a b c h1 h2 => by
  unfold freqOrder at h1 h2 ⊢
  split at h1 <;> split at h2 <;> split <;> omega⟩
/-- The seven cards `AS 2S KH 3S 4S KD 5S`: ace to five of spades and two
kings. -/
def wheelFlushHand : List Card :=
  [⟨.vA, .spades⟩, ⟨.v2, .spades⟩, ⟨.vK, .hearts⟩, ⟨.v3, .spades⟩, ⟨.v4, .spades⟩,
    ⟨.vK, .diamonds⟩, ⟨.v5, .spades⟩]

/-! ## Chip conservation -/

theorem sanitizeSeat_of_nonNeg (s : GameState) (h : NonNeg s) (i : Seat) :
    sanitizeSeat s i = s := by
  have h1 := h.1 i
  have h2 := h.2.1 i
  simp [sanitizeSeat, not_lt.mpr h1, not_lt.mpr h2]

theorem updateChipsAndBets_of_nonNeg (s : GameState) (h : NonNeg s) :
    updateChipsAndBets s = s := by
  have h3 := h.2.2
  simp [updateChipsAndBets, seats, sanitizeSeat_of_nonNeg s h, not_lt.mpr h3]

theorem total_move (s : GameState) (p : Seat) (a : Int) :
    total { s with
      chips := Function.update s.chips p (s.chips p - a)
      currentBets := Function.update s.currentBets p (s.currentBets p + a) } = total s := by
  fin_cases p <;> simp [total, Function.update] <;> omega

theorem nonNeg_move (s : GameState) (h : NonNeg s) (p : Seat) (a : Int) (h0 : 0 ≤ a)
    (h1 : a ≤ s.chips p) :
    NonNeg { s with
      chips := Function.update s.chips p (s.chips p - a)
      currentBets := Function.update s.currentBets p (s.currentBets p + a) } := by
  obtain ⟨hc, hb, hp⟩ := h
  refine ⟨fun i => ?_, fun i => ?_, hp⟩
  · by_cases hi : i = p
    · subst hi; simp; omega
    · simp [Function.update, hi, hc i]
  · by_cases hi : i = p
    · subst hi; have := hb i; simp; omega
    · simp [Function.update, hi, hb i]

theorem placeBet_eq (s : GameState) (playerIndex amount : Int) :
    placeBet s playerIndex amount =
      match seatOf playerIndex with
      | none => (0, s)
      | some p =>
        if amount ≤ 0 ∨ min amount (s.chips p) ≤ 0 then (0, s)
        else (min amount (s.chips p), moved s p (min amount (s.chips p))) := by
  unfold placeBet
  cases seatOf playerIndex with
  | none => rfl
  | some p =>
    dsimp only
    by_cases h1 : amount ≤ 0
    · simp [h1]
    · by_cases h2 : min amount (s.chips p) ≤ 0
      · simp [h1, h2]
      · rw [if_neg h1, if_neg h2, if_neg (by tauto)]
        rfl

theorem total_placeBet (s : GameState) (playerIndex amount : Int) :
    total (placeBet s playerIndex amount).2 = total s := by
  rw [placeBet_eq]
  split
  · rfl
  · split
    · rfl
    · exact total_move s _ _

theorem nonNeg_placeBet (s : GameState) (h : NonNeg s) (playerIndex amount : Int) :
    NonNeg (placeBet s playerIndex amount).2 := by
  rw [placeBet_eq]
  split
  · exact h
  · split
    · exact h
    · rename_i hpos
      apply nonNeg_move s h
      · simp only [not_or, not_le] at hpos; omega
      · exact min_le_right _ _


theorem collectSeat_of_nonneg (a : Int) (s : GameState) (i : Seat) (h : 0 ≤ s.currentBets i) :
    collectSeat (a, s) i
      = (a + s.currentBets i, { s with currentBets := Function.update s.currentBets i 0 }) := by
  unfold collectSeat
  by_cases hpos : s.currentBets i > 0
  · simp [hpos]
  · have h0 : s.currentBets i = 0 := by omega
    have hu : Function.update s.currentBets i 0 = s.currentBets := by
      rw [← h0]; exact Function.update_eq_self i s.currentBets
    simp [h0, hu]

theorem collect_fold_of_nonneg (a : Int) (s : GameState) (h : ∀ i, 0 ≤ s.currentBets i) :
    seats.foldl collectSeat (a, s)
      = (a + (s.currentBets 0 + s.currentBets 1 + s.currentBets 2 + s.currentBets 3),
          { s with currentBets := fun _ => 0 }) := by
  simp only [seats, List.foldl]
  rw [collectSeat_of_nonneg _ _ 0 (h 0)]
  rw [collectSeat_of_nonneg _ _ 1 (by simpa [Function.update] using h 1)]
  rw [collectSeat_of_nonneg _ _ 2 (by simpa [Function.update] using h 2)]
  rw [collectSeat_of_nonneg _ _ 3 (by simpa [Function.update] using h 3)]
  have hf : Function.update (Function.update (Function.update
      (Function.update s.currentBets 0 0) 1 0) 2 0) 3 0 = fun _ => (0 : Int) := by
    funext i
    fin_cases i <;> simp [Function.update]
  simp only [hf]
  congr 1
  simp [Function.update]
  ring

theorem collectOutstandingBets_of_nonNeg (s : GameState) (h : NonNeg s) :
    collectOutstandingBets s
      = { s with
          currentBets := fun _ => 0
          pot := s.pot + (s.currentBets 0 + s.currentBets 1 + s.currentBets 2
            + s.currentBets 3) } := by
  unfold collectOutstandingBets
  rw [collect_fold_of_nonneg 0 s h.2.1]
  have h0 := h.2.1 0
  have h1 := h.2.1 1
  have h2 := h.2.1 2
  have h3 := h.2.1 3
  simp only [zero_add]
  by_cases hpos : s.currentBets 0 + s.currentBets 1 + s.currentBets 2 + s.currentBets 3 > 0
  · rw [if_pos hpos]
  · have hz : s.currentBets 0 + s.currentBets 1 + s.currentBets 2 + s.currentBets 3 = 0 := by
      omega
    rw [if_neg hpos, hz, add_zero]

theorem total_collectOutstandingBets (s : GameState) (h : NonNeg s) :
    total (collectOutstandingBets s) = total s := by
  rw [collectOutstandingBets_of_nonNeg s h]
  simp only [total]
  ring

theorem sameLedger_total_eq {s t : GameState} (h : SameLedger s t) : total t = total s := by
  obtain ⟨h1, h2, h3⟩ := h
  simp only [total, h1, h2, h3]

theorem sameLedger_nonNeg {s t : GameState} (h : SameLedger s t) (hs : NonNeg s) : NonNeg t := by
  obtain ⟨h1, h2, h3⟩ := h
  simpa only [NonNeg, h1, h2, h3] using hs

theorem sameLedger_trans {s t u : GameState} (h1 : SameLedger s t) (h2 : SameLedger t u) :
    SameLedger s u :=
  ⟨h2.1.trans h1.1, h2.2.1.trans h1.2.1, h2.2.2.trans h1.2.2⟩

theorem sameLedger_nextPlayerRecovery (s : GameState) (activePlayers : List Seat)
    (latestActor : Int) : SameLedger s (nextPlayerRecovery s activePlayers latestActor) := by
  unfold nextPlayerRecovery
  repeat' (first | split | (dsimp only; split))
  all_goals exact ⟨rfl, rfl, rfl⟩

theorem total_schedule (s : GameState) (t : Timer) : total (schedule s t) = total s := rfl

theorem total_nextPlayerRecovery (s : GameState) (activePlayers : List Seat)
    (latestActor : Int) : total (nextPlayerRecovery s activePlayers latestActor) = total s :=
  sameLedger_total_eq (sameLedger_nextPlayerRecovery s activePlayers latestActor)

theorem total_checkBettingRoundEndBody (recurse : GameState → Int → GameState)
    (hrec : ∀ s a, NonNeg s → total (recurse s a) = total s)
    (s : GameState) (h : NonNeg s) (latestActor : Int) :
    total (checkBettingRoundEndBody recurse s latestActor) = total s := by
  unfold checkBettingRoundEndBody
  dsimp only
  repeat' (first | split | (dsimp only; split))
  all_goals try simp only [total_schedule, total_nextPlayerRecovery]
  all_goals first
    | (rw [total_collectOutstandingBets] <;> first | rfl | exact h)
    | (rw [hrec] <;> first | rfl | exact h)
    | rfl

theorem total_checkBettingRoundEnd (fuel : Nat) (s : GameState) (h : NonNeg s)
    (latestActor : Int) : total (checkBettingRoundEnd fuel s latestActor) = total s := by
  induction fuel generalizing s latestActor with
  | zero => exact total_checkBettingRoundEndBody _ (fun _ _ _ => rfl) s h latestActor
  | succ n ih =>
    exact total_checkBettingRoundEndBody _ (fun s a hs => ih s hs a) s h latestActor

theorem seatOf_seatIndex (p : Seat) : seatOf (seatIndex p) = some p := by
  fin_cases p <;> rfl

theorem total_updateChipsAndBets (s : GameState) (h : NonNeg s) :
    total (updateChipsAndBets s) = total s := by
  rw [updateChipsAndBets_of_nonNeg s h]

theorem total_handleAllIn (s : GameState) (playerIndex : Int) (isRaise : Bool) :
    total (handleAllIn s playerIndex isRaise).2 = total s := by
  unfold handleAllIn
  repeat' (first | split | (dsimp only; split))
  all_goals first
    | rfl
    | exact total_placeBet s playerIndex _

theorem total_congr (s t : GameState) (h1 : t.chips = s.chips)
    (h2 : t.currentBets = s.currentBets) (h3 : t.pot = s.pot) : total t = total s :=
  sameLedger_total_eq ⟨h1, h2, h3⟩

theorem nonNeg_congr (s t : GameState) (hs : NonNeg s) (h1 : t.chips = s.chips)
    (h2 : t.currentBets = s.currentBets) (h3 : t.pot = s.pot) : NonNeg t :=
  sameLedger_nonNeg ⟨h1, h2, h3⟩ hs

theorem total_handleCall (s : GameState) (h : NonNeg s) (p : Seat) :
    total (handleCall s p).2 = total s := by
  unfold handleCall
  repeat' (first | split | (dsimp only; split))
  · rfl
  · rfl
  · rename_i heq _ _
    have h1 := total_handleAllIn s (seatIndex p) false
    rw [heq] at h1
    exact h1
  · show total (updateChipsAndBets
      (placeBet s (seatIndex p) (s.currentBet - s.currentBets p)).2) = total s
    have h2 := nonNeg_placeBet s h (seatIndex p) (s.currentBet - s.currentBets p)
    have h1 := total_placeBet s (seatIndex p) (s.currentBet - s.currentBets p)
    generalize (placeBet s (seatIndex p) (s.currentBet - s.currentBets p)).2 = t at *
    rw [total_updateChipsAndBets t h2, h1]

theorem total_handleRaise (s : GameState) (h : NonNeg s) (p : Seat) (raiseAmount : Int) :
    total (handleRaise s p raiseAmount).2 = total s := by
  unfold handleRaise
  repeat' (first | split | (dsimp only; split))
  · rfl
  · rfl
  · rename_i heq _ _
    have h1 := total_handleAllIn s (seatIndex p) true
    rw [heq] at h1
    exact h1
  · have h2 := nonNeg_placeBet s h (seatIndex p) (s.currentBet - s.currentBets p + raiseAmount)
    have h1 := total_placeBet s (seatIndex p) (s.currentBet - s.currentBets p + raiseAmount)
    generalize (placeBet s (seatIndex p) (s.currentBet - s.currentBets p + raiseAmount)).2
      = t at *
    show total (updateChipsAndBets _) = total s
    rw [total_updateChipsAndBets]
    · exact h1
    · exact h2

theorem total_handleBet (s : GameState) (h : NonNeg s) (p : Seat) (amount : Int) :
    total (handleBet s p amount).2 = total s := by
  unfold handleBet
  have h2 := nonNeg_placeBet s h (seatIndex p) amount
  have h1 := total_placeBet s (seatIndex p) amount
  generalize (placeBet s (seatIndex p) amount).2 = t at *
  repeat' (first | split | (dsimp only; split))
  · rfl
  · rfl
  · show total (updateChipsAndBets _) = total s
    rw [total_updateChipsAndBets]
    · exact h1
    · exact h2
  · show total (updateChipsAndBets _) = total s
    rw [total_updateChipsAndBets]
    · exact h1
    · exact h2

theorem total_handleCheck (s : GameState) (h : NonNeg s) (playerIndex : Int) :
    total (handleCheck s playerIndex).2 = total s := by
  unfold handleCheck
  repeat' (first | split | (dsimp only; split))
  all_goals first
    | (rw [total_checkBettingRoundEnd] <;> first | rfl | exact h)
    | rfl

theorem total_handleFold (s : GameState) (h : NonNeg s) (playerIndex : Int) :
    total (handleFold s playerIndex).2 = total s := by
  unfold handleFold
  repeat' (first | split | (dsimp only; split))
  all_goals try simp only [total_schedule]
  all_goals first
    | (rw [total_collectOutstandingBets] <;> first | rfl | exact h)
    | (rw [total_checkBettingRoundEnd] <;> first | rfl | exact h)
    | rfl

theorem total_bankBets (s : GameState) : total (bankBets s) = total s := by
  simp only [bankBets, seats, List.foldl, bankSeat, total, Function.update]
  simp
  ring

theorem nonNeg_midRoundState : NonNeg midRoundState := by
  refine ⟨fun i => ?_, fun i => ?_, by decide⟩ <;> fin_cases i <;> decide

/-- C1: in every state whose chips, bets and pot are non-negative, each of
`placeBet`, `handleBet`, `handleCall`, `handleRaise`, `handleAllIn`,
`handleCheck`, `handleFold` (up to its return, for any seat and any amount) and
the bet-banking loop that opens `nextRound` leaves
`Σ chips + Σ currentBets + pot` unchanged. -/
theorem chip_conservation (s : GameState) (h : NonNeg s) :
    (∀ playerIndex amount : Int, total (placeBet s playerIndex amount).2 = total s) ∧
    (∀ (p : Seat) (amount : Int), total (handleBet s p amount).2 = total s) ∧
    (∀ p : Seat, total (handleCall s p).2 = total s) ∧
    (∀ (p : Seat) (raiseAmount : Int), total (handleRaise s p raiseAmount).2 = total s) ∧
    (∀ (playerIndex : Int) (isRaise : Bool),
      total (handleAllIn s playerIndex isRaise).2 = total s) ∧
    (∀ playerIndex : Int, total (handleCheck s playerIndex).2 = total s) ∧
    (∀ playerIndex : Int, total (handleFold s playerIndex).2 = total s) ∧
    total (bankBets s) = total s :=
  ⟨total_placeBet s, total_handleBet s h, total_handleCall s h, total_handleRaise s h,
    total_handleAllIn s, total_handleCheck s h, total_handleFold s h, total_bankBets s⟩

/-- Witness for C1 at `midRoundState`: seat 3 calling, raising by 25, going
all-in or folding, and banking the bets, all keep the total at 390. -/
theorem chip_conservation_witness :
    NonNeg midRoundState ∧ total midRoundState = 390 ∧
    total (handleCall midRoundState 3).2 = 390 ∧
    total (handleRaise midRoundState 3 25).2 = 390 ∧
    total (handleAllIn midRoundState 3 true).2 = 390 ∧
    total (handleFold midRoundState 3).2 = 390 ∧
    total (bankBets midRoundState) = 390 :=
  have h := chip_conservation midRoundState nonNeg_midRoundState
  have h0 : total midRoundState = 390 := by decide
  ⟨nonNeg_midRoundState, h0, (h.2.2.1 3).trans h0, (h.2.2.2.1 3 25).trans h0,
    (h.2.2.2.2.1 3 true).trans h0, (h.2.2.2.2.2.2.1 3).trans h0, h.2.2.2.2.2.2.2.trans h0⟩

theorem findNextLoop_spec (s : GameState) (idx : Seat) :
    findNextLoop s 5 idx 0 = -1 ∨
      ∃ p, findNextLoop s 5 idx 0 = seatIndex p ∧ s.folded p = false := by
  cases h0 : s.folded 0 <;> cases h1 : s.folded 1 <;> cases h2 : s.folded 2 <;>
    cases h3 : s.folded 3 <;> fin_cases idx <;>
    simp [findNextLoop, seats, h0, h1, h2, h3] <;>
    first
      | exact Or.inr ⟨0, rfl, h0⟩
      | exact Or.inr ⟨1, rfl, h1⟩
      | exact Or.inr ⟨2, rfl, h2⟩
      | exact Or.inr ⟨3, rfl, h3⟩

theorem findNextActivePlayer_spec (s : GameState) (startIndex : Int) :
    findNextActivePlayer s startIndex = -1 ∨
      ∃ p, findNextActivePlayer s startIndex = seatIndex p ∧ s.folded p = false := by
  unfold findNextActivePlayer
  dsimp only
  split
  · exact Or.inl rfl
  · exact findNextLoop_spec s _

theorem foldedAt_findNextActivePlayer (s t : GameState) (startIndex : Int)
    (h1 : findNextActivePlayer s startIndex ≠ -1) (hf : t.folded = s.folded) :
    foldedAt t (findNextActivePlayer s startIndex) = some false := by
  rcases findNextActivePlayer_spec s startIndex with h | ⟨p, hp, hfold⟩
  · exact absurd h h1
  · rw [hp]
    simp [foldedAt, seatOf_seatIndex, hf, hfold]

/-- The recursive call of `checkBettingRoundEnd` is never reached: the result
does not depend on the function called there. -/
theorem checkBettingRoundEndBody_recurse (r1 r2 : GameState → Int → GameState) (s : GameState)
    (latestActor : Int) :
    checkBettingRoundEndBody r1 s latestActor = checkBettingRoundEndBody r2 s latestActor := by
  unfold checkBettingRoundEndBody
  dsimp only
  repeat' (first | split | (dsimp only; split))
  all_goals try rfl
  all_goals
    rename_i hne _ heq
    have key := fun t => foldedAt_findNextActivePlayer _ t _ hne
    rw [key] at heq
    · exact absurd heq (by decide)
    · rfl

/-- The result of `checkBettingRoundEnd` does not depend on the recursion
bound. -/
theorem checkBettingRoundEnd_fuel (n m : Nat) (s : GameState) (latestActor : Int) :
    checkBettingRoundEnd n s latestActor = checkBettingRoundEnd m s latestActor := by
  cases n <;> cases m <;> exact checkBettingRoundEndBody_recurse _ _ s latestActor

/-! ## Award -/

theorem nonNeg_awarded (s : GameState) (w : Seat) (hn : NonNeg s) : NonNeg (awarded s w) := by
  obtain ⟨hc, hb, hp⟩ := hn
  have h0 := hb 0
  have h1 := hb 1
  have h2 := hb 2
  have h3 := hb 3
  refine ⟨fun i => ?_, fun i => le_refl _, le_refl _⟩
  show 0 ≤ Function.update s.chips w (s.chips w + (s.pot + betsSum s)) i
  by_cases hi : i = w
  · subst hi
    have := hc i
    simp only [Function.update_same, betsSum]
    omega
  · simp only [Function.update_noteq hi]
    exact hc i

theorem awardPotToPlayer_eq (s : GameState) (w : Seat) (reason : String) (hn : NonNeg s)
    (hid : TxnOk s) (hna : s.potHasBeenAwarded = false) (hpos : s.pot + betsSum s > 0) :
    awardPotToPlayer s (seatIndex w) reason = (true, awarded s w) := by
  unfold awardPotToPlayer
  simp only [seatOf_seatIndex]
  have hid2 : ¬ (s.currentAwardTransactionId + 1 ≤ s.lastAwardedPotTransactionId) := by
    unfold TxnOk at hid
    omega
  rw [collect_fold_of_nonneg]
  · have hpos2 : ¬ (s.pot + (s.currentBets 0 + s.currentBets 1 + s.currentBets 2
        + s.currentBets 3) ≤ 0) := by
      unfold betsSum at hpos
      omega
    simp only [hna, Bool.false_eq_true, if_false, hid2, hpos2]
    rw [updateChipsAndBets_of_nonNeg]
    · rfl
    · exact nonNeg_congr (awarded s w) _ (nonNeg_awarded s w hn) rfl rfl rfl
  · exact hn.2.1

theorem ledgerOnly_refl (s : GameState) : LedgerOnly s s := ⟨s.chips, s.currentBets, s.pot, rfl⟩

theorem ledgerOnly_trans {s t u : GameState} (h1 : LedgerOnly s t) (h2 : LedgerOnly t u) :
    LedgerOnly s u := by
  obtain ⟨c1, b1, p1, rfl⟩ := h1
  obtain ⟨c2, b2, p2, rfl⟩ := h2
  exact ⟨c2, b2, p2, rfl⟩

theorem ledgerOnly_foldl (f : GameState → Seat → GameState)
    (hf : ∀ s i, LedgerOnly s (f s i)) (l : List Seat) (s : GameState) :
    LedgerOnly s (l.foldl f s) := by
  induction l generalizing s with
  | nil => exact ledgerOnly_refl s
  | cons a l ih => exact ledgerOnly_trans (hf s a) (ih (f s a))

theorem ledgerOnly_sanitizeSeat (s : GameState) (i : Seat) : LedgerOnly s (sanitizeSeat s i) := by
  unfold sanitizeSeat
  dsimp only
  split_ifs
  all_goals exact ⟨_, _, _, rfl⟩

theorem ledgerOnly_updateChipsAndBets (s : GameState) : LedgerOnly s (updateChipsAndBets s) := by
  unfold updateChipsAndBets
  have h := ledgerOnly_foldl sanitizeSeat ledgerOnly_sanitizeSeat seats s
  dsimp only
  split_ifs
  · exact ledgerOnly_trans h ⟨_, _, _, rfl⟩
  · exact h

theorem ledgerOnly_collectSeat (a : Int) (s : GameState) (i : Seat) :
    LedgerOnly s (collectSeat (a, s) i).2 := by
  unfold collectSeat
  dsimp only
  split_ifs
  all_goals exact ⟨_, _, _, rfl⟩

theorem ledgerOnly_collect_foldl (l : List Seat) (a : Int) (s : GameState) :
    LedgerOnly s (l.foldl collectSeat (a, s)).2 := by
  induction l generalizing a s with
  | nil => exact ledgerOnly_refl s
  | cons i l ih =>
    exact ledgerOnly_trans (ledgerOnly_collectSeat a s i)
      (ih (collectSeat (a, s) i).1 (collectSeat (a, s) i).2)

theorem txnOk_awardPotToPlayer (s : GameState) (playerIdx : Int) (reason : String)
    (hid : TxnOk s) : TxnOk (awardPotToPlayer s playerIdx reason).2 := by
  unfold TxnOk at hid
  unfold awardPotToPlayer
  dsimp only
  cases seatOf playerIdx with
  | none =>
    show s.lastAwardedPotTransactionId ≤ s.currentAwardTransactionId + 1
    omega
  | some p0 =>
    dsimp only
    split
    · show s.lastAwardedPotTransactionId ≤ s.currentAwardTransactionId + 1
      omega
    · split
      · show s.lastAwardedPotTransactionId ≤ s.currentAwardTransactionId + 1
        omega
      · have hl := ledgerOnly_collect_foldl seats s.pot
          { s with currentAwardTransactionId := s.currentAwardTransactionId + 1 }
        generalize List.foldl collectSeat _ seats = r at hl ⊢
        obtain ⟨tp, s2⟩ := r
        obtain ⟨c, b, p, rfl⟩ := hl
        dsimp only
        split
        · show s.lastAwardedPotTransactionId ≤ s.currentAwardTransactionId + 1
          omega
        · dsimp only [schedule]
          generalize hX : updateChipsAndBets _ = u
          have hu := ledgerOnly_updateChipsAndBets
            { s with
              currentAwardTransactionId := s.currentAwardTransactionId + 1
              chips := Function.update c p0 (c p0 + tp)
              currentBets := b
              pot := 0
              potHasBeenAwarded := true
              lastAwardedPotTransactionId := s.currentAwardTransactionId + 1 }
          rw [hX] at hu
          obtain ⟨c2, b2, p2, rfl⟩ := hu
          exact le_refl _

/-- C2: for every valid seat `w` and every state (non-negative amounts, award
counter consistent) with `potHasBeenAwarded = false` and `pot + Σ currentBets >
0`, `awardPotToPlayer(w, reason)` returns `true`, adds exactly `pot + Σ
currentBets` to `chips[w]`, leaves the other seats' chips unchanged, ends with
`pot = 0` and every `currentBets[i] = 0`, and so preserves
`Σ chips + Σ currentBets + pot`. -/
theorem award_preserves_total (s : GameState) (w : Seat) (reason : String) (hn : NonNeg s)
    (hid : TxnOk s) (hna : s.potHasBeenAwarded = false) (hpos : s.pot + betsSum s > 0) :
    (awardPotToPlayer s (seatIndex w) reason).1 = true ∧
    (awardPotToPlayer s (seatIndex w) reason).2.chips w = s.chips w + (s.pot + betsSum s) ∧
    (∀ i, i ≠ w → (awardPotToPlayer s (seatIndex w) reason).2.chips i = s.chips i) ∧
    (awardPotToPlayer s (seatIndex w) reason).2.pot = 0 ∧
    (∀ i, (awardPotToPlayer s (seatIndex w) reason).2.currentBets i = 0) ∧
    total (awardPotToPlayer s (seatIndex w) reason).2 = total s := by
  rw [awardPotToPlayer_eq s w reason hn hid hna hpos]
  refine ⟨rfl, ?_, ?_, rfl, fun _ => rfl, ?_⟩
  · simp [awarded]
  · intro i hi
    simp [awarded, Function.update_noteq hi]
  · fin_cases w <;> simp [awarded, total, betsSum, Function.update] <;> ring

/-- Witness for C2: in `midRoundState` (pot 25, bets 10 and 30) the award to
seat 1 credits 65 chips. -/
theorem award_preserves_total_witness :
    (awardPotToPlayer midRoundState (seatIndex 1) "uncontested").1 = true ∧
    (awardPotToPlayer midRoundState (seatIndex 1) "uncontested").2.chips 1 = 60 + (25 + 40) ∧
    total (awardPotToPlayer midRoundState (seatIndex 1) "uncontested").2 = total midRoundState :=
  have h := award_preserves_total midRoundState 1 "uncontested" nonNeg_midRoundState
    (le_refl (0 : Int)) rfl (by decide)
  ⟨h.1, h.2.1, h.2.2.2.2.2⟩

theorem awardPotToPlayer_true_flag (s : GameState) (playerIdx : Int) (reason : String)
    (h : (awardPotToPlayer s playerIdx reason).1 = true) :
    (awardPotToPlayer s playerIdx reason).2.potHasBeenAwarded = true := by
  unfold awardPotToPlayer at h ⊢
  dsimp only at h ⊢
  generalize seatOf playerIdx = o at h ⊢
  cases o with
  | none => simp at h
  | some p0 =>
    dsimp only at h ⊢
    split at h
    · simp at h
    · rename_i h1
      rw [if_neg h1]
      split at h
      · simp at h
      · rename_i h2
        rw [if_neg h2]
        generalize List.foldl collectSeat _ seats = r at h ⊢
        obtain ⟨tp, s2⟩ := r
        dsimp only at h ⊢
        split at h
        · simp at h
        · rename_i h3
          rw [if_neg h3]
          dsimp only [schedule]
          generalize hX : updateChipsAndBets _ = u
          have hu := ledgerOnly_updateChipsAndBets
            { s2 with
              potHasBeenAwarded := true
              lastAwardedPotTransactionId := s.currentAwardTransactionId + 1
              chips := Function.update s2.chips p0 (s2.chips p0 + tp)
              pot := 0 }
          rw [hX] at hu
          obtain ⟨c2, b2, p2, rfl⟩ := hu
          rfl

theorem awardPotToPlayer_of_flag (s : GameState) (playerIdx : Int) (reason : String)
    (h : s.potHasBeenAwarded = true) :
    awardPotToPlayer s playerIdx reason
      = (false, { s with currentAwardTransactionId := s.currentAwardTransactionId + 1 }) := by
  unfold awardPotToPlayer
  dsimp only
  cases seatOf playerIdx with
  | none => rfl
  | some p0 =>
    dsimp only
    rw [if_pos h]

theorem awardCalls_of_flag (s : GameState) (h : s.potHasBeenAwarded = true)
    (calls : List (Int × String)) :
    (awardCalls s calls).potHasBeenAwarded = true ∧ SameLedger s (awardCalls s calls) := by
  induction calls generalizing s with
  | nil => exact ⟨h, rfl, rfl, rfl⟩
  | cons c cs ih =>
    unfold awardCalls
    rw [awardPotToPlayer_of_flag s c.1 c.2 h]
    exact ih _ h

/-- C3: once a call of `awardPotToPlayer` has returned `true`, every further
call of `awardPotToPlayer` (any seat, any reason, after any number of other
such calls) returns `false` and leaves all chips, all bets and the pot as the
first award left them. -/
theorem award_at_most_once (s : GameState) (w : Int) (reason : String)
    (h : (awardPotToPlayer s w reason).1 = true)
    (calls : List (Int × String)) (w2 : Int) (reason2 : String) :
    (awardPotToPlayer (awardCalls (awardPotToPlayer s w reason).2 calls) w2 reason2).1 = false ∧
    (awardPotToPlayer (awardCalls (awardPotToPlayer s w reason).2 calls) w2 reason2).2.chips
      = (awardPotToPlayer s w reason).2.chips ∧
    (awardPotToPlayer (awardCalls (awardPotToPlayer s w reason).2 calls) w2 reason2).2.currentBets
      = (awardPotToPlayer s w reason).2.currentBets ∧
    (awardPotToPlayer (awardCalls (awardPotToPlayer s w reason).2 calls) w2 reason2).2.pot
      = (awardPotToPlayer s w reason).2.pot := by
  have hflag := awardPotToPlayer_true_flag s w reason h
  obtain ⟨h1, h2, h3, h4⟩ := awardCalls_of_flag _ hflag calls
  rw [awardPotToPlayer_of_flag _ w2 reason2 h1]
  exact ⟨rfl, h2, h3, h4⟩

/-- Witness for C3: after the award to seat 1 in `midRoundState`, a second
award to seat 0 and then a third to seat 1 are both refused and seat 0 keeps
its 80 chips. -/
theorem award_at_most_once_witness :
    (awardPotToPlayer midRoundState 1 "uncontested").1 = true ∧
    (awardPotToPlayer (awardCalls (awardPotToPlayer midRoundState 1 "uncontested").2
      [(0, "with Flush")]) 1 "uncontested").1 = false ∧
    (awardPotToPlayer (awardCalls (awardPotToPlayer midRoundState 1 "uncontested").2
      [(0, "with Flush")]) 1 "uncontested").2.chips 0 = 80 :=
  have h0 : (awardPotToPlayer midRoundState 1 "uncontested").1 = true := by decide
  have h := award_at_most_once midRoundState 1 "uncontested" h0 [(0, "with Flush")] 1
    "uncontested"
  ⟨h0, h.1, (congrFun h.2.1 0).trans (by decide)⟩

/-! ## compareHands -/

theorem firstDifference_succ (f g : Nat → Int) (n : Nat) :
    firstDifference f g (n + 1) = (firstDifference f g n).or
      (if f n > g n then some (1 : Int) else if f n < g n then some (-1) else none) := by
  unfold firstDifference
  rw [List.range_succ, List.findSome?_append]
  simp only [List.findSome?_cons, List.findSome?_nil]
  congr 1
  split <;> rename_i heq <;> exact heq.symm

theorem firstDifference_spec (f g : Nat → Int) (n : Nat) :
    match firstDifference f g n with
    | some r => ∃ i, i < n ∧ (∀ j, j < i → f j = g j) ∧
        ((f i > g i ∧ r = 1) ∨ (f i < g i ∧ r = -1))
    | none => ∀ i, i < n → f i = g i := by
  induction n with
  | zero =>
    simp [firstDifference]
  | succ n ih =>
    rw [firstDifference_succ]
    cases h : firstDifference f g n with
    | some r =>
      rw [h] at ih
      obtain ⟨i, hi, hpre, hr⟩ := ih
      exact ⟨i, by omega, hpre, hr⟩
    | none =>
      rw [h] at ih
      simp only [Option.or]
      by_cases h1 : f n > g n
      · simp only [h1, if_true]
        exact ⟨n, by omega, ih, Or.inl ⟨h1, trivial⟩⟩
      · by_cases h2 : f n < g n
        · simp only [h1, h2, if_true, if_false]
          exact ⟨n, by omega, ih, Or.inr ⟨h2, trivial⟩⟩
        · simp only [h1, h2, if_false]
          intro i hi
          by_cases hin : i = n
          · subst hin; omega
          · exact ih i (by omega)

theorem compareHands_eq (a b : List Int) (ha : a ≠ []) (hb : b ≠ []) :
    compareHands a b
      = (firstDifference (entry a) (entry b) (max a.length b.length)).getD 0 := by
  unfold compareHands
  have h1 : ¬ (a.length = 0 ∨ b.length = 0) := by
    simp [List.length_eq_zero, ha, hb]
  rw [if_neg h1]
  rfl

theorem entry_eq_zero (a : List Int) (i : Nat) (h : a.length ≤ i) : entry a i = 0 :=
  List.getD_eq_default _ _ h

theorem compareHands_gt_iff (a b : List Int) (ha : a ≠ []) (hb : b ≠ []) :
    compareHands a b = 1 ↔
      ∃ i, entry a i > entry b i ∧ ∀ j, j < i → entry a j = entry b j := by
  rw [compareHands_eq a b ha hb]
  have hs := firstDifference_spec (entry a) (entry b) (max a.length b.length)
  constructor
  · intro h
    cases hf : firstDifference (entry a) (entry b) (max a.length b.length) with
    | none => rw [hf] at h; simp at h
    | some r =>
      rw [hf] at hs h
      simp only [Option.getD_some] at h
      obtain ⟨i, _, hpre, hr⟩ := hs
      rcases hr with ⟨hgt, _⟩ | ⟨_, hr⟩
      · exact ⟨i, hgt, hpre⟩
      · omega
  · rintro ⟨i, hgt, hpre⟩
    have hin : i < max a.length b.length := by
      by_contra hcon
      have h1 := entry_eq_zero a i (by omega)
      have h2 := entry_eq_zero b i (by omega)
      omega
    cases hf : firstDifference (entry a) (entry b) (max a.length b.length) with
    | none =>
      rw [hf] at hs
      have := hs i hin
      omega
    | some r =>
      rw [hf] at hs
      obtain ⟨k, _, hpre2, hr⟩ := hs
      simp only [Option.getD_some]
      rcases Nat.lt_trichotomy i k with hlt | heq | hgt2
      · have := hpre2 i hlt
        omega
      · subst heq
        rcases hr with ⟨_, hr⟩ | ⟨hlt, _⟩
        · exact hr
        · omega
      · have := hpre k hgt2
        rcases hr with ⟨h3, _⟩ | ⟨h3, _⟩ <;> omega

theorem firstDifference_swap (f g : Nat → Int) (n : Nat) :
    firstDifference g f n = (firstDifference f g n).map (fun r => -r) := by
  induction n with
  | zero => simp [firstDifference]
  | succ n ih =>
    rw [firstDifference_succ, firstDifference_succ, ih]
    cases firstDifference f g n with
    | some r => simp [Option.or]
    | none =>
      simp only [Option.map_none', Option.or]
      by_cases h1 : f n > g n
      · have h2 : ¬ g n > f n := by omega
        have h3 : g n < f n := by omega
        simp [h1, h2, h3]
      · by_cases h2 : f n < g n
        · have h3 : g n > f n := by omega
          simp [h1, h2, h3]
        · have h3 : ¬ g n > f n := by omega
          have h4 : ¬ g n < f n := by omega
          simp [h1, h2, h3, h4]

theorem compareHands_swap (a b : List Int) : compareHands a b = -compareHands b a := by
  by_cases ha : a = []
  · subst ha; simp [compareHands]
  · by_cases hb : b = []
    · subst hb; simp [compareHands]
    · rw [compareHands_eq a b ha hb, compareHands_eq b a hb ha, max_comm b.length a.length,
        firstDifference_swap (entry a) (entry b)]
      cases firstDifference (entry a) (entry b) (max a.length b.length) <;> simp

theorem compareHands_lt_iff (a b : List Int) (ha : a ≠ []) (hb : b ≠ []) :
    compareHands a b = -1 ↔
      ∃ i, entry a i < entry b i ∧ ∀ j, j < i → entry a j = entry b j := by
  rw [compareHands_swap a b]
  have h := compareHands_gt_iff b a hb ha
  constructor
  · intro h1
    obtain ⟨i, hgt, hpre⟩ := h.mp (by omega)
    exact ⟨i, hgt, fun j hj => (hpre j hj).symm⟩
  · rintro ⟨i, hlt, hpre⟩
    have := h.mpr ⟨i, hlt, fun j hj => (hpre j hj).symm⟩
    omega

theorem compareHands_values (a b : List Int) :
    compareHands a b = 1 ∨ compareHands a b = -1 ∨ compareHands a b = 0 := by
  by_cases ha : a = []
  · subst ha; simp [compareHands]
  · by_cases hb : b = []
    · subst hb; simp [compareHands]
    · rw [compareHands_eq a b ha hb]
      have hs := firstDifference_spec (entry a) (entry b) (max a.length b.length)
      cases hf : firstDifference (entry a) (entry b) (max a.length b.length) with
      | none => simp
      | some r =>
        rw [hf] at hs
        obtain ⟨i, _, _, hr⟩ := hs
        rcases hr with ⟨_, hr⟩ | ⟨_, hr⟩ <;> simp [hr]

theorem compareHands_eq_zero_iff (a b : List Int) (ha : a ≠ []) (hb : b ≠ []) :
    compareHands a b = 0 ↔ ∀ i, entry a i = entry b i := by
  have hgt := compareHands_gt_iff a b ha hb
  have hlt := compareHands_lt_iff a b ha hb
  constructor
  · intro h0 i
    by_contra hne
    -- take the least position where the entries differ
    have hex : ∃ k, entry a k ≠ entry b k := ⟨i, hne⟩
    classical
    let k := Nat.find hex
    have hk : entry a k ≠ entry b k := Nat.find_spec hex
    have hmin : ∀ j, j < k → entry a j = entry b j := fun j hj => by
      by_contra hj2
      exact Nat.find_min hex hj hj2
    rcases lt_or_gt_of_ne hk with h1 | h1
    · have := hlt.mpr ⟨k, h1, hmin⟩
      omega
    · have := hgt.mpr ⟨k, h1, hmin⟩
      omega
  · intro hall
    rcases compareHands_values a b with h | h | h
    · obtain ⟨i, h1, _⟩ := hgt.mp h
      have := hall i
      omega
    · obtain ⟨i, h1, _⟩ := hlt.mp h
      have := hall i
      omega
    · exact h

theorem compareHands_congr (a1 a2 b1 b2 : List Int) (ha1 : a1 ≠ []) (ha2 : a2 ≠ [])
    (hb1 : b1 ≠ []) (hb2 : b2 ≠ []) (ha : ∀ i, entry a1 i = entry a2 i)
    (hb : ∀ i, entry b1 i = entry b2 i) : compareHands a1 b1 = compareHands a2 b2 := by
  have hgt1 := compareHands_gt_iff a1 b1 ha1 hb1
  have hgt2 := compareHands_gt_iff a2 b2 ha2 hb2
  have hlt1 := compareHands_lt_iff a1 b1 ha1 hb1
  have hlt2 := compareHands_lt_iff a2 b2 ha2 hb2
  have hz1 := compareHands_eq_zero_iff a1 b1 ha1 hb1
  have hz2 := compareHands_eq_zero_iff a2 b2 ha2 hb2
  simp only [ha, hb] at hgt1 hlt1 hz1
  rcases compareHands_values a1 b1 with h | h | h
  · rw [h, hgt2.mpr (hgt1.mp h)]
  · rw [h, hlt2.mpr (hlt1.mp h)]
  · rw [h, hz2.mpr (hz1.mp h)]

theorem entry_append_zeros (a : List Int) (k i : Nat) :
    entry (a ++ List.replicate k 0) i = entry a i := by
  unfold entry
  by_cases h : i < a.length
  · rw [List.getD_append _ _ _ _ h]
  · rw [List.getD_append_right _ _ _ _ (by omega), List.getD_eq_default a 0 (by omega)]
    by_cases h2 : i - a.length < k
    · rw [List.getD_eq_getElem _ _ (by simpa using h2)]
      simp
    · rw [List.getD_eq_default _ _ (by simp; omega)]

/-- C10: `compareHands` is lexicographic comparison with zero padding.  For
non-empty score arrays `a`, `b` (entry `i` of the padded array is `entry a i`):
the result is 1 exactly when `a` is larger at the first position where they
differ, -1 exactly when it is smaller there, 0 exactly when they differ
nowhere; a larger first entry gives 1 whatever follows; appending zeros to
either argument does not change the result; and
`compareHands(a, b) = -compareHands(b, a)`. -/
theorem compareHands_lexicographic (a b : List Int) (ha : a ≠ []) (hb : b ≠ []) :
    (compareHands a b = 1 ↔
      ∃ i, entry a i > entry b i ∧ ∀ j, j < i → entry a j = entry b j) ∧
    (compareHands a b = -1 ↔
      ∃ i, entry a i < entry b i ∧ ∀ j, j < i → entry a j = entry b j) ∧
    (compareHands a b = 0 ↔ ∀ i, entry a i = entry b i) ∧
    (entry a 0 > entry b 0 → compareHands a b = 1) ∧
    (∀ k, compareHands (a ++ List.replicate k 0) b = compareHands a b) ∧
    (∀ k, compareHands a (b ++ List.replicate k 0) = compareHands a b) ∧
    compareHands a b = -compareHands b a := by
  refine ⟨compareHands_gt_iff a b ha hb, compareHands_lt_iff a b ha hb,
    compareHands_eq_zero_iff a b ha hb, ?_, ?_, ?_, compareHands_swap a b⟩
  · intro h
    exact (compareHands_gt_iff a b ha hb).mpr ⟨0, h, fun j hj => absurd hj (by omega)⟩
  · intro k
    exact compareHands_congr _ _ _ _ (by simp [ha]) ha hb hb (entry_append_zeros a k)
      (fun _ => rfl)
  · intro k
    exact compareHands_congr _ _ _ _ ha ha (by simp [hb]) hb (fun _ => rfl)
      (entry_append_zeros b k)

/-- Witness for C10: a full house `[6,2,3]` beats high card
`[0,14,13,12,11,9]`. -/
theorem compareHands_lexicographic_witness :
    compareHands [6, 2, 3] [0, 14, 13, 12, 11, 9] = 1 ∧
    compareHands [6, 2, 3] [0, 14, 13, 12, 11, 9]
      = -compareHands [0, 14, 13, 12, 11, 9] [6, 2, 3] ∧
    compareHands ([6, 2, 3] ++ List.replicate 3 0) [0, 14, 13, 12, 11, 9]
      = compareHands [6, 2, 3] [0, 14, 13, 12, 11, 9] :=
  have h := compareHands_lexicographic [6, 2, 3] [0, 14, 13, 12, 11, 9] (by decide) (by decide)
  ⟨h.2.2.2.1 (by decide), h.2.2.2.2.2.2, h.2.2.2.2.1 3⟩

/-! ## Showdown -/

set_option maxRecDepth 100000 in
/-- C9 (evaluated at the failing input): for the spade flush `A K Q J 9`
`getBestHand` returns the flush cards in input order, so the two orderings of
the same five cards get different value lists and different showdown scores. -/
theorem getBestHand_flush_order :
    flushLowFirst = flushHighFirst.reverse ∧
    (getBestHand flushHighFirst).rank = 5 ∧ (getBestHand flushLowFirst).rank = 5 ∧
    (getBestHand flushHighFirst).value = [.vA, .vK, .vQ, .vJ, .v9] ∧
    (getBestHand flushLowFirst).value = [.v9, .vJ, .vQ, .vK, .vA] ∧
    showdownScore flushHighFirst = [5, 14, 13, 12, 11, 9] ∧
    showdownScore flushLowFirst = [5, 9, 11, 12, 13, 14] ∧
    compareHands (showdownScore flushHighFirst) (showdownScore flushLowFirst) = 1 := by
  decide

set_option maxRecDepth 100000 in
/-- C4 (evaluated at the failing input): seats 0 and 1 reach showdown with the
board `5♠ 7♠ 9♠ J♦ Q♦`; seat 0 holds `2♠ A♠` (ace-high flush), seat 1 holds
`3♠ K♠` (king-high flush).  `evaluateHand` ranks seat 0 higher, but `showdown`
scores the flushes in deal order and its winners list is seat 1 alone. -/
theorem showdown_flush_winner :
    (seats.filter (fun i => !flushShowdownState.folded i)) = [0, 1] ∧
    evaluateHand (exampleHoleCards 0 ++ exampleBoard) = [5, 14, 9, 7, 5, 2] ∧
    evaluateHand (exampleHoleCards 1 ++ exampleBoard) = [5, 13, 9, 7, 5, 3] ∧
    compareHands (evaluateHand (exampleHoleCards 0 ++ exampleBoard))
      (evaluateHand (exampleHoleCards 1 ++ exampleBoard)) = 1 ∧
    (rankedScores flushShowdownState).map (fun p => (p.player, p.score))
      = [(1, [5, 3, 13, 5, 7, 9]), (0, [5, 2, 14, 5, 7, 9])] ∧
    showdownWinners flushShowdownState = [1] ∧
    (showdown flushShowdownState).timers = [.showdownAward [1] "Flush"] := by
  decide

set_option maxRecDepth 100000 in
/-- C5 fails as stated: after seats 0..3 have contributed `[10, 10, 50, 50]`
with nobody folded and seat 0 holding the best hand, the showdown credits seat
0 with all 120 chips, more than the 40 it could win under side-pot rules, and
seats 2 and 3 receive nothing. -/
theorem side_pot_counterexample :
    seats.map shortStackBetting.currentBets = [10, 10, 50, 50] ∧
    seats.map shortStackBetting.chips = [0, 0, 50, 50] ∧
    seats.map shortStackBetting.folded = [false, false, false, false] ∧
    showdownWinners (showdown shortStackBetting) = [0] ∧
    (showdown shortStackBetting).timers = [.showdownAward [0] "Three of a Kind"] ∧
    seats.map shortStackShowdown.chips = [120, 0, 50, 50] ∧
    sidePotCap shortStackBetting.currentBets 0 = 40 ∧
    ¬ (shortStackShowdown.chips 0 - shortStackBetting.chips 0
        ≤ sidePotCap shortStackBetting.currentBets 0) := by
  decide

/-- C5 as amended: the script forms no side pots.  When the showdown has a
single winner `w`, its award callback schedules `awardPotToPlayer(w, ...)`, and
that call credits `w` with the entire pot (the pot plus every outstanding
bet), whatever each seat contributed; the other seats' chips are unchanged and
the pot is emptied. -/
theorem showdown_winner_takes_whole_pot (s : GameState) (w : Seat) (winningHand : String)
    (hn : NonNeg s) (hid : TxnOk s) (hna : s.potHasBeenAwarded = false)
    (hpos : s.pot + betsSum s > 0) :
    (showdownAward s [w] winningHand).timers
      = s.timers ++ [.awardPotToPlayer (seatIndex w) ("with " ++ winningHand)] ∧
    (awardPotToPlayer (showdownAward s [w] winningHand) (seatIndex w)
      ("with " ++ winningHand)).1 = true ∧
    (awardPotToPlayer (showdownAward s [w] winningHand) (seatIndex w)
      ("with " ++ winningHand)).2.chips w = s.chips w + (s.pot + betsSum s) ∧
    (∀ i, i ≠ w → (awardPotToPlayer (showdownAward s [w] winningHand) (seatIndex w)
      ("with " ++ winningHand)).2.chips i = s.chips i) ∧
    (awardPotToPlayer (showdownAward s [w] winningHand) (seatIndex w)
      ("with " ++ winningHand)).2.pot = 0 := by
  have hs : showdownAward s [w] winningHand
      = schedule s (.awardPotToPlayer (seatIndex w) ("with " ++ winningHand)) := by
    simp [showdownAward]
  rw [hs]
  have hn2 : NonNeg (schedule s (.awardPotToPlayer (seatIndex w) ("with " ++ winningHand))) :=
    hn
  rw [awardPotToPlayer_eq _ w _ hn2 hid hna hpos]
  refine ⟨rfl, rfl, ?_, ?_, rfl⟩
  · simp [awarded, schedule, betsSum]
  · intro i hi
    simp [awarded, schedule, Function.update_noteq hi]

set_option maxRecDepth 100000 in
/-- Witness for C5 as amended: in `showdown shortStackBetting` (pot 120 after
banking) the single winner, seat 0, is credited with 120. -/
theorem showdown_winner_takes_whole_pot_witness :
    (awardPotToPlayer (showdownAward (showdown shortStackBetting) [0] "Three of a Kind")
      (seatIndex 0) ("with " ++ "Three of a Kind")).2.chips 0 = 0 + (120 + 0) :=
  have hn : NonNeg (showdown shortStackBetting) := by
    refine ⟨fun i => ?_, fun i => ?_, by decide⟩ <;> fin_cases i <;> decide
  (showdown_winner_takes_whole_pot (showdown shortStackBetting) 0 "Three of a Kind" hn
    (le_refl (0 : Int)) (by decide) (by decide)).2.2.1

theorem chipsSum_update (chips : Seat → Int) (w : Seat) (d : Int) :
    chipsSum (Function.update chips w (chips w + d)) = chipsSum chips + d := by
  fin_cases w <;> simp [chipsSum, Function.update] <;> ring

theorem creditWinners_sum (splitAmount remainder : Int) (winners : List Seat) (index : Nat)
    (chips : Seat → Int) :
    chipsSum (creditWinners splitAmount remainder winners index chips)
      = chipsSum chips + winners.length * splitAmount
        + (if index = 0 ∧ winners ≠ [] then remainder else 0) := by
  induction winners generalizing index chips with
  | nil => simp [creditWinners]
  | cons w rest ih =>
    unfold creditWinners
    dsimp only
    rw [ih, chipsSum_update]
    by_cases h0 : index = 0
    · simp [h0]; ring
    · simp [h0]; ring

theorem creditWinners_apply (splitAmount remainder : Int) (winners : List Seat)
    (hnd : winners.Nodup) (index : Nat) (chips : Seat → Int) (i : Seat) :
    creditWinners splitAmount remainder winners index chips i
      = chips i + (if i ∈ winners then
          splitAmount + (if index = 0 ∧ winners.head? = some i then remainder else 0)
        else 0) := by
  induction winners generalizing index chips with
  | nil => simp [creditWinners]
  | cons w rest ih =>
    unfold creditWinners
    dsimp only
    rw [List.nodup_cons] at hnd
    rw [ih hnd.2]
    by_cases hiw : i = w
    · subst hiw
      simp [hnd.1]
    · have hwi : ¬ w = i := fun h => hiw h.symm
      simp [Function.update_noteq hiw, hiw, hwi]

theorem creditWinners_ge (splitAmount remainder : Int) (h1 : 0 ≤ splitAmount)
    (h2 : 0 ≤ remainder) (winners : List Seat) (index : Nat) (chips : Seat → Int) (i : Seat) :
    chips i ≤ creditWinners splitAmount remainder winners index chips i := by
  induction winners generalizing index chips with
  | nil => simp [creditWinners]
  | cons w rest ih =>
    unfold creditWinners
    dsimp only
    refine le_trans ?_ (ih _ _)
    by_cases hiw : i = w
    · subst hiw
      simp only [Function.update_same]
      split_ifs <;> omega
    · simp [Function.update_noteq hiw]

theorem showdownAward_split (s : GameState) (winners : List Seat) (winningHand : String)
    (hk : 2 ≤ winners.length) (hn : NonNeg s) :
    showdownAward s winners winningHand
      = { s with
          pot := 0
          chips := creditWinners (s.pot / (winners.length : Int))
            (s.pot - s.pot / (winners.length : Int) * (winners.length : Int)) winners 0 s.chips
          potHasBeenAwarded := true
          timers := s.timers ++ [.newGame] } := by
  unfold showdownAward
  have h1 : ¬ winners.length = 1 := by omega
  have h2 : winners.length > 1 := by omega
  rw [if_neg h1, if_pos h2]
  dsimp only
  have hkpos : (0 : Int) < (winners.length : Int) := by omega
  have hsp : 0 ≤ s.pot / (winners.length : Int) := Int.ediv_nonneg hn.2.2 (le_of_lt hkpos)
  have hrem : 0 ≤ s.pot - s.pot / (winners.length : Int) * (winners.length : Int) := by
    have := Int.emod_nonneg s.pot (ne_of_gt hkpos)
    rw [Int.emod_def] at this
    rw [mul_comm]
    exact this
  rw [updateChipsAndBets_of_nonNeg]
  · rfl
  · refine ⟨fun i => ?_, hn.2.1, le_refl _⟩
    exact le_trans (hn.1 i) (creditWinners_ge _ _ hsp hrem winners 0 s.chips i)

theorem showdownScores_score_ne_nil (s : GameState) (p : PlayerScore)
    (hp : p ∈ showdownScores s) : p.score ≠ [] := by
  unfold showdownScores at hp
  rw [List.mem_filterMap] at hp
  obtain ⟨i, _, hi⟩ := hp
  dsimp only at hi
  split_ifs at hi
  simp only [Option.some.injEq] at hi
  rw [← hi]
  exact List.cons_ne_nil _ _

theorem filterMap_player_sublist (f : Seat → Option PlayerScore)
    (hf : ∀ i p, f i = some p → p.player = i) (l : List Seat) :
    ((l.filterMap f).map (fun p => p.player)).Sublist l := by
  induction l with
  | nil => simp
  | cons a l ih =>
    rw [List.filterMap_cons]
    cases h : f a with
    | none => exact ih.cons a
    | some p =>
      simp only [List.map_cons]
      rw [hf a p h]
      exact ih.cons₂ a

theorem showdownScores_players_sorted (s : GameState) :
    ((showdownScores s).map (fun p => p.player)).Sorted (· < ·) := by
  have hsub : ((showdownScores s).map (fun p => p.player)).Sublist seats := by
    refine (filterMap_player_sublist _ ?_ _).trans (List.filter_sublist _)
    intro i p hp
    dsimp only at hp
    split_ifs at hp
    simp only [Option.some.injEq] at hp
    rw [← hp]
  have hseats : seats.Sorted (· < ·) := by decide
  exact List.Pairwise.sublist hsub hseats

theorem showdownWinners_eq_filter (s : GameState) (best : PlayerScore) (rest : List PlayerScore)
    (h : rankedScores s = best :: rest) :
    showdownWinners s
      = ((showdownScores s).filter (fun p => compareHands p.score best.score = 0)).map
          (fun p => p.player) := by
  unfold showdownWinners
  rw [h]
  dsimp only
  rw [← h]
  congr 1
  have hbest : best ∈ showdownScores s := by
    have : best ∈ rankedScores s := by rw [h]; exact List.mem_cons_self _ _
    exact (List.mem_insertionSort scoreOrder).mp this
  have hbne := showdownScores_score_ne_nil s best hbest
  -- the tied scores, in seat order, are pairwise in sort order
  have hpw : ((showdownScores s).filter
      (fun p => compareHands p.score best.score = 0)).Pairwise scoreOrder := by
    rw [List.pairwise_iff_forall_sublist]
    intro x y hxy
    have hx : x ∈ (showdownScores s).filter (fun p => compareHands p.score best.score = 0) :=
      hxy.subset (by simp)
    have hy : y ∈ (showdownScores s).filter (fun p => compareHands p.score best.score = 0) :=
      hxy.subset (by simp)
    rw [List.mem_filter] at hx hy
    have hxne := showdownScores_score_ne_nil s x hx.1
    have hyne := showdownScores_score_ne_nil s y hy.1
    have hx0 := (compareHands_eq_zero_iff _ _ hxne hbne).mp (by simpa using hx.2)
    have hy0 := (compareHands_eq_zero_iff _ _ hyne hbne).mp (by simpa using hy.2)
    unfold scoreOrder
    rw [(compareHands_eq_zero_iff _ _ hyne hxne).mpr (fun i => (hy0 i).trans (hx0 i).symm)]
  have hsub := List.sublist_insertionSort hpw (List.filter_sublist _)
  have hsub2 := hsub.filter (fun p => decide (compareHands p.score best.score = 0))
  rw [List.filter_filter] at hsub2
  simp only [Bool.and_self] at hsub2
  have hlen := ((List.perm_insertionSort scoreOrder (showdownScores s)).filter
    (fun p => decide (compareHands p.score best.score = 0))).length_eq
  exact (hsub2.eq_of_length hlen.symm).symm

theorem showdownWinners_sorted (s : GameState) : (showdownWinners s).Sorted (· < ·) := by
  cases h : rankedScores s with
  | nil => simp [showdownWinners, h]
  | cons best rest =>
    rw [showdownWinners_eq_filter s best rest h]
    exact List.Pairwise.sublist ((List.filter_sublist _).map _)
      (showdownScores_players_sorted s)

/-- C6: in the tie branch of `showdown` (winners list `W` of a showdown state
`s0`, at least two winners, run on a state `s` with non-negative amounts and
pot `P`): every winner's chips grow by `⌊P / k⌋`, the first winner of the list
also receives the remainder `P - k * ⌊P / k⌋`, the other seats' chips are
unchanged, the pot becomes 0, the chips credited add up to exactly `P`, and
the first winner is the lowest-indexed seat among the winners. -/
theorem tie_split_loses_no_chip (s0 s : GameState) (winningHand : String)
    (hk : 2 ≤ (showdownWinners s0).length) (hn : NonNeg s) :
    (∀ w, w ∈ showdownWinners s0 →
      (showdownAward s (showdownWinners s0) winningHand).chips w
        = s.chips w + s.pot / ((showdownWinners s0).length : Int)
          + (if (showdownWinners s0).head? = some w then
              s.pot - ((showdownWinners s0).length : Int)
                * (s.pot / ((showdownWinners s0).length : Int))
            else 0)) ∧
    (∀ i, i ∉ showdownWinners s0 →
      (showdownAward s (showdownWinners s0) winningHand).chips i = s.chips i) ∧
    (showdownAward s (showdownWinners s0) winningHand).pot = 0 ∧
    chipsSum (showdownAward s (showdownWinners s0) winningHand).chips
      = chipsSum s.chips + s.pot ∧
    (∀ w, w ∈ showdownWinners s0 → (showdownWinners s0).headD 0 ≤ w) := by
  have hsorted := showdownWinners_sorted s0
  have hnd : (showdownWinners s0).Nodup := hsorted.nodup
  rw [showdownAward_split s _ winningHand hk hn]
  dsimp only
  refine ⟨fun w hw => ?_, fun i hi => ?_, rfl, ?_, fun w hw => ?_⟩
  · rw [creditWinners_apply _ _ _ hnd]
    simp only [hw, if_true, true_and]
    rw [mul_comm ((showdownWinners s0).length : Int)]
    ring
  · rw [creditWinners_apply _ _ _ hnd]
    simp [hi]
  · rw [creditWinners_sum]
    have hne : showdownWinners s0 ≠ [] := by
      intro h
      rw [h] at hk
      simp at hk
    simp only [hne, ne_eq, not_false_eq_true, and_self, if_true]
    ring
  · cases hW : showdownWinners s0 with
    | nil => rw [hW] at hw; simp at hw
    | cons a tl =>
      rw [hW] at hw hsorted
      simp only [List.headD_cons]
      rcases List.mem_cons.mp hw with h | h
      · rw [h]
      · exact le_of_lt (List.rel_of_sorted_cons hsorted w h)

set_option maxRecDepth 100000 in
/-- Witness for C6: in `tieShowdownState` seats 0, 2 and 3 tie with the
board's straight; the pot of 100 is split 33 each and seat 0 also receives the
odd chip. -/
theorem tie_split_loses_no_chip_witness :
    showdownWinners tieShowdownState = [0, 2, 3] ∧
    (showdownAward tieShowdownState (showdownWinners tieShowdownState) "Straight").chips 0
      = 70 + 34 ∧
    (showdownAward tieShowdownState (showdownWinners tieShowdownState) "Straight").chips 2
      = 70 + 33 ∧
    (showdownAward tieShowdownState (showdownWinners tieShowdownState) "Straight").chips 1
      = 90 ∧
    chipsSum (showdownAward tieShowdownState (showdownWinners tieShowdownState)
      "Straight").chips = chipsSum tieShowdownState.chips + 100 :=
  have hW : showdownWinners tieShowdownState = [0, 2, 3] := by decide
  have hn : NonNeg tieShowdownState := by
    refine ⟨fun i => ?_, fun i => ?_, by decide⟩ <;> fin_cases i <;> decide
  have h := tie_split_loses_no_chip tieShowdownState tieShowdownState "Straight"
    (by rw [hW]; decide) hn
  ⟨hW, (h.1 0 (by rw [hW]; decide)).trans (by rw [hW]; decide),
    (h.1 2 (by rw [hW]; decide)).trans (by rw [hW]; decide),
    (h.2.1 1 (by rw [hW]; decide)).trans (by decide), h.2.2.2.1⟩

/-! ## Sorting and counting lemmas -/


theorem sortDesc_sorted (l : List Int) : (sortDesc l).Sorted (fun a b => a ≥ b) :=
  List.sorted_insertionSort _ l

theorem sortDesc_perm (l : List Int) : (sortDesc l).Perm l :=
  List.perm_insertionSort _ l

theorem sortDesc_eq_of_perm {l1 l2 : List Int} (h : l1.Perm l2) : sortDesc l1 = sortDesc l2 :=
  List.eq_of_perm_of_sorted ((sortDesc_perm l1).trans (h.trans (sortDesc_perm l2).symm))
    (sortDesc_sorted l1) (sortDesc_sorted l2)

theorem sortDesc_of_sorted {l : List Int} (h : l.Sorted (fun a b => a ≥ b)) : sortDesc l = l :=
  List.Sorted.insertionSort_eq h

theorem mem_uniqFirst {α : Type} [DecidableEq α] (l : List α) (a : α) :
    a ∈ uniqFirst l ↔ a ∈ l := by
  induction l with
  | nil => simp [uniqFirst]
  | cons b l ih =>
    simp only [uniqFirst, List.mem_cons, List.mem_filter, ih]
    by_cases h : a = b <;> simp [h]

theorem nodup_uniqFirst {α : Type} [DecidableEq α] (l : List α) : (uniqFirst l).Nodup := by
  induction l with
  | nil => simp [uniqFirst]
  | cons b l ih =>
    simp only [uniqFirst, List.nodup_cons, List.mem_filter]
    exact ⟨by simp, ih.filter _⟩

theorem uniqFirst_sublist {α : Type} [DecidableEq α] (l : List α) : (uniqFirst l).Sublist l := by
  induction l with
  | nil => simp [uniqFirst]
  | cons b l ih =>
    simp only [uniqFirst]
    exact ((List.filter_sublist _).trans ih).cons₂ b

theorem uniqFirst_of_nodup {α : Type} [DecidableEq α] (l : List α) (h : l.Nodup) :
    uniqFirst l = l := by
  induction l with
  | nil => simp [uniqFirst]
  | cons b l ih =>
    rw [List.nodup_cons] at h
    simp only [uniqFirst, ih h.2]
    congr 1
    rw [List.filter_eq_self]
    intro a ha
    simp only [ne_eq, decide_eq_true_eq]
    rintro rfl
    exact h.1 ha

theorem uniqFirst_perm {α : Type} [DecidableEq α] {l1 l2 : List α}
    (h : ∀ a, a ∈ l1 ↔ a ∈ l2) : (uniqFirst l1).Perm (uniqFirst l2) := by
  rw [List.perm_ext_iff_of_nodup (nodup_uniqFirst l1) (nodup_uniqFirst l2)]
  intro a
  rw [mem_uniqFirst, mem_uniqFirst, h]

theorem RANKS_injective : Function.Injective RANKS := by
  intro a b h
  cases a <;> cases b <;> first | rfl | (exact absurd h (by decide))

theorem RANKS_range (v : Value) : 2 ≤ RANKS v ∧ RANKS v ≤ 14 := by
  cases v <;> decide

theorem countsOrder_iff (a b : RankCount) :
    countsOrder a b ↔ b.count < a.count ∨ (b.count = a.count ∧ b.rank ≤ a.rank) := by
  unfold countsOrder
  by_cases h : b.count = a.count
  · simp [h]
  · simp only [ne_eq, h, not_false_eq_true, if_true, false_and, or_false]
    omega

theorem objectKeys_perm (inserted : List Value) :
    (objectKeys inserted).Perm (uniqFirst inserted) := by
  unfold objectKeys
  dsimp only
  refine ((List.perm_insertionSort _ _).append_right _).trans ?_
  exact List.filter_append_perm isIndexKey (uniqFirst inserted)

theorem mem_objectKeys (inserted : List Value) (v : Value) :
    v ∈ objectKeys inserted ↔ v ∈ inserted := by
  rw [(objectKeys_perm inserted).mem_iff, mem_uniqFirst]

theorem count_ranksOf (cards : List Card) (v : Value) :
    (cards.map (fun c => c.value)).count v = (ranksOf cards).count (RANKS v) := by
  have h : ranksOf cards = (cards.map (fun c => c.value)).map RANKS := by
    simp [ranksOf, List.map_map, Function.comp]
  rw [h, List.count_map_of_injective _ _ RANKS_injective]

theorem analyzeRanks_perm (cards : List Card) : (analyzeRanks cards).Perm (ranksOf cards) :=
  sortDesc_perm _

theorem rankCounts_eq (cards : List Card) :
    rankCounts cards = countsCanon (analyzeRanks cards) := by
  unfold rankCounts countsCanon
  dsimp only
  apply List.eq_of_perm_of_sorted (r := countsOrder) ?_ (List.sorted_insertionSort _ _)
    (List.sorted_insertionSort _ _)
  refine (List.perm_insertionSort _ _).trans (List.Perm.trans ?_ (List.perm_insertionSort _ _).symm)
  -- the `count > 0` filter keeps every entry
  rw [List.filter_eq_self.mpr]
  · -- rewrite the counts in terms of numeric ranks
    have hcount : ∀ v, (cards.map (fun c => c.value)).count v
        = (analyzeRanks cards).count (RANKS v) := fun v => by
      rw [count_ranksOf, (analyzeRanks_perm cards).count_eq]
    simp only [hcount]
    have hmap : (objectKeys (cards.map (fun c => c.value))).map
        (fun v => RankCount.mk (RANKS v) ((analyzeRanks cards).count (RANKS v)))
        = ((objectKeys (cards.map (fun c => c.value))).map RANKS).map
          (fun r => RankCount.mk r ((analyzeRanks cards).count r)) := by
      simp [List.map_map, Function.comp]
    rw [hmap]
    apply List.Perm.map
    rw [List.perm_ext_iff_of_nodup]
    · intro r
      simp only [List.mem_map, mem_objectKeys, mem_uniqFirst,
        (analyzeRanks_perm cards).mem_iff, ranksOf]
      constructor
      · rintro ⟨v, ⟨c, hc, rfl⟩, rfl⟩
        exact ⟨c, hc, rfl⟩
      · rintro ⟨c, hc, rfl⟩
        exact ⟨c.value, ⟨c, hc, rfl⟩, rfl⟩
    · exact ((objectKeys_perm _).nodup_iff.mpr (nodup_uniqFirst _)).map RANKS_injective
    · exact nodup_uniqFirst _
  · intro e he
    rw [List.mem_map] at he
    obtain ⟨v, hv, rfl⟩ := he
    rw [mem_objectKeys] at hv
    simpa using List.count_pos_iff.mpr hv

theorem flushSuitOf_some {cards : List Card} {s : Suit} (h : flushSuitOf cards = some s) :
    (cards.map (fun c => c.suit)).count s ≥ 5 := by
  unfold flushSuitOf at h
  have := List.find?_some h
  simpa using this

theorem flushSuitOf_none {cards : List Card} (h : flushSuitOf cards = none) (s : Suit) :
    (cards.map (fun c => c.suit)).count s < 5 := by
  unfold flushSuitOf at h
  dsimp only at h
  rw [List.find?_eq_none] at h
  by_cases hs : s ∈ cards.map (fun c => c.suit)
  · have := h s ((mem_uniqFirst _ _).mpr hs)
    simpa using this
  · rw [List.count_eq_zero_of_not_mem hs]
    omega

theorem count_suit_eq_length_iff (cards : List Card) (s : Suit) :
    (cards.map (fun c => c.suit)).count s = cards.length ↔ ∀ c, c ∈ cards → c.suit = s := by
  rw [← List.length_map cards (fun c => c.suit), List.count_eq_length]
  simp only [List.mem_map, forall_exists_index, and_imp, forall_apply_eq_imp_iff₂]
  constructor
  · intro h c hc
    exact (h c hc).symm
  · intro h c hc
    exact (h c hc).symm

theorem flushSuitOf_five_sameSuit (cards : List Card) (hlen : cards.length = 5)
    (hss : SameSuit cards) :
    ∃ s, flushSuitOf cards = some s ∧ ∀ c, c ∈ cards → c.suit = s := by
  cases hf : flushSuitOf cards with
  | none =>
    exfalso
    obtain ⟨c0, hc0⟩ := List.exists_mem_of_length_pos (by omega : 0 < cards.length)
    have h1 := flushSuitOf_none hf c0.suit
    have h2 := (count_suit_eq_length_iff cards c0.suit).mpr (fun c hc => hss c hc c0 hc0)
    omega
  | some s =>
    refine ⟨s, rfl, ?_⟩
    have h1 := flushSuitOf_some hf
    have h2 := List.count_le_length s (cards.map (fun c => c.suit))
    rw [List.length_map] at h2
    exact (count_suit_eq_length_iff cards s).mp (by omega)

theorem flushSuitOf_five_not_sameSuit (cards : List Card) (hlen : cards.length = 5)
    (hns : ¬ SameSuit cards) : flushSuitOf cards = none := by
  cases hf : flushSuitOf cards with
  | none => rfl
  | some s =>
    exfalso
    apply hns
    have h1 := flushSuitOf_some hf
    have h2 := List.count_le_length s (cards.map (fun c => c.suit))
    rw [List.length_map] at h2
    have h3 := (count_suit_eq_length_iff cards s).mp (by omega)
    intro c hc d hd
    rw [h3 c hc, h3 d hd]

/-- Cards of one suit with distinct faces have distinct ranks. -/
theorem ranksOf_nodup_of_sameSuit (cards : List Card) (hnd : cards.Nodup)
    (hss : SameSuit cards) : (ranksOf cards).Nodup := by
  unfold ranksOf
  rw [List.nodup_map_iff_inj_on hnd]
  intro c hc d hd h
  have hv : c.value = d.value := RANKS_injective h
  have hs : c.suit = d.suit := hss c hc d hd
  cases c
  cases d
  simp only [Card.mk.injEq]
  exact ⟨hv, hs⟩

theorem analyzeRanks_strict_of_sameSuit (cards : List Card) (hnd : cards.Nodup)
    (hss : SameSuit cards) : (analyzeRanks cards).Sorted (fun a b => a > b) := by
  have h1 := sortDesc_sorted (cards.map (fun c => RANKS c.value))
  have h2 : (analyzeRanks cards).Nodup :=
    (analyzeRanks_perm cards).nodup_iff.mpr (ranksOf_nodup_of_sameSuit cards hnd hss)
  unfold analyzeRanks
  unfold analyzeRanks at h2
  unfold List.Sorted at h1 ⊢
  unfold List.Nodup at h2
  refine (h1.and h2).imp ?_
  intro a b hab
  exact lt_of_le_of_ne hab.1 (Ne.symm hab.2)

theorem strict_nodup {l : List Int} (h : l.Sorted (fun a b => a > b)) : l.Nodup := by
  unfold List.Sorted at h
  unfold List.Nodup
  exact h.imp (fun hab => ne_of_gt hab)

theorem strict_sorted {l : List Int} (h : l.Sorted (fun a b => a > b)) :
    l.Sorted (fun a b => a ≥ b) := by
  unfold List.Sorted at h ⊢
  exact h.imp (fun hab => le_of_lt hab)

theorem analyzeRanks_length (cards : List Card) : (analyzeRanks cards).length = cards.length := by
  rw [(analyzeRanks_perm cards).length_eq, ranksOf, List.length_map]

theorem evaluateHand_five_flush (cards : List Card) (hlen : cards.length = 5)
    (hnd : cards.Nodup) (hss : SameSuit cards) :
    evaluateHand cards
      = handValue (analyzeRanks cards) (countsCanon (analyzeRanks cards)) true
          (ranksOf cards) (straightHighOf (analyzeRanks cards))
          (straightHighOf (analyzeRanks cards))
          (decide (findStraightHigh (analyzeRanks cards) = some 14)) := by
  obtain ⟨s, hs, hall⟩ := flushSuitOf_five_sameSuit cards hlen hss
  have hstrict := analyzeRanks_strict_of_sameSuit cards hnd hss
  have hfilter : cards.filter (fun c => decide (some c.suit = some s)) = cards := by
    rw [List.filter_eq_self]
    intro c hc
    simp [hall c hc]
  unfold evaluateHand
  dsimp only
  rw [if_neg (by omega), if_neg (by rw [analyzeRanks_length]; omega), rankCounts_eq, hs]
  simp only [Option.isSome_some, if_true, hfilter, Bool.true_and]
  have hfr : sortDesc (List.map (fun c => RANKS c.value) cards) = analyzeRanks cards := rfl
  rw [hfr, uniqFirst_of_nodup _ (strict_nodup hstrict), sortDesc_of_sorted (strict_sorted hstrict)]
  simp [hlen, ranksOf]

theorem evaluateHand_five_noflush (cards : List Card) (hlen : cards.length = 5)
    (hns : ¬ SameSuit cards) :
    evaluateHand cards
      = handValue (analyzeRanks cards) (countsCanon (analyzeRanks cards)) false []
          (straightHighOf (sortDesc (uniqFirst (analyzeRanks cards)))) none false := by
  have hs := flushSuitOf_five_not_sameSuit cards hlen hns
  unfold evaluateHand
  dsimp only
  rw [if_neg (by omega), if_neg (by rw [analyzeRanks_length]; omega), rankCounts_eq, hs]
  simp

theorem count_rank_le_four (cards : List Card) (hnd : cards.Nodup) (r : Int) :
    (ranksOf cards).count r ≤ 4 := by
  have h1 : (ranksOf cards).count r
      = ((cards.filter (fun c => RANKS c.value = r)).map (fun c => c.suit)).length := by
    unfold ranksOf
    rw [List.count_eq_countP, List.countP_map, List.countP_eq_length_filter, List.length_map]
    congr 1
  have h2 : ((cards.filter (fun c => RANKS c.value = r)).map (fun c => c.suit)).Nodup := by
    rw [List.nodup_map_iff_inj_on (hnd.filter _)]
    intro c hc d hd h
    rw [List.mem_filter] at hc hd
    have hv : c.value = d.value :=
      RANKS_injective ((of_decide_eq_true hc.2).trans (of_decide_eq_true hd.2).symm)
    cases c
    cases d
    simp only [Card.mk.injEq]
    exact ⟨hv, h⟩
  have h3 := List.Nodup.length_le_card h2
  have h4 : Fintype.card Suit = 4 := by decide
  omega

theorem analyzeRanks_of_hasRanks {cards : List Card} {l : List Int} (h : HasRanks cards l) :
    analyzeRanks cards = sortDesc l :=
  sortDesc_eq_of_perm h

theorem not_sameSuit_of_pair {cards : List Card} (hnd : cards.Nodup) {l : List Int}
    (h : HasRanks cards l) (hdup : ¬ l.Nodup) : ¬ SameSuit cards := fun hss =>
  hdup (h.nodup_iff.mp (ranksOf_nodup_of_sameSuit cards hnd hss))

theorem evaluateHand_quads (cards : List Card) (hlen : cards.length = 5) (hnd : cards.Nodup)
    (q k : Int) (h : HasRanks cards [q, q, q, q, k]) : evaluateHand cards = [7, q, k] := by
  have hqk : q ≠ k := by
    rintro rfl
    have := count_rank_le_four cards hnd q
    rw [h.count_eq] at this
    simp at this
  have hns : ¬ SameSuit cards := not_sameSuit_of_pair hnd h (by simp)
  rw [evaluateHand_five_noflush cards hlen hns, analyzeRanks_of_hasRanks h]
  have hkq : k ≠ q := fun h => hqk h.symm
  rcases lt_or_gt_of_ne hqk with hlt | hgt
  · have hs : sortDesc [q, q, q, q, k] = [k, q, q, q, q] := by
      simp [sortDesc, List.insertionSort, List.orderedInsert, le_of_lt hlt, not_le.mpr hlt]
    rw [hs]
    have hc : countsCanon [k, q, q, q, q] = [⟨q, 4⟩, ⟨k, 1⟩] := by
      simp [countsCanon, uniqFirst, List.count_cons, hqk, hkq, List.insertionSort,
        List.orderedInsert, countsOrder]
    rw [hc]
    simp [handValue, truthy, hqk, hkq]
  · have hs : sortDesc [q, q, q, q, k] = [q, q, q, q, k] := by
      simp [sortDesc, List.insertionSort, List.orderedInsert, le_of_lt hgt, not_le.mpr hgt]
    rw [hs]
    have hc : countsCanon [q, q, q, q, k] = [⟨q, 4⟩, ⟨k, 1⟩] := by
      simp [countsCanon, uniqFirst, List.count_cons, hqk, hkq, List.insertionSort,
        List.orderedInsert, countsOrder]
    rw [hc]
    simp [handValue, truthy, hqk, hkq]

theorem mem_ranksOf_range {cards : List Card} {r : Int} (h : r ∈ ranksOf cards) :
    2 ≤ r ∧ r ≤ 14 := by
  unfold ranksOf at h
  rw [List.mem_map] at h
  obtain ⟨c, _, rfl⟩ := h
  exact RANKS_range c.value

theorem hasWheel_iff (u : List Int) :
    hasWheel u = true ↔ 14 ∈ u ∧ 2 ∈ u ∧ 3 ∈ u ∧ 4 ∈ u ∧ 5 ∈ u := by
  simp [hasWheel, and_assoc]

theorem length_of_hasWheel {u : List Int} (h : hasWheel u = true) : 5 ≤ u.length := by
  rw [hasWheel_iff] at h
  obtain ⟨h1, h2, h3, h4, h5⟩ := h
  have hsub : [14, 2, 3, 4, 5] ⊆ u := by
    intro x hx
    simp only [List.mem_cons, List.mem_singleton, List.not_mem_nil, or_false] at hx
    rcases hx with rfl | rfl | rfl | rfl | rfl <;> assumption
  have := (List.subperm_of_subset (by decide : ([14, 2, 3, 4, 5] : List Int).Nodup) hsub).length_le
  simpa using this

theorem straightHighOf_short {u : List Int} (h : u.length < 5) : straightHighOf u = none := by
  unfold straightHighOf findStraightHigh
  have h0 : u.length - 4 = 0 := by omega
  have hw : hasWheel u = false := by
    by_contra hcon
    have := length_of_hasWheel (by simpa using hcon)
    omega
  simp [h0, hw]

theorem evaluateHand_fullHouse (cards : List Card) (hlen : cards.length = 5) (hnd : cards.Nodup)
    (t p : Int) (h : HasRanks cards [t, t, t, p, p]) : evaluateHand cards = [6, t, p] := by
  have htp : t ≠ p := by
    rintro rfl
    have := count_rank_le_four cards hnd t
    rw [h.count_eq] at this
    simp at this
  have hpt : p ≠ t := fun h => htp h.symm
  have hns : ¬ SameSuit cards := not_sameSuit_of_pair hnd h (by simp)
  rw [evaluateHand_five_noflush cards hlen hns, analyzeRanks_of_hasRanks h]
  rcases lt_or_gt_of_ne htp with hlt | hgt
  · have hs : sortDesc [t, t, t, p, p] = [p, p, t, t, t] := by
      simp [sortDesc, List.insertionSort, List.orderedInsert, le_of_lt hlt, not_le.mpr hlt]
    rw [hs]
    have hc : countsCanon [p, p, t, t, t] = [⟨t, 3⟩, ⟨p, 2⟩] := by
      simp [countsCanon, uniqFirst, List.count_cons, htp, hpt, List.insertionSort,
        List.orderedInsert, countsOrder]
    rw [hc]
    simp [handValue, truthy, htp, hpt]
  · have hs : sortDesc [t, t, t, p, p] = [t, t, t, p, p] := by
      simp [sortDesc, List.insertionSort, List.orderedInsert, le_of_lt hgt, not_le.mpr hgt]
    rw [hs]
    have hc : countsCanon [t, t, t, p, p] = [⟨t, 3⟩, ⟨p, 2⟩] := by
      simp [countsCanon, uniqFirst, List.count_cons, htp, hpt, List.insertionSort,
        List.orderedInsert, countsOrder]
    rw [hc]
    simp [handValue, truthy, htp, hpt]

theorem countsCanon_perm {l1 l2 : List Int} (h : l1.Perm l2) :
    countsCanon l1 = countsCanon l2 := by
  unfold countsCanon
  apply List.eq_of_perm_of_sorted (r := countsOrder) ?_ (List.sorted_insertionSort _ _)
    (List.sorted_insertionSort _ _)
  refine (List.perm_insertionSort _ _).trans (List.Perm.trans ?_ (List.perm_insertionSort _ _).symm)
  have hc : (fun r => RankCount.mk r (l1.count r)) = (fun r => RankCount.mk r (l2.count r)) := by
    funext r
    rw [h.count_eq]
  rw [hc]
  exact (uniqFirst_perm (fun a => h.mem_iff)).map _

theorem filter_sortDesc (l : List Int) (p : Int → Bool) :
    (sortDesc l).filter p = sortDesc (l.filter p) := by
  apply List.eq_of_perm_of_sorted (r := fun a b : Int => a ≥ b)
  · exact ((sortDesc_perm l).filter p).trans (sortDesc_perm _).symm
  · exact List.Pairwise.sublist (List.filter_sublist _) (sortDesc_sorted l)
  · exact sortDesc_sorted _

theorem length_uniqFirst_sortDesc (l : List Int) :
    (sortDesc (uniqFirst (sortDesc l))).length = (uniqFirst l).length := by
  rw [(sortDesc_perm _).length_eq]
  exact (uniqFirst_perm (fun a => (sortDesc_perm l).mem_iff)).length_eq

theorem evaluateHand_trips (cards : List Card) (hlen : cards.length = 5) (hnd : cards.Nodup)
    (t k1 k2 : Int) (h : HasRanks cards [t, t, t, k1, k2]) (h12 : k1 > k2) (ht1 : t ≠ k1)
    (ht2 : t ≠ k2) : evaluateHand cards = [3, t, k1, k2] := by
  have hns : ¬ SameSuit cards := not_sameSuit_of_pair hnd h (by simp)
  rw [evaluateHand_five_noflush cards hlen hns, analyzeRanks_of_hasRanks h]
  have h1t : k1 ≠ t := fun h => ht1 h.symm
  have h2t : k2 ≠ t := fun h => ht2 h.symm
  have hne12 : k1 ≠ k2 := ne_of_gt h12
  have hne21 : k2 ≠ k1 := fun h => hne12 h.symm
  have hc : countsCanon (sortDesc [t, t, t, k1, k2]) = [⟨t, 3⟩, ⟨k1, 1⟩, ⟨k2, 1⟩] := by
    rw [countsCanon_perm (sortDesc_perm _)]
    simp [countsCanon, uniqFirst, List.count_cons, ht1, ht2, h1t, h2t, hne12, hne21,
      List.insertionSort, List.orderedInsert, countsOrder, le_of_lt h12]
  have hst : straightHighOf (sortDesc (uniqFirst (sortDesc [t, t, t, k1, k2]))) = none := by
    apply straightHighOf_short
    rw [length_uniqFirst_sortDesc]
    simp [uniqFirst, ht1, ht2, h1t, h2t, hne12, hne21]
  have hk : (sortDesc [t, t, t, k1, k2]).filter (fun r => decide (r ≠ t)) = [k1, k2] := by
    rw [filter_sortDesc]
    simp [List.filter, h1t, h2t, sortDesc, List.insertionSort, List.orderedInsert, le_of_lt h12]
  rw [hc, hst]
  simp only [handValue, hk]
  simp [truthy, padZeros]

theorem evaluateHand_twoPair (cards : List Card) (hlen : cards.length = 5) (hnd : cards.Nodup)
    (hi lo k : Int) (h : HasRanks cards [hi, hi, lo, lo, k]) (hhl : hi > lo) (hkh : k ≠ hi)
    (hkl : k ≠ lo) : evaluateHand cards = [2, hi, lo, k] := by
  have hns : ¬ SameSuit cards := not_sameSuit_of_pair hnd h (by simp)
  rw [evaluateHand_five_noflush cards hlen hns, analyzeRanks_of_hasRanks h]
  have hhk : hi ≠ k := fun h => hkh h.symm
  have hlk : lo ≠ k := fun h => hkl h.symm
  have hne : hi ≠ lo := ne_of_gt hhl
  have hne2 : lo ≠ hi := fun h => hne h.symm
  have hc : countsCanon (sortDesc [hi, hi, lo, lo, k]) = [⟨hi, 2⟩, ⟨lo, 2⟩, ⟨k, 1⟩] := by
    rw [countsCanon_perm (sortDesc_perm _)]
    simp [countsCanon, uniqFirst, List.count_cons, hkh, hkl, hhk, hlk, hne, hne2,
      List.insertionSort, List.orderedInsert, countsOrder, le_of_lt hhl]
  have hst : straightHighOf (sortDesc (uniqFirst (sortDesc [hi, hi, lo, lo, k]))) = none := by
    apply straightHighOf_short
    rw [length_uniqFirst_sortDesc]
    simp [uniqFirst, hkh, hkl, hhk, hlk, hne, hne2]
  have hp : sortDesc [hi, lo] = [hi, lo] := by
    simp [sortDesc, List.insertionSort, List.orderedInsert, le_of_lt hhl]
  have hk : (sortDesc [hi, hi, lo, lo, k]).filter (fun r => decide (r ≠ hi ∧ r ≠ lo)) = [k] := by
    rw [filter_sortDesc]
    simp [List.filter, hkh, hkl, hne, hne2, sortDesc, List.insertionSort, List.orderedInsert]
  rw [hc, hst]
  simp only [handValue, List.map, List.getD_cons_zero, hp, List.getD_cons_succ, hk]
  simp [truthy]

theorem evaluateHand_onePair (cards : List Card) (hlen : cards.length = 5) (hnd : cards.Nodup)
    (p k1 k2 k3 : Int) (h : HasRanks cards [p, p, k1, k2, k3]) (h12 : k1 > k2) (h23 : k2 > k3)
    (hp1 : p ≠ k1) (hp2 : p ≠ k2) (hp3 : p ≠ k3) : evaluateHand cards = [1, p, k1, k2, k3] := by
  have hns : ¬ SameSuit cards := not_sameSuit_of_pair hnd h (by simp)
  rw [evaluateHand_five_noflush cards hlen hns, analyzeRanks_of_hasRanks h]
  have h1p : k1 ≠ p := fun h => hp1 h.symm
  have h2p : k2 ≠ p := fun h => hp2 h.symm
  have h3p : k3 ≠ p := fun h => hp3 h.symm
  have hne12 : k1 ≠ k2 := ne_of_gt h12
  have hne21 : k2 ≠ k1 := fun h => hne12 h.symm
  have hne23 : k2 ≠ k3 := ne_of_gt h23
  have hne32 : k3 ≠ k2 := fun h => hne23 h.symm
  have h13 : k1 > k3 := lt_trans h23 h12
  have hne13 : k1 ≠ k3 := ne_of_gt h13
  have hne31 : k3 ≠ k1 := fun h => hne13 h.symm
  have hc : countsCanon (sortDesc [p, p, k1, k2, k3])
      = [⟨p, 2⟩, ⟨k1, 1⟩, ⟨k2, 1⟩, ⟨k3, 1⟩] := by
    rw [countsCanon_perm (sortDesc_perm _)]
    simp [countsCanon, uniqFirst, List.count_cons, hp1, hp2, hp3, h1p, h2p, h3p, hne12, hne21,
      hne23, hne32, hne13, hne31, List.insertionSort, List.orderedInsert, countsOrder,
      le_of_lt h12, le_of_lt h23, le_of_lt h13]
  have hst : straightHighOf (sortDesc (uniqFirst (sortDesc [p, p, k1, k2, k3]))) = none := by
    apply straightHighOf_short
    rw [length_uniqFirst_sortDesc]
    simp [uniqFirst, hp1, hp2, hp3, h1p, h2p, h3p, hne12, hne21, hne23, hne32, hne13, hne31]
  have hk : (sortDesc [p, p, k1, k2, k3]).filter (fun r => decide (r ≠ p)) = [k1, k2, k3] := by
    rw [filter_sortDesc]
    simp [List.filter, h1p, h2p, h3p, sortDesc, List.insertionSort, List.orderedInsert,
      le_of_lt h12, le_of_lt h23, le_of_lt h13]
  rw [hc, hst]
  simp only [handValue, hk]
  simp [truthy, padZeros]

theorem sortDesc_strict5 {a b c d e : Int} (hab : a > b) (hbc : b > c) (hcd : c > d)
    (hde : d > e) : sortDesc [a, b, c, d, e] = [a, b, c, d, e] := by
  apply sortDesc_of_sorted
  simp only [List.Sorted, List.pairwise_cons, List.mem_cons, List.mem_singleton,
    List.not_mem_nil, false_implies, implies_true, List.Pairwise.nil, and_true, forall_eq_or_imp,
    forall_eq]
  omega

theorem countsCanon_strict5 {a b c d e : Int} (hab : a > b) (hbc : b > c) (hcd : c > d)
    (hde : d > e) :
    countsCanon [a, b, c, d, e] = [⟨a, 1⟩, ⟨b, 1⟩, ⟨c, 1⟩, ⟨d, 1⟩, ⟨e, 1⟩] := by
  have h1 : a ≠ b := by omega
  have h2 : a ≠ c := by omega
  have h3 : a ≠ d := by omega
  have h4 : a ≠ e := by omega
  have h5 : b ≠ c := by omega
  have h6 : b ≠ d := by omega
  have h7 : b ≠ e := by omega
  have h8 : c ≠ d := by omega
  have h9 : c ≠ e := by omega
  have h10 : d ≠ e := by omega
  have l1 : b ≤ a := by omega
  have l2 : c ≤ a := by omega
  have l3 : d ≤ a := by omega
  have l4 : e ≤ a := by omega
  have l5 : c ≤ b := by omega
  have l6 : d ≤ b := by omega
  have l7 : e ≤ b := by omega
  have l8 : d ≤ c := by omega
  have l9 : e ≤ c := by omega
  have l10 : e ≤ d := by omega
  simp [countsCanon, uniqFirst, List.count_cons, h1, h2, h3, h4, h5, h6, h7, h8, h9, h10,
    h1.symm, h2.symm, h3.symm, h4.symm, h5.symm, h6.symm, h7.symm, h8.symm, h9.symm, h10.symm,
    List.insertionSort, List.orderedInsert, countsOrder, l1, l2, l3, l4, l5, l6, l7, l8, l9, l10]

theorem uniqFirst_strict5 {a b c d e : Int} (hab : a > b) (hbc : b > c) (hcd : c > d)
    (hde : d > e) : uniqFirst [a, b, c, d, e] = [a, b, c, d, e] := by
  apply uniqFirst_of_nodup
  simp only [List.nodup_cons, List.mem_cons, List.mem_singleton, List.not_mem_nil, or_false,
    not_false_eq_true, List.nodup_nil, and_true]
  omega

theorem findStraightHigh_five (a b c d e : Int) :
    findStraightHigh [a, b, c, d, e] = if a - e = 4 then some a else none := by
  simp only [findStraightHigh, List.length_cons, List.length_nil]
  rw [show (0 + 1 + 1 + 1 + 1 + 1 - 4 : Nat) = 1 from rfl, show List.range 1 = [0] from rfl]
  simp only [List.findSome?_cons, List.findSome?_nil, List.getD_cons_zero, List.getD_cons_succ]
  split <;> rename_i h <;> split at h <;> simp_all

theorem hasWheel_strict5 {a b c d e : Int} (hab : a > b) (hbc : b > c) (hcd : c > d)
    (hde : d > e) :
    hasWheel [a, b, c, d, e] = true ↔ a = 14 ∧ b = 5 ∧ c = 4 ∧ d = 3 ∧ e = 2 := by
  rw [hasWheel_iff]
  simp only [List.mem_cons, List.mem_singleton, List.not_mem_nil, or_false]
  constructor
  · intro h
    omega
  · rintro ⟨rfl, rfl, rfl, rfl, rfl⟩
    simp

theorem straightHighOf_strict5 {a b c d e : Int} (hab : a > b) (hbc : b > c) (hcd : c > d)
    (hde : d > e) :
    straightHighOf [a, b, c, d, e]
      = if a - e = 4 then some a
        else if a = 14 ∧ b = 5 ∧ c = 4 ∧ d = 3 ∧ e = 2 then some 5 else none := by
  unfold straightHighOf
  dsimp only
  rw [findStraightHigh_five]
  by_cases h1 : a - e = 4
  · have hw : hasWheel [a, b, c, d, e] = false := by
      by_contra hcon
      have := (hasWheel_strict5 hab hbc hcd hde).mp (by simpa using hcon)
      omega
    simp [h1, hw]
  · by_cases hw : hasWheel [a, b, c, d, e] = true
    · obtain ⟨rfl, rfl, rfl, rfl, rfl⟩ := (hasWheel_strict5 hab hbc hcd hde).mp hw
      decide
    · have hw2 : ¬ (a = 14 ∧ b = 5 ∧ c = 4 ∧ d = 3 ∧ e = 2) := fun h =>
        hw ((hasWheel_strict5 hab hbc hcd hde).mpr h)
      simp only [Bool.not_eq_true] at hw
      simp [h1, hw, hw2]

/-- The value of `evaluateHand` on five cards of distinct ranks `a > b > c > d
> e`, in terms of the flush flag and the straight search. -/
theorem evaluateHand_distinct (cards : List Card) (hlen : cards.length = 5) (hnd : cards.Nodup)
    (a b c d e : Int) (h : HasRanks cards [a, b, c, d, e]) (hab : a > b) (hbc : b > c)
    (hcd : c > d) (hde : d > e) :
    (SameSuit cards →
      evaluateHand cards
        = handValue [a, b, c, d, e] [⟨a, 1⟩, ⟨b, 1⟩, ⟨c, 1⟩, ⟨d, 1⟩, ⟨e, 1⟩] true
            (ranksOf cards) (straightHighOf [a, b, c, d, e]) (straightHighOf [a, b, c, d, e])
            (decide (a - e = 4 ∧ a = 14))) ∧
    (¬ SameSuit cards →
      evaluateHand cards
        = handValue [a, b, c, d, e] [⟨a, 1⟩, ⟨b, 1⟩, ⟨c, 1⟩, ⟨d, 1⟩, ⟨e, 1⟩] false []
            (straightHighOf [a, b, c, d, e]) none false) := by
  have hrs : analyzeRanks cards = [a, b, c, d, e] := by
    rw [analyzeRanks_of_hasRanks h, sortDesc_strict5 hab hbc hcd hde]
  constructor
  · intro hss
    rw [evaluateHand_five_flush cards hlen hnd hss, hrs, countsCanon_strict5 hab hbc hcd hde,
      findStraightHigh_five]
    congr 1
    by_cases h1 : a - e = 4 <;> simp [h1]
  · intro hns
    rw [evaluateHand_five_noflush cards hlen hns, hrs, countsCanon_strict5 hab hbc hcd hde,
      uniqFirst_strict5 hab hbc hcd hde, sortDesc_strict5 hab hbc hcd hde]

theorem sortDesc_ranksOf (cards : List Card) : sortDesc (ranksOf cards) = analyzeRanks cards := rfl

theorem evaluateHand_flush (cards : List Card) (hlen : cards.length = 5) (hnd : cards.Nodup)
    (a b c d e : Int) (hss : SameSuit cards) (h : HasRanks cards [a, b, c, d, e]) (hab : a > b)
    (hbc : b > c) (hcd : c > d) (hde : d > e) (hnc : ¬ ∃ high, Consecutive cards high) :
    evaluateHand cards = [5, a, b, c, d, e] := by
  rw [(evaluateHand_distinct cards hlen hnd a b c d e h hab hbc hcd hde).1 hss,
    straightHighOf_strict5 hab hbc hcd hde]
  have h1 : ¬ a - e = 4 := by
    intro h1
    apply hnc
    refine ⟨a, Or.inl ?_⟩
    have hb : b = a - 1 := by omega
    have hc : c = a - 2 := by omega
    have hd : d = a - 3 := by omega
    have he : e = a - 4 := by omega
    rw [← hb, ← hc, ← hd, ← he]
    exact h
  have h2 : ¬ (a = 14 ∧ b = 5 ∧ c = 4 ∧ d = 3 ∧ e = 2) := by
    rintro ⟨rfl, rfl, rfl, rfl, rfl⟩
    apply hnc
    refine ⟨5, Or.inr ⟨rfl, ?_⟩⟩
    exact h.trans (by decide : List.Perm [14, 5, 4, 3, 2] [5, 4, 3, 2, (14 : Int)])
  have hs : sortDesc (ranksOf cards) = [a, b, c, d, e] := by
    rw [sortDesc_ranksOf, analyzeRanks_of_hasRanks h, sortDesc_strict5 hab hbc hcd hde]
  simp only [handValue, hs]
  simp [h1, h2, truthy, padZeros]

theorem hasRanks_mem {cards : List Card} {ranks : List Int} (h : HasRanks cards ranks) {r : Int}
    (hr : r ∈ ranks) : 2 ≤ r ∧ r ≤ 14 :=
  mem_ranksOf_range (h.mem_iff.mpr hr)

/-- Five cards with consecutive ranks: the ranks in descending order and the
result of the straight search. -/
theorem consecutive_cases {cards : List Card} {high : Int} (h : Consecutive cards high) :
    ∃ a b c d e : Int, a > b ∧ b > c ∧ c > d ∧ d > e ∧ HasRanks cards [a, b, c, d, e] ∧
      straightHighOf [a, b, c, d, e] = some high ∧ high ≠ 0 ∧
      (a - e = 4 ∧ a = 14 ↔ high = 14) := by
  rcases h with h | ⟨rfl, h⟩
  · have hr := hasRanks_mem h (List.mem_cons_self _ _)
    refine ⟨high, high - 1, high - 2, high - 3, high - 4, by omega, by omega, by omega, by omega,
      h, ?_, by omega, by omega⟩
    rw [straightHighOf_strict5 (by omega) (by omega) (by omega) (by omega)]
    rw [if_pos (by omega)]
  · refine ⟨14, 5, 4, 3, 2, by omega, by omega, by omega, by omega,
      h.trans (by decide : List.Perm [5, 4, 3, 2, (14 : Int)] [14, 5, 4, 3, 2]), by decide,
      by omega, by omega⟩

theorem evaluateHand_royalFlush (cards : List Card) (hlen : cards.length = 5) (hnd : cards.Nodup)
    (hss : SameSuit cards) (h : HasRanks cards [14, 13, 12, 11, 10]) :
    evaluateHand cards = [9, 14] := by
  rw [(evaluateHand_distinct cards hlen hnd 14 13 12 11 10 h (by omega) (by omega) (by omega)
    (by omega)).1 hss]
  simp [handValue]

theorem evaluateHand_straightFlush (cards : List Card) (hlen : cards.length = 5)
    (hnd : cards.Nodup) (high : Int) (hss : SameSuit cards) (h : Consecutive cards high)
    (hne : high ≠ 14) : evaluateHand cards = [8, high] := by
  obtain ⟨a, b, c, d, e, hab, hbc, hcd, hde, hr, hs, h0, hroyal⟩ := consecutive_cases h
  rw [(evaluateHand_distinct cards hlen hnd a b c d e hr hab hbc hcd hde).1 hss, hs]
  have hnr : ¬ (a - e = 4 ∧ a = 14) := fun hc => hne (hroyal.mp hc)
  simp only [handValue]
  simp [hnr, truthy, h0]

theorem evaluateHand_straight (cards : List Card) (hlen : cards.length = 5)
    (hnd : cards.Nodup) (high : Int) (hns : ¬ SameSuit cards) (h : Consecutive cards high) :
    evaluateHand cards = [4, high] := by
  obtain ⟨a, b, c, d, e, hab, hbc, hcd, hde, hr, hs, h0, _⟩ := consecutive_cases h
  rw [(evaluateHand_distinct cards hlen hnd a b c d e hr hab hbc hcd hde).2 hns, hs]
  simp only [handValue]
  simp [truthy, h0]

theorem straightHighOf_none {cards : List Card} {a b c d e : Int}
    (h : HasRanks cards [a, b, c, d, e]) (hab : a > b) (hbc : b > c) (hcd : c > d) (hde : d > e)
    (hnc : ¬ ∃ high, Consecutive cards high) : straightHighOf [a, b, c, d, e] = none := by
  rw [straightHighOf_strict5 hab hbc hcd hde]
  have h1 : ¬ a - e = 4 := by
    intro h1
    apply hnc
    refine ⟨a, Or.inl ?_⟩
    have hb : b = a - 1 := by omega
    have hc : c = a - 2 := by omega
    have hd : d = a - 3 := by omega
    have he : e = a - 4 := by omega
    rw [← hb, ← hc, ← hd, ← he]
    exact h
  have h2 : ¬ (a = 14 ∧ b = 5 ∧ c = 4 ∧ d = 3 ∧ e = 2) := by
    rintro ⟨rfl, rfl, rfl, rfl, rfl⟩
    apply hnc
    refine ⟨5, Or.inr ⟨rfl, ?_⟩⟩
    exact h.trans (by decide : List.Perm [14, 5, 4, 3, 2] [5, 4, 3, 2, (14 : Int)])
  rw [if_neg h1, if_neg h2]

theorem evaluateHand_highCard (cards : List Card) (hlen : cards.length = 5) (hnd : cards.Nodup)
    (a b c d e : Int) (hns : ¬ SameSuit cards) (h : HasRanks cards [a, b, c, d, e]) (hab : a > b)
    (hbc : b > c) (hcd : c > d) (hde : d > e) (hnc : ¬ ∃ high, Consecutive cards high) :
    evaluateHand cards = [0, a, b, c, d, e] := by
  rw [(evaluateHand_distinct cards hlen hnd a b c d e h hab hbc hcd hde).2 hns,
    straightHighOf_none h hab hbc hcd hde hnc]
  simp only [handValue]
  simp [truthy, padZeros]

/-- Every hand of five distinct cards has one of the seven rank patterns. -/
theorem five_card_patterns (cards : List Card) (hlen : cards.length = 5) (hnd : cards.Nodup) :
    (∃ q k, HasRanks cards [q, q, q, q, k])
    ∨ (∃ t p, HasRanks cards [t, t, t, p, p])
    ∨ (∃ t k1 k2, HasRanks cards [t, t, t, k1, k2] ∧ k1 > k2 ∧ t ≠ k1 ∧ t ≠ k2)
    ∨ (∃ hi lo k, HasRanks cards [hi, hi, lo, lo, k] ∧ hi > lo ∧ k ≠ hi ∧ k ≠ lo)
    ∨ (∃ p k1 k2 k3, HasRanks cards [p, p, k1, k2, k3] ∧ k1 > k2 ∧ k2 > k3 ∧ p ≠ k1 ∧ p ≠ k2
        ∧ p ≠ k3)
    ∨ (∃ a b c d e, HasRanks cards [a, b, c, d, e] ∧ a > b ∧ b > c ∧ c > d ∧ d > e) := by
  have hl : (analyzeRanks cards).length = 5 := by rw [analyzeRanks_length, hlen]
  have hsorted : (analyzeRanks cards).Sorted (fun a b => a ≥ b) := sortDesc_sorted _
  have hperm : HasRanks cards (analyzeRanks cards) := (analyzeRanks_perm cards).symm
  have hcount : ∀ r, (analyzeRanks cards).count r ≤ 4 := fun r => by
    rw [(analyzeRanks_perm cards).count_eq]
    exact count_rank_le_four cards hnd r
  generalize analyzeRanks cards = l at hl hsorted hperm hcount
  rcases l with _ | ⟨a, _ | ⟨b, _ | ⟨c, _ | ⟨d, _ | ⟨e, _ | ⟨f, l⟩⟩⟩⟩⟩⟩ <;>
    simp only [List.length_cons, List.length_nil] at hl <;> try omega
  simp only [List.Sorted, List.pairwise_cons, List.mem_cons, List.mem_singleton,
    List.not_mem_nil, forall_eq_or_imp, forall_eq, false_imp_iff, implies_true,
    List.Pairwise.nil, and_true] at hsorted
  obtain ⟨⟨hab, -, -, -⟩, ⟨hbc, -, -⟩, ⟨hcd, -⟩, hde⟩ := hsorted
  have hall : ¬ (a = b ∧ b = c ∧ c = d ∧ d = e) := by
    rintro ⟨rfl, rfl, rfl, rfl⟩
    have := hcount a
    simp at this
  rcases lt_or_eq_of_le hab with h1 | h1 <;> rcases lt_or_eq_of_le hbc with h2 | h2 <;>
    rcases lt_or_eq_of_le hcd with h3 | h3 <;> rcases lt_or_eq_of_le hde with h4 | h4
  · exact Or.inr (Or.inr (Or.inr (Or.inr (Or.inr ⟨a, b, c, d, e, hperm, h1, h2, h3, h4⟩))))
  · subst h4
    refine Or.inr (Or.inr (Or.inr (Or.inr (Or.inl ⟨e, a, b, c, ?_, h1, h2, ?_, ?_, ?_⟩))))
    · exact hperm.trans (@List.perm_append_comm _ [a, b, c] [e, e])
    · omega
    · omega
    · omega
  · subst h3
    refine Or.inr (Or.inr (Or.inr (Or.inr (Or.inl ⟨d, a, b, e, ?_, h1, ?_, ?_, ?_, ?_⟩))))
    · exact hperm.trans
        ((@List.perm_append_comm _ [a, b] [d, d, e]).trans
          ((@List.perm_append_comm _ [e] [a, b]).append_left [d, d]))
    · omega
    · omega
    · omega
    · omega
  · subst h3
    subst h4
    refine Or.inr (Or.inr (Or.inl ⟨e, a, b, ?_, h1, ?_, ?_⟩))
    · exact hperm.trans (@List.perm_append_comm _ [a, b] [e, e, e])
    · omega
    · omega
  · subst h2
    refine Or.inr (Or.inr (Or.inr (Or.inr (Or.inl ⟨c, a, d, e, ?_, ?_, h4, ?_, ?_, ?_⟩))))
    · exact hperm.trans (@List.perm_middle _ a [c, c] [d, e]).symm
    · omega
    · omega
    · omega
    · omega
  · subst h2
    subst h4
    refine Or.inr (Or.inr (Or.inr (Or.inl ⟨c, e, a, ?_, ?_, ?_, ?_⟩)))
    · exact hperm.trans
        ((@List.perm_middle _ a [c, c] [e, e]).symm.trans
          ((@List.perm_middle _ a [e, e] []).symm.append_left [c, c]))
    · omega
    · omega
    · omega
  · subst h2
    subst h3
    refine Or.inr (Or.inr (Or.inl ⟨d, a, e, ?_, ?_, ?_, ?_⟩))
    · exact hperm.trans (@List.perm_middle _ a [d, d, d] [e]).symm
    · omega
    · omega
    · omega
  · subst h2
    subst h3
    subst h4
    exact Or.inl ⟨e, a, hperm.trans (@List.perm_append_comm _ [a] [e, e, e, e])⟩
  · subst h1
    exact Or.inr (Or.inr (Or.inr (Or.inr (Or.inl
      ⟨b, c, d, e, hperm, h3, h4, by omega, by omega, by omega⟩))))
  · subst h1
    subst h4
    refine Or.inr (Or.inr (Or.inr (Or.inl ⟨b, e, c, ?_, ?_, ?_, ?_⟩)))
    · exact hperm.trans ((@List.perm_middle _ c [e, e] []).symm.append_left [b, b])
    · omega
    · omega
    · omega
  · subst h1
    subst h3
    exact Or.inr (Or.inr (Or.inr (Or.inl ⟨b, d, e, hperm, by omega, by omega, by omega⟩)))
  · subst h1
    subst h3
    subst h4
    exact Or.inr (Or.inl ⟨e, b, hperm.trans (@List.perm_append_comm _ [b, b] [e, e, e])⟩)
  · subst h1
    subst h2
    exact Or.inr (Or.inr (Or.inl ⟨c, d, e, hperm, h4, by omega, by omega⟩))
  · subst h1
    subst h2
    subst h4
    exact Or.inr (Or.inl ⟨c, e, hperm⟩)
  · subst h1
    subst h2
    subst h3
    exact Or.inl ⟨d, e, hperm⟩
  · exact absurd ⟨h1.symm, h2.symm, h3.symm, h4.symm⟩ hall

/-- A straight, if there is one, has one of the ranks held as its high card. -/
theorem exists_consecutive_iff (cards : List Card) :
    (∃ high, Consecutive cards high) ↔ ∃ high ∈ ranksOf cards, Consecutive cards high := by
  constructor
  · rintro ⟨high, h⟩
    refine ⟨high, ?_, h⟩
    rcases h with h | ⟨rfl, h⟩
    · exact h.mem_iff.mpr (List.mem_cons_self _ _)
    · exact h.mem_iff.mpr (List.mem_cons_self _ _)
  · rintro ⟨high, -, h⟩
    exact ⟨high, h⟩

/-- C8: `evaluateHand` scores five distinct cards by the standard definition.
Ten, jack, queen, king, ace of one suit give `[9, 14]`; other five consecutive
ranks of one suit (ace to five counting as consecutive with high card 5) give
`[8, high]`; four of rank `q` with kicker `k` give `[7, q, k]`; three of rank
`t` and two of rank `p` give `[6, t, p]`; five cards of one suit that are not
consecutive give 5 followed by the ranks high to low; five consecutive ranks
not of one suit give `[4, high]`; three of a kind gives `[3, t, k1, k2]`; two
pairs give `[2, higher pair, lower pair, kicker]`; one pair gives
`[1, p, k1, k2, k3]`; five distinct ranks neither of one suit nor consecutive
give 0 followed by the ranks high to low.  Every hand has one of the rank
patterns named, so one of the ten cases applies. -/
theorem evaluateHand_five_standard (cards : List Card) (hlen : cards.length = 5)
    (hnd : cards.Nodup) :
    (SameSuit cards → HasRanks cards [14, 13, 12, 11, 10] → evaluateHand cards = [9, 14])
    ∧ (∀ high, SameSuit cards → Consecutive cards high → high ≠ 14 →
        evaluateHand cards = [8, high])
    ∧ (∀ q k, HasRanks cards [q, q, q, q, k] → evaluateHand cards = [7, q, k])
    ∧ (∀ t p, HasRanks cards [t, t, t, p, p] → evaluateHand cards = [6, t, p])
    ∧ (∀ a b c d e, SameSuit cards → HasRanks cards [a, b, c, d, e] → a > b → b > c → c > d →
        d > e → (¬ ∃ high, Consecutive cards high) → evaluateHand cards = [5, a, b, c, d, e])
    ∧ (∀ high, ¬ SameSuit cards → Consecutive cards high → evaluateHand cards = [4, high])
    ∧ (∀ t k1 k2, HasRanks cards [t, t, t, k1, k2] → k1 > k2 → t ≠ k1 → t ≠ k2 →
        evaluateHand cards = [3, t, k1, k2])
    ∧ (∀ hi lo k, HasRanks cards [hi, hi, lo, lo, k] → hi > lo → k ≠ hi → k ≠ lo →
        evaluateHand cards = [2, hi, lo, k])
    ∧ (∀ p k1 k2 k3, HasRanks cards [p, p, k1, k2, k3] → k1 > k2 → k2 > k3 → p ≠ k1 → p ≠ k2 →
        p ≠ k3 → evaluateHand cards = [1, p, k1, k2, k3])
    ∧ (∀ a b c d e, ¬ SameSuit cards → HasRanks cards [a, b, c, d, e] → a > b → b > c → c > d →
        d > e → (¬ ∃ high, Consecutive cards high) → evaluateHand cards = [0, a, b, c, d, e])
    ∧ ((∃ q k, HasRanks cards [q, q, q, q, k])
      ∨ (∃ t p, HasRanks cards [t, t, t, p, p])
      ∨ (∃ t k1 k2, HasRanks cards [t, t, t, k1, k2] ∧ k1 > k2 ∧ t ≠ k1 ∧ t ≠ k2)
      ∨ (∃ hi lo k, HasRanks cards [hi, hi, lo, lo, k] ∧ hi > lo ∧ k ≠ hi ∧ k ≠ lo)
      ∨ (∃ p k1 k2 k3, HasRanks cards [p, p, k1, k2, k3] ∧ k1 > k2 ∧ k2 > k3 ∧ p ≠ k1 ∧ p ≠ k2
          ∧ p ≠ k3)
      ∨ (∃ a b c d e, HasRanks cards [a, b, c, d, e] ∧ a > b ∧ b > c ∧ c > d ∧ d > e)) :=
  ⟨fun hss h => evaluateHand_royalFlush cards hlen hnd hss h,
    fun high hss h hne => evaluateHand_straightFlush cards hlen hnd high hss h hne,
    fun q k h => evaluateHand_quads cards hlen hnd q k h,
    fun t p h => evaluateHand_fullHouse cards hlen hnd t p h,
    fun a b c d e hss h hab hbc hcd hde hnc =>
      evaluateHand_flush cards hlen hnd a b c d e hss h hab hbc hcd hde hnc,
    fun high hns h => evaluateHand_straight cards hlen hnd high hns h,
    fun t k1 k2 h h12 ht1 ht2 => evaluateHand_trips cards hlen hnd t k1 k2 h h12 ht1 ht2,
    fun hi lo k h hhl hkh hkl => evaluateHand_twoPair cards hlen hnd hi lo k h hhl hkh hkl,
    fun p k1 k2 k3 h h12 h23 hp1 hp2 hp3 =>
      evaluateHand_onePair cards hlen hnd p k1 k2 k3 h h12 h23 hp1 hp2 hp3,
    fun a b c d e hns h hab hbc hcd hde hnc =>
      evaluateHand_highCard cards hlen hnd a b c d e hns h hab hbc hcd hde hnc,
    five_card_patterns cards hlen hnd⟩

/-- The four hands named with C8: `AS KS QS JS TS` scores `[9, 14]`,
`2H 2D 2C 3S 3H` scores `[6, 2, 3]`, `AS KS QH JD 9C` scores
`[0, 14, 13, 12, 11, 9]` and `AS 2H 3D 4C 5S` scores `[4, 5]`. -/
theorem evaluateHand_five_standard_witness :
    evaluateHand royalFlushHand = [9, 14]
    ∧ evaluateHand fullHouseHand = [6, 2, 3]
    ∧ evaluateHand highCardHand = [0, 14, 13, 12, 11, 9]
    ∧ evaluateHand wheelHand = [4, 5] :=
  ⟨(evaluateHand_five_standard royalFlushHand (by decide) (by decide)).1 (by decide) (by decide),
    (evaluateHand_five_standard fullHouseHand (by decide) (by decide)).2.2.2.1 2 3 (by decide),
    (evaluateHand_five_standard highCardHand (by decide) (by decide)).2.2.2.2.2.2.2.2.2.1
      14 13 12 11 9 (by decide) (by decide) (by decide) (by decide) (by decide) (by decide)
      (by rw [exists_consecutive_iff]; decide),
    (evaluateHand_five_standard wheelHand (by decide) (by decide)).2.2.2.2.2.1 5 (by decide)
      (by decide)⟩

/-! ## `compareHands` as a recursive comparison -/

theorem firstDifference_succ_front (f g : Nat → Int) (n : Nat) :
    firstDifference f g (n + 1)
      = (if f 0 > g 0 then some (1 : Int) else if f 0 < g 0 then some (-1) else none).or
          (firstDifference (fun i => f (i + 1)) (fun i => g (i + 1)) n) := by
  unfold firstDifference
  rw [List.range_succ_eq_map, List.findSome?_cons, List.findSome?_map]
  split <;> rename_i h
  · rw [h]
    rfl
  · rw [h]
    rfl

theorem entry_cons_succ (x : Int) (a : List Int) :
    (fun i => entry (x :: a) (i + 1)) = entry a := by
  funext i
  simp [entry]

theorem entry_nil_succ : (fun i => entry [] (i + 1)) = entry [] := by
  funext i
  simp [entry]

theorem firstDifference_eq_comparePadded (n : Nat) :
    ∀ a b : List Int, a.length ≤ n → b.length ≤ n →
      (firstDifference (entry a) (entry b) n).getD 0 = comparePadded a b := by
  induction n with
  | zero =>
    intro a b ha hb
    have ha0 : a = [] := List.length_eq_zero.mp (by omega)
    have hb0 : b = [] := List.length_eq_zero.mp (by omega)
    subst ha0
    subst hb0
    simp [firstDifference, comparePadded]
  | succ n ih =>
    intro a b ha hb
    rw [firstDifference_succ_front]
    cases a with
    | nil =>
      cases b with
      | nil =>
        rw [entry_nil_succ]
        have := ih [] [] (by simp) (by simp)
        simp only [entry, List.getD_nil, gt_iff_lt, lt_self_iff_false, if_false] at this ⊢
        simpa [comparePadded] using this
      | cons y b =>
        rw [entry_nil_succ, entry_cons_succ]
        have := ih [] b (by simp) (by simpa using hb)
        simp only [entry, List.getD_nil, List.getD_cons_zero] at this ⊢
        rw [comparePadded]
        split
        · rfl
        · split
          · rfl
          · simpa using this
    | cons x a =>
      cases b with
      | nil =>
        rw [entry_nil_succ, entry_cons_succ]
        have := ih a [] (by simpa using ha) (by simp)
        simp only [entry, List.getD_nil, List.getD_cons_zero] at this ⊢
        rw [comparePadded]
        split
        · rfl
        · split
          · rfl
          · simpa using this
      | cons y b =>
        rw [entry_cons_succ, entry_cons_succ]
        have := ih a b (by simpa using ha) (by simpa using hb)
        simp only [entry, List.getD_cons_zero] at this ⊢
        rw [comparePadded]
        split
        · rfl
        · split
          · rfl
          · simpa using this

theorem compareHands_eq_comparePadded (a b : List Int) (ha : a ≠ []) (hb : b ≠ []) :
    compareHands a b = comparePadded a b := by
  rw [compareHands_eq a b ha hb]
  exact firstDifference_eq_comparePadded _ a b (le_max_left _ _) (le_max_right _ _)

/-! ## The straight search on a strictly decreasing list -/

theorem findStraightHigh_cons (a : Int) (t : List Int) :
    findStraightHigh (a :: t)
      = if t.length < 4 then none
        else if a - t.getD 3 0 = 4 then some a else findStraightHigh t := by
  unfold findStraightHigh
  by_cases h : t.length < 4
  · rw [if_pos h]
    have : (a :: t).length - 4 = 0 := by simp only [List.length_cons]; omega
    rw [this]
    rfl
  · rw [if_neg h]
    have : (a :: t).length - 4 = (t.length - 4) + 1 := by simp only [List.length_cons]; omega
    rw [this, List.range_succ_eq_map, List.findSome?_cons, List.findSome?_map]
    simp only [List.getD_cons_zero, List.getD_cons_succ]
    split <;> rename_i heq
    · split at heq
      · rename_i h4
        rw [if_pos h4]
        exact heq.symm
      · exact absurd heq (by simp)
    · split at heq
      · exact absurd heq (by simp)
      · rename_i h4
        rw [if_neg h4]
        rfl

theorem findStraightHigh_short {u : List Int} (h : u.length < 5) : findStraightHigh u = none := by
  unfold findStraightHigh
  have h0 : u.length - 4 = 0 := by omega
  rw [h0]
  rfl

theorem strict_cons {a : Int} {t : List Int} (h : (a :: t).Sorted (fun x y => x > y)) :
    (∀ x, x ∈ t → x < a) ∧ t.Sorted (fun x y => x > y) := by
  unfold List.Sorted at h ⊢
  rw [List.pairwise_cons] at h
  exact ⟨fun x hx => h.1 x hx, h.2⟩

/-- A strictly decreasing list below `a` that holds `a - 1` starts with it. -/
theorem strict_head_eq {a : Int} {t : List Int} (hs : t.Sorted (fun x y => x > y))
    (hlt : ∀ x, x ∈ t → x < a) (hm : a - 1 ∈ t) :
    ∃ t', t = (a - 1) :: t' ∧ t'.Sorted (fun x y => x > y) ∧ ∀ x, x ∈ t' → x < a - 1 := by
  cases t with
  | nil => exact absurd hm (List.not_mem_nil _)
  | cons x t' =>
    obtain ⟨h1, h2⟩ := strict_cons hs
    have hx := hlt x (List.mem_cons_self _ _)
    have hxe : x = a - 1 := by
      rcases List.mem_cons.mp hm with h | h
      · exact h.symm
      · have := h1 _ h
        omega
    subst hxe
    exact ⟨t', rfl, h2, h1⟩

theorem findStraightHigh_sound {u : List Int} (hs : u.Sorted (fun x y => x > y)) {h : Int}
    (hf : findStraightHigh u = some h) :
    h ∈ u ∧ h - 1 ∈ u ∧ h - 2 ∈ u ∧ h - 3 ∈ u ∧ h - 4 ∈ u := by
  induction u with
  | nil => simp [findStraightHigh] at hf
  | cons a t ih =>
    obtain ⟨h1, h2⟩ := strict_cons hs
    rw [findStraightHigh_cons] at hf
    split at hf
    · exact absurd hf (by simp)
    · rename_i hlen
      split at hf
      · rename_i h4
        have ha : a = h := by simpa using hf
        subst ha
        rcases t with _ | ⟨t0, _ | ⟨t1, _ | ⟨t2, _ | ⟨t3, t'⟩⟩⟩⟩ <;>
          simp only [List.length_cons, List.length_nil] at hlen <;> try omega
        simp only [List.getD_cons_succ, List.getD_cons_zero] at h4
        simp only [List.Sorted, List.pairwise_cons, List.mem_cons, forall_eq_or_imp] at h2
        have ha0 := h1 t0 (by simp)
        obtain ⟨⟨h01, -⟩, ⟨h12, -⟩, ⟨h23, -⟩, -⟩ := h2
        have e0 : t0 = a - 1 := by omega
        have e1 : t1 = a - 2 := by omega
        have e2 : t2 = a - 3 := by omega
        have e3 : t3 = a - 4 := by omega
        subst e0 e1 e2 e3
        simp
      · obtain ⟨m0, m1, m2, m3, m4⟩ := ih h2 hf
        exact ⟨List.mem_cons_of_mem _ m0, List.mem_cons_of_mem _ m1, List.mem_cons_of_mem _ m2,
          List.mem_cons_of_mem _ m3, List.mem_cons_of_mem _ m4⟩

theorem findStraightHigh_complete {u : List Int} (hs : u.Sorted (fun x y => x > y)) {h : Int}
    (m0 : h ∈ u) (m1 : h - 1 ∈ u) (m2 : h - 2 ∈ u) (m3 : h - 3 ∈ u) (m4 : h - 4 ∈ u) :
    ∃ h', h' ≥ h ∧ findStraightHigh u = some h' := by
  induction u with
  | nil => exact absurd m0 (List.not_mem_nil _)
  | cons a t ih =>
    obtain ⟨h1, h2⟩ := strict_cons hs
    by_cases hha : h = a
    · subst hha
      have n1 : h - 1 ∈ t := (List.mem_cons.mp m1).resolve_left (by omega)
      have n2 : h - 2 ∈ t := (List.mem_cons.mp m2).resolve_left (by omega)
      have n3 : h - 3 ∈ t := (List.mem_cons.mp m3).resolve_left (by omega)
      have n4 : h - 4 ∈ t := (List.mem_cons.mp m4).resolve_left (by omega)
      obtain ⟨ta, rfl, hsa, hla⟩ := strict_head_eq h2 h1 n1
      have n2a : h - 1 - 1 ∈ ta := by
        have : h - 1 - 1 = h - 2 := by omega
        rw [this]
        exact (List.mem_cons.mp n2).resolve_left (by omega)
      obtain ⟨tb, rfl, hsb, hlb⟩ := strict_head_eq hsa hla n2a
      have n3b : h - 1 - 1 - 1 ∈ tb := by
        have : h - 1 - 1 - 1 = h - 3 := by omega
        rw [this]
        have := (List.mem_cons.mp n3).resolve_left (by omega)
        exact (List.mem_cons.mp this).resolve_left (by omega)
      obtain ⟨tc, rfl, hsc, hlc⟩ := strict_head_eq hsb hlb n3b
      have n4c : h - 1 - 1 - 1 - 1 ∈ tc := by
        have : h - 1 - 1 - 1 - 1 = h - 4 := by omega
        rw [this]
        have := (List.mem_cons.mp n4).resolve_left (by omega)
        have := (List.mem_cons.mp this).resolve_left (by omega)
        exact (List.mem_cons.mp this).resolve_left (by omega)
      obtain ⟨td, rfl, -, -⟩ := strict_head_eq hsc hlc n4c
      refine ⟨h, le_refl _, ?_⟩
      rw [findStraightHigh_cons, if_neg (by simp), if_pos]
      simp only [List.getD_cons_succ, List.getD_cons_zero]
      omega
    · have n0 : h ∈ t := (List.mem_cons.mp m0).resolve_left hha
      have hlt := h1 h n0
      have n1 : h - 1 ∈ t := (List.mem_cons.mp m1).resolve_left (by omega)
      have n2 : h - 2 ∈ t := (List.mem_cons.mp m2).resolve_left (by omega)
      have n3 : h - 3 ∈ t := (List.mem_cons.mp m3).resolve_left (by omega)
      have n4 : h - 4 ∈ t := (List.mem_cons.mp m4).resolve_left (by omega)
      obtain ⟨h', hge, hf⟩ := ih h2 n0 n1 n2 n3 n4
      have hlen : ¬ t.length < 4 := by
        intro hl
        rw [findStraightHigh_short (by omega)] at hf
        exact absurd hf (by simp)
      rw [findStraightHigh_cons, if_neg hlen]
      by_cases h4 : a - t.getD 3 0 = 4
      · exact ⟨a, by omega, by rw [if_pos h4]⟩
      · exact ⟨h', hge, by rw [if_neg h4, hf]⟩

/-- What a successful straight search on a strictly decreasing list of card
ranks has found. -/
theorem straightHighOf_sound {u : List Int} (hs : u.Sorted (fun x y => x > y))
    (hpos : ∀ x, x ∈ u → 2 ≤ x) {h : Int} (hf : straightHighOf u = some h) :
    IsStraight u h ∧ 5 ≤ h ∧ (h = 14 ↔ findStraightHigh u = some 14) := by
  unfold straightHighOf at hf
  dsimp only at hf
  split at hf
  · rename_i hc
    have h5 : h = 5 := by simpa using hf.symm
    subst h5
    simp only [Bool.and_eq_true, Bool.not_eq_true'] at hc
    obtain ⟨hw14, hw2, hw3, hw4, hw5⟩ := (hasWheel_iff u).mp hc.2
    refine ⟨Or.inr ⟨rfl, hw14, hw5, hw4, hw3, hw2⟩, le_refl _, ?_⟩
    constructor
    · intro h
      omega
    · intro h14
      have := hc.1
      rw [h14] at this
      simp [truthy] at this
  · have hm := findStraightHigh_sound hs hf
    have := hpos _ hm.2.2.2.2
    refine ⟨Or.inl hm, by omega, ?_⟩
    constructor
    · rintro rfl
      exact hf
    · intro h14
      rw [h14] at hf
      simpa using hf.symm

/-- The straight search on a strictly decreasing list of card ranks finds a
straight at least as high as any present. -/
theorem straightHighOf_complete {u : List Int} (hs : u.Sorted (fun x y => x > y))
    (hpos : ∀ x, x ∈ u → 2 ≤ x) {h : Int} (hst : IsStraight u h) :
    ∃ h', h' ≥ h ∧ straightHighOf u = some h' ∧ truthy (straightHighOf u) = true := by
  have key : ∀ h', findStraightHigh u = some h' → 6 ≤ h' := by
    intro h' hf
    have hm := findStraightHigh_sound hs hf
    have := hpos _ hm.2.2.2.2
    omega
  rcases hst with ⟨m0, m1, m2, m3, m4⟩ | ⟨rfl, w14, w5, w4, w3, w2⟩
  · obtain ⟨h', hge, hf⟩ := findStraightHigh_complete hs m0 m1 m2 m3 m4
    have h6 := key h' hf
    have ht : truthy (some h') = true := by
      simp only [truthy, bne_iff_ne, ne_eq]
      omega
    refine ⟨h', hge, ?_⟩
    unfold straightHighOf
    dsimp only
    rw [hf, ht]
    simp [ht]
  · cases hf : findStraightHigh u with
    | none =>
      have hw : hasWheel u = true := (hasWheel_iff u).mpr ⟨w14, w2, w3, w4, w5⟩
      refine ⟨5, le_refl _, ?_⟩
      unfold straightHighOf
      dsimp only
      rw [hf, hw]
      simp [truthy]
    | some h' =>
      have h6 := key h' hf
      have ht : truthy (some h') = true := by
        simp only [truthy, bne_iff_ne, ne_eq]
        omega
      refine ⟨h', by omega, ?_⟩
      unfold straightHighOf
      dsimp only
      rw [hf, ht]
      simp [ht]

theorem truthy_eq_true {o : Option Int} (h : truthy o = true) : ∃ x, o = some x ∧ x ≠ 0 := by
  cases o with
  | none => simp [truthy] at h
  | some x => exact ⟨x, rfl, by simpa [truthy] using h⟩

/-! ## `evaluateHand` on five or more cards: the values handed to the ranking -/

theorem count_add_count_le_length {α : Type} [DecidableEq α] (l : List α) {a b : α}
    (hab : a ≠ b) : l.count a + l.count b ≤ l.length := by
  induction l with
  | nil => simp
  | cons x l ih =>
    simp only [List.count_cons, List.length_cons]
    by_cases h1 : x = a
    · have h2 : ¬ x = b := fun h => hab (h1.symm.trans h)
      simp only [h1, beq_self_eq_true, if_true]
      have : (a == b) = false := by simpa using hab
      rw [this]
      simp only [Bool.false_eq_true, if_false]
      omega
    · have : (x == a) = false := by simpa using h1
      rw [this]
      simp only [Bool.false_eq_true, if_false]
      split <;> omega

theorem count_suit_eq_length_filter (cards : List Card) (s : Suit) :
    (cards.map (fun c => c.suit)).count s
      = (cards.filter (fun c => decide (c.suit = s))).length := by
  rw [List.count_eq_countP, List.countP_map, List.countP_eq_length_filter]
  congr 1

theorem sameSuit_filter (cards : List Card) (s : Suit) :
    SameSuit (cards.filter (fun c => decide (c.suit = s))) := by
  intro c hc d hd
  rw [List.mem_filter] at hc hd
  exact (of_decide_eq_true hc.2).trans (of_decide_eq_true hd.2).symm

theorem evaluateHand_noflush_form (cards : List Card) (h5 : 5 ≤ cards.length)
    (hf : flushSuitOf cards = none) :
    evaluateHand cards
      = handValue (analyzeRanks cards) (countsCanon (analyzeRanks cards)) false []
          (straightHighOf (sortDesc (uniqFirst (analyzeRanks cards)))) none false := by
  unfold evaluateHand
  dsimp only
  rw [if_neg (by omega), if_neg (by rw [analyzeRanks_length]; omega), rankCounts_eq, hf]
  simp

theorem evaluateHand_flush_form (cards : List Card) (hnd : cards.Nodup) (h5 : 5 ≤ cards.length)
    (s : Suit) (hf : flushSuitOf cards = some s) :
    evaluateHand cards
      = handValue (analyzeRanks cards) (countsCanon (analyzeRanks cards)) true
          (ranksOf (cards.filter (fun c => decide (c.suit = s))))
          (straightHighOf (sortDesc (uniqFirst (analyzeRanks cards))))
          (straightHighOf (analyzeRanks (cards.filter (fun c => decide (c.suit = s)))))
          (decide (findStraightHigh (analyzeRanks (cards.filter (fun c => decide (c.suit = s))))
            = some 14)) := by
  have hcount := flushSuitOf_some hf
  rw [count_suit_eq_length_filter] at hcount
  have hstrict := analyzeRanks_strict_of_sameSuit _ (hnd.filter (fun c => decide (c.suit = s)))
    (sameSuit_filter cards s)
  have hfilter : cards.filter (fun c => decide (some c.suit = some s))
      = cards.filter (fun c => decide (c.suit = s)) := by
    apply List.filter_congr
    intro c _
    simp
  unfold evaluateHand
  dsimp only
  rw [if_neg (by omega), if_neg (by rw [analyzeRanks_length]; omega), rankCounts_eq, hf]
  simp only [Option.isSome_some, if_true, hfilter, Bool.true_and]
  have hfr : sortDesc (List.map (fun c => RANKS c.value)
      (cards.filter (fun c => decide (c.suit = s))))
      = analyzeRanks (cards.filter (fun c => decide (c.suit = s))) := rfl
  rw [hfr, uniqFirst_of_nodup _ (strict_nodup hstrict)]
  simp [hcount, ranksOf]

/-- Five cards of one suit taken from at most nine cards are of the suit that
`flushSuitOf` finds. -/
theorem flushSuitOf_of_sublist (cards : List Card) (h9 : cards.length ≤ 9) {S : List Card}
    (hsub : S.Sublist cards) (hS : S.length = 5) (hss : SameSuit S) :
    ∃ s, flushSuitOf cards = some s ∧ ∀ c, c ∈ S → c.suit = s := by
  cases S with
  | nil => simp at hS
  | cons c0 S0 =>
    have hall : ∀ c, c ∈ c0 :: S0 → c.suit = c0.suit := fun c hc =>
      hss c hc c0 (List.mem_cons_self _ _)
    have hc0 : ((c0 :: S0).map (fun c => c.suit)).count c0.suit = 5 := by
      rw [← hS]
      exact (count_suit_eq_length_iff (c0 :: S0) c0.suit).mpr hall
    have hle : ((c0 :: S0).map (fun c => c.suit)).count c0.suit
        ≤ (cards.map (fun c => c.suit)).count c0.suit :=
      (hsub.map _).count_le _
    cases hf : flushSuitOf cards with
    | none =>
      have := flushSuitOf_none hf c0.suit
      omega
    | some s =>
      refine ⟨s, rfl, ?_⟩
      have hs := flushSuitOf_some hf
      have heq : s = c0.suit := by
        by_contra hne
        have := count_add_count_le_length (cards.map (fun c => c.suit)) hne
        rw [List.length_map] at this
        omega
      intro c hc
      rw [heq]
      exact hall c hc

/-! ## The sorted array of rank counts -/

theorem mem_countsCanon (rs : List Int) (c : RankCount) :
    c ∈ countsCanon rs ↔ c.rank ∈ rs ∧ c.count = rs.count c.rank := by
  unfold countsCanon
  rw [(List.perm_insertionSort _ _).mem_iff, List.mem_map]
  constructor
  · rintro ⟨r, hr, rfl⟩
    exact ⟨(mem_uniqFirst rs r).mp hr, rfl⟩
  · rintro ⟨h1, h2⟩
    refine ⟨c.rank, (mem_uniqFirst rs c.rank).mpr h1, ?_⟩
    cases c
    simp only [RankCount.mk.injEq, true_and] at h2 ⊢
    exact h2.symm

theorem countsCanon_sorted (rs : List Int) : (countsCanon rs).Sorted countsOrder :=
  List.sorted_insertionSort _ _

theorem countsCanon_ranks_nodup (rs : List Int) :
    ((countsCanon rs).map (fun c => c.rank)).Nodup := by
  unfold countsCanon
  have hp := (List.perm_insertionSort countsOrder
    ((uniqFirst rs).map (fun r => RankCount.mk r (rs.count r)))).map (fun c => c.rank)
  rw [hp.nodup_iff, List.map_map]
  have : ((fun c : RankCount => c.rank) ∘ fun r => RankCount.mk r (rs.count r)) = id := by
    funext r
    rfl
  rw [this, List.map_id]
  exact nodup_uniqFirst rs

theorem countsCanon_length (rs : List Int) : (countsCanon rs).length = (uniqFirst rs).length := by
  unfold countsCanon
  rw [(List.perm_insertionSort _ _).length_eq, List.length_map]

/-- The first two entries of the sorted counts: the first has the largest
count (and among those the highest rank), the second the same among the other
ranks. -/
theorem countsCanon_top {rs : List Int} {c0 c1 : RankCount} {rest : List RankCount}
    (h : countsCanon rs = c0 :: c1 :: rest) :
    (c0.rank ∈ rs ∧ c0.count = rs.count c0.rank)
    ∧ (c1.rank ∈ rs ∧ c1.count = rs.count c1.rank)
    ∧ c1.rank ≠ c0.rank
    ∧ (c1.count < c0.count ∨ (c1.count = c0.count ∧ c1.rank ≤ c0.rank))
    ∧ (∀ r, r ∈ rs → r ≠ c0.rank →
        rs.count r < c1.count ∨ (rs.count r = c1.count ∧ r ≤ c1.rank))
    ∧ (∀ r, r ∈ rs → rs.count r < c0.count ∨ (rs.count r = c0.count ∧ r ≤ c0.rank)) := by
  have hm0 := (mem_countsCanon rs c0).mp (by rw [h]; simp)
  have hm1 := (mem_countsCanon rs c1).mp (by rw [h]; simp)
  have hs := countsCanon_sorted rs
  have hn := countsCanon_ranks_nodup rs
  rw [h] at hs hn
  simp only [List.Sorted, List.pairwise_cons, List.mem_cons, forall_eq_or_imp] at hs
  simp only [List.map_cons, List.nodup_cons, List.mem_cons, List.mem_map, not_or] at hn
  obtain ⟨⟨h01, h0r⟩, ⟨h1r, -⟩⟩ := hs
  obtain ⟨⟨hne, hn0⟩, ⟨hn1, -⟩⟩ := hn
  have hord : c1.count < c0.count ∨ (c1.count = c0.count ∧ c1.rank ≤ c0.rank) :=
    (countsOrder_iff c0 c1).mp h01
  have hrest : ∀ r, r ∈ rs → r ≠ c0.rank →
      rs.count r < c1.count ∨ (rs.count r = c1.count ∧ r ≤ c1.rank) := by
    intro r hr hne0
    by_cases hr1 : r = c1.rank
    · subst hr1
      exact Or.inr ⟨hm1.2.symm, le_refl _⟩
    · have hmem : (RankCount.mk r (rs.count r)) ∈ countsCanon rs :=
        (mem_countsCanon rs _).mpr ⟨hr, rfl⟩
      rw [h] at hmem
      simp only [List.mem_cons] at hmem
      rcases hmem with h | h | h
      · exact absurd (congrArg RankCount.rank h) hne0
      · exact absurd (congrArg RankCount.rank h) hr1
      · exact (countsOrder_iff c1 _).mp (h1r _ h)
  refine ⟨hm0, hm1, fun h => hne h.symm, hord, hrest, ?_⟩
  intro r hr
  by_cases hr0 : r = c0.rank
  · subst hr0
    exact Or.inr ⟨hm0.2.symm, le_refl _⟩
  · rcases hrest r hr hr0 with h | ⟨h1, h2⟩
    · omega
    · rcases hord with h' | ⟨h3, h4⟩
      · omega
      · by_cases hlt : rs.count r < c0.count
        · exact Or.inl hlt
        · exact Or.inr ⟨by omega, by omega⟩

/-- Five or more distinct cards hold at least two ranks. -/
theorem countsCanon_two (cards : List Card) (hnd : cards.Nodup) (h5 : 5 ≤ cards.length) :
    ∃ c0 c1 rest, countsCanon (analyzeRanks cards) = c0 :: c1 :: rest := by
  have hlen := countsCanon_length (analyzeRanks cards)
  have hcount : ∀ r, (analyzeRanks cards).count r ≤ 4 := fun r => by
    rw [(analyzeRanks_perm cards).count_eq]
    exact count_rank_le_four cards hnd r
  have hl := analyzeRanks_length cards
  rcases hc : countsCanon (analyzeRanks cards) with _ | ⟨c0, _ | ⟨c1, rest⟩⟩
  · rw [hc] at hlen
    have : uniqFirst (analyzeRanks cards) = [] := List.length_eq_zero.mp hlen.symm
    have hnil : analyzeRanks cards = [] := by
      apply List.eq_nil_iff_forall_not_mem.mpr
      intro a ha
      have := (mem_uniqFirst _ a).mpr ha
      simp_all
    rw [hnil] at hl
    simp at hl
    omega
  · exfalso
    have hall : ∀ r, r ∈ analyzeRanks cards → r = c0.rank := by
      intro r hr
      have hmem : (RankCount.mk r ((analyzeRanks cards).count r)) ∈ countsCanon (analyzeRanks cards) :=
        (mem_countsCanon _ _).mpr ⟨hr, rfl⟩
      rw [hc] at hmem
      simp only [List.mem_singleton] at hmem
      exact congrArg RankCount.rank hmem
    have h1 : (analyzeRanks cards).count c0.rank = (analyzeRanks cards).length :=
      List.count_eq_length.mpr (fun r hr => (hall r hr).symm)
    have := hcount c0.rank
    omega
  · exact ⟨c0, c1, rest, rfl⟩

theorem count_three_le_length {α : Type} [DecidableEq α] (l : List α) {a b c : α}
    (hab : a ≠ b) (hac : a ≠ c) (hbc : b ≠ c) :
    l.count a + l.count b + l.count c ≤ l.length := by
  induction l with
  | nil => simp
  | cons x l ih =>
    simp only [List.count_cons, List.length_cons, beq_iff_eq]
    by_cases h1 : x = a
    · subst h1
      rw [if_pos rfl, if_neg hab, if_neg hac]
      omega
    · by_cases h2 : x = b
      · subst h2
        rw [if_neg h1, if_pos rfl, if_neg hbc]
        omega
      · rw [if_neg h1, if_neg h2]
        split <;> omega

/-! ## Sub-lists of cards and their ranks -/

theorem sortDesc_sublist_of_subperm {l1 l2 : List Int} (h : l1.Subperm l2) :
    (sortDesc l1).Sublist (sortDesc l2) := by
  apply List.sublist_of_subperm_of_sorted ?_ (sortDesc_sorted l1) (sortDesc_sorted l2)
  exact ((sortDesc_perm l1).subperm.trans h).trans (sortDesc_perm l2).symm.subperm

theorem ranksOf_sublist {S cards : List Card} (h : S.Sublist cards) :
    (ranksOf S).Sublist (ranksOf cards) :=
  h.map _

theorem analyzeRanks_sublist {S cards : List Card} (h : S.Sublist cards) :
    (analyzeRanks S).Sublist (analyzeRanks cards) :=
  sortDesc_sublist_of_subperm (ranksOf_sublist h).subperm

/-- Cards can be picked for every sub-multiset of the ranks held. -/
theorem exists_sublist_of_subperm (cards : List Card) {T : List Int}
    (h : T.Subperm (ranksOf cards)) :
    ∃ S, S.Sublist cards ∧ HasRanks S T ∧ S.length = T.length := by
  obtain ⟨l, hperm, hsub⟩ := h
  unfold ranksOf at hsub
  rw [List.sublist_map_iff] at hsub
  obtain ⟨S, hS, rfl⟩ := hsub
  refine ⟨S, hS, hperm, ?_⟩
  rw [← hperm.length_eq, List.length_map]

/-- Entry by entry, a sub-list of a list sorted high to low is not above the
list. -/
theorem sublist_getD_le {M L : List Int} (h : M.Sublist L)
    (hs : L.Sorted (fun a b => a ≥ b)) :
    ∀ i, i < M.length → M.getD i 0 ≤ L.getD i 0 := by
  induction h with
  | slnil => intro i hi; simp at hi
  | @cons M L a hsub ih =>
    intro i hi
    have hs2 : L.Sorted (fun a b => a ≥ b) := hs.of_cons
    have hlen := hsub.length_le
    have h1 := ih hs2 i hi
    refine le_trans h1 ?_
    cases i with
    | zero =>
      rw [List.getD_cons_zero]
      have hmem : L.getD 0 0 ∈ L := by
        rw [List.getD_eq_getElem L 0 (by omega)]
        exact List.getElem_mem _
      exact List.rel_of_sorted_cons hs _ hmem
    | succ j =>
      rw [List.getD_cons_succ, List.getD_eq_getElem L 0 (by omega : j + 1 < L.length),
        List.getD_eq_getElem L 0 (by omega : j < L.length)]
      have := List.pairwise_iff_getElem.mp hs2 j (j + 1) (by omega) (by omega) (by omega)
      exact this
  | @cons₂ M L a hsub ih =>
    intro i hi
    cases i with
    | zero => simp
    | succ j =>
      rw [List.getD_cons_succ, List.getD_cons_succ]
      exact ih hs.of_cons j (by simpa using hi)

theorem sublist5_dom {a b c d e : Int} {L : List Int} (h : [a, b, c, d, e].Sublist L)
    (hs : L.Sorted (fun a b => a ≥ b)) :
    ∃ x0 x1 x2 x3 x4 L', L = x0 :: x1 :: x2 :: x3 :: x4 :: L'
      ∧ a ≤ x0 ∧ b ≤ x1 ∧ c ≤ x2 ∧ d ≤ x3 ∧ e ≤ x4 := by
  have hlen := h.length_le
  have hd := sublist_getD_le h hs
  rcases L with _ | ⟨x0, _ | ⟨x1, _ | ⟨x2, _ | ⟨x3, _ | ⟨x4, L'⟩⟩⟩⟩⟩ <;>
    simp only [List.length_cons, List.length_nil] at hlen <;> try omega
  refine ⟨x0, x1, x2, x3, x4, L', rfl, ?_, ?_, ?_, ?_, ?_⟩
  · simpa using hd 0 (by simp)
  · simpa using hd 1 (by simp)
  · simpa using hd 2 (by simp)
  · simpa using hd 3 (by simp)
  · simpa using hd 4 (by simp)

theorem sublist3_dom {a b c : Int} {L : List Int} (h : [a, b, c].Sublist L)
    (hs : L.Sorted (fun a b => a ≥ b)) :
    ∃ x0 x1 x2 L', L = x0 :: x1 :: x2 :: L' ∧ a ≤ x0 ∧ b ≤ x1 ∧ c ≤ x2 := by
  have hlen := h.length_le
  have hd := sublist_getD_le h hs
  rcases L with _ | ⟨x0, _ | ⟨x1, _ | ⟨x2, L'⟩⟩⟩ <;>
    simp only [List.length_cons, List.length_nil] at hlen <;> try omega
  refine ⟨x0, x1, x2, L', rfl, ?_, ?_, ?_⟩
  · simpa using hd 0 (by simp)
  · simpa using hd 1 (by simp)
  · simpa using hd 2 (by simp)

theorem sublist2_dom {a b : Int} {L : List Int} (h : [a, b].Sublist L)
    (hs : L.Sorted (fun a b => a ≥ b)) :
    ∃ x0 x1 L', L = x0 :: x1 :: L' ∧ a ≤ x0 ∧ b ≤ x1 := by
  have hlen := h.length_le
  have hd := sublist_getD_le h hs
  rcases L with _ | ⟨x0, _ | ⟨x1, L'⟩⟩ <;>
    simp only [List.length_cons, List.length_nil] at hlen <;> try omega
  refine ⟨x0, x1, L', rfl, ?_, ?_⟩
  · simpa using hd 0 (by simp)
  · simpa using hd 1 (by simp)

theorem sublist1_dom {a : Int} {L : List Int} (h : [a].Sublist L)
    (hs : L.Sorted (fun a b => a ≥ b)) :
    ∃ x0 L', L = x0 :: L' ∧ a ≤ x0 := by
  have hlen := h.length_le
  have hd := sublist_getD_le h hs
  rcases L with _ | ⟨x0, L'⟩ <;>
    simp only [List.length_cons, List.length_nil] at hlen <;> try omega
  exact ⟨x0, L', rfl, by simpa using hd 0 (by simp)⟩

theorem sorted_filter_analyzeRanks (cards : List Card) (p : Int → Bool) :
    ((analyzeRanks cards).filter p).Sorted (fun a b => a ≥ b) :=
  List.Pairwise.sublist (List.filter_sublist _) (sortDesc_sorted _)

/-- A list sorted high to low without repetition is strictly decreasing. -/
theorem strict_of_sorted_nodup {l : List Int} (h1 : l.Sorted (fun a b => a ≥ b))
    (h2 : l.Nodup) : l.Sorted (fun a b => a > b) := by
  unfold List.Sorted at h1 ⊢
  unfold List.Nodup at h2
  refine (h1.and h2).imp ?_
  intro a b hab
  exact lt_of_le_of_ne hab.1 (Ne.symm hab.2)

/-! ## The branches of the ranking -/

/-- The branch taken by the ranking of `evaluateHand` and its result, when at
least two ranks are held. -/
theorem handValue_branches (rs : List Int) (c0 c1 : RankCount) (rest : List RankCount)
    (isFlush : Bool) (fr : List Int) (sh sfh : Option Int) (royal : Bool) :
    (handValue rs (c0 :: c1 :: rest) isFlush fr sh sfh royal = [9, 14] ∧ royal = true)
    ∨ (handValue rs (c0 :: c1 :: rest) isFlush fr sh sfh royal = [8, sfh.getD 0]
        ∧ royal = false ∧ truthy sfh = true)
    ∨ (handValue rs (c0 :: c1 :: rest) isFlush fr sh sfh royal
          = [7, c0.rank, (rs.filter (fun r => decide (r ≠ c0.rank))).getD 0 0]
        ∧ royal = false ∧ truthy sfh = false ∧ c0.count = 4)
    ∨ (handValue rs (c0 :: c1 :: rest) isFlush fr sh sfh royal = [6, c0.rank, c1.rank]
        ∧ royal = false ∧ truthy sfh = false ∧ c0.count = 3 ∧ c1.count ≥ 2)
    ∨ (handValue rs (c0 :: c1 :: rest) isFlush fr sh sfh royal
          = 5 :: padZeros ((sortDesc fr).take 5) 5
        ∧ royal = false ∧ truthy sfh = false ∧ c0.count ≠ 4 ∧ ¬ (c0.count = 3 ∧ c1.count ≥ 2)
        ∧ isFlush = true)
    ∨ (handValue rs (c0 :: c1 :: rest) isFlush fr sh sfh royal = [4, sh.getD 0]
        ∧ royal = false ∧ truthy sfh = false ∧ c0.count ≠ 4 ∧ ¬ (c0.count = 3 ∧ c1.count ≥ 2)
        ∧ isFlush = false ∧ truthy sh = true)
    ∨ (handValue rs (c0 :: c1 :: rest) isFlush fr sh sfh royal
          = [3, c0.rank] ++ padZeros ((rs.filter (fun r => decide (r ≠ c0.rank))).take 2) 2
        ∧ royal = false ∧ truthy sfh = false ∧ isFlush = false ∧ truthy sh = false
        ∧ c0.count = 3 ∧ ¬ c1.count ≥ 2)
    ∨ (handValue rs (c0 :: c1 :: rest) isFlush fr sh sfh royal
          = [2, (sortDesc [c0.rank, c1.rank]).getD 0 0, (sortDesc [c0.rank, c1.rank]).getD 1 0,
              (rs.filter (fun r => decide (r ≠ (sortDesc [c0.rank, c1.rank]).getD 0 0
                ∧ r ≠ (sortDesc [c0.rank, c1.rank]).getD 1 0))).getD 0 0]
        ∧ royal = false ∧ truthy sfh = false ∧ isFlush = false ∧ truthy sh = false
        ∧ c0.count = 2 ∧ c1.count = 2)
    ∨ (handValue rs (c0 :: c1 :: rest) isFlush fr sh sfh royal
          = [1, c0.rank] ++ padZeros ((rs.filter (fun r => decide (r ≠ c0.rank))).take 3) 3
        ∧ royal = false ∧ truthy sfh = false ∧ isFlush = false ∧ truthy sh = false
        ∧ c0.count = 2 ∧ c1.count ≠ 2)
    ∨ (handValue rs (c0 :: c1 :: rest) isFlush fr sh sfh royal = 0 :: padZeros (rs.take 5) 5
        ∧ royal = false ∧ truthy sfh = false ∧ isFlush = false ∧ truthy sh = false
        ∧ c0.count ≠ 4 ∧ c0.count ≠ 3 ∧ c0.count ≠ 2) := by
  have hk : ∀ l : List Int, (if l.length > 0 then l.getD 0 0 else 0) = l.getD 0 0 := by
    intro l
    cases l <;> simp
  simp only [handValue, List.head?_cons, Option.map_some', Option.getD_some, List.map_cons,
    List.getD_cons_zero, hk, decide_eq_true_eq]
  by_cases h9 : royal = true
  · simp [h9]
  · simp only [Bool.not_eq_true] at h9
    by_cases h8 : truthy sfh = true
    · simp [h9, h8]
    · simp only [Bool.not_eq_true] at h8
      by_cases h7 : c0.count = 4
      · simp [h9, h8, h7]
      · by_cases h6 : c0.count = 3 ∧ c1.count ≥ 2
        · simp [h9, h8, h6.1, h6.2]
        · by_cases h5 : isFlush = true
          · simp [h9, h8, h7, h6, h5]
          · simp only [Bool.not_eq_true] at h5
            by_cases h4 : truthy sh = true
            · simp [h9, h8, h7, h6, h5, h4]
            · simp only [Bool.not_eq_true] at h4
              by_cases h3 : c0.count = 3
              · have h3' : ¬ c1.count ≥ 2 := fun h => h6 ⟨h3, h⟩
                simp [h9, h8, h5, h4, h3, h3']
              · by_cases h2 : c0.count = 2
                · by_cases h2' : c1.count = 2
                  · simp [h9, h8, h5, h4, h2, h2']
                  · simp [h9, h8, h5, h4, h2, h2']
                · simp [h9, h8, h7, h5, h4, h3, h2]

/-! ## Facts about the whole hand -/

/-- The values handed to the ranking for five to seven distinct cards. -/
theorem evaluateHand_form (cards : List Card) (hnd : cards.Nodup) (h5 : 5 ≤ cards.length) :
    ∃ c0 c1 rest isFlush fr sfh royal,
      evaluateHand cards
        = handValue (analyzeRanks cards) (c0 :: c1 :: rest) isFlush fr
            (straightHighOf (sortDesc (uniqFirst (analyzeRanks cards)))) sfh royal
      ∧ countsCanon (analyzeRanks cards) = c0 :: c1 :: rest
      ∧ ((flushSuitOf cards = none ∧ isFlush = false ∧ sfh = none ∧ royal = false)
        ∨ (∃ s, flushSuitOf cards = some s ∧ isFlush = true
            ∧ fr = ranksOf (cards.filter (fun c => decide (c.suit = s)))
            ∧ sfh = straightHighOf (analyzeRanks (cards.filter (fun c => decide (c.suit = s))))
            ∧ royal = decide (findStraightHigh
                (analyzeRanks (cards.filter (fun c => decide (c.suit = s)))) = some 14))) := by
  obtain ⟨c0, c1, rest, hc⟩ := countsCanon_two cards hnd h5
  cases hf : flushSuitOf cards with
  | none =>
    refine ⟨c0, c1, rest, false, [], none, false, ?_, hc, Or.inl ⟨rfl, rfl, rfl, rfl⟩⟩
    rw [evaluateHand_noflush_form cards h5 hf, hc]
  | some s =>
    refine ⟨c0, c1, rest, true, _, _, _, ?_, hc, Or.inr ⟨s, rfl, rfl, rfl, rfl, rfl⟩⟩
    rw [evaluateHand_flush_form cards hnd h5 s hf, hc]

theorem count_analyzeRanks_le_four (cards : List Card) (hnd : cards.Nodup) (r : Int) :
    (analyzeRanks cards).count r ≤ 4 := by
  rw [(analyzeRanks_perm cards).count_eq]
  exact count_rank_le_four cards hnd r

theorem sortDesc_sublist_of_hasRanks {S cards : List Card} {T : List Int}
    (hsub : S.Sublist cards) (h : HasRanks S T) : (sortDesc T).Sublist (analyzeRanks cards) := by
  rw [← analyzeRanks_of_hasRanks h]
  exact analyzeRanks_sublist hsub

theorem count_le_of_hasRanks {S cards : List Card} {T : List Int}
    (hsub : S.Sublist cards) (h : HasRanks S T) (r : Int) :
    T.count r ≤ (analyzeRanks cards).count r := by
  have h1 := (sortDesc_sublist_of_hasRanks hsub h).count_le r
  rwa [(sortDesc_perm T).count_eq] at h1

theorem filter_sublist_of_hasRanks {S cards : List Card} {T : List Int}
    (hsub : S.Sublist cards) (h : HasRanks S T) (p : Int → Bool) :
    (sortDesc (T.filter p)).Sublist ((analyzeRanks cards).filter p) := by
  rw [← filter_sortDesc]
  exact (sortDesc_sublist_of_hasRanks hsub h).filter p

theorem mem_of_hasRanks {S cards : List Card} {T : List Int}
    (hsub : S.Sublist cards) (h : HasRanks S T) {r : Int} (hr : r ∈ T) :
    r ∈ analyzeRanks cards :=
  (sortDesc_sublist_of_hasRanks hsub h).subset ((sortDesc_perm T).mem_iff.mpr hr)

theorem compareHands_head_gt (K k : Int) (a b : List Int) (h : K > k) :
    compareHands (K :: a) (k :: b) ≥ 0 := by
  rw [compareHands_eq_comparePadded _ _ (by simp) (by simp), comparePadded, if_pos h]
  decide

theorem sortDesc_strict3 {a b c : Int} (hab : a > b) (hbc : b > c) :
    sortDesc [a, b, c] = [a, b, c] := by
  apply sortDesc_of_sorted
  simp only [List.Sorted, List.pairwise_cons, List.mem_cons, List.mem_singleton,
    List.not_mem_nil, false_implies, implies_true, List.Pairwise.nil, and_true, forall_eq_or_imp,
    forall_eq]
  omega

theorem sortDesc_strict2 {a b : Int} (hab : a > b) : sortDesc [a, b] = [a, b] := by
  apply sortDesc_of_sorted
  simp only [List.Sorted, List.pairwise_cons, List.mem_cons, List.mem_singleton,
    List.not_mem_nil, false_implies, implies_true, List.Pairwise.nil, and_true, forall_eq_or_imp,
    forall_eq]
  omega

theorem comparePadded_cons (x y : Int) (a b : List Int)
    (h : y < x ∨ (x = y ∧ comparePadded a b ≥ 0)) : comparePadded (x :: a) (y :: b) ≥ 0 := by
  rw [comparePadded]
  rcases h with h | ⟨h1, h2⟩
  · rw [if_pos h]
    decide
  · rw [if_neg (by omega), if_neg (by omega)]
    exact h2

theorem comparePadded_pointwise {a b : List Int} (h : List.Forall₂ (fun x y => y ≤ x) a b) :
    comparePadded a b ≥ 0 := by
  induction h with
  | nil => simp [comparePadded]
  | @cons x y a b hxy _ ih =>
    apply comparePadded_cons
    by_cases hlt : y < x
    · exact Or.inl hlt
    · exact Or.inr ⟨by omega, ih⟩

theorem compareHands_pointwise {a b : List Int} (ha : a ≠ []) (hb : b ≠ [])
    (h : List.Forall₂ (fun x y => y ≤ x) a b) : compareHands a b ≥ 0 := by
  rw [compareHands_eq_comparePadded _ _ ha hb]
  exact comparePadded_pointwise h

theorem take5_cons (x0 x1 x2 x3 x4 : Int) (L : List Int) :
    (x0 :: x1 :: x2 :: x3 :: x4 :: L).take 5 = [x0, x1, x2, x3, x4] := rfl

theorem padZeros_five (x0 x1 x2 x3 x4 : Int) :
    padZeros [x0, x1, x2, x3, x4] 5 = [x0, x1, x2, x3, x4] := rfl

theorem padZeros_three (x0 x1 x2 : Int) : padZeros [x0, x1, x2] 3 = [x0, x1, x2] := rfl

theorem padZeros_two (x0 x1 : Int) : padZeros [x0, x1] 2 = [x0, x1] := rfl

/-! ## No five cards of the hand score higher than the hand -/

theorem upper_highCard (cards : List Card) (hnd : cards.Nodup) (h5 : 5 ≤ cards.length)
    {S : List Card} (hsub : S.Sublist cards) {a b c d e : Int}
    (hr : HasRanks S [a, b, c, d, e]) (hab : a > b) (hbc : b > c) (hcd : c > d) (hde : d > e) :
    compareHands (evaluateHand cards) [0, a, b, c, d, e] ≥ 0 := by
  obtain ⟨c0, c1, rest, isFlush, fr, sfh, royal, hform, -, -⟩ := evaluateHand_form cards hnd h5
  have hdom := sortDesc_sublist_of_hasRanks hsub hr
  rw [sortDesc_strict5 hab hbc hcd hde] at hdom
  obtain ⟨x0, x1, x2, x3, x4, L', hL, d0, d1, d2, d3, d4⟩ := sublist5_dom hdom (sortDesc_sorted _)
  rw [hform]
  rcases handValue_branches (analyzeRanks cards) c0 c1 rest isFlush fr
    (straightHighOf (sortDesc (uniqFirst (analyzeRanks cards)))) sfh royal with
    h | h | h | h | h | h | h | h | h | h
  · rw [h.1]; exact compareHands_head_gt _ _ _ _ (by omega)
  · rw [h.1]; exact compareHands_head_gt _ _ _ _ (by omega)
  · rw [h.1]; exact compareHands_head_gt _ _ _ _ (by omega)
  · rw [h.1]; exact compareHands_head_gt _ _ _ _ (by omega)
  · rw [h.1]; exact compareHands_head_gt _ _ _ _ (by omega)
  · rw [h.1]; exact compareHands_head_gt _ _ _ _ (by omega)
  · rw [h.1]; exact compareHands_head_gt _ _ _ _ (by omega)
  · rw [h.1]; exact compareHands_head_gt _ _ _ _ (by omega)
  · rw [h.1]; exact compareHands_head_gt _ _ _ _ (by omega)
  · rw [h.1, hL]
    rw [take5_cons, padZeros_five]
    apply compareHands_pointwise (by simp) (by simp)
    simp only [List.forall₂_cons, List.Forall₂.nil, and_true]
    omega

theorem take3_cons (x0 x1 x2 : Int) (L : List Int) :
    (x0 :: x1 :: x2 :: L).take 3 = [x0, x1, x2] := rfl

theorem take2_cons (x0 x1 : Int) (L : List Int) : (x0 :: x1 :: L).take 2 = [x0, x1] := rfl

theorem upper_onePair (cards : List Card) (hnd : cards.Nodup) (h5 : 5 ≤ cards.length)
    {S : List Card} (hsub : S.Sublist cards) {p k1 k2 k3 : Int}
    (hr : HasRanks S [p, p, k1, k2, k3]) (h12 : k1 > k2) (h23 : k2 > k3) (hp1 : p ≠ k1)
    (hp2 : p ≠ k2) (hp3 : p ≠ k3) :
    compareHands (evaluateHand cards) [1, p, k1, k2, k3] ≥ 0 := by
  obtain ⟨c0, c1, rest, isFlush, fr, sfh, royal, hform, hcnt, -⟩ := evaluateHand_form cards hnd h5
  obtain ⟨⟨-, hc0⟩, -, -, hord, htop1, htop0⟩ := countsCanon_top hcnt
  have h4 := count_analyzeRanks_le_four cards hnd c0.rank
  have hpm : p ∈ analyzeRanks cards := mem_of_hasRanks hsub hr (by simp)
  have hcp : 2 ≤ (analyzeRanks cards).count p := by
    have := count_le_of_hasRanks hsub hr p
    simp only [List.count_cons, List.count_nil, beq_self_eq_true, if_true, beq_iff_eq] at this
    omega
  have hp0 := htop0 p hpm
  rw [hform]
  rcases handValue_branches (analyzeRanks cards) c0 c1 rest isFlush fr
    (straightHighOf (sortDesc (uniqFirst (analyzeRanks cards)))) sfh royal with
    h | h | h | h | h | h | h | h | h | h
  · rw [h.1]; exact compareHands_head_gt _ _ _ _ (by omega)
  · rw [h.1]; exact compareHands_head_gt _ _ _ _ (by omega)
  · rw [h.1]; exact compareHands_head_gt _ _ _ _ (by omega)
  · rw [h.1]; exact compareHands_head_gt _ _ _ _ (by omega)
  · rw [h.1]; exact compareHands_head_gt _ _ _ _ (by omega)
  · rw [h.1]; exact compareHands_head_gt _ _ _ _ (by omega)
  · rw [h.1]; exact compareHands_head_gt _ _ _ _ (by omega)
  · rw [h.1]; exact compareHands_head_gt _ _ _ _ (by omega)
  · obtain ⟨hv, -, -, -, -, hc2, hc1⟩ := h
    have hpe : c0.rank = p := by
      by_contra hne
      have := htop1 p hpm (fun h => hne h.symm)
      omega
    have hk := filter_sublist_of_hasRanks hsub hr (fun r => decide (r ≠ p))
    have hfil : [p, p, k1, k2, k3].filter (fun r => decide (r ≠ p)) = [k1, k2, k3] := by
      simp [List.filter_cons, hp1.symm, hp2.symm, hp3.symm]
    rw [hfil, sortDesc_strict3 h12 h23] at hk
    obtain ⟨x0, x1, x2, L', hL, d0, d1, d2⟩ :=
      sublist3_dom hk (sorted_filter_analyzeRanks cards _)
    rw [hv, hpe, hL, take3_cons, padZeros_three]
    apply compareHands_pointwise (by simp) (by simp)
    simp only [List.cons_append, List.nil_append, List.forall₂_cons, List.Forall₂.nil, and_true]
    omega
  · obtain ⟨-, -, -, -, -, hc4, hc3, hc2⟩ := h
    omega

theorem upper_trips (cards : List Card) (hnd : cards.Nodup) (h5 : 5 ≤ cards.length)
    {S : List Card} (hsub : S.Sublist cards) {t k1 k2 : Int}
    (hr : HasRanks S [t, t, t, k1, k2]) (h12 : k1 > k2) (ht1 : t ≠ k1) (ht2 : t ≠ k2) :
    compareHands (evaluateHand cards) [3, t, k1, k2] ≥ 0 := by
  obtain ⟨c0, c1, rest, isFlush, fr, sfh, royal, hform, hcnt, -⟩ := evaluateHand_form cards hnd h5
  obtain ⟨⟨-, hc0⟩, -, -, hord, htop1, htop0⟩ := countsCanon_top hcnt
  have h4 := count_analyzeRanks_le_four cards hnd c0.rank
  have htm : t ∈ analyzeRanks cards := mem_of_hasRanks hsub hr (by simp)
  have hct : 3 ≤ (analyzeRanks cards).count t := by
    have := count_le_of_hasRanks hsub hr t
    simp only [List.count_cons, List.count_nil, beq_self_eq_true, if_true, beq_iff_eq] at this
    omega
  have ht0 := htop0 t htm
  rw [hform]
  rcases handValue_branches (analyzeRanks cards) c0 c1 rest isFlush fr
    (straightHighOf (sortDesc (uniqFirst (analyzeRanks cards)))) sfh royal with
    h | h | h | h | h | h | h | h | h | h
  · rw [h.1]; exact compareHands_head_gt _ _ _ _ (by omega)
  · rw [h.1]; exact compareHands_head_gt _ _ _ _ (by omega)
  · rw [h.1]; exact compareHands_head_gt _ _ _ _ (by omega)
  · rw [h.1]; exact compareHands_head_gt _ _ _ _ (by omega)
  · rw [h.1]; exact compareHands_head_gt _ _ _ _ (by omega)
  · rw [h.1]; exact compareHands_head_gt _ _ _ _ (by omega)
  · obtain ⟨hv, -, -, -, -, hc3, hc1⟩ := h
    have hte : c0.rank = t := by
      by_contra hne
      have := htop1 t htm (fun h => hne h.symm)
      omega
    have hk := filter_sublist_of_hasRanks hsub hr (fun r => decide (r ≠ t))
    have hfil : [t, t, t, k1, k2].filter (fun r => decide (r ≠ t)) = [k1, k2] := by
      simp [List.filter_cons, ht1.symm, ht2.symm]
    rw [hfil, sortDesc_strict2 h12] at hk
    obtain ⟨x0, x1, L', hL, d0, d1⟩ := sublist2_dom hk (sorted_filter_analyzeRanks cards _)
    rw [hv, hte, hL, take2_cons, padZeros_two]
    apply compareHands_pointwise (by simp) (by simp)
    simp only [List.cons_append, List.nil_append, List.forall₂_cons, List.Forall₂.nil, and_true]
    omega
  · obtain ⟨-, -, -, -, -, hc2, -⟩ := h
    omega
  · obtain ⟨-, -, -, -, -, hc2, -⟩ := h
    omega
  · obtain ⟨-, -, -, -, -, hc4, hc3, hc2⟩ := h
    omega

theorem upper_twoPair (cards : List Card) (hnd : cards.Nodup) (h5 : 5 ≤ cards.length)
    {S : List Card} (hsub : S.Sublist cards) {hi lo k : Int}
    (hr : HasRanks S [hi, hi, lo, lo, k]) (hhl : hi > lo) (hkh : k ≠ hi) (hkl : k ≠ lo) :
    compareHands (evaluateHand cards) [2, hi, lo, k] ≥ 0 := by
  obtain ⟨c0, c1, rest, isFlush, fr, sfh, royal, hform, hcnt, -⟩ := evaluateHand_form cards hnd h5
  obtain ⟨⟨-, hc0⟩, ⟨-, hc1⟩, hne01, hord, htop1, htop0⟩ := countsCanon_top hcnt
  have h4 := count_analyzeRanks_le_four cards hnd c0.rank
  have hhm : hi ∈ analyzeRanks cards := mem_of_hasRanks hsub hr (by simp)
  have hlm : lo ∈ analyzeRanks cards := mem_of_hasRanks hsub hr (by simp)
  have hkm : k ∈ analyzeRanks cards := mem_of_hasRanks hsub hr (by simp)
  have hlh : lo ≠ hi := by omega
  have hch : 2 ≤ (analyzeRanks cards).count hi := by
    have := count_le_of_hasRanks hsub hr hi
    simp only [List.count_cons, List.count_nil, beq_self_eq_true, if_true, beq_iff_eq] at this
    omega
  have hcl : 2 ≤ (analyzeRanks cards).count lo := by
    have := count_le_of_hasRanks hsub hr lo
    simp only [List.count_cons, List.count_nil, beq_self_eq_true, if_true, beq_iff_eq] at this
    omega
  have hh0 := htop0 hi hhm
  have hc1ge : 2 ≤ c1.count := by
    by_cases hhe : hi = c0.rank
    · have := htop1 lo hlm (by omega)
      omega
    · have := htop1 hi hhm hhe
      omega
  rw [hform]
  rcases handValue_branches (analyzeRanks cards) c0 c1 rest isFlush fr
    (straightHighOf (sortDesc (uniqFirst (analyzeRanks cards)))) sfh royal with
    h | h | h | h | h | h | h | h | h | h
  · rw [h.1]; exact compareHands_head_gt _ _ _ _ (by omega)
  · rw [h.1]; exact compareHands_head_gt _ _ _ _ (by omega)
  · rw [h.1]; exact compareHands_head_gt _ _ _ _ (by omega)
  · rw [h.1]; exact compareHands_head_gt _ _ _ _ (by omega)
  · rw [h.1]; exact compareHands_head_gt _ _ _ _ (by omega)
  · rw [h.1]; exact compareHands_head_gt _ _ _ _ (by omega)
  · rw [h.1]; exact compareHands_head_gt _ _ _ _ (by omega)
  · obtain ⟨hv, -, -, -, -, hc02, hc12⟩ := h
    have hlt : c1.rank < c0.rank := by omega
    rw [sortDesc_strict2 hlt] at hv
    simp only [List.getD_cons_zero, List.getD_cons_succ] at hv
    rw [hv, compareHands_eq_comparePadded _ _ (by simp) (by simp)]
    apply comparePadded_cons
    refine Or.inr ⟨rfl, ?_⟩
    apply comparePadded_cons
    by_cases hhe : hi = c0.rank
    · refine Or.inr ⟨hhe.symm, ?_⟩
      apply comparePadded_cons
      have hl1 := htop1 lo hlm (by omega)
      by_cases hle : lo = c1.rank
      · refine Or.inr ⟨hle.symm, ?_⟩
        have hk := filter_sublist_of_hasRanks hsub hr
          (fun r => decide (r ≠ c0.rank ∧ r ≠ c1.rank))
        have hfil : [hi, hi, lo, lo, k].filter (fun r => decide (r ≠ c0.rank ∧ r ≠ c1.rank))
            = [k] := by
          rw [← hhe, ← hle]
          simp [List.filter_cons, hkh, hkl]
        rw [hfil] at hk
        have hk1 : sortDesc [k] = [k] := rfl
        rw [hk1] at hk
        obtain ⟨x0, L', hL, d0⟩ := sublist1_dom hk (sorted_filter_analyzeRanks cards _)
        rw [hL]
        apply comparePadded_pointwise
        simp only [List.getD_cons_zero, List.forall₂_cons, List.Forall₂.nil, and_true]
        exact d0
      · exact Or.inl (by omega)
    · exact Or.inl (by omega)
  · obtain ⟨-, -, -, -, -, hc2, hc1n⟩ := h
    omega
  · obtain ⟨-, -, -, -, -, hc4, hc3, hc2⟩ := h
    omega

theorem upper_quads (cards : List Card) (hnd : cards.Nodup) (h5 : 5 ≤ cards.length)
    (h7 : cards.length ≤ 7) {S : List Card} (hsub : S.Sublist cards) {q k : Int}
    (hr : HasRanks S [q, q, q, q, k]) :
    compareHands (evaluateHand cards) [7, q, k] ≥ 0 := by
  obtain ⟨c0, c1, rest, isFlush, fr, sfh, royal, hform, hcnt, -⟩ := evaluateHand_form cards hnd h5
  obtain ⟨⟨-, hc0⟩, -, -, hord, htop1, htop0⟩ := countsCanon_top hcnt
  have h4 := count_analyzeRanks_le_four cards hnd c0.rank
  have hq4 := count_analyzeRanks_le_four cards hnd q
  have hlen := analyzeRanks_length cards
  have hqm : q ∈ analyzeRanks cards := mem_of_hasRanks hsub hr (by simp)
  have hkq : k ≠ q := by
    rintro rfl
    have := count_le_of_hasRanks hsub hr k
    simp only [List.count_cons, List.count_nil, beq_self_eq_true, if_true] at this
    omega
  have hcq : 4 ≤ (analyzeRanks cards).count q := by
    have := count_le_of_hasRanks hsub hr q
    simp only [List.count_cons, List.count_nil, beq_self_eq_true, if_true, beq_iff_eq] at this
    omega
  have hq0 := htop0 q hqm
  rw [hform]
  rcases handValue_branches (analyzeRanks cards) c0 c1 rest isFlush fr
    (straightHighOf (sortDesc (uniqFirst (analyzeRanks cards)))) sfh royal with
    h | h | h | h | h | h | h | h | h | h
  · rw [h.1]; exact compareHands_head_gt _ _ _ _ (by omega)
  · rw [h.1]; exact compareHands_head_gt _ _ _ _ (by omega)
  · obtain ⟨hv, -, -, hc04⟩ := h
    have hqe : c0.rank = q := by
      by_contra hne
      have := count_add_count_le_length (analyzeRanks cards) hne
      omega
    have hk := filter_sublist_of_hasRanks hsub hr (fun r => decide (r ≠ q))
    have hfil : [q, q, q, q, k].filter (fun r => decide (r ≠ q)) = [k] := by
      simp [List.filter_cons, hkq]
    rw [hfil] at hk
    have hk1 : sortDesc [k] = [k] := rfl
    rw [hk1] at hk
    obtain ⟨x0, L', hL, d0⟩ := sublist1_dom hk (sorted_filter_analyzeRanks cards _)
    rw [hv, hqe, hL]
    apply compareHands_pointwise (by simp) (by simp)
    simp only [List.getD_cons_zero, List.forall₂_cons, List.Forall₂.nil, and_true]
    omega
  · obtain ⟨-, -, -, hc, -⟩ := h
    omega
  · obtain ⟨-, -, -, hc, -⟩ := h
    omega
  · obtain ⟨-, -, -, hc, -⟩ := h
    omega
  · obtain ⟨-, -, -, -, -, hc, -⟩ := h
    omega
  · obtain ⟨-, -, -, -, -, hc, -⟩ := h
    omega
  · obtain ⟨-, -, -, -, -, hc, -⟩ := h
    omega
  · obtain ⟨-, -, -, -, -, hc, -⟩ := h
    omega

theorem upper_fullHouse (cards : List Card) (hnd : cards.Nodup) (h5 : 5 ≤ cards.length)
    (h7 : cards.length ≤ 7) {S : List Card} (hsub : S.Sublist cards) {t p : Int}
    (hr : HasRanks S [t, t, t, p, p]) :
    compareHands (evaluateHand cards) [6, t, p] ≥ 0 := by
  obtain ⟨c0, c1, rest, isFlush, fr, sfh, royal, hform, hcnt, -⟩ := evaluateHand_form cards hnd h5
  obtain ⟨⟨-, hc0⟩, ⟨-, hc1⟩, hne01, hord, htop1, htop0⟩ := countsCanon_top hcnt
  have h4 := count_analyzeRanks_le_four cards hnd c0.rank
  have hlen := analyzeRanks_length cards
  have htm : t ∈ analyzeRanks cards := mem_of_hasRanks hsub hr (by simp)
  have hpm : p ∈ analyzeRanks cards := mem_of_hasRanks hsub hr (by simp)
  have hpt : p ≠ t := by
    rintro rfl
    have := count_le_of_hasRanks hsub hr p
    have := count_analyzeRanks_le_four cards hnd p
    simp only [List.count_cons, List.count_nil, beq_self_eq_true, if_true] at *
    omega
  have hct : 3 ≤ (analyzeRanks cards).count t := by
    have := count_le_of_hasRanks hsub hr t
    simp only [List.count_cons, List.count_nil, beq_self_eq_true, if_true, beq_iff_eq] at this
    omega
  have hcp : 2 ≤ (analyzeRanks cards).count p := by
    have := count_le_of_hasRanks hsub hr p
    simp only [List.count_cons, List.count_nil, beq_self_eq_true, if_true, beq_iff_eq] at this
    omega
  have ht0 := htop0 t htm
  have hdet : c0.count = 4 ∨ (c0.count = 3 ∧ c1.count ≥ 2) := by
    by_cases h : c0.count = 4
    · exact Or.inl h
    · refine Or.inr ⟨by omega, ?_⟩
      by_cases hte : t = c0.rank
      · have := htop1 p hpm (by omega)
        omega
      · have := htop1 t htm hte
        omega
  rw [hform]
  rcases handValue_branches (analyzeRanks cards) c0 c1 rest isFlush fr
    (straightHighOf (sortDesc (uniqFirst (analyzeRanks cards)))) sfh royal with
    h | h | h | h | h | h | h | h | h | h
  · rw [h.1]; exact compareHands_head_gt _ _ _ _ (by omega)
  · rw [h.1]; exact compareHands_head_gt _ _ _ _ (by omega)
  · rw [h.1]; exact compareHands_head_gt _ _ _ _ (by omega)
  · obtain ⟨hv, -, -, hc03, hc12⟩ := h
    rw [hv, compareHands_eq_comparePadded _ _ (by simp) (by simp)]
    apply comparePadded_cons
    refine Or.inr ⟨rfl, ?_⟩
    apply comparePadded_cons
    by_cases hte : t = c0.rank
    · refine Or.inr ⟨hte.symm, ?_⟩
      apply comparePadded_pointwise
      simp only [List.forall₂_cons, List.Forall₂.nil, and_true]
      rcases htop1 p hpm (by omega) with hlt | ⟨-, hle⟩
      · exfalso
        have hp1 : p ≠ c1.rank := by
          rintro rfl
          omega
        have := count_three_le_length (analyzeRanks cards) hne01.symm
          (fun h : c0.rank = p => hpt (by omega)) (fun h : c1.rank = p => hp1 h.symm)
        omega
      · exact hle
    · exact Or.inl (by omega)
  · obtain ⟨-, -, -, hc, hc', -⟩ := h
    rcases hdet with h | h
    · exact absurd h hc
    · exact absurd h hc'
  · obtain ⟨-, -, -, hc, hc', -⟩ := h
    rcases hdet with h | h
    · exact absurd h hc
    · exact absurd h hc'
  · obtain ⟨-, -, -, -, -, hc, hc'⟩ := h
    omega
  · obtain ⟨-, -, -, -, -, hc, -⟩ := h
    omega
  · obtain ⟨-, -, -, -, -, hc, -⟩ := h
    omega
  · obtain ⟨-, -, -, -, -, hc4, hc3, hc2⟩ := h
    omega

theorem uniq_strict (l : List Int) : (sortDesc (uniqFirst l)).Sorted (fun a b => a > b) :=
  strict_of_sorted_nodup (sortDesc_sorted _) ((sortDesc_perm _).nodup_iff.mpr (nodup_uniqFirst _))

theorem mem_uniq (l : List Int) (r : Int) : r ∈ sortDesc (uniqFirst l) ↔ r ∈ l :=
  (sortDesc_perm _).mem_iff.trans (mem_uniqFirst l r)

theorem mem_analyzeRanks_range {cards : List Card} {r : Int} (h : r ∈ analyzeRanks cards) :
    2 ≤ r ∧ r ≤ 14 :=
  mem_ranksOf_range ((analyzeRanks_perm cards).mem_iff.mp h)

theorem isStraight_mono {u v : List Int} {h : Int} (hs : IsStraight u h)
    (hsub : ∀ x, x ∈ u → x ∈ v) : IsStraight v h := by
  rcases hs with ⟨m0, m1, m2, m3, m4⟩ | ⟨h5, m0, m1, m2, m3, m4⟩
  · exact Or.inl ⟨hsub _ m0, hsub _ m1, hsub _ m2, hsub _ m3, hsub _ m4⟩
  · exact Or.inr ⟨h5, hsub _ m0, hsub _ m1, hsub _ m2, hsub _ m3, hsub _ m4⟩

theorem isStraight_of_consecutive {S cards : List Card} (hsub : S.Sublist cards) {h : Int}
    (hc : Consecutive S h) : IsStraight (analyzeRanks cards) h := by
  rcases hc with hr | ⟨h5, hr⟩
  · exact Or.inl ⟨mem_of_hasRanks hsub hr (by simp), mem_of_hasRanks hsub hr (by simp),
      mem_of_hasRanks hsub hr (by simp), mem_of_hasRanks hsub hr (by simp),
      mem_of_hasRanks hsub hr (by simp)⟩
  · exact Or.inr ⟨h5, mem_of_hasRanks hsub hr (by simp), mem_of_hasRanks hsub hr (by simp),
      mem_of_hasRanks hsub hr (by simp), mem_of_hasRanks hsub hr (by simp),
      mem_of_hasRanks hsub hr (by simp)⟩

theorem sublist_filter_suit {S cards : List Card} (hsub : S.Sublist cards) {s : Suit}
    (hs : ∀ c, c ∈ S → c.suit = s) :
    S.Sublist (cards.filter (fun c => decide (c.suit = s))) := by
  have h1 := hsub.filter (fun c => decide (c.suit = s))
  have h2 : S.filter (fun c => decide (c.suit = s)) = S := by
    rw [List.filter_eq_self]
    intro c hc
    simp [hs c hc]
  rwa [h2] at h1

theorem upper_straight (cards : List Card) (hnd : cards.Nodup) (h5 : 5 ≤ cards.length)
    {S : List Card} (hsub : S.Sublist cards) {high : Int} (hc : Consecutive S high) :
    compareHands (evaluateHand cards) [4, high] ≥ 0 := by
  obtain ⟨c0, c1, rest, isFlush, fr, sfh, royal, hform, -, -⟩ := evaluateHand_form cards hnd h5
  have hst : IsStraight (sortDesc (uniqFirst (analyzeRanks cards))) high :=
    isStraight_mono (isStraight_of_consecutive hsub hc) (fun x hx => (mem_uniq _ x).mpr hx)
  obtain ⟨h', hge, hsh, htr⟩ := straightHighOf_complete (uniq_strict _)
    (fun x hx => (mem_analyzeRanks_range ((mem_uniq _ x).mp hx)).1) hst
  rw [hform]
  rcases handValue_branches (analyzeRanks cards) c0 c1 rest isFlush fr
    (straightHighOf (sortDesc (uniqFirst (analyzeRanks cards)))) sfh royal with
    h | h | h | h | h | h | h | h | h | h
  · rw [h.1]; exact compareHands_head_gt _ _ _ _ (by omega)
  · rw [h.1]; exact compareHands_head_gt _ _ _ _ (by omega)
  · rw [h.1]; exact compareHands_head_gt _ _ _ _ (by omega)
  · rw [h.1]; exact compareHands_head_gt _ _ _ _ (by omega)
  · rw [h.1]; exact compareHands_head_gt _ _ _ _ (by omega)
  · rw [h.1, hsh]
    apply compareHands_pointwise (by simp) (by simp)
    simp only [Option.getD_some, List.forall₂_cons, List.Forall₂.nil, and_true]
    omega
  · obtain ⟨-, -, -, -, hf, -⟩ := h
    rw [htr] at hf
    exact absurd hf (by simp)
  · obtain ⟨-, -, -, -, hf, -⟩ := h
    rw [htr] at hf
    exact absurd hf (by simp)
  · obtain ⟨-, -, -, -, hf, -⟩ := h
    rw [htr] at hf
    exact absurd hf (by simp)
  · obtain ⟨-, -, -, -, hf, -⟩ := h
    rw [htr] at hf
    exact absurd hf (by simp)

/-- Five suited cards taken from five to seven cards: the values the ranking
gets for the flush suit. -/
theorem flush_form_of_sublist (cards : List Card) (hnd : cards.Nodup) (h5 : 5 ≤ cards.length)
    (h7 : cards.length ≤ 7) {S : List Card} (hsub : S.Sublist cards) (hS : S.length = 5)
    (hss : SameSuit S) :
    ∃ c0 c1 rest s,
      evaluateHand cards
        = handValue (analyzeRanks cards) (c0 :: c1 :: rest) true
            (ranksOf (cards.filter (fun c => decide (c.suit = s))))
            (straightHighOf (sortDesc (uniqFirst (analyzeRanks cards))))
            (straightHighOf (analyzeRanks (cards.filter (fun c => decide (c.suit = s)))))
            (decide (findStraightHigh
                (analyzeRanks (cards.filter (fun c => decide (c.suit = s)))) = some 14))
      ∧ S.Sublist (cards.filter (fun c => decide (c.suit = s)))
      ∧ (analyzeRanks (cards.filter (fun c => decide (c.suit = s)))).Sorted (fun a b => a > b) := by
  obtain ⟨s, hf, hall⟩ := flushSuitOf_of_sublist cards (by omega) hsub hS hss
  obtain ⟨c0, c1, rest, hc⟩ := countsCanon_two cards hnd h5
  refine ⟨c0, c1, rest, s, ?_, sublist_filter_suit hsub hall,
    analyzeRanks_strict_of_sameSuit _ (hnd.filter _) (sameSuit_filter cards s)⟩
  rw [evaluateHand_flush_form cards hnd h5 s hf, hc]

theorem hasRanks_length {S : List Card} {T : List Int} (h : HasRanks S T) :
    S.length = T.length := by
  rw [← h.length_eq, ranksOf, List.length_map]

theorem upper_flush (cards : List Card) (hnd : cards.Nodup) (h5 : 5 ≤ cards.length)
    (h7 : cards.length ≤ 7) {S : List Card} (hsub : S.Sublist cards) (hss : SameSuit S)
    {a b c d e : Int} (hr : HasRanks S [a, b, c, d, e]) (hab : a > b) (hbc : b > c)
    (hcd : c > d) (hde : d > e) :
    compareHands (evaluateHand cards) [5, a, b, c, d, e] ≥ 0 := by
  obtain ⟨c0, c1, rest, s, hform, hsubf, -⟩ :=
    flush_form_of_sublist cards hnd h5 h7 hsub (hasRanks_length hr) hss
  have hdom := sortDesc_sublist_of_hasRanks hsubf hr
  rw [sortDesc_strict5 hab hbc hcd hde] at hdom
  obtain ⟨x0, x1, x2, x3, x4, L', hL, d0, d1, d2, d3, d4⟩ := sublist5_dom hdom (sortDesc_sorted _)
  rw [hform]
  rcases handValue_branches (analyzeRanks cards) c0 c1 rest true
    (ranksOf (cards.filter (fun c => decide (c.suit = s))))
    (straightHighOf (sortDesc (uniqFirst (analyzeRanks cards))))
    (straightHighOf (analyzeRanks (cards.filter (fun c => decide (c.suit = s)))))
    (decide (findStraightHigh
        (analyzeRanks (cards.filter (fun c => decide (c.suit = s)))) = some 14)) with
    h | h | h | h | h | h | h | h | h | h
  · rw [h.1]; exact compareHands_head_gt _ _ _ _ (by omega)
  · rw [h.1]; exact compareHands_head_gt _ _ _ _ (by omega)
  · rw [h.1]; exact compareHands_head_gt _ _ _ _ (by omega)
  · rw [h.1]; exact compareHands_head_gt _ _ _ _ (by omega)
  · rw [h.1, sortDesc_ranksOf, hL, take5_cons, padZeros_five]
    apply compareHands_pointwise (by simp) (by simp)
    simp only [List.forall₂_cons, List.Forall₂.nil, and_true]
    omega
  · exact absurd h.2.2.2.2.2.1 (by simp)
  · exact absurd h.2.2.2.1 (by simp)
  · exact absurd h.2.2.2.1 (by simp)
  · exact absurd h.2.2.2.1 (by simp)
  · exact absurd h.2.2.2.1 (by simp)

theorem upper_straightFlush (cards : List Card) (hnd : cards.Nodup) (h5 : 5 ≤ cards.length)
    (h7 : cards.length ≤ 7) {S : List Card} (hsub : S.Sublist cards) (hS : S.length = 5)
    (hss : SameSuit S) {high : Int} (hc : Consecutive S high) :
    compareHands (evaluateHand cards) [8, high] ≥ 0 := by
  obtain ⟨c0, c1, rest, s, hform, hsubf, hstrict⟩ :=
    flush_form_of_sublist cards hnd h5 h7 hsub hS hss
  have hst := isStraight_of_consecutive hsubf hc
  obtain ⟨h', hge, hsh, htr⟩ := straightHighOf_complete hstrict
    (fun x hx => (mem_analyzeRanks_range hx).1) hst
  rw [hform]
  rcases handValue_branches (analyzeRanks cards) c0 c1 rest true
    (ranksOf (cards.filter (fun c => decide (c.suit = s))))
    (straightHighOf (sortDesc (uniqFirst (analyzeRanks cards))))
    (straightHighOf (analyzeRanks (cards.filter (fun c => decide (c.suit = s)))))
    (decide (findStraightHigh
        (analyzeRanks (cards.filter (fun c => decide (c.suit = s)))) = some 14)) with
    h | h | h | h | h | h | h | h | h | h
  · rw [h.1]; exact compareHands_head_gt _ _ _ _ (by omega)
  · rw [h.1, hsh]
    apply compareHands_pointwise (by simp) (by simp)
    simp only [Option.getD_some, List.forall₂_cons, List.Forall₂.nil, and_true]
    omega
  all_goals
    have hf := h.2.2.1
    rw [htr] at hf
    exact absurd hf (by simp)

theorem upper_royalFlush (cards : List Card) (hnd : cards.Nodup) (h5 : 5 ≤ cards.length)
    (h7 : cards.length ≤ 7) {S : List Card} (hsub : S.Sublist cards)
    (hss : SameSuit S) (hr : HasRanks S [14, 13, 12, 11, 10]) :
    compareHands (evaluateHand cards) [9, 14] ≥ 0 := by
  obtain ⟨c0, c1, rest, s, hform, hsubf, hstrict⟩ :=
    flush_form_of_sublist cards hnd h5 h7 hsub (hasRanks_length hr) hss
  have hst := isStraight_of_consecutive hsubf (Or.inl hr : Consecutive S 14)
  obtain ⟨h', hge, hsh, htr⟩ := straightHighOf_complete hstrict
    (fun x hx => (mem_analyzeRanks_range hx).1) hst
  obtain ⟨hst', -, hiff⟩ := straightHighOf_sound hstrict
    (fun x hx => (mem_analyzeRanks_range hx).1) hsh
  have h14 : h' = 14 := by
    rcases hst' with ⟨m0, -⟩ | ⟨h5, -⟩
    · have := (mem_analyzeRanks_range m0).2
      omega
    · omega
  have hroyal := hiff.mp h14
  rw [hform]
  rcases handValue_branches (analyzeRanks cards) c0 c1 rest true
    (ranksOf (cards.filter (fun c => decide (c.suit = s))))
    (straightHighOf (sortDesc (uniqFirst (analyzeRanks cards))))
    (straightHighOf (analyzeRanks (cards.filter (fun c => decide (c.suit = s)))))
    (decide (findStraightHigh
        (analyzeRanks (cards.filter (fun c => decide (c.suit = s)))) = some 14)) with
    h | h | h | h | h | h | h | h | h | h
  · rw [h.1]
    apply compareHands_pointwise (by simp) (by simp)
    simp only [List.forall₂_cons, List.Forall₂.nil, and_true]
    omega
  all_goals
    have hf := h.2.1
    rw [hroyal] at hf
    exact absurd hf (by simp)

/-- No five cards of a hand of five to seven distinct cards score higher than
the hand. -/
theorem evaluateHand_upper (cards : List Card) (hnd : cards.Nodup) (h5 : 5 ≤ cards.length)
    (h7 : cards.length ≤ 7) (S : List Card) (hsub : S.Sublist cards) (hS : S.length = 5) :
    compareHands (evaluateHand cards) (evaluateHand S) ≥ 0 := by
  have hSnd : S.Nodup := hnd.sublist hsub
  rcases five_card_patterns S hS hSnd with ⟨q, k, hr⟩ | ⟨t, p, hr⟩ | ⟨t, k1, k2, hr, h12, ht1, ht2⟩
    | ⟨hi, lo, k, hr, hhl, hkh, hkl⟩ | ⟨p, k1, k2, k3, hr, h12, h23, hp1, hp2, hp3⟩
    | ⟨a, b, c, d, e, hr, hab, hbc, hcd, hde⟩
  · rw [evaluateHand_quads S hS hSnd q k hr]
    exact upper_quads cards hnd h5 h7 hsub hr
  · rw [evaluateHand_fullHouse S hS hSnd t p hr]
    exact upper_fullHouse cards hnd h5 h7 hsub hr
  · rw [evaluateHand_trips S hS hSnd t k1 k2 hr h12 ht1 ht2]
    exact upper_trips cards hnd h5 hsub hr h12 ht1 ht2
  · rw [evaluateHand_twoPair S hS hSnd hi lo k hr hhl hkh hkl]
    exact upper_twoPair cards hnd h5 hsub hr hhl hkh hkl
  · rw [evaluateHand_onePair S hS hSnd p k1 k2 k3 hr h12 h23 hp1 hp2 hp3]
    exact upper_onePair cards hnd h5 hsub hr h12 h23 hp1 hp2 hp3
  · by_cases hss : SameSuit S
    · by_cases hc : ∃ high, Consecutive S high
      · obtain ⟨high, hc⟩ := hc
        by_cases h14 : high = 14
        · subst h14
          have hr14 : HasRanks S [14, 13, 12, 11, 10] := by
            rcases hc with h | ⟨h, -⟩
            · norm_num at h
              exact h
            · omega
          rw [evaluateHand_royalFlush S hS hSnd hss hr14]
          exact upper_royalFlush cards hnd h5 h7 hsub hss hr14
        · rw [evaluateHand_straightFlush S hS hSnd high hss hc h14]
          exact upper_straightFlush cards hnd h5 h7 hsub hS hss hc
      · rw [evaluateHand_flush S hS hSnd a b c d e hss hr hab hbc hcd hde hc]
        exact upper_flush cards hnd h5 h7 hsub hss hr hab hbc hcd hde
    · by_cases hc : ∃ high, Consecutive S high
      · obtain ⟨high, hc⟩ := hc
        rw [evaluateHand_straight S hS hSnd high hss hc]
        exact upper_straight cards hnd h5 hsub hc
      · rw [evaluateHand_highCard S hS hSnd a b c d e hss hr hab hbc hcd hde hc]
        exact upper_highCard cards hnd h5 hsub hr hab hbc hcd hde

/-! ## Five cards of the hand that score what the hand scores -/

theorem length_filter_ne (rs : List Int) (q : Int) :
    (rs.filter (fun r => decide (r ≠ q))).length + rs.count q = rs.length := by
  induction rs with
  | nil => simp
  | cons x rs ih =>
    by_cases h : x = q
    · subst h
      simp only [List.filter_cons, ne_eq, not_true_eq_false, decide_False, Bool.false_eq_true,
        if_false, List.count_cons_self, List.length_cons]
      simp only [ne_eq] at ih
      omega
    · simp only [List.filter_cons, ne_eq, h, not_false_eq_true, decide_True, if_true,
        List.length_cons, List.count_cons_of_ne (Ne.symm h)]
      simp only [ne_eq] at ih
      omega

theorem length_filter_ne2 (rs : List Int) {p q : Int} (hpq : p ≠ q) :
    (rs.filter (fun r => decide (r ≠ p ∧ r ≠ q))).length + rs.count p + rs.count q
      = rs.length := by
  induction rs with
  | nil => simp
  | cons x rs ih =>
    by_cases h1 : x = p
    · subst h1
      simp only [List.filter_cons, ne_eq, not_true_eq_false, false_and, decide_False,
        Bool.false_eq_true, if_false, List.count_cons_self, List.length_cons,
        List.count_cons_of_ne (Ne.symm hpq)]
      simp only [ne_eq] at ih
      omega
    · by_cases h2 : x = q
      · subst h2
        simp only [List.filter_cons, ne_eq, not_true_eq_false, and_false, decide_False,
          Bool.false_eq_true, if_false, List.count_cons_self, List.length_cons,
          List.count_cons_of_ne hpq]
        simp only [ne_eq] at ih
        omega
      · simp only [List.filter_cons, ne_eq, h1, h2, not_false_eq_true, and_self, decide_True,
          if_true, List.length_cons, List.count_cons_of_ne (Ne.symm h1),
          List.count_cons_of_ne (Ne.symm h2)]
        simp only [ne_eq] at ih
        omega

theorem mem_filter_ne {rs : List Int} {q x : Int}
    (h : x ∈ rs.filter (fun r => decide (r ≠ q))) : x ∈ rs ∧ x ≠ q := by
  rw [List.mem_filter] at h
  exact ⟨h.1, of_decide_eq_true h.2⟩

theorem count_filter_le (rs : List Int) (p : Int → Bool) (x : Int) :
    (rs.filter p).count x ≤ rs.count x :=
  (List.filter_sublist rs).count_le x

/-- Cards of one hand with consecutive ranks, for a straight among its ranks. -/
theorem exists_consecutive_of_isStraight (cards : List Card) {h : Int}
    (hs : IsStraight (analyzeRanks cards) h) :
    ∃ S, S.Sublist cards ∧ S.length = 5 ∧ Consecutive S h := by
  have hmem : ∀ x, x ∈ analyzeRanks cards → x ∈ ranksOf cards := fun x hx =>
    (analyzeRanks_perm cards).mem_iff.mp hx
  rcases hs with ⟨m0, m1, m2, m3, m4⟩ | ⟨h5, m0, m1, m2, m3, m4⟩
  · have hnd : [h, h - 1, h - 2, h - 3, h - 4].Nodup := by
      simp only [List.nodup_cons, List.mem_cons, List.mem_singleton, List.not_mem_nil, or_false,
        not_false_eq_true, List.nodup_nil, and_true, not_or]
      omega
    have hsub : [h, h - 1, h - 2, h - 3, h - 4] ⊆ ranksOf cards := by
      intro x hx
      simp only [List.mem_cons, List.mem_singleton, List.not_mem_nil, or_false] at hx
      rcases hx with rfl | rfl | rfl | rfl | rfl
      · exact hmem _ m0
      · exact hmem _ m1
      · exact hmem _ m2
      · exact hmem _ m3
      · exact hmem _ m4
    obtain ⟨S, hS, hr, hl⟩ := exists_sublist_of_subperm cards (List.subperm_of_subset hnd hsub)
    exact ⟨S, hS, hl, Or.inl hr⟩
  · have hnd : [5, 4, 3, 2, (14 : Int)].Nodup := by decide
    have hsub : [5, 4, 3, 2, (14 : Int)] ⊆ ranksOf cards := by
      intro x hx
      simp only [List.mem_cons, List.mem_singleton, List.not_mem_nil, or_false] at hx
      rcases hx with rfl | rfl | rfl | rfl | rfl
      · exact hmem _ m1
      · exact hmem _ m2
      · exact hmem _ m3
      · exact hmem _ m4
      · exact hmem _ m0
    obtain ⟨S, hS, hr, hl⟩ := exists_sublist_of_subperm cards (List.subperm_of_subset hnd hsub)
    exact ⟨S, hS, hl, Or.inr ⟨h5, hr⟩⟩

theorem sameSuit_of_sublist {S cards : List Card} (hsub : S.Sublist cards)
    (hss : SameSuit cards) : SameSuit S :=
  fun c hc d hd => hss c (hsub.subset hc) d (hsub.subset hd)

theorem subperm_analyzeRanks {cards : List Card} {T : List Int}
    (h : T.Subperm (analyzeRanks cards)) : T.Subperm (ranksOf cards) :=
  h.trans (analyzeRanks_perm cards).subperm

theorem attain_of_counts (cards : List Card) (hnd : cards.Nodup) {T : List Int}
    (hT : T.length = 5) (h : ∀ x, x ∈ T → T.count x ≤ (analyzeRanks cards).count x) :
    ∃ S, S.Sublist cards ∧ S.length = 5 ∧ S.Nodup ∧ HasRanks S T := by
  obtain ⟨S, hS, hr, hl⟩ := exists_sublist_of_subperm cards
    (subperm_analyzeRanks (List.subperm_ext_iff.mpr h))
  exact ⟨S, hS, by omega, hnd.sublist hS, hr⟩

theorem attain_quads (cards : List Card) (hnd : cards.Nodup) (h5 : 5 ≤ cards.length)
    {c0 c1 : RankCount} {rest : List RankCount}
    (hcnt : countsCanon (analyzeRanks cards) = c0 :: c1 :: rest) (hc4 : c0.count = 4) :
    ∃ S, S.Sublist cards ∧ S.length = 5
      ∧ evaluateHand S
        = [7, c0.rank, ((analyzeRanks cards).filter (fun r => decide (r ≠ c0.rank))).getD 0 0] := by
  obtain ⟨⟨hm0, hc0⟩, -, -, -, -, -⟩ := countsCanon_top hcnt
  have hlen := analyzeRanks_length cards
  have hF := length_filter_ne (analyzeRanks cards) c0.rank
  rcases hFe : (analyzeRanks cards).filter (fun r => decide (r ≠ c0.rank)) with _ | ⟨x0, L'⟩
  · rw [hFe] at hF
    simp only [List.length_nil] at hF
    omega
  · have hx0 : x0 ∈ (analyzeRanks cards).filter (fun r => decide (r ≠ c0.rank)) := by
      rw [hFe]
      exact List.mem_cons_self _ _
    obtain ⟨hx0m, hx0q⟩ := mem_filter_ne hx0
    have hx0c : 1 ≤ (analyzeRanks cards).count x0 := List.count_pos_iff.mpr hx0m
    obtain ⟨S, hS, hl, hSnd, hr⟩ := attain_of_counts cards hnd
      (rfl : [c0.rank, c0.rank, c0.rank, c0.rank, x0].length = 5) (by
        intro x hx
        simp only [List.mem_cons, List.mem_singleton, List.not_mem_nil, or_false] at hx
        rcases hx with rfl | rfl | rfl | rfl | rfl
        all_goals
          simp only [List.count_cons, List.count_nil, beq_self_eq_true, if_true, beq_iff_eq,
            hx0q, Ne.symm hx0q, if_false]
          omega)
    exact ⟨S, hS, hl, by rw [evaluateHand_quads S hl hSnd _ _ hr, List.getD_cons_zero]⟩

theorem attain_fullHouse (cards : List Card) (hnd : cards.Nodup)
    {c0 c1 : RankCount} {rest : List RankCount}
    (hcnt : countsCanon (analyzeRanks cards) = c0 :: c1 :: rest) (hc3 : c0.count = 3)
    (hc2 : c1.count ≥ 2) :
    ∃ S, S.Sublist cards ∧ S.length = 5 ∧ evaluateHand S = [6, c0.rank, c1.rank] := by
  obtain ⟨⟨hm0, hc0⟩, ⟨hm1, hc1⟩, hne, -, -, -⟩ := countsCanon_top hcnt
  obtain ⟨S, hS, hl, hSnd, hr⟩ := attain_of_counts cards hnd
    (rfl : [c0.rank, c0.rank, c0.rank, c1.rank, c1.rank].length = 5) (by
      intro x hx
      simp only [List.mem_cons, List.mem_singleton, List.not_mem_nil, or_false] at hx
      rcases hx with rfl | rfl | rfl | rfl | rfl
      all_goals
        simp only [List.count_cons, List.count_nil, beq_self_eq_true, if_true, beq_iff_eq,
          hne, Ne.symm hne, if_false]
        omega)
  exact ⟨S, hS, hl, evaluateHand_fullHouse S hl hSnd _ _ hr⟩

theorem attain_trips (cards : List Card) (hnd : cards.Nodup) (h5 : 5 ≤ cards.length)
    {c0 c1 : RankCount} {rest : List RankCount}
    (hcnt : countsCanon (analyzeRanks cards) = c0 :: c1 :: rest) (hc3 : c0.count = 3)
    (hc2 : ¬ c1.count ≥ 2) :
    ∃ S, S.Sublist cards ∧ S.length = 5
      ∧ evaluateHand S
        = [3, c0.rank]
          ++ padZeros (((analyzeRanks cards).filter (fun r => decide (r ≠ c0.rank))).take 2) 2 := by
  obtain ⟨⟨hm0, hc0⟩, -, -, -, htop1, -⟩ := countsCanon_top hcnt
  have hlen := analyzeRanks_length cards
  have hF := length_filter_ne (analyzeRanks cards) c0.rank
  have hFs := sorted_filter_analyzeRanks cards (fun r => decide (r ≠ c0.rank))
  have hFc := fun x => count_filter_le (analyzeRanks cards) (fun r => decide (r ≠ c0.rank)) x
  rcases hFe : (analyzeRanks cards).filter (fun r => decide (r ≠ c0.rank))
    with _ | ⟨x0, _ | ⟨x1, L'⟩⟩
  · rw [hFe] at hF
    simp only [List.length_nil] at hF
    omega
  · rw [hFe] at hF
    simp only [List.length_cons, List.length_nil] at hF
    omega
  · have hx0 : x0 ∈ (analyzeRanks cards).filter (fun r => decide (r ≠ c0.rank)) := by
      rw [hFe]; simp
    have hx1 : x1 ∈ (analyzeRanks cards).filter (fun r => decide (r ≠ c0.rank)) := by
      rw [hFe]; simp
    obtain ⟨hx0m, hx0q⟩ := mem_filter_ne hx0
    obtain ⟨hx1m, hx1q⟩ := mem_filter_ne hx1
    have hx0c : 1 ≤ (analyzeRanks cards).count x0 := List.count_pos_iff.mpr hx0m
    have hx1c : 1 ≤ (analyzeRanks cards).count x1 := List.count_pos_iff.mpr hx1m
    rw [hFe] at hFs hFc
    have h01 : x0 ≥ x1 := List.rel_of_sorted_cons hFs x1 (List.mem_cons_self _ _)
    have hne01 : x0 ≠ x1 := by
      rintro rfl
      have h1 := hFc x0
      simp only [List.count_cons_self] at h1
      have h2 := htop1 x0 hx0m hx0q
      omega
    have hgt : x0 > x1 := lt_of_le_of_ne h01 (Ne.symm hne01)
    obtain ⟨S, hS, hl, hSnd, hr⟩ := attain_of_counts cards hnd
      (rfl : [c0.rank, c0.rank, c0.rank, x0, x1].length = 5) (by
        intro x hx
        simp only [List.mem_cons, List.mem_singleton, List.not_mem_nil, or_false] at hx
        rcases hx with rfl | rfl | rfl | rfl | rfl
        all_goals
          simp only [List.count_cons, List.count_nil, beq_self_eq_true, if_true, beq_iff_eq,
            hx0q, Ne.symm hx0q, hx1q, Ne.symm hx1q, hne01, Ne.symm hne01, if_false]
          omega)
    refine ⟨S, hS, hl, ?_⟩
    rw [evaluateHand_trips S hl hSnd _ _ _ hr hgt (Ne.symm hx0q) (Ne.symm hx1q), take2_cons,
      padZeros_two]
    rfl

theorem attain_onePair (cards : List Card) (hnd : cards.Nodup) (h5 : 5 ≤ cards.length)
    {c0 c1 : RankCount} {rest : List RankCount}
    (hcnt : countsCanon (analyzeRanks cards) = c0 :: c1 :: rest) (hc02 : c0.count = 2)
    (hc2 : c1.count ≠ 2) :
    ∃ S, S.Sublist cards ∧ S.length = 5
      ∧ evaluateHand S
        = [1, c0.rank]
          ++ padZeros (((analyzeRanks cards).filter (fun r => decide (r ≠ c0.rank))).take 3) 3 := by
  obtain ⟨⟨hm0, hc0⟩, -, -, hord, htop1, -⟩ := countsCanon_top hcnt
  have hlen := analyzeRanks_length cards
  have hF := length_filter_ne (analyzeRanks cards) c0.rank
  have hFs := sorted_filter_analyzeRanks cards (fun r => decide (r ≠ c0.rank))
  have hFc := fun x => count_filter_le (analyzeRanks cards) (fun r => decide (r ≠ c0.rank)) x
  rcases hFe : (analyzeRanks cards).filter (fun r => decide (r ≠ c0.rank))
    with _ | ⟨x0, _ | ⟨x1, _ | ⟨x2, L'⟩⟩⟩
  · rw [hFe] at hF
    simp only [List.length_nil] at hF
    omega
  · rw [hFe] at hF
    simp only [List.length_cons, List.length_nil] at hF
    omega
  · rw [hFe] at hF
    simp only [List.length_cons, List.length_nil] at hF
    omega
  · have hx0 : x0 ∈ (analyzeRanks cards).filter (fun r => decide (r ≠ c0.rank)) := by
      rw [hFe]; simp
    have hx1 : x1 ∈ (analyzeRanks cards).filter (fun r => decide (r ≠ c0.rank)) := by
      rw [hFe]; simp
    have hx2 : x2 ∈ (analyzeRanks cards).filter (fun r => decide (r ≠ c0.rank)) := by
      rw [hFe]; simp
    obtain ⟨hx0m, hx0q⟩ := mem_filter_ne hx0
    obtain ⟨hx1m, hx1q⟩ := mem_filter_ne hx1
    obtain ⟨hx2m, hx2q⟩ := mem_filter_ne hx2
    have hx0c : 1 ≤ (analyzeRanks cards).count x0 := List.count_pos_iff.mpr hx0m
    have hx1c : 1 ≤ (analyzeRanks cards).count x1 := List.count_pos_iff.mpr hx1m
    have hx2c : 1 ≤ (analyzeRanks cards).count x2 := List.count_pos_iff.mpr hx2m
    rw [hFe] at hFs hFc
    simp only [List.Sorted, List.pairwise_cons, List.mem_cons, forall_eq_or_imp] at hFs
    obtain ⟨⟨h01, h02, -⟩, ⟨h12, -⟩, -⟩ := hFs
    have hne01 : x0 ≠ x1 := by
      rintro rfl
      have h1 := hFc x0
      simp only [List.count_cons_self] at h1
      have h2 := htop1 x0 hx0m hx0q
      omega
    have hne12 : x1 ≠ x2 := by
      rintro rfl
      have h1 := hFc x1
      simp only [List.count_cons_self, List.count_cons_of_ne (Ne.symm hne01)] at h1
      have h2 := htop1 x1 hx1m hx1q
      omega
    have hgt01 : x0 > x1 := lt_of_le_of_ne h01 (Ne.symm hne01)
    have hgt12 : x1 > x2 := lt_of_le_of_ne h12 (Ne.symm hne12)
    have hne02 : x0 ≠ x2 := by omega
    obtain ⟨S, hS, hl, hSnd, hr⟩ := attain_of_counts cards hnd
      (rfl : [c0.rank, c0.rank, x0, x1, x2].length = 5) (by
        intro x hx
        simp only [List.mem_cons, List.mem_singleton, List.not_mem_nil, or_false] at hx
        rcases hx with rfl | rfl | rfl | rfl | rfl
        all_goals
          simp only [List.count_cons, List.count_nil, beq_self_eq_true, if_true, beq_iff_eq,
            hx0q, Ne.symm hx0q, hx1q, Ne.symm hx1q, hx2q, Ne.symm hx2q, hne01, Ne.symm hne01,
            hne12, Ne.symm hne12, hne02, Ne.symm hne02, if_false]
          omega)
    refine ⟨S, hS, hl, ?_⟩
    rw [evaluateHand_onePair S hl hSnd _ _ _ _ hr hgt01 hgt12 (Ne.symm hx0q) (Ne.symm hx1q)
      (Ne.symm hx2q), take3_cons, padZeros_three]
    rfl

theorem mem_filter_ne2 {rs : List Int} {p q x : Int}
    (h : x ∈ rs.filter (fun r => decide (r ≠ p ∧ r ≠ q))) : x ∈ rs ∧ x ≠ p ∧ x ≠ q := by
  rw [List.mem_filter] at h
  exact ⟨h.1, (of_decide_eq_true h.2).1, (of_decide_eq_true h.2).2⟩

theorem attain_twoPair (cards : List Card) (hnd : cards.Nodup) (h5 : 5 ≤ cards.length)
    {c0 c1 : RankCount} {rest : List RankCount}
    (hcnt : countsCanon (analyzeRanks cards) = c0 :: c1 :: rest) (hc02 : c0.count = 2)
    (hc12 : c1.count = 2) :
    ∃ S, S.Sublist cards ∧ S.length = 5
      ∧ evaluateHand S
        = [2, c0.rank, c1.rank,
            ((analyzeRanks cards).filter
              (fun r => decide (r ≠ c0.rank ∧ r ≠ c1.rank))).getD 0 0] := by
  obtain ⟨⟨hm0, hc0⟩, ⟨hm1, hc1⟩, hne, hord, -, -⟩ := countsCanon_top hcnt
  have hlen := analyzeRanks_length cards
  have hF := length_filter_ne2 (analyzeRanks cards) (Ne.symm hne)
  have hlt : c1.rank < c0.rank := by omega
  rcases hFe : (analyzeRanks cards).filter (fun r => decide (r ≠ c0.rank ∧ r ≠ c1.rank))
    with _ | ⟨x0, L'⟩
  · rw [hFe] at hF
    simp only [List.length_nil] at hF
    omega
  · have hx0 : x0 ∈ (analyzeRanks cards).filter
        (fun r => decide (r ≠ c0.rank ∧ r ≠ c1.rank)) := by
      rw [hFe]; simp
    obtain ⟨hx0m, hx0p, hx0q⟩ := mem_filter_ne2 hx0
    have hx0c : 1 ≤ (analyzeRanks cards).count x0 := List.count_pos_iff.mpr hx0m
    obtain ⟨S, hS, hl, hSnd, hr⟩ := attain_of_counts cards hnd
      (rfl : [c0.rank, c0.rank, c1.rank, c1.rank, x0].length = 5) (by
        intro x hx
        simp only [List.mem_cons, List.mem_singleton, List.not_mem_nil, or_false] at hx
        rcases hx with rfl | rfl | rfl | rfl | rfl
        all_goals
          simp only [List.count_cons, List.count_nil, beq_self_eq_true, if_true, beq_iff_eq,
            hx0p, Ne.symm hx0p, hx0q, Ne.symm hx0q, hne, Ne.symm hne, if_false]
          omega)
    refine ⟨S, hS, hl, ?_⟩
    rw [evaluateHand_twoPair S hl hSnd _ _ _ hr hlt hx0p hx0q, List.getD_cons_zero]

theorem not_sameSuit_of_noflush (cards : List Card) (h7 : cards.length ≤ 7)
    (hnf : flushSuitOf cards = none) {S : List Card} (hsub : S.Sublist cards)
    (hS : S.length = 5) : ¬ SameSuit S := by
  intro hss
  obtain ⟨s, hf, -⟩ := flushSuitOf_of_sublist cards (by omega) hsub hS hss
  rw [hnf] at hf
  exact absurd hf (by simp)

theorem not_consecutive_of_nostraight (cards : List Card)
    (hns : truthy (straightHighOf (sortDesc (uniqFirst (analyzeRanks cards)))) = false)
    {S : List Card} (hsub : S.Sublist cards) : ¬ ∃ high, Consecutive S high := by
  rintro ⟨high, hc⟩
  have hst : IsStraight (sortDesc (uniqFirst (analyzeRanks cards))) high :=
    isStraight_mono (isStraight_of_consecutive hsub hc) (fun x hx => (mem_uniq _ x).mpr hx)
  obtain ⟨h', -, -, htr⟩ := straightHighOf_complete (uniq_strict _)
    (fun x hx => (mem_analyzeRanks_range ((mem_uniq _ x).mp hx)).1) hst
  rw [hns] at htr
  exact absurd htr (by simp)

theorem attain_highCard (cards : List Card) (hnd : cards.Nodup) (h5 : 5 ≤ cards.length)
    (h7 : cards.length ≤ 7) {c0 c1 : RankCount} {rest : List RankCount}
    (hcnt : countsCanon (analyzeRanks cards) = c0 :: c1 :: rest) (hc4 : c0.count ≠ 4)
    (hc3 : c0.count ≠ 3) (hc2 : c0.count ≠ 2) (hnf : flushSuitOf cards = none)
    (hns : truthy (straightHighOf (sortDesc (uniqFirst (analyzeRanks cards)))) = false) :
    ∃ S, S.Sublist cards ∧ S.length = 5
      ∧ evaluateHand S = 0 :: padZeros ((analyzeRanks cards).take 5) 5 := by
  obtain ⟨⟨hm0, hc0⟩, -, -, -, -, htop0⟩ := countsCanon_top hcnt
  have h4 := count_analyzeRanks_le_four cards hnd c0.rank
  have hlen := analyzeRanks_length cards
  have hrnd : (analyzeRanks cards).Nodup := by
    rw [List.nodup_iff_count_le_one]
    intro r
    by_cases hr : r ∈ analyzeRanks cards
    · have := htop0 r hr
      omega
    · rw [List.count_eq_zero_of_not_mem hr]
      omega
  have hstrict := strict_of_sorted_nodup (sortDesc_sorted (ranksOf cards)) hrnd
  have htake := (List.take_sublist 5 (analyzeRanks cards)).subperm
  rcases hL : analyzeRanks cards with _ | ⟨x0, _ | ⟨x1, _ | ⟨x2, _ | ⟨x3, _ | ⟨x4, L'⟩⟩⟩⟩⟩
  all_goals rw [hL] at hlen
  all_goals simp only [List.length_cons, List.length_nil] at hlen
  all_goals try omega
  rw [sortDesc_ranksOf, hL] at hstrict
  rw [hL, take5_cons, ← hL] at htake
  simp only [List.Sorted, List.pairwise_cons, List.mem_cons, forall_eq_or_imp] at hstrict
  obtain ⟨⟨h01, -⟩, ⟨h12, -⟩, ⟨h23, -⟩, ⟨h34, -⟩, -⟩ := hstrict
  obtain ⟨S, hS, hr, hl⟩ := exists_sublist_of_subperm cards (subperm_analyzeRanks htake)
  have hl5 : S.length = 5 := by
    rw [hl]
    rfl
  refine ⟨S, hS, hl5, ?_⟩
  rw [evaluateHand_highCard S hl5 (hnd.sublist hS) x0 x1 x2 x3 x4
    (not_sameSuit_of_noflush cards h7 hnf hS hl5) hr h01 h12 h23 h34
    (not_consecutive_of_nostraight cards hns hS), take5_cons, padZeros_five]

theorem attain_straight (cards : List Card) (hnd : cards.Nodup) (h7 : cards.length ≤ 7)
    (hnf : flushSuitOf cards = none)
    (hs : truthy (straightHighOf (sortDesc (uniqFirst (analyzeRanks cards)))) = true) :
    ∃ S, S.Sublist cards ∧ S.length = 5
      ∧ evaluateHand S
        = [4, (straightHighOf (sortDesc (uniqFirst (analyzeRanks cards)))).getD 0] := by
  obtain ⟨h, hsh, -⟩ := truthy_eq_true hs
  obtain ⟨hst, -, -⟩ := straightHighOf_sound (uniq_strict _)
    (fun x hx => (mem_analyzeRanks_range ((mem_uniq _ x).mp hx)).1) hsh
  have hst2 : IsStraight (analyzeRanks cards) h :=
    isStraight_mono hst (fun x hx => (mem_uniq _ x).mp hx)
  obtain ⟨S, hS, hl, hc⟩ := exists_consecutive_of_isStraight cards hst2
  refine ⟨S, hS, hl, ?_⟩
  rw [evaluateHand_straight S hl (hnd.sublist hS) h
    (not_sameSuit_of_noflush cards h7 hnf hS hl) hc, hsh]
  rfl

theorem attain_straightFlush (cards : List Card) (hnd : cards.Nodup) (s : Suit)
    (hs : truthy (straightHighOf
      (analyzeRanks (cards.filter (fun c => decide (c.suit = s))))) = true)
    (hnr : ¬ findStraightHigh (analyzeRanks (cards.filter (fun c => decide (c.suit = s))))
      = some 14) :
    ∃ S, S.Sublist cards ∧ S.length = 5
      ∧ evaluateHand S
        = [8, (straightHighOf
            (analyzeRanks (cards.filter (fun c => decide (c.suit = s))))).getD 0] := by
  have hndf : (cards.filter (fun c => decide (c.suit = s))).Nodup := hnd.filter _
  have hstrict := analyzeRanks_strict_of_sameSuit _ hndf (sameSuit_filter cards s)
  obtain ⟨h, hsh, -⟩ := truthy_eq_true hs
  obtain ⟨hst, -, hiff⟩ := straightHighOf_sound hstrict
    (fun x hx => (mem_analyzeRanks_range hx).1) hsh
  obtain ⟨S, hS, hl, hc⟩ := exists_consecutive_of_isStraight _ hst
  refine ⟨S, hS.trans (List.filter_sublist _), hl, ?_⟩
  rw [evaluateHand_straightFlush S hl (hndf.sublist hS) h
    (sameSuit_of_sublist hS (sameSuit_filter cards s)) hc (fun h14 => hnr (hiff.mp h14)), hsh]
  rfl

theorem attain_royalFlush (cards : List Card) (hnd : cards.Nodup) (s : Suit)
    (hroyal : findStraightHigh (analyzeRanks (cards.filter (fun c => decide (c.suit = s))))
      = some 14) :
    ∃ S, S.Sublist cards ∧ S.length = 5 ∧ evaluateHand S = [9, 14] := by
  have hndf : (cards.filter (fun c => decide (c.suit = s))).Nodup := hnd.filter _
  have hstrict := analyzeRanks_strict_of_sameSuit _ hndf (sameSuit_filter cards s)
  have hm := findStraightHigh_sound hstrict hroyal
  obtain ⟨S, hS, hl, hc⟩ := exists_consecutive_of_isStraight _ (Or.inl hm)
  have hr14 : HasRanks S [14, 13, 12, 11, 10] := by
    rcases hc with h | ⟨h, -⟩
    · norm_num at h
      exact h
    · omega
  exact ⟨S, hS.trans (List.filter_sublist _), hl,
    evaluateHand_royalFlush S hl (hndf.sublist hS)
      (sameSuit_of_sublist hS (sameSuit_filter cards s)) hr14⟩

theorem attain_flush (cards : List Card) (hnd : cards.Nodup) (s : Suit)
    (hf : flushSuitOf cards = some s)
    (hns : truthy (straightHighOf
      (analyzeRanks (cards.filter (fun c => decide (c.suit = s))))) = false) :
    ∃ S, S.Sublist cards ∧ S.length = 5
      ∧ evaluateHand S
        = 5 :: padZeros
            ((sortDesc (ranksOf (cards.filter (fun c => decide (c.suit = s))))).take 5) 5 := by
  have hndf : (cards.filter (fun c => decide (c.suit = s))).Nodup := hnd.filter _
  have hstrict := analyzeRanks_strict_of_sameSuit _ hndf (sameSuit_filter cards s)
  have hcount := flushSuitOf_some hf
  rw [count_suit_eq_length_filter] at hcount
  have hlen := analyzeRanks_length (cards.filter (fun c => decide (c.suit = s)))
  have htake := (List.take_sublist 5
    (analyzeRanks (cards.filter (fun c => decide (c.suit = s))))).subperm
  rw [sortDesc_ranksOf]
  rcases hL : analyzeRanks (cards.filter (fun c => decide (c.suit = s)))
    with _ | ⟨x0, _ | ⟨x1, _ | ⟨x2, _ | ⟨x3, _ | ⟨x4, L'⟩⟩⟩⟩⟩
  all_goals rw [hL] at hlen
  all_goals simp only [List.length_cons, List.length_nil] at hlen
  all_goals try omega
  rw [hL] at hstrict
  rw [hL, take5_cons, ← hL] at htake
  simp only [List.Sorted, List.pairwise_cons, List.mem_cons, forall_eq_or_imp] at hstrict
  obtain ⟨⟨h01, -⟩, ⟨h12, -⟩, ⟨h23, -⟩, ⟨h34, -⟩, -⟩ := hstrict
  obtain ⟨S, hS, hr, hl⟩ := exists_sublist_of_subperm _ (subperm_analyzeRanks htake)
  have hl5 : S.length = 5 := by
    rw [hl]
    rfl
  have hnc : ¬ ∃ high, Consecutive S high := by
    rintro ⟨high, hc⟩
    obtain ⟨h', -, -, htr⟩ := straightHighOf_complete
      (analyzeRanks_strict_of_sameSuit _ hndf (sameSuit_filter cards s))
      (fun x hx => (mem_analyzeRanks_range hx).1) (isStraight_of_consecutive hS hc)
    rw [hns] at htr
    exact absurd htr (by simp)
  refine ⟨S, hS.trans (List.filter_sublist _), hl5, ?_⟩
  rw [evaluateHand_flush S hl5 (hndf.sublist hS) x0 x1 x2 x3 x4
    (sameSuit_of_sublist hS (sameSuit_filter cards s)) hr h01 h12 h23 h34 hnc, take5_cons,
    padZeros_five]

/-- Some five cards of a hand of five to seven distinct cards score what the
hand scores. -/
theorem evaluateHand_attained (cards : List Card) (hnd : cards.Nodup) (h5 : 5 ≤ cards.length)
    (h7 : cards.length ≤ 7) :
    ∃ S, S.Sublist cards ∧ S.length = 5 ∧ evaluateHand S = evaluateHand cards := by
  obtain ⟨c0, c1, rest, isFlush, fr, sfh, royal, hform, hcnt, hfl⟩ :=
    evaluateHand_form cards hnd h5
  obtain ⟨-, -, -, hord, -, -⟩ := countsCanon_top hcnt
  rw [hform]
  rcases hfl with ⟨hnf, rfl, rfl, rfl⟩ | ⟨s, hf, rfl, rfl, rfl, rfl⟩
  · rcases handValue_branches (analyzeRanks cards) c0 c1 rest false fr
      (straightHighOf (sortDesc (uniqFirst (analyzeRanks cards)))) none false with
      h | h | h | h | h | h | h | h | h | h
    · exact absurd h.2 (by simp)
    · exact absurd h.2.2 (by simp [truthy])
    · rw [h.1]
      exact attain_quads cards hnd h5 hcnt h.2.2.2
    · rw [h.1]
      exact attain_fullHouse cards hnd hcnt h.2.2.2.1 h.2.2.2.2
    · exact absurd h.2.2.2.2.2 (by simp)
    · rw [h.1]
      exact attain_straight cards hnd h7 hnf h.2.2.2.2.2.2
    · rw [h.1]
      exact attain_trips cards hnd h5 hcnt h.2.2.2.2.2.1 h.2.2.2.2.2.2
    · obtain ⟨hv, -, -, -, -, hc02, hc12⟩ := h
      have hlt : c1.rank < c0.rank := by
        obtain ⟨-, -, hne, -, -, -⟩ := countsCanon_top hcnt
        omega
      rw [sortDesc_strict2 hlt] at hv
      simp only [List.getD_cons_zero, List.getD_cons_succ] at hv
      rw [hv]
      exact attain_twoPair cards hnd h5 hcnt hc02 hc12
    · rw [h.1]
      exact attain_onePair cards hnd h5 hcnt h.2.2.2.2.2.1 h.2.2.2.2.2.2
    · rw [h.1]
      exact attain_highCard cards hnd h5 h7 hcnt h.2.2.2.2.2.1 h.2.2.2.2.2.2.1
        h.2.2.2.2.2.2.2 hnf h.2.2.2.2.1
  · rcases handValue_branches (analyzeRanks cards) c0 c1 rest true
      (ranksOf (cards.filter (fun c => decide (c.suit = s))))
      (straightHighOf (sortDesc (uniqFirst (analyzeRanks cards))))
      (straightHighOf (analyzeRanks (cards.filter (fun c => decide (c.suit = s)))))
      (decide (findStraightHigh
          (analyzeRanks (cards.filter (fun c => decide (c.suit = s)))) = some 14)) with
      h | h | h | h | h | h | h | h | h | h
    · rw [h.1]
      exact attain_royalFlush cards hnd s (of_decide_eq_true h.2)
    · rw [h.1]
      exact attain_straightFlush cards hnd s h.2.2 (of_decide_eq_false h.2.1)
    · rw [h.1]
      exact attain_quads cards hnd h5 hcnt h.2.2.2
    · rw [h.1]
      exact attain_fullHouse cards hnd hcnt h.2.2.2.1 h.2.2.2.2
    · rw [h.1]
      exact attain_flush cards hnd s hf h.2.2.1
    · exact absurd h.2.2.2.2.2.1 (by simp)
    · exact absurd h.2.2.2.1 (by simp)
    · exact absurd h.2.2.2.1 (by simp)
    · exact absurd h.2.2.2.1 (by simp)
    · exact absurd h.2.2.2.1 (by simp)

theorem sameSuit_perm {S S' : List Card} (hp : S.Perm S') (h : SameSuit S) : SameSuit S' :=
  fun c hc d hd => h c (hp.mem_iff.mpr hc) d (hp.mem_iff.mpr hd)

theorem hasRanks_perm {S S' : List Card} (hp : S.Perm S') {T : List Int} (h : HasRanks S T) :
    HasRanks S' T :=
  (hp.map _).symm.trans h

theorem consecutive_perm {S S' : List Card} (hp : S.Perm S') {high : Int}
    (h : Consecutive S high) : Consecutive S' high := by
  rcases h with h | ⟨h5, h⟩
  · exact Or.inl (hasRanks_perm hp h)
  · exact Or.inr ⟨h5, hasRanks_perm hp h⟩

/-- The score of five distinct cards does not depend on their order. -/
theorem evaluateHand_perm_five {S S' : List Card} (hp : S.Perm S') (hS : S.length = 5)
    (hnd : S.Nodup) : evaluateHand S = evaluateHand S' := by
  have hS' : S'.length = 5 := by rw [← hp.length_eq, hS]
  have hnd' : S'.Nodup := hp.nodup_iff.mp hnd
  rcases five_card_patterns S hS hnd with ⟨q, k, hr⟩ | ⟨t, p, hr⟩ | ⟨t, k1, k2, hr, h12, ht1, ht2⟩
    | ⟨hi, lo, k, hr, hhl, hkh, hkl⟩ | ⟨p, k1, k2, k3, hr, h12, h23, hp1, hp2, hp3⟩
    | ⟨a, b, c, d, e, hr, hab, hbc, hcd, hde⟩
  · rw [evaluateHand_quads S hS hnd q k hr, evaluateHand_quads S' hS' hnd' q k (hasRanks_perm hp hr)]
  · rw [evaluateHand_fullHouse S hS hnd t p hr,
      evaluateHand_fullHouse S' hS' hnd' t p (hasRanks_perm hp hr)]
  · rw [evaluateHand_trips S hS hnd t k1 k2 hr h12 ht1 ht2,
      evaluateHand_trips S' hS' hnd' t k1 k2 (hasRanks_perm hp hr) h12 ht1 ht2]
  · rw [evaluateHand_twoPair S hS hnd hi lo k hr hhl hkh hkl,
      evaluateHand_twoPair S' hS' hnd' hi lo k (hasRanks_perm hp hr) hhl hkh hkl]
  · rw [evaluateHand_onePair S hS hnd p k1 k2 k3 hr h12 h23 hp1 hp2 hp3,
      evaluateHand_onePair S' hS' hnd' p k1 k2 k3 (hasRanks_perm hp hr) h12 h23 hp1 hp2 hp3]
  · by_cases hss : SameSuit S
    · have hss' := sameSuit_perm hp hss
      by_cases hc : ∃ high, Consecutive S high
      · obtain ⟨high, hc⟩ := hc
        have hc' := consecutive_perm hp hc
        by_cases h14 : high = 14
        · subst h14
          have hr14 : HasRanks S [14, 13, 12, 11, 10] := by
            rcases hc with h | ⟨h, -⟩
            · norm_num at h
              exact h
            · omega
          rw [evaluateHand_royalFlush S hS hnd hss hr14,
            evaluateHand_royalFlush S' hS' hnd' hss' (hasRanks_perm hp hr14)]
        · rw [evaluateHand_straightFlush S hS hnd high hss hc h14,
            evaluateHand_straightFlush S' hS' hnd' high hss' hc' h14]
      · have hc' : ¬ ∃ high, Consecutive S' high := fun ⟨high, h⟩ =>
          hc ⟨high, consecutive_perm hp.symm h⟩
        rw [evaluateHand_flush S hS hnd a b c d e hss hr hab hbc hcd hde hc,
          evaluateHand_flush S' hS' hnd' a b c d e hss' (hasRanks_perm hp hr) hab hbc hcd hde hc']
    · have hss' : ¬ SameSuit S' := fun h => hss (sameSuit_perm hp.symm h)
      by_cases hc : ∃ high, Consecutive S high
      · obtain ⟨high, hc⟩ := hc
        rw [evaluateHand_straight S hS hnd high hss hc,
          evaluateHand_straight S' hS' hnd' high hss' (consecutive_perm hp hc)]
      · have hc' : ¬ ∃ high, Consecutive S' high := fun ⟨high, h⟩ =>
          hc ⟨high, consecutive_perm hp.symm h⟩
        rw [evaluateHand_highCard S hS hnd a b c d e hss hr hab hbc hcd hde hc,
          evaluateHand_highCard S' hS' hnd' a b c d e hss' (hasRanks_perm hp hr) hab hbc hcd hde
            hc']

/-- C7: `evaluateHand` finds the best five cards.  For six or seven distinct
cards the score returned is the score of five of them (a sub-list of the
cards, in their order), and no five of the cards, taken in any order, score
higher under `compareHands`. -/
theorem evaluateHand_best_five (cards : List Card) (hnd : cards.Nodup)
    (hlen : cards.length = 6 ∨ cards.length = 7) :
    (∃ S, S.Sublist cards ∧ S.length = 5 ∧ evaluateHand cards = evaluateHand S)
    ∧ (∀ S', S'.Subperm cards → S'.length = 5 →
        compareHands (evaluateHand cards) (evaluateHand S') ≥ 0) := by
  have h5 : 5 ≤ cards.length := by omega
  have h7 : cards.length ≤ 7 := by omega
  constructor
  · obtain ⟨S, hS, hl, he⟩ := evaluateHand_attained cards hnd h5 h7
    exact ⟨S, hS, hl, he.symm⟩
  · rintro S' ⟨l, hp, hsub⟩ hS'
    have hl : l.length = 5 := by rw [hp.length_eq, hS']
    rw [← evaluateHand_perm_five hp hl (hnd.sublist hsub)]
    exact evaluateHand_upper cards hnd h5 h7 l hsub hl

set_option maxRecDepth 100000 in
/-- The seven cards `2H 2D 2C 3S 3H KS 9D` score `[6, 2, 3]`, the score of the
five cards `2H 2D 2C 3S 3H`, and no five of them score higher. -/
theorem evaluateHand_best_five_witness :
    evaluateHand sevenCardHand = [6, 2, 3]
    ∧ evaluateHand fullHouseHand = [6, 2, 3]
    ∧ fullHouseHand.Sublist sevenCardHand
    ∧ (∃ S, S.Sublist sevenCardHand ∧ S.length = 5
        ∧ evaluateHand sevenCardHand = evaluateHand S)
    ∧ (∀ S', S'.Subperm sevenCardHand → S'.length = 5 →
        compareHands (evaluateHand sevenCardHand) (evaluateHand S') ≥ 0) :=
  ⟨by decide, by decide, by decide,
    evaluateHand_best_five sevenCardHand (by decide) (by decide)⟩

/-! ## Turn order -/

theorem folded_eq_flags (s : GameState) :
    s.folded = flags (s.folded 0) (s.folded 1) (s.folded 2) (s.folded 3) := by
  funext i
  fin_cases i <;> rfl

/-- Only the fold flags matter to `findNextActivePlayer`. -/
theorem findNextActivePlayer_foldState (s : GameState) (start : Int) :
    findNextActivePlayer s start = findNextActivePlayer (foldState s.folded) start := rfl

theorem firstNonFoldedAfter_foldState (s : GameState) (start : Int) :
    firstNonFoldedAfter s start = firstNonFoldedAfter (foldState s.folded) start := rfl

theorem turn_order_flags (b0 b1 b2 b3 : Bool) (start : Int) (h1 : -1 ≤ start) (h2 : start ≤ 3) :
    findNextActivePlayer (foldState (flags b0 b1 b2 b3)) start
        = firstNonFoldedAfter (foldState (flags b0 b1 b2 b3)) start
    ∧ (∀ p, findNextActivePlayer (foldState (flags b0 b1 b2 b3)) start = seatIndex p →
        flags b0 b1 b2 b3 p = false)
    ∧ (findNextActivePlayer (foldState (flags b0 b1 b2 b3)) start = -1 ↔
        ∀ i, flags b0 b1 b2 b3 i = true)
    ∧ (0 ≤ start → findNextActivePlayer (foldState (flags b0 b1 b2 b3)) start = start →
        ∀ i, seatIndex i ≠ start → flags b0 b1 b2 b3 i = true) := by
  have hs : start = -1 ∨ start = 0 ∨ start = 1 ∨ start = 2 ∨ start = 3 := by omega
  rcases hs with rfl | rfl | rfl | rfl | rfl <;> cases b0 <;> cases b1 <;> cases b2 <;>
    cases b3 <;> decide

/-- C12: turn order.  For a start index from -1 to 3, `findNextActivePlayer`
returns the first non-folded seat among `start + 1`, `start + 2`, `start + 3`,
`start + 4` (mod 4): never a folded seat, -1 exactly when all four seats are
folded, the start seat itself only when the three other seats are folded; the
chips of the seats play no part, so seats that are all-in are not skipped. -/
theorem findNextActivePlayer_turn_order (s : GameState) (start : Int) (h1 : -1 ≤ start)
    (h2 : start ≤ 3) :
    findNextActivePlayer s start = firstNonFoldedAfter s start
    ∧ (∀ p, findNextActivePlayer s start = seatIndex p → s.folded p = false)
    ∧ (findNextActivePlayer s start = -1 ∨ ∃ p, findNextActivePlayer s start = seatIndex p)
    ∧ (findNextActivePlayer s start = -1 ↔ ∀ i, s.folded i = true)
    ∧ (0 ≤ start → findNextActivePlayer s start = start →
        ∀ i, seatIndex i ≠ start → s.folded i = true)
    ∧ (∀ c, findNextActivePlayer { s with chips := c } start = findNextActivePlayer s start) := by
  have h := turn_order_flags (s.folded 0) (s.folded 1) (s.folded 2) (s.folded 3) start h1 h2
  rw [← folded_eq_flags] at h
  obtain ⟨ha, hb, hc, hd⟩ := h
  refine ⟨ha, hb, ?_, hc, hd, fun _ => rfl⟩
  rcases findNextActivePlayer_spec s start with h | ⟨p, hp, -⟩
  · exact Or.inl h
  · exact Or.inr ⟨p, hp⟩

/-- In the mid-round state (seat 2 folded) the turn passes from seat 1 to seat
3, and from seat 3 to seat 0. -/
theorem findNextActivePlayer_turn_order_witness :
    findNextActivePlayer midRoundState 1 = 3
    ∧ findNextActivePlayer midRoundState 3 = 0
    ∧ findNextActivePlayer midRoundState 1 = firstNonFoldedAfter midRoundState 1
    ∧ (∀ p, findNextActivePlayer midRoundState 1 = seatIndex p → midRoundState.folded p = false) :=
  ⟨by decide, by decide,
    (findNextActivePlayer_turn_order midRoundState 1 (by decide) (by decide)).1,
    (findNextActivePlayer_turn_order midRoundState 1 (by decide) (by decide)).2.1⟩

/-! ## The reachable part of `checkBettingRoundEnd` -/

theorem folded_collectSeat (acc : Int × GameState) (i : Seat) :
    (collectSeat acc i).2.folded = acc.2.folded := by
  unfold collectSeat
  dsimp only
  split <;> rfl

theorem folded_collect_foldl (l : List Seat) (acc : Int × GameState) :
    (l.foldl collectSeat acc).2.folded = acc.2.folded := by
  induction l generalizing acc with
  | nil => rfl
  | cons i l ih => rw [List.foldl_cons, ih, folded_collectSeat]

theorem folded_collectOutstandingBets (s : GameState) :
    (collectOutstandingBets s).folded = s.folded := by
  unfold collectOutstandingBets
  have h := folded_collect_foldl seats (0, s)
  generalize List.foldl collectSeat (0, s) seats = r at h ⊢
  obtain ⟨a, t⟩ := r
  dsimp only at h ⊢
  split
  · exact h
  · exact h

theorem findNextActivePlayer_ne_of_nonFolded (s : GameState) (start : Int)
    (h : nonFolded s ≠ []) : findNextActivePlayer s start ≠ -1 := by
  unfold findNextActivePlayer
  dsimp only
  have hlen : (seats.filter (fun i => !s.folded i)).length ≠ 0 := by
    intro h0
    exact h (List.length_eq_zero.mp h0)
  rw [if_neg hlen]
  revert hlen
  generalize (Fin.ofNat ((Int.tmod start 4 + 4).tmod 4).toNat : Seat) = idx
  cases h0 : s.folded 0 <;> cases h1 : s.folded 1 <;> cases h2 : s.folded 2 <;>
    cases h3 : s.folded 3 <;> fin_cases idx <;>
    simp [findNextLoop, seats, h0, h1, h2, h3, seatIndex]

theorem checkBettingRoundEndBody_eq (recurse : GameState → Int → GameState) (s : GameState)
    (latestActor : Int) :
    checkBettingRoundEndBody recurse s latestActor = checkBettingRoundEndReached s latestActor := by
  unfold checkBettingRoundEndBody checkBettingRoundEndReached roundComplete nonFolded
  dsimp only
  generalize (if latestActor < 0 ∨ latestActor > 3 then s.currentPlayer else latestActor) = la
  split
  · rw [folded_collectOutstandingBets]
  · rename_i h1
    split
    · rfl
    · rename_i hc
      have hne : nonFolded { s with playerHasActed := setAt s.playerHasActed la true } ≠ [] := by
        intro hnil
        apply hc
        unfold nonFolded at hnil
        dsimp only at hnil
        rw [hnil]
        rfl
      have hnext := findNextActivePlayer_ne_of_nonFolded _ la hne
      rw [if_neg hnext]
      split
      · rename_i heq
        have key := fun t => foldedAt_findNextActivePlayer _ t _ hnext
        rw [key] at heq
        · exact absurd heq (by decide)
        · rfl
      · rfl
      · rename_i heq
        have key := fun t => foldedAt_findNextActivePlayer _ t _ hnext
        rw [key] at heq
        · exact absurd heq (by decide)
        · rfl

/-- `checkBettingRoundEnd` with any recursion bound is its reachable part. -/
theorem checkBettingRoundEnd_eq (n : Nat) (s : GameState) (latestActor : Int) :
    checkBettingRoundEnd n s latestActor = checkBettingRoundEndReached s latestActor := by
  cases n <;> exact checkBettingRoundEndBody_eq _ s latestActor

/-! ## Round completion -/

theorem mem_seats (i : Seat) : i ∈ seats := by
  fin_cases i <;> simp [seats]

theorem mem_nonFolded (s : GameState) (i : Seat) : i ∈ nonFolded s ↔ s.folded i = false := by
  unfold nonFolded
  rw [List.mem_filter]
  simp [mem_seats]

theorem roundComplete_iff (s : GameState) : roundComplete s = true ↔ RoundOver s := by
  unfold roundComplete RoundOver
  rw [Bool.and_eq_true, List.all_eq_true, List.all_eq_true]
  constructor
  · rintro ⟨h1, h2⟩
    refine ⟨fun i hi => ?_, fun i hi => h2 i ((mem_nonFolded s i).mpr hi)⟩
    have := h1 i ((mem_nonFolded s i).mpr hi)
    by_cases hb : s.currentBets i = s.currentBet
    · exact Or.inl hb
    · by_cases hc : s.chips i = 0
      · exact Or.inr hc
      · simp [hb, hc] at this
  · rintro ⟨h1, h2⟩
    refine ⟨fun i hi => ?_, fun i hi => h2 i ((mem_nonFolded s i).mp hi)⟩
    rcases h1 i ((mem_nonFolded s i).mp hi) with hb | hc
    · simp [hb]
    · simp [hc]

theorem setAt_seatIndex {α : Type} (arr : Seat → α) (p : Seat) (v : α) :
    setAt arr (seatIndex p) v = Function.update arr p v := by
  unfold setAt
  rw [seatOf_seatIndex]

theorem seatIndex_range (p : Seat) : ¬ (seatIndex p < 0 ∨ seatIndex p > 3) := by
  fin_cases p <;> decide

/-- The reachable part of `checkBettingRoundEnd` for a seat as latest actor,
when the hand is contested. -/
theorem checkBettingRoundEnd_seat (n : Nat) (s : GameState) (p : Seat)
    (h2 : 2 ≤ (nonFolded s).length) :
    checkBettingRoundEnd n s (seatIndex p)
      = if roundComplete { s with playerHasActed := Function.update s.playerHasActed p true } then
          (if shouldRunOutCards { s with
                playerHasActed := Function.update s.playerHasActed p true
                bettingRoundActive := false }
            then schedule { s with
                playerHasActed := Function.update s.playerHasActed p true
                bettingRoundActive := false } .runOutRemainingCards
            else if s.roundStage = 3 then schedule { s with
                playerHasActed := Function.update s.playerHasActed p true
                bettingRoundActive := false } .showdown
            else schedule { s with
                playerHasActed := Function.update s.playerHasActed p true
                bettingRoundActive := false } .nextRound)
        else
          (if findNextActivePlayer s (seatIndex p) = 3 then
              { s with
                playerHasActed := Function.update s.playerHasActed p true
                currentPlayer := findNextActivePlayer s (seatIndex p)
                isStartOfBettingRound := false }
            else schedule { s with
                playerHasActed := Function.update s.playerHasActed p true
                currentPlayer := findNextActivePlayer s (seatIndex p)
                isStartOfBettingRound := false } (.aiTakeTurn true)) := by
  rw [checkBettingRoundEnd_eq]
  unfold checkBettingRoundEndReached
  dsimp only
  rw [if_neg (seatIndex_range p), setAt_seatIndex]
  have hlen : ¬ (nonFolded { s with playerHasActed := Function.update s.playerHasActed p true }).length
      = 1 := by
    have : nonFolded { s with playerHasActed := Function.update s.playerHasActed p true }
        = nonFolded s := rfl
    rw [this]
    omega
  rw [if_neg hlen]
  rfl

/-! ## The betting handlers on states of the data model -/

theorem placeBet_pos (s : GameState) (p : Seat) (a : Int) (h0 : 0 < a) (h1 : a ≤ s.chips p) :
    placeBet s (seatIndex p) a = (a, moved s p a) := by
  rw [placeBet_eq, seatOf_seatIndex]
  dsimp only
  have hmin : min a (s.chips p) = a := min_eq_left h1
  rw [hmin, if_neg (by omega)]

theorem nonNeg_moved (s : GameState) (h : NonNeg s) (p : Seat) (a : Int) (h0 : 0 ≤ a)
    (h1 : a ≤ s.chips p) : NonNeg (moved s p a) :=
  nonNeg_move s h p a h0 h1

theorem moved_currentBets_self (s : GameState) (p : Seat) (a : Int) :
    (moved s p a).currentBets p = s.currentBets p + a := by
  simp [moved]

theorem moved_chips_self (s : GameState) (p : Seat) (a : Int) :
    (moved s p a).chips p = s.chips p - a := by
  simp [moved]

theorem moved_currentBets_other (s : GameState) (p q : Seat) (a : Int) (h : q ≠ p) :
    (moved s p a).currentBets q = s.currentBets q := by
  simp [moved, h]

theorem moved_chips_other (s : GameState) (p q : Seat) (a : Int) (h : q ≠ p) :
    (moved s p a).chips q = s.chips q := by
  simp [moved, h]

/-- An accepted `handleBet`: the chips are moved; the bet to match and the
last aggressor change only if the seat's bet is now above the bet to match. -/
theorem handleBet_accept (s : GameState) (hn : NonNeg s) (p : Seat) (a : Int)
    (hf : s.folded p = false) (h0 : 0 < a) (h1 : a ≤ s.chips p) :
    handleBet s p a
      = (true,
          if s.currentBets p + a > s.currentBet then
            { moved s p a with currentBet := s.currentBets p + a, lastToAct := seatIndex p }
          else moved s p a) := by
  unfold handleBet
  rw [hf]
  simp only [Bool.false_eq_true, if_false]
  rw [if_neg (by omega), placeBet_pos s p a h0 h1]
  dsimp only
  rw [moved_currentBets_self]
  have hm := nonNeg_moved s hn p a (le_of_lt h0) h1
  have hcb : (moved s p a).currentBet = s.currentBet := rfl
  rw [hcb]
  by_cases hc : s.currentBets p + a > s.currentBet
  · have hm2 : NonNeg { moved s p a with
        currentBet := s.currentBets p + a, lastToAct := seatIndex p } :=
      nonNeg_congr _ _ hm rfl rfl rfl
    rw [if_pos hc, updateChipsAndBets_of_nonNeg _ hm2]
  · rw [if_neg hc, updateChipsAndBets_of_nonNeg _ hm]

/-- A regular (not all-in) `handleRaise` that passes the minimum test. -/
theorem handleRaise_regular (s : GameState) (hn : NonNeg s) (p : Seat) (r : Int)
    (hf : s.folded p = false)
    (hmin : ¬ (r < max s.lastRaiseAmount 1 ∧ s.currentBet > 0))
    (hpos : 0 < s.currentBet - s.currentBets p + r)
    (hlt : s.currentBet - s.currentBets p + r < s.chips p) :
    handleRaise s p r
      = (.bool true,
          { moved s p (s.currentBet - s.currentBets p + r) with
            currentBet := s.currentBet + r
            lastRaiseAmount := r
            lastToAct := seatIndex p }) := by
  unfold handleRaise
  rw [hf]
  simp only [Bool.false_eq_true, if_false]
  rw [if_neg hmin, if_neg (by omega), placeBet_pos s p _ hpos (le_of_lt hlt)]
  dsimp only
  rw [moved_currentBets_self]
  have hm := nonNeg_moved s hn p _ (le_of_lt hpos) (le_of_lt hlt)
  have e1 : s.currentBets p + (s.currentBet - s.currentBets p + r) = s.currentBet + r := by omega
  have e2 : s.currentBet + r - (moved s p (s.currentBet - s.currentBets p + r)).currentBet = r := by
    show s.currentBet + r - s.currentBet = r
    omega
  rw [e1, e2]
  have hm2 : NonNeg { moved s p (s.currentBet - s.currentBets p + r) with
      currentBet := s.currentBet + r
      lastRaiseAmount := r
      lastToAct := seatIndex p } :=
    nonNeg_congr _ _ hm rfl rfl rfl
  rw [updateChipsAndBets_of_nonNeg _ hm2]

/-- The three cases of `handleCall` for a non-folded seat. -/
theorem handleCall_cases (s : GameState) (hn : NonNeg s) (p : Seat) (hf : s.folded p = false) :
    (s.currentBet - s.currentBets p ≤ 0 → handleCall s p = (.bool true, s))
    ∧ (0 < s.currentBet - s.currentBets p → s.currentBet - s.currentBets p < s.chips p →
        handleCall s p = (.bool true, moved s p (s.currentBet - s.currentBets p)))
    ∧ (0 < s.currentBet - s.currentBets p → s.chips p ≤ s.currentBet - s.currentBets p →
        0 < s.chips p → handleCall s p = (.num (s.chips p), moved s p (s.chips p)))
    ∧ (0 < s.currentBet - s.currentBets p → s.chips p = 0 →
        handleCall s p = (.num 0, s)) := by
  refine ⟨?_, ?_, ?_, ?_⟩
  · intro h
    unfold handleCall
    rw [hf]
    simp only [Bool.false_eq_true, if_false]
    rw [if_pos h]
  · intro h1 h2
    unfold handleCall
    rw [hf]
    simp only [Bool.false_eq_true, if_false]
    rw [if_neg (by omega), if_neg (by omega), placeBet_pos s p _ h1 (le_of_lt h2)]
    dsimp only
    rw [updateChipsAndBets_of_nonNeg _ (nonNeg_moved s hn p _ (le_of_lt h1) (le_of_lt h2))]
  · intro h1 h2 h3
    unfold handleCall
    rw [hf]
    simp only [Bool.false_eq_true, if_false]
    rw [if_neg (by omega), if_pos (by omega)]
    unfold handleAllIn
    rw [seatOf_seatIndex]
    dsimp only
    rw [if_neg (by omega), placeBet_pos s p _ h3 (le_refl _)]
    dsimp only
    rw [moved_currentBets_self]
    have : ¬ (s.currentBets p + s.chips p > (moved s p (s.chips p)).currentBet) := by
      show ¬ (s.currentBets p + s.chips p > s.currentBet)
      omega
    rw [if_neg this]
  · intro h1 h2
    unfold handleCall
    rw [hf]
    simp only [Bool.false_eq_true, if_false]
    rw [if_neg (by omega), if_pos (by omega)]
    unfold handleAllIn
    rw [seatOf_seatIndex]
    dsimp only
    rw [if_pos (by omega)]

/-! ## What `checkBettingRoundEnd` leaves alone -/

theorem betsOnly_refl (s : GameState) : BetsOnly s s := ⟨s.currentBets, s.pot, rfl⟩

theorem betsOnly_trans {s t u : GameState} (h1 : BetsOnly s t) (h2 : BetsOnly t u) :
    BetsOnly s u := by
  obtain ⟨b1, p1, rfl⟩ := h1
  obtain ⟨b2, p2, rfl⟩ := h2
  exact ⟨b2, p2, rfl⟩

theorem betsOnly_collectSeat (acc : Int × GameState) (i : Seat) :
    BetsOnly acc.2 (collectSeat acc i).2 := by
  unfold collectSeat
  dsimp only
  split
  · exact ⟨_, _, rfl⟩
  · exact betsOnly_refl _

theorem betsOnly_collect_foldl (l : List Seat) (acc : Int × GameState) :
    BetsOnly acc.2 (l.foldl collectSeat acc).2 := by
  induction l generalizing acc with
  | nil => exact betsOnly_refl _
  | cons i l ih =>
    rw [List.foldl_cons]
    exact betsOnly_trans (betsOnly_collectSeat acc i) (ih _)

theorem betsOnly_collectOutstandingBets (s : GameState) :
    BetsOnly s (collectOutstandingBets s) := by
  unfold collectOutstandingBets
  have h := betsOnly_collect_foldl seats (0, s)
  generalize List.foldl collectSeat (0, s) seats = r at h ⊢
  obtain ⟨a, t⟩ := r
  dsimp only at h ⊢
  split
  · exact betsOnly_trans h ⟨_, _, rfl⟩
  · exact h

theorem setAt_true_mono (arr : Seat → Bool) (la : Int) (i : Seat) (h : arr i = true) :
    setAt arr la true i = true := by
  unfold setAt
  cases seatOf la with
  | none => exact h
  | some p =>
    dsimp only
    by_cases hi : i = p
    · rw [hi, Function.update_same]
    · rw [Function.update_noteq hi]
      exact h

theorem keepsTable_checkBettingRoundEnd (n : Nat) (s : GameState) (latestActor : Int) :
    KeepsTable s (checkBettingRoundEnd n s latestActor) := by
  rw [checkBettingRoundEnd_eq]
  unfold checkBettingRoundEndReached
  dsimp only
  generalize (if latestActor < 0 ∨ latestActor > 3 then s.currentPlayer else latestActor) = la
  have hm := fun i h => setAt_true_mono s.playerHasActed la i h
  split
  · obtain ⟨b, p, h⟩ := betsOnly_collectOutstandingBets
      { s with playerHasActed := setAt s.playerHasActed la true }
    rw [h]
    exact ⟨rfl, rfl, rfl, rfl, rfl, rfl, rfl, rfl, rfl, rfl, rfl, rfl, hm⟩
  · split
    · split
      · exact ⟨rfl, rfl, rfl, rfl, rfl, rfl, rfl, rfl, rfl, rfl, rfl, rfl, hm⟩
      · split
        · exact ⟨rfl, rfl, rfl, rfl, rfl, rfl, rfl, rfl, rfl, rfl, rfl, rfl, hm⟩
        · exact ⟨rfl, rfl, rfl, rfl, rfl, rfl, rfl, rfl, rfl, rfl, rfl, rfl, hm⟩
    · split
      · exact ⟨rfl, rfl, rfl, rfl, rfl, rfl, rfl, rfl, rfl, rfl, rfl, rfl, hm⟩
      · exact ⟨rfl, rfl, rfl, rfl, rfl, rfl, rfl, rfl, rfl, rfl, rfl, rfl, hm⟩

/-- In a contested hand `checkBettingRoundEnd` moves no chips at all. -/
theorem ledger_checkBettingRoundEnd (n : Nat) (s : GameState) (latestActor : Int)
    (h : (nonFolded s).length ≠ 1) :
    (checkBettingRoundEnd n s latestActor).currentBets = s.currentBets
      ∧ (checkBettingRoundEnd n s latestActor).pot = s.pot := by
  rw [checkBettingRoundEnd_eq]
  unfold checkBettingRoundEndReached
  dsimp only
  generalize (if latestActor < 0 ∨ latestActor > 3 then s.currentPlayer else latestActor) = la
  have hnf : nonFolded { s with playerHasActed := setAt s.playerHasActed la true }
      = nonFolded s := rfl
  rw [hnf, if_neg h]
  split
  · split
    · exact ⟨rfl, rfl⟩
    · split
      · exact ⟨rfl, rfl⟩
      · exact ⟨rfl, rfl⟩
  · split
    · exact ⟨rfl, rfl⟩
    · exact ⟨rfl, rfl⟩

theorem nonNeg_checkBettingRoundEnd (n : Nat) (s : GameState) (hn : NonNeg s)
    (latestActor : Int) : NonNeg (checkBettingRoundEnd n s latestActor) := by
  rw [checkBettingRoundEnd_eq]
  unfold checkBettingRoundEndReached
  dsimp only
  generalize (if latestActor < 0 ∨ latestActor > 3 then s.currentPlayer else latestActor) = la
  have hn1 : NonNeg { s with playerHasActed := setAt s.playerHasActed la true } := hn
  split
  · rw [collectOutstandingBets_of_nonNeg _ hn1]
    obtain ⟨hc, hb, hp⟩ := hn
    refine ⟨hc, fun _ => le_refl _, ?_⟩
    have h0 := hb 0
    have h1 := hb 1
    have h2 := hb 2
    have h3 := hb 3
    show 0 ≤ s.pot + (s.currentBets 0 + s.currentBets 1 + s.currentBets 2 + s.currentBets 3)
    omega
  · split
    · split
      · exact hn
      · split
        · exact hn
        · exact hn
    · split
      · exact hn
      · exact hn

/-! ## Call, raise and bet -/

/-- C16: a call matches the bet, clamped to the stack.  For a non-folded seat
`p` facing `toCall = currentBet - currentBets[p] > 0`, `handleCall(p)` moves
`min(toCall, chips[p])` chips from `chips[p]` to `currentBets[p]`, which
becomes `min(currentBet, old currentBets[p] + old chips[p])`; `currentBet`,
`lastRaiseAmount`, `lastToAct`, `pot`, the fold flags and the other seats are
unchanged.  With `toCall <= 0` it returns `true` and changes nothing. -/
theorem handleCall_matches_bet (s : GameState) (hn : NonNeg s) (p : Seat)
    (hf : s.folded p = false) :
    (0 < s.currentBet - s.currentBets p →
      (handleCall s p).2.chips p
          = s.chips p - min (s.currentBet - s.currentBets p) (s.chips p)
      ∧ (handleCall s p).2.currentBets p
          = s.currentBets p + min (s.currentBet - s.currentBets p) (s.chips p)
      ∧ (handleCall s p).2.currentBets p = min s.currentBet (s.currentBets p + s.chips p)
      ∧ (handleCall s p).2.currentBet = s.currentBet
      ∧ (handleCall s p).2.lastRaiseAmount = s.lastRaiseAmount
      ∧ (handleCall s p).2.lastToAct = s.lastToAct
      ∧ (handleCall s p).2.pot = s.pot
      ∧ (handleCall s p).2.folded = s.folded
      ∧ (∀ q, q ≠ p → (handleCall s p).2.chips q = s.chips q
          ∧ (handleCall s p).2.currentBets q = s.currentBets q))
    ∧ (s.currentBet - s.currentBets p ≤ 0 → handleCall s p = (.bool true, s)) := by
  obtain ⟨hc0, hc1, hc2, hc3⟩ := handleCall_cases s hn p hf
  have hchips := hn.1 p
  refine ⟨fun hpos => ?_, hc0⟩
  by_cases hlt : s.currentBet - s.currentBets p < s.chips p
  · rw [hc1 hpos hlt]
    have hmin : min (s.currentBet - s.currentBets p) (s.chips p)
        = s.currentBet - s.currentBets p := min_eq_left (le_of_lt hlt)
    have hmin2 : min s.currentBet (s.currentBets p + s.chips p) = s.currentBet :=
      min_eq_left (by omega)
    rw [hmin, hmin2]
    refine ⟨moved_chips_self _ _ _, moved_currentBets_self _ _ _, ?_, rfl, rfl, rfl, rfl, rfl,
      fun q hq => ⟨moved_chips_other _ _ _ _ hq, moved_currentBets_other _ _ _ _ hq⟩⟩
    rw [moved_currentBets_self]
    omega
  · have hmin : min (s.currentBet - s.currentBets p) (s.chips p) = s.chips p :=
      min_eq_right (by omega)
    have hmin2 : min s.currentBet (s.currentBets p + s.chips p) = s.currentBets p + s.chips p :=
      min_eq_right (by omega)
    rw [hmin, hmin2]
    by_cases h0 : s.chips p = 0
    · rw [hc3 hpos h0, h0]
      exact ⟨by simp, by simp, by simp, rfl, rfl, rfl, rfl, rfl, fun q _ => ⟨rfl, rfl⟩⟩
    · rw [hc2 hpos (by omega) (by omega)]
      exact ⟨moved_chips_self _ _ _, moved_currentBets_self _ _ _, moved_currentBets_self _ _ _,
        rfl, rfl, rfl, rfl, rfl,
        fun q hq => ⟨moved_chips_other _ _ _ _ hq, moved_currentBets_other _ _ _ _ hq⟩⟩

/-- In the mid-round state seat 3 (90 chips, nothing bet) calls the bet of 30:
30 chips move to its bet. -/
theorem handleCall_matches_bet_witness :
    (handleCall midRoundState 3).2.chips 3 = 90 - min (30 - 0) 90
    ∧ (handleCall midRoundState 3).2.currentBets 3 = 30
    ∧ (handleCall midRoundState 3).2.currentBet = 30 :=
  have h := (handleCall_matches_bet midRoundState nonNeg_midRoundState 3 (by decide)).1
    (by decide)
  ⟨h.1, by decide, h.2.2.2.1⟩

/-- C18: the minimum-raise rule.  For a non-folded seat `p` with
`currentBet > 0`, `toCall = currentBet - currentBets[p] >= 0` and
`m = max(lastRaiseAmount, 1)`: a raise `r < m` that is not all-in
(`toCall + r < chips[p]`) is rejected and changes nothing; a raise `r >= m`
that is not all-in is accepted, takes `toCall + r` chips from `p`, raises
`currentBet` by exactly `r`, and sets `lastRaiseAmount = r` and
`lastToAct = p`; the other seats, the pot and the fold flags are unchanged. -/
theorem handleRaise_minimum (s : GameState) (hn : NonNeg s) (p : Seat)
    (hf : s.folded p = false) (hcb : 0 < s.currentBet)
    (htc : 0 ≤ s.currentBet - s.currentBets p) (r : Int)
    (hlt : s.currentBet - s.currentBets p + r < s.chips p) :
    (r < max s.lastRaiseAmount 1 → handleRaise s p r = (.bool false, s))
    ∧ (max s.lastRaiseAmount 1 ≤ r →
        (handleRaise s p r).1 = .bool true
        ∧ (handleRaise s p r).2.chips p = s.chips p - (s.currentBet - s.currentBets p + r)
        ∧ (handleRaise s p r).2.currentBets p = s.currentBet + r
        ∧ (handleRaise s p r).2.currentBet = s.currentBet + r
        ∧ (handleRaise s p r).2.lastRaiseAmount = r
        ∧ (handleRaise s p r).2.lastToAct = seatIndex p
        ∧ (handleRaise s p r).2.pot = s.pot
        ∧ (handleRaise s p r).2.folded = s.folded
        ∧ (∀ q, q ≠ p → (handleRaise s p r).2.chips q = s.chips q
            ∧ (handleRaise s p r).2.currentBets q = s.currentBets q)) := by
  constructor
  · intro hr
    unfold handleRaise
    rw [hf]
    simp only [Bool.false_eq_true, if_false]
    rw [if_pos ⟨hr, hcb⟩]
  · intro hr
    have h1 : (1 : Int) ≤ max s.lastRaiseAmount 1 := le_max_right _ _
    rw [handleRaise_regular s hn p r hf (fun h => absurd h.1 (by omega)) (by omega) hlt]
    refine ⟨rfl, moved_chips_self _ _ _, ?_, rfl, rfl, rfl, rfl, rfl,
      fun q hq => ⟨moved_chips_other _ _ _ _ hq, moved_currentBets_other _ _ _ _ hq⟩⟩
    show (moved s p (s.currentBet - s.currentBets p + r)).currentBets p = s.currentBet + r
    rw [moved_currentBets_self]
    omega

/-- In the mid-round state (bet to match 30, last raise 20) seat 3 with 90
chips: a raise of 19 is rejected, a raise of 20 is accepted and costs 50. -/
theorem handleRaise_minimum_witness :
    handleRaise midRoundState 3 19 = (.bool false, midRoundState)
    ∧ (handleRaise midRoundState 3 20).1 = .bool true
    ∧ (handleRaise midRoundState 3 20).2.chips 3 = 90 - (30 - 0 + 20)
    ∧ (handleRaise midRoundState 3 20).2.currentBet = 30 + 20 :=
  have h19 := (handleRaise_minimum midRoundState nonNeg_midRoundState 3 (by decide) (by decide)
    (by decide) 19 (by decide)).1 (by decide)
  have h20 := (handleRaise_minimum midRoundState nonNeg_midRoundState 3 (by decide) (by decide)
    (by decide) 20 (by decide)).2 (by decide)
  ⟨h19, h20.1, h20.2.1, h20.2.2.2.1⟩

/-- With no bet to match, `handleRaise` is not rejected: at load-time values
(`currentBet = 0`, nobody folded, 100 chips each) `handleRaise(0, 10)` returns
`true`, takes 10 chips from seat 0 and sets `currentBet = 10`. -/
theorem handleRaise_without_bet_counterexample :
    initialState.currentBet = 0 ∧ initialState.folded 0 = false
    ∧ (handleRaise initialState 0 10).1 = .bool true
    ∧ (handleRaise initialState 0 10).2.chips 0 = 90
    ∧ (handleRaise initialState 0 10).2.currentBets 0 = 10
    ∧ (handleRaise initialState 0 10).2.currentBet = 10
    ∧ (handleRaise initialState 0 10).2.lastRaiseAmount = 10
    ∧ (handleRaise initialState 0 10).2.lastToAct = 0 := by
  decide

/-- C19 (as the code behaves): with `currentBet = 0` the minimum test of
`handleRaise` is skipped (`raiseAmount < minRaiseAmount && currentBet > 0`), so
for a non-folded seat `p` with nothing bet and `0 < r < chips[p]` the call is
accepted and acts as an opening bet: `r` chips move to `currentBets[p]`,
`currentBet = r`, `lastRaiseAmount = r`, `lastToAct = p`. -/
theorem handleRaise_opens_betting (s : GameState) (hn : NonNeg s) (p : Seat)
    (hf : s.folded p = false) (hcb : s.currentBet = 0) (hb : s.currentBets p = 0) (r : Int)
    (h0 : 0 < r) (hlt : r < s.chips p) :
    handleRaise s p r
      = (.bool true,
          { moved s p r with currentBet := r, lastRaiseAmount := r, lastToAct := seatIndex p }) := by
  have h := handleRaise_regular s hn p r hf (fun h => absurd h.2 (by omega)) (by omega) (by omega)
  have e1 : s.currentBet - s.currentBets p + r = r := by omega
  have e2 : s.currentBet + r = r := by omega
  rw [e1, e2] at h
  exact h

/-- Seats 0 and 1 heads-up, no bet yet: `handleRaise(1, 25)` is accepted as an
opening bet of 25. -/
theorem handleRaise_opens_betting_witness :
    handleRaise headsUpState 1 25
      = (.bool true,
          { moved headsUpState 1 25 with
            currentBet := 25, lastRaiseAmount := 25, lastToAct := seatIndex 1 }) :=
  handleRaise_opens_betting headsUpState
    ⟨fun i => by fin_cases i <;> decide, fun i => by fin_cases i <;> decide, by decide⟩
    1 (by decide) (by decide) (by decide) 25 (by decide) (by decide)

/-- With a bet to match, `handleBet` is not rejected, and it does not write
`lastRaiseAmount`: in the mid-round state (`currentBet = 30`,
`lastRaiseAmount = 20`) `handleBet(3, 40)` returns `true`, takes 40 chips from
seat 3, sets `currentBet = 40` and leaves `lastRaiseAmount = 20`. -/
theorem handleBet_with_bet_counterexample :
    midRoundState.currentBet = 30 ∧ midRoundState.folded 3 = false
    ∧ midRoundState.chips 3 = 90
    ∧ (handleBet midRoundState 3 40).1 = true
    ∧ (handleBet midRoundState 3 40).2.chips 3 = 50
    ∧ (handleBet midRoundState 3 40).2.currentBet = 40
    ∧ (handleBet midRoundState 3 40).2.lastRaiseAmount = 20 := by
  decide

/-! ## Folded seats -/

theorem ledgerOnly_placeBet (s : GameState) (playerIndex amount : Int) :
    LedgerOnly s (placeBet s playerIndex amount).2 := by
  rw [placeBet_eq]
  split
  · exact ledgerOnly_refl s
  · split
    · exact ledgerOnly_refl s
    · exact ⟨_, _, _, rfl⟩

theorem folded_of_ledgerOnly {s t : GameState} (h : LedgerOnly s t) : t.folded = s.folded := by
  obtain ⟨c, b, p, rfl⟩ := h
  rfl

theorem folded_placeBet (s : GameState) (playerIndex amount : Int) :
    (placeBet s playerIndex amount).2.folded = s.folded :=
  folded_of_ledgerOnly (ledgerOnly_placeBet s playerIndex amount)

theorem folded_updateChipsAndBets (s : GameState) : (updateChipsAndBets s).folded = s.folded :=
  folded_of_ledgerOnly (ledgerOnly_updateChipsAndBets s)

theorem folded_handleAllIn (s : GameState) (playerIndex : Int) (isRaise : Bool) :
    (handleAllIn s playerIndex isRaise).2.folded = s.folded := by
  unfold handleAllIn
  cases seatOf playerIndex with
  | none => rfl
  | some p =>
    dsimp only
    split
    · rfl
    · have h := folded_of_ledgerOnly (ledgerOnly_placeBet s playerIndex (s.chips p))
      generalize placeBet s playerIndex (s.chips p) = r at h ⊢
      obtain ⟨a, t⟩ := r
      dsimp only at h ⊢
      split
      · cases isRaise <;> exact h
      · exact h

theorem folded_handleCall (s : GameState) (p : Seat) : (handleCall s p).2.folded = s.folded := by
  unfold handleCall
  split
  · rfl
  · dsimp only
    split
    · rfl
    · split
      · exact folded_handleAllIn s (seatIndex p) false
      · exact (folded_updateChipsAndBets _).trans (folded_placeBet s _ _)

theorem folded_handleRaise (s : GameState) (p : Seat) (r : Int) :
    (handleRaise s p r).2.folded = s.folded := by
  unfold handleRaise
  split
  · rfl
  · dsimp only
    split
    · rfl
    · split
      · exact folded_handleAllIn s (seatIndex p) true
      · exact (folded_updateChipsAndBets _).trans (folded_placeBet s _ _)

theorem folded_handleBet (s : GameState) (p : Seat) (a : Int) :
    (handleBet s p a).2.folded = s.folded := by
  unfold handleBet
  split
  · rfl
  · split
    · rfl
    · dsimp only
      refine (folded_updateChipsAndBets _).trans ?_
      split
      · exact folded_placeBet s _ _
      · exact folded_placeBet s _ _

theorem folded_handleCheck (s : GameState) (playerIndex : Int) :
    (handleCheck s playerIndex).2.folded = s.folded := by
  unfold handleCheck
  cases seatOf playerIndex with
  | none => rfl
  | some p =>
    dsimp only
    split
    · rfl
    · split
      · rfl
      · split
        · rfl
        · exact (keepsTable_checkBettingRoundEnd 4 _ playerIndex).2.2.2.2.2.2.2.2.1.trans
            (by split <;> rfl)

/-- After `handleFold` every seat folded before is still folded, and so is the
seat that folds. -/
theorem folded_handleFold (s : GameState) (playerIndex : Int) (i : Seat)
    (h : s.folded i = true) : (handleFold s playerIndex).2.folded i = true := by
  unfold handleFold
  cases seatOf playerIndex with
  | none => exact h
  | some p =>
    dsimp only
    have hup : Function.update s.folded p true i = true := by
      by_cases hi : i = p
      · rw [hi, Function.update_same]
      · rw [Function.update_noteq hi]
        exact h
    split
    · exact h
    · split
      · have hb := betsOnly_collectOutstandingBets
          { s with
            folded := Function.update s.folded p true
            playerHasActed := Function.update s.playerHasActed p true }
        obtain ⟨b, q, hq⟩ := hb
        show (collectOutstandingBets _).folded i = true
        rw [hq]
        exact hup
      · have hk := (keepsTable_checkBettingRoundEnd 4
          { s with
            folded := Function.update s.folded p true
            playerHasActed := Function.update s.playerHasActed p true }
          playerIndex).2.2.2.2.2.2.2.2.1
        show (checkBettingRoundEnd 4 _ playerIndex).folded i = true
        rw [hk]
        exact hup

/-- C13: a folded seat never acts again.  For a seat `p` with
`playerStates[p].folded`, each of `handleCheck(p)`, `handleCall(p)`,
`handleBet(p, a)`, `handleRaise(p, r)` and `handleFold(p)` returns `false` and
leaves the whole state as it was; and whoever acts, no betting handler
(`handleAllIn` included) turns a folded flag back to `false`. -/
theorem folded_seat_never_acts (s : GameState) (p : Seat) (hf : s.folded p = true) :
    handleCheck s (seatIndex p) = (false, s)
    ∧ handleCall s p = (.bool false, s)
    ∧ (∀ a, handleBet s p a = (false, s))
    ∧ (∀ r, handleRaise s p r = (.bool false, s))
    ∧ handleFold s (seatIndex p) = (false, s)
    ∧ (∀ (q i : Seat), s.folded i = true →
        (handleCheck s (seatIndex q)).2.folded i = true
        ∧ (handleCall s q).2.folded i = true
        ∧ (∀ a, (handleBet s q a).2.folded i = true)
        ∧ (∀ r, (handleRaise s q r).2.folded i = true)
        ∧ (∀ isRaise, (handleAllIn s (seatIndex q) isRaise).2.folded i = true)
        ∧ (handleFold s (seatIndex q)).2.folded i = true) := by
  refine ⟨?_, ?_, ?_, ?_, ?_, ?_⟩
  · unfold handleCheck
    rw [seatOf_seatIndex]
    dsimp only
    rw [if_pos hf]
  · unfold handleCall
    rw [if_pos hf]
  · intro a
    unfold handleBet
    rw [if_pos hf]
  · intro r
    unfold handleRaise
    rw [if_pos hf]
  · unfold handleFold
    rw [seatOf_seatIndex]
    dsimp only
    rw [if_pos hf]
  · intro q i hi
    refine ⟨?_, ?_, ?_, ?_, ?_, folded_handleFold s _ i hi⟩
    · rw [folded_handleCheck]
      exact hi
    · rw [folded_handleCall]
      exact hi
    · intro a
      rw [folded_handleBet]
      exact hi
    · intro r
      rw [folded_handleRaise]
      exact hi
    · intro isRaise
      rw [folded_handleAllIn]
      exact hi

/-- In the mid-round state seat 2 has folded: its actions are refused, and a
raise by seat 3 leaves it folded. -/
theorem folded_seat_never_acts_witness :
    handleCheck midRoundState (seatIndex 2) = (false, midRoundState)
    ∧ handleCall midRoundState 2 = (.bool false, midRoundState)
    ∧ handleBet midRoundState 2 10 = (false, midRoundState)
    ∧ handleRaise midRoundState 2 20 = (.bool false, midRoundState)
    ∧ handleFold midRoundState (seatIndex 2) = (false, midRoundState)
    ∧ (handleRaise midRoundState 3 20).2.folded 2 = true :=
  have h := folded_seat_never_acts midRoundState 2 (by decide)
  ⟨h.1, h.2.1, h.2.2.1 10, h.2.2.2.1 20, h.2.2.2.2.1,
    ((h.2.2.2.2.2 3 2 (by decide)).2.2.2.1 20)⟩

/-! ## Check and fold -/

/-- An accepted `handleCheck`. -/
theorem handleCheck_accept (s : GameState) (p : Seat) (hf : s.folded p = false)
    (hcp : s.currentPlayer = seatIndex p) (hb : ¬ s.currentBets p < s.currentBet) :
    handleCheck s (seatIndex p)
      = (true, checkBettingRoundEnd 4
          { s with
            playerHasActed := Function.update s.playerHasActed p true
            isStartOfBettingRound := false } (seatIndex p)) := by
  unfold handleCheck
  rw [seatOf_seatIndex]
  dsimp only
  rw [hf]
  simp only [Bool.false_eq_true, if_false]
  rw [if_neg hb, if_neg (by rw [hcp]; exact fun h => h rfl)]
  by_cases hs : s.isStartOfBettingRound = true
  · rw [if_pos ⟨hs, hcp.symm⟩]
  · rw [if_neg (fun h => hs h.1)]
    have hs2 : s.isStartOfBettingRound = false := by simpa using hs
    have : { s with playerHasActed := Function.update s.playerHasActed p true }
        = { s with
            playerHasActed := Function.update s.playerHasActed p true
            isStartOfBettingRound := false } := by
      rw [← hs2]
    rw [this]

/-- C17: check legality.  For a non-folded seat `p` whose turn it is, with
`currentBets[p] <= currentBet`, `handleCheck(p)` is accepted exactly when
`currentBets[p] = currentBet`.  An accepted check returns `true`, marks
`playerHasActed[p]` and leaves `chips`, `currentBet` and the fold flags as they
were (and `currentBets` and `pot` too, unless `p` is the only seat not folded,
in which case the outstanding bets are banked for the award).  With
`currentBets[p] < currentBet` it returns `false` and the state is unchanged. -/
theorem handleCheck_legality (s : GameState) (p : Seat) (hf : s.folded p = false)
    (hcp : s.currentPlayer = seatIndex p) (hle : s.currentBets p ≤ s.currentBet) :
    ((handleCheck s (seatIndex p)).1 = true ↔ s.currentBets p = s.currentBet)
    ∧ (s.currentBets p = s.currentBet →
        (handleCheck s (seatIndex p)).1 = true
        ∧ (handleCheck s (seatIndex p)).2.playerHasActed p = true
        ∧ (handleCheck s (seatIndex p)).2.chips = s.chips
        ∧ (handleCheck s (seatIndex p)).2.currentBet = s.currentBet
        ∧ (handleCheck s (seatIndex p)).2.folded = s.folded
        ∧ ((nonFolded s).length ≠ 1 →
            (handleCheck s (seatIndex p)).2.currentBets = s.currentBets
            ∧ (handleCheck s (seatIndex p)).2.pot = s.pot))
    ∧ (s.currentBets p < s.currentBet → handleCheck s (seatIndex p) = (false, s)) := by
  have hrej : s.currentBets p < s.currentBet → handleCheck s (seatIndex p) = (false, s) := by
    intro hlt
    unfold handleCheck
    rw [seatOf_seatIndex]
    dsimp only
    rw [hf]
    simp only [Bool.false_eq_true, if_false]
    rw [if_pos hlt]
  have hacc : s.currentBets p = s.currentBet →
      (handleCheck s (seatIndex p)).1 = true
      ∧ (handleCheck s (seatIndex p)).2.playerHasActed p = true
      ∧ (handleCheck s (seatIndex p)).2.chips = s.chips
      ∧ (handleCheck s (seatIndex p)).2.currentBet = s.currentBet
      ∧ (handleCheck s (seatIndex p)).2.folded = s.folded
      ∧ ((nonFolded s).length ≠ 1 →
          (handleCheck s (seatIndex p)).2.currentBets = s.currentBets
          ∧ (handleCheck s (seatIndex p)).2.pot = s.pot) := by
    intro heq
    rw [handleCheck_accept s p hf hcp (by omega)]
    have hk := keepsTable_checkBettingRoundEnd 4
      { s with
        playerHasActed := Function.update s.playerHasActed p true
        isStartOfBettingRound := false } (seatIndex p)
    obtain ⟨-, -, hchips, -, -, hcb, -, -, hfold, -, -, -, hact⟩ := hk
    refine ⟨rfl, hact p (by simp), hchips, hcb, hfold, fun hlen => ?_⟩
    exact ledger_checkBettingRoundEnd 4 _ (seatIndex p) hlen
  refine ⟨⟨fun h => ?_, fun h => (hacc h).1⟩, hacc, hrej⟩
  by_contra hne
  have hlt : s.currentBets p < s.currentBet := lt_of_le_of_ne hle hne
  rw [hrej hlt] at h
  exact Bool.noConfusion h

/-- Heads-up with no bet yet, seat 0 to act: its check is accepted. -/
theorem handleCheck_legality_witness :
    (handleCheck headsUpState (seatIndex 0)).1 = true
    ∧ (handleCheck headsUpState (seatIndex 0)).2.playerHasActed 0 = true
    ∧ (handleCheck headsUpState (seatIndex 0)).2.chips = headsUpState.chips :=
  have h := (handleCheck_legality headsUpState 0 (by decide) (by decide) (by decide)).2.1
    (by decide)
  ⟨h.1, h.2.1, h.2.2.1⟩

theorem betsSum_eq (s : GameState) :
    betsSum s = s.currentBets 0 + s.currentBets 1 + s.currentBets 2 + s.currentBets 3 := rfl

/-- The chips after `awardPotToPlayer(w, reason)` when no award has been made
yet: seat `w` gains the pot and all outstanding bets. -/
theorem awardPotToPlayer_chips (s : GameState) (w : Seat) (reason : String) (hn : NonNeg s)
    (hid : TxnOk s) (hna : s.potHasBeenAwarded = false) :
    (awardPotToPlayer s (seatIndex w) reason).2.chips w = s.chips w + (s.pot + betsSum s)
    ∧ (∀ q, q ≠ w → (awardPotToPlayer s (seatIndex w) reason).2.chips q = s.chips q)
    ∧ (awardPotToPlayer s (seatIndex w) reason).2.pot = 0
    ∧ (∀ q, (awardPotToPlayer s (seatIndex w) reason).2.currentBets q = 0) := by
  by_cases hpos : s.pot + betsSum s > 0
  · rw [awardPotToPlayer_eq s w reason hn hid hna hpos]
    refine ⟨?_, fun q hq => ?_, rfl, fun _ => rfl⟩
    · show Function.update s.chips w (s.chips w + (s.pot + betsSum s)) w = _
      rw [Function.update_same]
    · show Function.update s.chips w (s.chips w + (s.pot + betsSum s)) q = _
      rw [Function.update_noteq hq]
  · obtain ⟨hc, hb, hp⟩ := hn
    have h0 := hb 0
    have h1 := hb 1
    have h2 := hb 2
    have h3 := hb 3
    rw [betsSum_eq] at hpos ⊢
    have hpot : s.pot = 0 := by omega
    have hsum : s.currentBets 0 + s.currentBets 1 + s.currentBets 2 + s.currentBets 3 = 0 := by
      omega
    unfold awardPotToPlayer
    simp only [seatOf_seatIndex]
    have hid2 : ¬ (s.currentAwardTransactionId + 1 ≤ s.lastAwardedPotTransactionId) := by
      unfold TxnOk at hid
      omega
    rw [collect_fold_of_nonneg]
    · have hle : s.pot + (s.currentBets 0 + s.currentBets 1 + s.currentBets 2
          + s.currentBets 3) ≤ 0 := by omega
      simp only [hna, Bool.false_eq_true, if_false, hid2, hle, if_true]
      refine ⟨by omega, fun _ _ => trivial, hpot, fun _ => trivial⟩
    · exact hb

/-- C14: uncontested win.  When `handleFold(p)` on a non-folded seat leaves
exactly one seat `w` not folded, it returns `true`, moves every outstanding bet
into the pot at once, and only schedules `awardPotToPlayer(w, "uncontested")`:
`currentPlayer`, the community cards, the deck and the chips are as before and
no other callback is scheduled (so `checkBettingRoundEnd` has not run).  The
scheduled award then adds the whole pot (the pot before the fold plus the bets
of all four seats) to `chips[w]`, leaves the other seats' chips unchanged and
the pot and all bets at 0. -/
theorem handleFold_uncontested (s : GameState) (hn : NonNeg s) (hid : TxnOk s)
    (hna : s.potHasBeenAwarded = false) (p w : Seat) (hp : s.folded p = false)
    (hw : nonFolded { s with folded := Function.update s.folded p true } = [w]) :
    handleFold s (seatIndex p)
      = (true, schedule
          { s with
            folded := Function.update s.folded p true
            playerHasActed := Function.update s.playerHasActed p true
            currentBets := fun _ => 0
            pot := s.pot + betsSum s }
          (.awardPotToPlayer (seatIndex w) "uncontested"))
    ∧ (handleFold s (seatIndex p)).2.currentPlayer = s.currentPlayer
    ∧ (handleFold s (seatIndex p)).2.communityCards = s.communityCards
    ∧ (handleFold s (seatIndex p)).2.deck = s.deck
    ∧ (handleFold s (seatIndex p)).2.chips = s.chips
    ∧ (handleFold s (seatIndex p)).2.timers
        = s.timers ++ [.awardPotToPlayer (seatIndex w) "uncontested"]
    ∧ (awardPotToPlayer (handleFold s (seatIndex p)).2 (seatIndex w) "uncontested").2.chips w
        = s.chips w + (s.pot + betsSum s)
    ∧ (∀ q, q ≠ w →
        (awardPotToPlayer (handleFold s (seatIndex p)).2 (seatIndex w) "uncontested").2.chips q
          = s.chips q)
    ∧ (awardPotToPlayer (handleFold s (seatIndex p)).2 (seatIndex w) "uncontested").2.pot = 0 := by
  have hfold : handleFold s (seatIndex p)
      = (true, schedule
          { s with
            folded := Function.update s.folded p true
            playerHasActed := Function.update s.playerHasActed p true
            currentBets := fun _ => 0
            pot := s.pot + betsSum s }
          (.awardPotToPlayer (seatIndex w) "uncontested")) := by
    unfold handleFold
    rw [seatOf_seatIndex]
    dsimp only
    rw [hp]
    simp only [Bool.false_eq_true, if_false]
    have hw2 : List.filter (fun i => !Function.update s.folded p true i) seats = [w] := hw
    rw [hw2]
    simp only [List.length_singleton, if_true, List.headD_cons]
    rw [collectOutstandingBets_of_nonNeg]
    · rfl
    · exact nonNeg_congr _ _ hn rfl rfl rfl
  rw [hfold]
  refine ⟨rfl, rfl, rfl, rfl, rfl, rfl, ?_⟩
  have hn2 : NonNeg (schedule
      { s with
        folded := Function.update s.folded p true
        playerHasActed := Function.update s.playerHasActed p true
        currentBets := fun _ => 0
        pot := s.pot + betsSum s }
      (.awardPotToPlayer (seatIndex w) "uncontested")) := by
    obtain ⟨hc, hb, hpp⟩ := hn
    refine ⟨hc, fun _ => le_refl _, ?_⟩
    have h0 := hb 0
    have h1 := hb 1
    have h2 := hb 2
    have h3 := hb 3
    show 0 ≤ s.pot + betsSum s
    rw [betsSum_eq]
    omega
  obtain ⟨a1, a2, a3, -⟩ := awardPotToPlayer_chips _ w "uncontested" hn2 hid hna
  refine ⟨?_, a2, a3⟩
  rw [a1]
  show s.chips w + (s.pot + betsSum s + (0 + 0 + 0 + 0)) = s.chips w + (s.pot + betsSum s)
  omega

theorem nonNeg_headsUpState : NonNeg headsUpState :=
  ⟨fun i => by fin_cases i <;> decide, fun i => by fin_cases i <;> decide, by decide⟩

theorem nonNeg_headsUpBetState : NonNeg headsUpBetState :=
  ⟨fun i => by fin_cases i <;> decide, fun i => by fin_cases i <;> decide, by decide⟩

/-- Heads-up after a bet of 25 by seat 0, seat 1 folds: seat 0 is the only seat
left, the bet is banked with the 40 chips of the pot, and the scheduled award
gives seat 0 all 65 chips. -/
theorem handleFold_uncontested_witness :
    (handleFold headsUpBetState (seatIndex 1)).1 = true
    ∧ (handleFold headsUpBetState (seatIndex 1)).2.currentPlayer = 1
    ∧ (handleFold headsUpBetState (seatIndex 1)).2.pot = 65
    ∧ (awardPotToPlayer (handleFold headsUpBetState (seatIndex 1)).2 (seatIndex 0)
        "uncontested").2.chips 0 = 75 + (40 + betsSum headsUpBetState)
    ∧ (awardPotToPlayer (handleFold headsUpBetState (seatIndex 1)).2 (seatIndex 0)
        "uncontested").2.pot = 0 :=
  have h := handleFold_uncontested headsUpBetState nonNeg_headsUpBetState
    (le_refl (0 : Int)) (by decide) 1 0 (by decide) (by decide)
  ⟨by rw [h.1], h.2.1, by decide, h.2.2.2.2.2.2.1, h.2.2.2.2.2.2.2.2⟩

/-- C20 (as the code behaves): `handleBet` does not look at `currentBet` and
does not write `lastRaiseAmount`.  For a non-folded seat `p` and
`0 < a <= chips[p]` it returns `true` whatever the bet to match is, moves `a`
chips to `currentBets[p]`, and makes `currentBet` the larger of its old value
and the seat's new bet (so `currentBet = a` when nothing had been bet);
`lastRaiseAmount` keeps its value.  It is the callers that, after an accepted
`handleBet(p, a)`, assign `lastRaiseAmount = a` and `lastToAct = p` before
calling `checkBettingRoundEnd(p)`. -/
theorem handleBet_any_bet (s : GameState) (hn : NonNeg s) (p : Seat) (hf : s.folded p = false)
    (a : Int) (h0 : 0 < a) (h1 : a ≤ s.chips p) :
    (handleBet s p a).1 = true
    ∧ (handleBet s p a).2.chips p = s.chips p - a
    ∧ (handleBet s p a).2.currentBets p = s.currentBets p + a
    ∧ (handleBet s p a).2.currentBet = max s.currentBet (s.currentBets p + a)
    ∧ (handleBet s p a).2.lastRaiseAmount = s.lastRaiseAmount
    ∧ (s.currentBet = 0 → s.currentBets p = 0 → (handleBet s p a).2.currentBet = a)
    ∧ (betAction s p a).1 = true
    ∧ (betAction s p a).2.lastRaiseAmount = a
    ∧ (betAction s p a).2.lastToAct = seatIndex p
    ∧ (betAction s p a).2.currentBet = max s.currentBet (s.currentBets p + a) := by
  have hacc := handleBet_accept s hn p a hf h0 h1
  have hcur : (handleBet s p a).2.currentBet = max s.currentBet (s.currentBets p + a) := by
    rw [hacc]
    dsimp only
    by_cases hc : s.currentBets p + a > s.currentBet
    · rw [if_pos hc, max_eq_right (le_of_lt hc)]
    · rw [if_neg hc, max_eq_left (by omega)]
      rfl
  have hbet : betAction s p a
      = (true, checkBettingRoundEnd 4
          { (handleBet s p a).2 with lastRaiseAmount := a, lastToAct := seatIndex p }
          (seatIndex p)) := by
    unfold betAction
    rw [hacc]
    rfl
  have hk := keepsTable_checkBettingRoundEnd 4
    { (handleBet s p a).2 with lastRaiseAmount := a, lastToAct := seatIndex p } (seatIndex p)
  obtain ⟨-, -, -, -, -, kcb, kla, klr, -⟩ := hk
  refine ⟨by rw [hacc], ?_, ?_, hcur, ?_, ?_, by rw [hbet], ?_, ?_, ?_⟩
  · rw [hacc]
    dsimp only
    split
    · exact moved_chips_self s p a
    · exact moved_chips_self s p a
  · rw [hacc]
    dsimp only
    split
    · exact moved_currentBets_self s p a
    · exact moved_currentBets_self s p a
  · rw [hacc]
    dsimp only
    split <;> rfl
  · intro hcb hb
    rw [hcur, hcb, hb, zero_add]
    exact max_eq_right (le_of_lt h0)
  · rw [hbet]
    exact klr
  · rw [hbet]
    exact kla
  · rw [hbet]
    exact kcb.trans hcur

/-- Heads-up with no bet yet: seat 0 bets 25 of its 100 chips. -/
theorem handleBet_any_bet_witness :
    (handleBet headsUpState 0 25).1 = true
    ∧ (handleBet headsUpState 0 25).2.chips 0 = 100 - 25
    ∧ (handleBet headsUpState 0 25).2.currentBet = 25
    ∧ (handleBet headsUpState 0 25).2.lastRaiseAmount = headsUpState.lastRaiseAmount
    ∧ (betAction headsUpState 0 25).2.lastRaiseAmount = 25 :=
  have h := handleBet_any_bet headsUpState nonNeg_headsUpState 0 (by decide) 25 (by decide)
    (by decide)
  ⟨h.1, h.2.1, h.2.2.2.2.2.1 (by decide) (by decide), h.2.2.2.2.1, h.2.2.2.2.2.2.2.1⟩

/-! ## Round completion, seat by seat -/

/-- What `checkBettingRoundEnd(p)` does in a contested hand. -/
theorem checkBettingRoundEnd_props (n : Nat) (s : GameState) (p : Seat)
    (h2 : 2 ≤ (nonFolded s).length) :
    (RoundOver { s with playerHasActed := Function.update s.playerHasActed p true } →
        (checkBettingRoundEnd n s (seatIndex p)).bettingRoundActive = false
        ∧ (checkBettingRoundEnd n s (seatIndex p)).currentPlayer = s.currentPlayer)
    ∧ (¬ RoundOver { s with playerHasActed := Function.update s.playerHasActed p true } →
        (checkBettingRoundEnd n s (seatIndex p)).bettingRoundActive = s.bettingRoundActive
        ∧ (checkBettingRoundEnd n s (seatIndex p)).currentPlayer
            = findNextActivePlayer s (seatIndex p))
    ∧ (checkBettingRoundEnd n s (seatIndex p)).playerHasActed
        = Function.update s.playerHasActed p true
    ∧ (checkBettingRoundEnd n s (seatIndex p)).chips = s.chips
    ∧ (checkBettingRoundEnd n s (seatIndex p)).currentBets = s.currentBets
    ∧ (checkBettingRoundEnd n s (seatIndex p)).pot = s.pot
    ∧ (checkBettingRoundEnd n s (seatIndex p)).currentBet = s.currentBet
    ∧ (checkBettingRoundEnd n s (seatIndex p)).folded = s.folded
    ∧ (checkBettingRoundEnd n s (seatIndex p)).lastRaiseAmount = s.lastRaiseAmount := by
  rw [checkBettingRoundEnd_seat n s p h2]
  by_cases hc : roundComplete { s with playerHasActed := Function.update s.playerHasActed p true }
      = true
  · have hover := (roundComplete_iff _).mp hc
    rw [if_pos hc]
    refine ⟨fun _ => ?_, fun hno => absurd hover hno, ?_⟩
    · split
      · exact ⟨rfl, rfl⟩
      · split
        · exact ⟨rfl, rfl⟩
        · exact ⟨rfl, rfl⟩
    · split
      · exact ⟨rfl, rfl, rfl, rfl, rfl, rfl, rfl⟩
      · split
        · exact ⟨rfl, rfl, rfl, rfl, rfl, rfl, rfl⟩
        · exact ⟨rfl, rfl, rfl, rfl, rfl, rfl, rfl⟩
  · have hover : ¬ RoundOver
        { s with playerHasActed := Function.update s.playerHasActed p true } :=
      fun h => hc ((roundComplete_iff _).mpr h)
    rw [if_neg hc]
    refine ⟨fun h => absurd h hover, fun _ => ?_, ?_⟩
    · split
      · exact ⟨rfl, rfl⟩
      · exact ⟨rfl, rfl⟩
    · split
      · exact ⟨rfl, rfl, rfl, rfl, rfl, rfl, rfl⟩
      · exact ⟨rfl, rfl, rfl, rfl, rfl, rfl, rfl⟩

theorem nodup_seats : seats.Nodup := by decide

theorem two_nonFolded (s : GameState) {a b : Seat} (hab : a ≠ b) (ha : s.folded a = false)
    (hb : s.folded b = false) : 2 ≤ (nonFolded s).length := by
  have hnd : [a, b].Nodup := by simp [hab]
  have hsub : [a, b] ⊆ nonFolded s := by
    intro x hx
    simp only [List.mem_cons, List.mem_singleton, List.not_mem_nil, or_false] at hx
    rcases hx with rfl | rfl
    · exact (mem_nonFolded s _).mpr ha
    · exact (mem_nonFolded s _).mpr hb
  exact (List.subperm_of_subset hnd hsub).length_le

/-- With only seats `a` and `b` not folded, the round is over when both have
matched the bet (or have no chips) and both have acted. -/
theorem roundOver_headsUp (t : GameState) {a b : Seat}
    (hpat : ∀ i, t.folded i = false ↔ i = a ∨ i = b) :
    RoundOver t ↔
      (t.currentBets a = t.currentBet ∨ t.chips a = 0)
      ∧ (t.currentBets b = t.currentBet ∨ t.chips b = 0)
      ∧ t.playerHasActed a = true ∧ t.playerHasActed b = true := by
  unfold RoundOver
  constructor
  · rintro ⟨h1, h2⟩
    exact ⟨h1 a ((hpat a).mpr (Or.inl rfl)), h1 b ((hpat b).mpr (Or.inr rfl)),
      h2 a ((hpat a).mpr (Or.inl rfl)), h2 b ((hpat b).mpr (Or.inr rfl))⟩
  · rintro ⟨ha, hb, hca, hcb⟩
    constructor
    · intro i hi
      rcases (hpat i).mp hi with rfl | rfl
      · exact ha
      · exact hb
    · intro i hi
      rcases (hpat i).mp hi with rfl | rfl
      · exact hca
      · exact hcb

/-- With only seats `a` and `b` not folded, the turn passes from `a` to `b`. -/
theorem findNextActivePlayer_headsUp (t : GameState) {a b : Seat} (hab : a ≠ b)
    (hpat : ∀ i, t.folded i = false ↔ i = a ∨ i = b) :
    findNextActivePlayer t (seatIndex a) = seatIndex b := by
  have hr : -1 ≤ seatIndex a ∧ seatIndex a ≤ 3 := by
    fin_cases a <;> decide
  have h := turn_order_flags (t.folded 0) (t.folded 1) (t.folded 2) (t.folded 3) (seatIndex a)
    hr.1 hr.2
  rw [← folded_eq_flags] at h
  obtain ⟨-, hb, hc, hd⟩ := h
  have hne : findNextActivePlayer (foldState t.folded) (seatIndex a) ≠ -1 := by
    intro h1
    have := (hc.mp h1) a
    rw [(hpat a).mpr (Or.inl rfl)] at this
    exact Bool.noConfusion this
  rw [findNextActivePlayer_foldState]
  rcases findNextActivePlayer_spec (foldState t.folded) (seatIndex a) with h1 | ⟨q, hq, hqf⟩
  · exact absurd h1 hne
  · rw [hq]
    have hqf2 : t.folded q = false := hqf
    rcases (hpat q).mp hqf2 with rfl | rfl
    · exfalso
      have ha0 : 0 ≤ seatIndex q := by fin_cases q <;> decide
      have := hd ha0 hq b (fun h => hab (by
        fin_cases q <;> fin_cases b <;> first | rfl | exact absurd h (by decide)))
      rw [(hpat b).mpr (Or.inr rfl)] at this
      exact Bool.noConfusion this
    · rfl

/-! ## Heads-up play -/

/-- Heads-up, `checkBettingRoundEnd(p)` for the actor `p` facing `q`. -/
theorem checkBettingRoundEnd_headsUp (n : Nat) (u : GameState) {p q : Seat} (hpq : p ≠ q)
    (hpat : ∀ i, u.folded i = false ↔ i = p ∨ i = q) :
    (((u.currentBets p = u.currentBet ∨ u.chips p = 0)
        ∧ (u.currentBets q = u.currentBet ∨ u.chips q = 0) ∧ u.playerHasActed q = true) →
      (checkBettingRoundEnd n u (seatIndex p)).bettingRoundActive = false)
    ∧ (¬ ((u.currentBets p = u.currentBet ∨ u.chips p = 0)
        ∧ (u.currentBets q = u.currentBet ∨ u.chips q = 0) ∧ u.playerHasActed q = true) →
      (checkBettingRoundEnd n u (seatIndex p)).bettingRoundActive = u.bettingRoundActive
      ∧ (checkBettingRoundEnd n u (seatIndex p)).currentPlayer = seatIndex q)
    ∧ (checkBettingRoundEnd n u (seatIndex p)).playerHasActed
        = Function.update u.playerHasActed p true
    ∧ (checkBettingRoundEnd n u (seatIndex p)).chips = u.chips
    ∧ (checkBettingRoundEnd n u (seatIndex p)).currentBets = u.currentBets
    ∧ (checkBettingRoundEnd n u (seatIndex p)).currentBet = u.currentBet
    ∧ (checkBettingRoundEnd n u (seatIndex p)).folded = u.folded
    ∧ (checkBettingRoundEnd n u (seatIndex p)).lastRaiseAmount = u.lastRaiseAmount := by
  have hfp : u.folded p = false := (hpat p).mpr (Or.inl rfl)
  have hfq : u.folded q = false := (hpat q).mpr (Or.inr rfl)
  have hqp : q ≠ p := fun h => hpq h.symm
  obtain ⟨q1, q2, q3, q4, q5, -, q6, q7, q8⟩ :=
    checkBettingRoundEnd_props n u p (two_nonFolded u hpq hfp hfq)
  have hover : RoundOver { u with playerHasActed := Function.update u.playerHasActed p true }
      ↔ ((u.currentBets p = u.currentBet ∨ u.chips p = 0)
        ∧ (u.currentBets q = u.currentBet ∨ u.chips q = 0) ∧ u.playerHasActed q = true) := by
    have hpat2 : ∀ i,
        ({ u with playerHasActed := Function.update u.playerHasActed p true } : GameState).folded i
          = false ↔ i = p ∨ i = q := hpat
    rw [roundOver_headsUp _ hpat2]
    show (u.currentBets p = u.currentBet ∨ u.chips p = 0)
        ∧ (u.currentBets q = u.currentBet ∨ u.chips q = 0)
        ∧ Function.update u.playerHasActed p true p = true
        ∧ Function.update u.playerHasActed p true q = true ↔ _
    rw [Function.update_same, Function.update_noteq hqp]
    constructor
    · rintro ⟨h1, h2, -, h3⟩
      exact ⟨h1, h2, h3⟩
    · rintro ⟨h1, h2, h3⟩
      exact ⟨h1, h2, rfl, h3⟩
  refine ⟨fun h => (q1 (hover.mpr h)).1, fun h => ?_, q3, q4, q5, q6, q7, q8⟩
  obtain ⟨h1, h2⟩ := q2 (fun h' => h (hover.mp h'))
  exact ⟨h1, h2.trans (findNextActivePlayer_headsUp u hpq hpat)⟩

/-- The shape of an accepted check. -/
theorem handleCheck_shape (s : GameState) (p : Seat) (hf : s.folded p = false)
    (hcp : s.currentPlayer = seatIndex p) (hb : ¬ s.currentBets p < s.currentBet) :
    ∃ u, handleCheck s (seatIndex p) = (true, checkBettingRoundEnd 4 u (seatIndex p))
      ∧ u.folded = s.folded
      ∧ u.playerHasActed = Function.update s.playerHasActed p true
      ∧ u.chips = s.chips ∧ u.currentBets = s.currentBets ∧ u.currentBet = s.currentBet
      ∧ u.bettingRoundActive = s.bettingRoundActive :=
  ⟨_, handleCheck_accept s p hf hcp hb, rfl, rfl, rfl, rfl, rfl, rfl⟩

/-- The shape of an accepted bet that becomes the bet to match. -/
theorem betAction_shape (s : GameState) (hn : NonNeg s) (p : Seat) (x : Int)
    (hf : s.folded p = false) (h0 : 0 < x) (h1 : x ≤ s.chips p)
    (hgt : s.currentBets p + x > s.currentBet) :
    ∃ u, betAction s p x = (true, checkBettingRoundEnd 4 u (seatIndex p))
      ∧ NonNeg u
      ∧ u.folded = s.folded
      ∧ u.playerHasActed = s.playerHasActed
      ∧ u.chips p = s.chips p - x
      ∧ u.currentBets p = s.currentBets p + x
      ∧ (∀ q, q ≠ p → u.chips q = s.chips q ∧ u.currentBets q = s.currentBets q)
      ∧ u.currentBet = s.currentBets p + x
      ∧ u.lastRaiseAmount = x
      ∧ u.bettingRoundActive = s.bettingRoundActive := by
  have hacc := handleBet_accept s hn p x hf h0 h1
  rw [if_pos hgt] at hacc
  refine ⟨{ moved s p x with
      currentBet := s.currentBets p + x, lastToAct := seatIndex p, lastRaiseAmount := x },
    ?_, ?_, rfl, rfl, moved_chips_self s p x, moved_currentBets_self s p x, ?_, rfl, rfl, rfl⟩
  · unfold betAction
    rw [hacc]
    rfl
  · exact nonNeg_congr _ _ (nonNeg_moved s hn p x (le_of_lt h0) h1) rfl rfl rfl
  · intro q hq
    exact ⟨moved_chips_other s p q x hq, moved_currentBets_other s p q x hq⟩

/-- The shape of an accepted call by a seat that has chips. -/
theorem callAction_shape (s : GameState) (hn : NonNeg s) (p : Seat) (hf : s.folded p = false)
    (hle : s.currentBets p ≤ s.currentBet) (hpos : 0 < s.chips p) :
    ∃ u, callAction s p = (true, checkBettingRoundEnd 4 u (seatIndex p))
      ∧ u.folded = s.folded
      ∧ u.playerHasActed = s.playerHasActed
      ∧ (u.currentBets p = u.currentBet ∨ u.chips p = 0)
      ∧ (∀ q, q ≠ p → u.chips q = s.chips q ∧ u.currentBets q = s.currentBets q)
      ∧ u.currentBet = s.currentBet
      ∧ u.bettingRoundActive = s.bettingRoundActive := by
  obtain ⟨c1, c2, c3, -⟩ := handleCall_cases s hn p hf
  by_cases h0 : s.currentBet - s.currentBets p ≤ 0
  · refine ⟨s, ?_, rfl, rfl, Or.inl (by omega), fun q _ => ⟨rfl, rfl⟩, rfl, rfl⟩
    unfold callAction
    rw [c1 h0]
    rfl
  · by_cases h1 : s.currentBet - s.currentBets p < s.chips p
    · refine ⟨moved s p (s.currentBet - s.currentBets p), ?_, rfl, rfl, Or.inl ?_,
        fun q hq => ⟨moved_chips_other s p q _ hq, moved_currentBets_other s p q _ hq⟩,
        rfl, rfl⟩
      · unfold callAction
        rw [c2 (by omega) h1]
        rfl
      · rw [moved_currentBets_self]
        show s.currentBets p + (s.currentBet - s.currentBets p) = s.currentBet
        omega
    · refine ⟨moved s p (s.chips p), ?_, rfl, rfl, Or.inr ?_,
        fun q hq => ⟨moved_chips_other s p q _ hq, moved_currentBets_other s p q _ hq⟩,
        rfl, rfl⟩
      · unfold callAction
        rw [c3 (by omega) (by omega) hpos]
        have : (JSVal.num (s.chips p)).truthy = true := by
          show (s.chips p != 0) = true
          exact bne_iff_ne.mpr (ne_of_gt hpos)
        dsimp only
        rw [if_pos this]
      · rw [moved_chips_self]
        omega

/-- The shape of an accepted regular raise. -/
theorem raiseAction_shape (s : GameState) (hn : NonNeg s) (p : Seat) (r : Int)
    (hf : s.folded p = false)
    (hmin : ¬ (r < max s.lastRaiseAmount 1 ∧ s.currentBet > 0))
    (hpos : 0 < s.currentBet - s.currentBets p + r)
    (hlt : s.currentBet - s.currentBets p + r < s.chips p) :
    ∃ u, raiseAction s p r = (true, checkBettingRoundEnd 4 u (seatIndex p))
      ∧ u.folded = s.folded
      ∧ u.playerHasActed = s.playerHasActed
      ∧ u.chips p = s.chips p - (s.currentBet - s.currentBets p + r)
      ∧ u.currentBets p = s.currentBet + r
      ∧ (∀ q, q ≠ p → u.chips q = s.chips q ∧ u.currentBets q = s.currentBets q)
      ∧ u.currentBet = s.currentBet + r
      ∧ u.bettingRoundActive = s.bettingRoundActive := by
  have hacc := handleRaise_regular s hn p r hf hmin hpos hlt
  refine ⟨{ moved s p (s.currentBet - s.currentBets p + r) with
      currentBet := s.currentBet + r
      lastRaiseAmount := r
      lastToAct := seatIndex p },
    ?_, rfl, rfl, moved_chips_self s p _, ?_, ?_, rfl, rfl⟩
  · unfold raiseAction
    rw [hacc]
    rfl
  · show (moved s p (s.currentBet - s.currentBets p + r)).currentBets p = s.currentBet + r
    rw [moved_currentBets_self]
    omega
  · intro q hq
    exact ⟨moved_chips_other s p q _ hq, moved_currentBets_other s p q _ hq⟩

/-- Heads-up, check then check ends the round. -/
theorem headsUp_check_check (s : GameState) (a b : Seat) (h : HeadsUpStart s a b) :
    (handleCheck s (seatIndex a)).1 = true
    ∧ (handleCheck s (seatIndex a)).2.bettingRoundActive = true
    ∧ (handleCheck s (seatIndex a)).2.currentPlayer = seatIndex b
    ∧ (handleCheck (handleCheck s (seatIndex a)).2 (seatIndex b)).1 = true
    ∧ (handleCheck (handleCheck s (seatIndex a)).2 (seatIndex b)).2.bettingRoundActive
        = false := by
  obtain ⟨hab, hpat, hcb, hbets, haa, hba, hcp, hact, hn⟩ := h
  have hfa : s.folded a = false := (hpat a).mpr (Or.inl rfl)
  have hba' : b ≠ a := fun h => hab h.symm
  -- first check
  obtain ⟨u1, e1, f1, a1, c1, b1, cb1, ra1⟩ :=
    handleCheck_shape s a hfa hcp (by rw [hbets a, hcb]; exact lt_irrefl _)
  have hpat1 : ∀ i, u1.folded i = false ↔ i = a ∨ i = b := by
    rw [f1]
    exact hpat
  obtain ⟨-, k2, k3, k4, k5, k6, k7, -⟩ := checkBettingRoundEnd_headsUp 4 u1 hab hpat1
  obtain ⟨k2a, k2b⟩ := k2 (fun hc => by
    have := hc.2.2
    rw [a1, Function.update_noteq hba', hba] at this
    exact Bool.noConfusion this)
  rw [e1]
  dsimp only
  generalize checkBettingRoundEnd 4 u1 (seatIndex a) = t1 at *
  refine ⟨rfl, by rw [k2a, ra1, hact], k2b, ?_⟩
  -- second check
  have hpat2 : ∀ i, t1.folded i = false ↔ i = b ∨ i = a := by
    intro i
    rw [k7, f1, hpat i]
    exact Or.comm
  have hbt : ∀ i, t1.currentBets i = t1.currentBet := by
    intro i
    rw [k5, k6, b1, cb1, hbets i, hcb]
  obtain ⟨u2, e2, f2, a2, c2, b2, cb2, ra2⟩ :=
    handleCheck_shape t1 b ((hpat2 b).mpr (Or.inl rfl)) k2b
      (by rw [hbt b]; exact lt_irrefl _)
  have hpat3 : ∀ i, u2.folded i = false ↔ i = b ∨ i = a := by
    rw [f2]
    exact hpat2
  obtain ⟨m1, -⟩ := checkBettingRoundEnd_headsUp 4 u2 hba' hpat3
  rw [e2]
  refine ⟨rfl, m1 ⟨Or.inl ?_, Or.inl ?_, ?_⟩⟩
  · rw [b2, cb2, hbt b]
  · rw [b2, cb2, hbt a]
  · rw [a2, Function.update_noteq hab, k3, a1, Function.update_same]

/-- Heads-up, a bet that is called ends the round. -/
theorem headsUp_bet_call (s : GameState) (a b : Seat) (h : HeadsUpStart s a b) (x : Int)
    (h0 : 0 < x) (h1 : x ≤ s.chips a) (hb : 0 < s.chips b) :
    (betAction s a x).1 = true
    ∧ (betAction s a x).2.bettingRoundActive = true
    ∧ (betAction s a x).2.currentPlayer = seatIndex b
    ∧ (betAction s a x).2.currentBet = x
    ∧ (callAction (betAction s a x).2 b).1 = true
    ∧ (callAction (betAction s a x).2 b).2.bettingRoundActive = false := by
  obtain ⟨hab, hpat, hcb, hbets, haa, hba, hcp, hact, hn⟩ := h
  have hfa : s.folded a = false := (hpat a).mpr (Or.inl rfl)
  have hba' : b ≠ a := fun h => hab h.symm
  -- the bet
  obtain ⟨u1, e1, n1, f1, a1, c1, b1, o1, cb1, -, ra1⟩ :=
    betAction_shape s hn a x hfa h0 h1 (by rw [hbets a, hcb]; omega)
  have hpat1 : ∀ i, u1.folded i = false ↔ i = a ∨ i = b := by
    rw [f1]
    exact hpat
  obtain ⟨-, k2, k3, k4, k5, k6, k7, -⟩ := checkBettingRoundEnd_headsUp 4 u1 hab hpat1
  obtain ⟨k2a, k2b⟩ := k2 (fun hc => by
    have := hc.2.2
    rw [a1, hba] at this
    exact Bool.noConfusion this)
  have nt1 := nonNeg_checkBettingRoundEnd 4 u1 n1 (seatIndex a)
  rw [e1]
  dsimp only
  generalize checkBettingRoundEnd 4 u1 (seatIndex a) = t1 at *
  have hcbt : t1.currentBet = x := by rw [k6, cb1, hbets a, zero_add]
  refine ⟨rfl, by rw [k2a, ra1, hact], k2b, hcbt, ?_⟩
  -- the call
  have hpat2 : ∀ i, t1.folded i = false ↔ i = b ∨ i = a := by
    intro i
    rw [k7, f1, hpat i]
    exact Or.comm
  have hbb : t1.currentBets b = 0 := by rw [k5, (o1 b hba').2, hbets b]
  have hcbb : t1.chips b = s.chips b := by rw [k4, (o1 b hba').1]
  obtain ⟨u2, e2, f2, a2, m2, o2, cb2, -⟩ :=
    callAction_shape t1 nt1 b ((hpat2 b).mpr (Or.inl rfl)) (by rw [hbb, hcbt]; omega)
      (by rw [hcbb]; exact hb)
  have hpat3 : ∀ i, u2.folded i = false ↔ i = b ∨ i = a := by
    rw [f2]
    exact hpat2
  obtain ⟨m1, -⟩ := checkBettingRoundEnd_headsUp 4 u2 hba' hpat3
  rw [e2]
  refine ⟨rfl, m1 ⟨m2, Or.inl ?_, ?_⟩⟩
  · rw [(o2 a hab).2, cb2, k5, b1, hcbt, hbets a, zero_add]
  · rw [a2, k3, Function.update_same]

/-- Heads-up, after a bet that leaves the bettor chips and a regular raise, the
round is still open and the turn is back with the bettor. -/
theorem headsUp_bet_raise (s : GameState) (a b : Seat) (h : HeadsUpStart s a b) (x r : Int)
    (h0 : 0 < x) (h1 : x < s.chips a) (hr : x ≤ r) (hlt : x + r < s.chips b) :
    (betAction s a x).1 = true
    ∧ (raiseAction (betAction s a x).2 b r).1 = true
    ∧ (raiseAction (betAction s a x).2 b r).2.bettingRoundActive = true
    ∧ (raiseAction (betAction s a x).2 b r).2.currentPlayer = seatIndex a
    ∧ (raiseAction (betAction s a x).2 b r).2.currentBet = x + r := by
  obtain ⟨hab, hpat, hcb, hbets, haa, hba, hcp, hact, hn⟩ := h
  have hfa : s.folded a = false := (hpat a).mpr (Or.inl rfl)
  have hba' : b ≠ a := fun h => hab h.symm
  -- the bet
  obtain ⟨u1, e1, n1, f1, a1, c1, b1, o1, cb1, l1, ra1⟩ :=
    betAction_shape s hn a x hfa h0 (le_of_lt h1) (by rw [hbets a, hcb]; omega)
  have hpat1 : ∀ i, u1.folded i = false ↔ i = a ∨ i = b := by
    rw [f1]
    exact hpat
  obtain ⟨-, k2, k3, k4, k5, k6, k7, k8⟩ := checkBettingRoundEnd_headsUp 4 u1 hab hpat1
  obtain ⟨k2a, k2b⟩ := k2 (fun hc => by
    have := hc.2.2
    rw [a1, hba] at this
    exact Bool.noConfusion this)
  have nt1 := nonNeg_checkBettingRoundEnd 4 u1 n1 (seatIndex a)
  rw [e1]
  dsimp only
  generalize checkBettingRoundEnd 4 u1 (seatIndex a) = t1 at *
  have hcbt : t1.currentBet = x := by rw [k6, cb1, hbets a, zero_add]
  refine ⟨rfl, ?_⟩
  -- the raise
  have hpat2 : ∀ i, t1.folded i = false ↔ i = b ∨ i = a := by
    intro i
    rw [k7, f1, hpat i]
    exact Or.comm
  have hbb : t1.currentBets b = 0 := by rw [k5, (o1 b hba').2, hbets b]
  have hcbb : t1.chips b = s.chips b := by rw [k4, (o1 b hba').1]
  have hlr : t1.lastRaiseAmount = x := by rw [k8, l1]
  obtain ⟨u2, e2, f2, a2, c2, b2, o2, cb2, ra2⟩ :=
    raiseAction_shape t1 nt1 b r ((hpat2 b).mpr (Or.inl rfl))
      (by
        rw [hlr]
        intro hc
        have : max x 1 = x := max_eq_left (by omega)
        rw [this] at hc
        omega)
      (by rw [hcbt, hbb]; omega) (by rw [hcbt, hbb, hcbb]; omega)
  have hpat3 : ∀ i, u2.folded i = false ↔ i = b ∨ i = a := by
    rw [f2]
    exact hpat2
  obtain ⟨-, m2, -, -, -, m6, -⟩ := checkBettingRoundEnd_headsUp 4 u2 hba' hpat3
  obtain ⟨m2a, m2b⟩ := m2 (fun hc => by
    have h2 := hc.2.1
    rw [(o2 a hab).2, (o2 a hab).1, cb2, k5, k4, b1, c1, hcbt, hbets a] at h2
    omega)
  rw [e2]
  refine ⟨rfl, ?_, m2b, ?_⟩
  · show (checkBettingRoundEnd 4 u2 (seatIndex b)).bettingRoundActive = true
    rw [m2a, ra2, k2a, ra1, hact]
  · show (checkBettingRoundEnd 4 u2 (seatIndex b)).currentBet = x + r
    rw [m6, cb2, hcbt]

/-- C11: round completion.  In a state with at least two seats not folded,
`checkBettingRoundEnd(p)` for a seat `p` ends the betting round
(`bettingRoundActive = false`, `currentPlayer` not advanced) when, with `p`
marked as having acted, every non-folded seat has `currentBets` equal to
`currentBet` or has no chips and every non-folded seat has acted; otherwise
`bettingRoundActive` is left as it was and `currentPlayer` becomes
`findNextActivePlayer(p)`.  So from an active round, the round is ended exactly
when that condition holds.  With exactly two seats `a`, `b` not folded at the
start of a street: check then check ends the round; a bet `0 < x <= chips[a]`
called by `b` (who has chips) ends the round; and after a bet
`0 < x < chips[a]` and a regular raise by `r >= x` with `x + r < chips[b]` the
round is still active, `currentBet = x + r` and the turn is back with `a`. -/
theorem round_completion (n : Nat) (s : GameState) (p : Seat)
    (h2 : 2 ≤ (nonFolded s).length) :
    (RoundOver { s with playerHasActed := Function.update s.playerHasActed p true } →
        (checkBettingRoundEnd n s (seatIndex p)).bettingRoundActive = false
        ∧ (checkBettingRoundEnd n s (seatIndex p)).currentPlayer = s.currentPlayer)
    ∧ (¬ RoundOver { s with playerHasActed := Function.update s.playerHasActed p true } →
        (checkBettingRoundEnd n s (seatIndex p)).bettingRoundActive = s.bettingRoundActive
        ∧ (checkBettingRoundEnd n s (seatIndex p)).currentPlayer
            = findNextActivePlayer s (seatIndex p))
    ∧ (s.bettingRoundActive = true →
        ((checkBettingRoundEnd n s (seatIndex p)).bettingRoundActive = false
          ↔ RoundOver { s with playerHasActed := Function.update s.playerHasActed p true }))
    ∧ (∀ a b, HeadsUpStart s a b →
        (handleCheck s (seatIndex a)).1 = true
        ∧ (handleCheck s (seatIndex a)).2.bettingRoundActive = true
        ∧ (handleCheck s (seatIndex a)).2.currentPlayer = seatIndex b
        ∧ (handleCheck (handleCheck s (seatIndex a)).2 (seatIndex b)).1 = true
        ∧ (handleCheck (handleCheck s (seatIndex a)).2 (seatIndex b)).2.bettingRoundActive
            = false)
    ∧ (∀ a b x, HeadsUpStart s a b → 0 < x → x ≤ s.chips a → 0 < s.chips b →
        (betAction s a x).1 = true
        ∧ (betAction s a x).2.bettingRoundActive = true
        ∧ (betAction s a x).2.currentPlayer = seatIndex b
        ∧ (betAction s a x).2.currentBet = x
        ∧ (callAction (betAction s a x).2 b).1 = true
        ∧ (callAction (betAction s a x).2 b).2.bettingRoundActive = false)
    ∧ (∀ a b x r, HeadsUpStart s a b → 0 < x → x < s.chips a → x ≤ r → x + r < s.chips b →
        (betAction s a x).1 = true
        ∧ (raiseAction (betAction s a x).2 b r).1 = true
        ∧ (raiseAction (betAction s a x).2 b r).2.bettingRoundActive = true
        ∧ (raiseAction (betAction s a x).2 b r).2.currentPlayer = seatIndex a
        ∧ (raiseAction (betAction s a x).2 b r).2.currentBet = x + r) := by
  obtain ⟨q1, q2, -⟩ := checkBettingRoundEnd_props n s p h2
  refine ⟨q1, q2, fun hact => ⟨fun hf => ?_, fun ho => (q1 ho).1⟩,
    fun a b h => headsUp_check_check s a b h,
    fun a b x h h0 h1 hb => headsUp_bet_call s a b h x h0 h1 hb,
    fun a b x r h h0 h1 hr hlt => headsUp_bet_raise s a b h x r h0 h1 hr hlt⟩
  by_contra hno
  rw [(q2 hno).1, hact] at hf
  exact Bool.noConfusion hf

theorem headsUpStart_headsUpState : HeadsUpStart headsUpState 0 1 := by
  refine ⟨by decide, fun i => ?_, rfl, fun _ => rfl, rfl, rfl, rfl, rfl, nonNeg_headsUpState⟩
  fin_cases i <;> decide

/-- Seats 0 and 1 heads-up with 100 and 300 chips: after seat 0 acts the turn
is seat 1's; check-check ends the round; bet 25 and call ends the round; bet 25
and raise by 25 leaves the round active with the turn back at seat 0. -/
theorem round_completion_witness :
    2 ≤ (nonFolded headsUpState).length
    ∧ HeadsUpStart headsUpState 0 1
    ∧ (checkBettingRoundEnd 4 headsUpState (seatIndex 0)).bettingRoundActive = true
    ∧ (checkBettingRoundEnd 4 headsUpState (seatIndex 0)).currentPlayer = 1
    ∧ (handleCheck (handleCheck headsUpState (seatIndex 0)).2 (seatIndex 1)).2.bettingRoundActive
        = false
    ∧ (callAction (betAction headsUpState 0 25).2 1).2.bettingRoundActive = false
    ∧ (raiseAction (betAction headsUpState 0 25).2 1 25).2.bettingRoundActive = true
    ∧ (raiseAction (betAction headsUpState 0 25).2 1 25).2.currentPlayer = seatIndex 0
    ∧ (raiseAction (betAction headsUpState 0 25).2 1 25).2.currentBet = 25 + 25 := by
  obtain ⟨-, h2, -, hcc, hbc, hbr⟩ := round_completion 4 headsUpState 0 (by decide)
  have hs := headsUpStart_headsUpState
  have hno : ¬ RoundOver
      { headsUpState with
        playerHasActed := Function.update headsUpState.playerHasActed 0 true } := by
    intro h
    exact Bool.noConfusion (h.2 1 rfl)
  have hbr2 := hbr 0 1 25 25 hs (by decide) (by decide) (by decide) (by decide)
  exact ⟨by decide, hs, (h2 hno).1, (h2 hno).2, (hcc 0 1 hs).2.2.2.2,
    (hbc 0 1 25 hs (by decide) (by decide) (by decide)).2.2.2.2.2,
    hbr2.2.2.1, hbr2.2.2.2.1, hbr2.2.2.2.2⟩

/-- A bet of the whole stack followed by a raise ends the round: heads-up with
100 and 300 chips, seat 0 bets 100 and seat 1 raises by 100 (both accepted);
`checkBettingRoundEnd(1)` then finds seat 0 with no chips and seat 1 matched,
sets `bettingRoundActive = false` and leaves `currentPlayer = 1`. -/
theorem bet_raise_ends_round_counterexample :
    headsUpState.currentBet = 0
    ∧ headsUpState.chips 0 = 100 ∧ headsUpState.chips 1 = 300
    ∧ nonFolded headsUpState = [0, 1]
    ∧ (betAction headsUpState 0 100).1 = true
    ∧ (betAction headsUpState 0 100).2.bettingRoundActive = true
    ∧ (betAction headsUpState 0 100).2.currentPlayer = 1
    ∧ (raiseAction (betAction headsUpState 0 100).2 1 100).1 = true
    ∧ (raiseAction (betAction headsUpState 0 100).2 1 100).2.currentBet = 200
    ∧ (raiseAction (betAction headsUpState 0 100).2 1 100).2.currentBets 0 = 100
    ∧ (raiseAction (betAction headsUpState 0 100).2 1 100).2.chips 0 = 0
    ∧ (raiseAction (betAction headsUpState 0 100).2 1 100).2.bettingRoundActive = false
    ∧ (raiseAction (betAction headsUpState 0 100).2 1 100).2.currentPlayer = 1 := by
  decide

/-! ## The bet to match -/

theorem moveTo_zero (s t : GameState) (p : Seat) (h1 : t.chips = s.chips)
    (h2 : t.currentBets = s.currentBets) (h3 : t.pot = s.pot) (h4 : t.currentBet = s.currentBet)
    (hle : s.currentBets p ≤ s.currentBet) : MoveTo s t p 0 := by
  refine ⟨?_, ?_, h3, ?_⟩
  · rw [h1]
    show s.chips = Function.update s.chips p (s.chips p - 0)
    rw [sub_zero, Function.update_eq_self]
  · rw [h2]
    show s.currentBets = Function.update s.currentBets p (s.currentBets p + 0)
    rw [add_zero, Function.update_eq_self]
  · rw [h4, add_zero, max_eq_left hle]

theorem betInv_moveTo (s t : GameState) (h : BetInv s) (p : Seat) (a : Int) (h0 : 0 ≤ a)
    (h1 : a ≤ s.chips p) (hm : MoveTo s t p a) : BetInv t := by
  obtain ⟨hn, hle, j, hj⟩ := h
  obtain ⟨m1, m2, m3, m4⟩ := hm
  refine ⟨nonNeg_congr _ _ (nonNeg_moved s hn p a h0 h1) m1 m2 m3, fun i => ?_, ?_⟩
  · rw [m2, m4]
    by_cases hi : i = p
    · rw [hi, moved_currentBets_self]
      exact le_max_right _ _
    · rw [moved_currentBets_other s p i a hi]
      exact le_trans (hle i) (le_max_left _ _)
  · by_cases hc : s.currentBet ≤ s.currentBets p + a
    · refine ⟨p, ?_⟩
      rw [m2, m4, moved_currentBets_self, max_eq_right hc]
    · have hjp : j ≠ p := by
        intro hjp
        rw [hjp] at hj
        omega
      refine ⟨j, ?_⟩
      rw [m2, m4, moved_currentBets_other s p j a hjp, hj, max_eq_left (by omega)]

theorem betInv_congr (s t : GameState) (h : BetInv s) (h1 : t.chips = s.chips)
    (h2 : t.currentBets = s.currentBets) (h3 : t.pot = s.pot) (h4 : t.currentBet = s.currentBet) :
    BetInv t := by
  obtain ⟨hn, hle, j, hj⟩ := h
  refine ⟨nonNeg_congr _ _ hn h1 h2 h3, fun i => ?_, j, ?_⟩
  · rw [h2, h4]
    exact hle i
  · rw [h2, h4]
    exact hj

theorem seatOf_eq_some {i : Int} {p : Seat} (h : seatOf i = some p) : i = seatIndex p := by
  unfold seatOf at h
  split at h
  · cases h
    rename_i hr
    show i = ((Fin.ofNat i.toNat : Fin 4).val : Int)
    have : (Fin.ofNat i.toNat : Fin 4).val = i.toNat % 4 := rfl
    rw [this]
    omega
  · exact absurd h (by simp)

theorem handleAllIn_moveTo (s : GameState) (h : BetInv s) (playerIndex : Int) (isRaise : Bool) :
    ∃ p a, 0 ≤ a ∧ a ≤ s.chips p ∧ MoveTo s (handleAllIn s playerIndex isRaise).2 p a := by
  obtain ⟨hn, hle, -⟩ := h
  unfold handleAllIn
  cases hso : seatOf playerIndex with
  | none => exact ⟨0, 0, le_refl _, hn.1 0, moveTo_zero s s 0 rfl rfl rfl rfl (hle 0)⟩
  | some p =>
    dsimp only
    by_cases hc : s.chips p ≤ 0
    · rw [if_pos hc]
      exact ⟨p, 0, le_refl _, hn.1 p, moveTo_zero s s p rfl rfl rfl rfl (hle p)⟩
    · rw [if_neg hc, seatOf_eq_some hso, placeBet_pos s p (s.chips p) (by omega) (le_refl _)]
      dsimp only
      refine ⟨p, s.chips p, hn.1 p, le_refl _, ?_⟩
      have hb := moved_currentBets_self s p (s.chips p)
      have hcb : (moved s p (s.chips p)).currentBet = s.currentBet := rfl
      rw [hb, hcb]
      by_cases hgt : s.currentBets p + s.chips p > s.currentBet
      · rw [if_pos hgt]
        cases isRaise
        · refine ⟨rfl, rfl, rfl, ?_⟩
          show (moved s p (s.chips p)).currentBets p = _
          rw [hb, max_eq_right (le_of_lt hgt)]
        · refine ⟨rfl, rfl, rfl, ?_⟩
          show (moved s p (s.chips p)).currentBets p = _
          rw [hb, max_eq_right (le_of_lt hgt)]
      · rw [if_neg hgt]
        refine ⟨rfl, rfl, rfl, ?_⟩
        show s.currentBet = _
        rw [max_eq_left (by omega)]

theorem handleCall_moveTo (s : GameState) (h : BetInv s) (p : Seat) :
    ∃ q a, 0 ≤ a ∧ a ≤ s.chips q ∧ MoveTo s (handleCall s p).2 q a := by
  have hs := h
  obtain ⟨hn, hle, -⟩ := h
  have hz : ∃ q a, 0 ≤ a ∧ a ≤ s.chips q ∧ MoveTo s s q a :=
    ⟨p, 0, le_refl _, hn.1 p, moveTo_zero s s p rfl rfl rfl rfl (hle p)⟩
  unfold handleCall
  by_cases hf : s.folded p = true
  · rw [if_pos hf]
    exact hz
  · rw [if_neg hf]
    dsimp only
    by_cases h0 : s.currentBet - s.currentBets p ≤ 0
    · rw [if_pos h0]
      exact hz
    · rw [if_neg h0]
      by_cases h1 : s.currentBet - s.currentBets p ≥ s.chips p
      · rw [if_pos h1]
        exact handleAllIn_moveTo s hs (seatIndex p) false
      · rw [if_neg h1, placeBet_pos s p _ (by omega) (by omega)]
        dsimp only
        rw [updateChipsAndBets_of_nonNeg _ (nonNeg_moved s hn p _ (by omega) (by omega))]
        refine ⟨p, s.currentBet - s.currentBets p, by omega, by omega, rfl, rfl, rfl, ?_⟩
        show s.currentBet = _
        rw [max_eq_left (by omega)]

theorem handleBet_moveTo (s : GameState) (h : BetInv s) (p : Seat) (x : Int) :
    ∃ q a, 0 ≤ a ∧ a ≤ s.chips q ∧ MoveTo s (handleBet s p x).2 q a := by
  obtain ⟨hn, hle, -⟩ := h
  have hz : ∃ q a, 0 ≤ a ∧ a ≤ s.chips q ∧ MoveTo s s q a :=
    ⟨p, 0, le_refl _, hn.1 p, moveTo_zero s s p rfl rfl rfl rfl (hle p)⟩
  by_cases hf : s.folded p = true
  · unfold handleBet
    rw [if_pos hf]
    exact hz
  · by_cases h1 : x > s.chips p
    · unfold handleBet
      rw [if_neg hf, if_pos h1]
      exact hz
    · by_cases h0 : 0 < x
      · have hf2 : s.folded p = false := by simpa using hf
        rw [handleBet_accept s hn p x hf2 h0 (by omega)]
        refine ⟨p, x, le_of_lt h0, by omega, ?_⟩
        by_cases hgt : s.currentBets p + x > s.currentBet
        · rw [if_pos hgt]
          refine ⟨rfl, rfl, rfl, ?_⟩
          show s.currentBets p + x = _
          rw [max_eq_right (le_of_lt hgt)]
        · rw [if_neg hgt]
          refine ⟨rfl, rfl, rfl, ?_⟩
          show s.currentBet = _
          rw [max_eq_left (by omega)]
      · unfold handleBet
        rw [if_neg hf, if_neg h1, placeBet_eq, seatOf_seatIndex]
        dsimp only
        rw [if_pos (Or.inl (by omega))]
        dsimp only
        rw [if_neg (by have := hle p; omega), updateChipsAndBets_of_nonNeg _ hn]
        exact hz

theorem handleRaise_moveTo (s : GameState) (h : BetInv s) (p : Seat) (r : Int) :
    ∃ q a, 0 ≤ a ∧ a ≤ s.chips q ∧ MoveTo s (handleRaise s p r).2 q a := by
  have hs := h
  obtain ⟨hn, hle, -⟩ := h
  have hz : ∃ q a, 0 ≤ a ∧ a ≤ s.chips q ∧ MoveTo s s q a :=
    ⟨p, 0, le_refl _, hn.1 p, moveTo_zero s s p rfl rfl rfl rfl (hle p)⟩
  have hbp := hle p
  have hb0 := hn.2.1 p
  have hc0 := hn.1 p
  by_cases hf : s.folded p = true
  · unfold handleRaise
    rw [if_pos hf]
    exact hz
  · by_cases hmin : r < max s.lastRaiseAmount 1 ∧ s.currentBet > 0
    · unfold handleRaise
      rw [if_neg hf]
      dsimp only
      rw [if_pos hmin]
      exact hz
    · by_cases hall : s.currentBet - s.currentBets p + r ≥ s.chips p
      · unfold handleRaise
        rw [if_neg hf]
        dsimp only
        rw [if_neg hmin, if_pos hall]
        exact handleAllIn_moveTo s hs (seatIndex p) true
      · by_cases hpos : 0 < s.currentBet - s.currentBets p + r
        · have hf2 : s.folded p = false := by simpa using hf
          rw [handleRaise_regular s hn p r hf2 hmin hpos (by omega)]
          refine ⟨p, s.currentBet - s.currentBets p + r, le_of_lt hpos, by omega,
            rfl, rfl, rfl, ?_⟩
          show s.currentBet + r = _
          have hr : 0 ≤ r := by
            by_contra hneg
            have hcb : ¬ s.currentBet > 0 := fun hcb =>
              hmin ⟨lt_of_lt_of_le (by omega) (le_max_right _ _), hcb⟩
            omega
          rw [max_eq_right (by omega)]
          omega
        · have hcb : ¬ s.currentBet > 0 := fun hcb =>
            hmin ⟨lt_of_lt_of_le (by omega) (le_max_right _ _), hcb⟩
          unfold handleRaise
          rw [if_neg hf]
          dsimp only
          rw [if_neg hmin, if_neg hall, placeBet_eq, seatOf_seatIndex]
          dsimp only
          rw [if_pos (Or.inl (by omega))]
          dsimp only
          have hn2 : NonNeg { s with
              currentBet := s.currentBets p
              lastRaiseAmount := s.currentBets p - s.currentBet
              lastToAct := seatIndex p } := nonNeg_congr _ _ hn rfl rfl rfl
          rw [updateChipsAndBets_of_nonNeg _ hn2]
          refine ⟨p, 0, le_refl _, hc0, moveTo_zero s _ p rfl rfl rfl ?_ hbp⟩
          show s.currentBets p = s.currentBet
          omega

theorem betInv_checkBettingRoundEnd (n : Nat) (s : GameState) (h : BetInv s) (latestActor : Int)
    (h1 : (nonFolded s).length ≠ 1) : BetInv (checkBettingRoundEnd n s latestActor) := by
  obtain ⟨l1, l2⟩ := ledger_checkBettingRoundEnd n s latestActor h1
  obtain ⟨-, -, k3, -, -, k6, -⟩ := keepsTable_checkBettingRoundEnd n s latestActor
  exact betInv_congr s _ h k3 l1 l2 k6

theorem folded_checkBettingRoundEnd (n : Nat) (s : GameState) (latestActor : Int) :
    (checkBettingRoundEnd n s latestActor).folded = s.folded :=
  (keepsTable_checkBettingRoundEnd n s latestActor).2.2.2.2.2.2.2.2.1

theorem nonFolded_congr (s t : GameState) (h : t.folded = s.folded) :
    nonFolded t = nonFolded s := by
  unfold nonFolded
  rw [h]

theorem betInv_handleCheck (s : GameState) (h : BetInv s) (playerIndex : Int)
    (h2 : 2 ≤ (nonFolded (handleCheck s playerIndex).2).length) :
    BetInv (handleCheck s playerIndex).2 := by
  rw [nonFolded_congr _ _ (folded_handleCheck s playerIndex)] at h2
  unfold handleCheck
  cases seatOf playerIndex with
  | none => exact h
  | some p =>
    dsimp only
    split
    · exact h
    · split
      · exact h
      · split
        · exact h
        · apply betInv_checkBettingRoundEnd
          · split
            · exact betInv_congr s _ h rfl rfl rfl rfl
            · exact betInv_congr s _ h rfl rfl rfl rfl
          · have : ∀ u : GameState, u.folded = s.folded → (nonFolded u).length ≠ 1 := by
              intro u hu
              rw [nonFolded_congr _ _ hu]
              omega
            apply this
            split
            · rfl
            · rfl

theorem betInv_handleFold (s : GameState) (h : BetInv s) (playerIndex : Int)
    (h2 : 2 ≤ (nonFolded (handleFold s playerIndex).2).length) :
    BetInv (handleFold s playerIndex).2 := by
  unfold handleFold at h2 ⊢
  cases hso : seatOf playerIndex with
  | none => exact h
  | some p =>
    rw [hso] at h2
    dsimp only at h2 ⊢
    by_cases hf : s.folded p = true
    · rw [if_pos hf]
      exact h
    · rw [if_neg hf] at h2 ⊢
      have hnf : ∀ u : GameState, nonFolded u = seats.filter (fun i => !u.folded i) :=
        fun _ => rfl
      by_cases h1 : (seats.filter (fun i => !(Function.update s.folded p true) i)).length = 1
      · exfalso
        rw [if_pos h1] at h2
        have hfold : (schedule (collectOutstandingBets
            { s with
              folded := Function.update s.folded p true
              playerHasActed := Function.update s.playerHasActed p true })
            (.awardPotToPlayer (seatIndex ((seats.filter
              (fun i => !(Function.update s.folded p true) i)).headD 0)) "uncontested")).folded
            = Function.update s.folded p true :=
          folded_collectOutstandingBets _
        dsimp only at h2
        rw [hnf, hfold, h1] at h2
        omega
      · rw [if_neg h1]
        have hinv : BetInv
            { s with
              folded := Function.update s.folded p true
              playerHasActed := Function.update s.playerHasActed p true } :=
          betInv_congr s _ h rfl rfl rfl rfl
        exact betInv_checkBettingRoundEnd 4 _ hinv playerIndex h1

theorem folded_applyAction (s : GameState) (a : Action) (i : Seat) (h : s.folded i = true) :
    (applyAction s a).folded i = true := by
  cases a with
  | bet p x =>
    show (handleBet s p x).2.folded i = true
    rw [folded_handleBet]
    exact h
  | call p =>
    show (handleCall s p).2.folded i = true
    rw [folded_handleCall]
    exact h
  | raise p r =>
    show (handleRaise s p r).2.folded i = true
    rw [folded_handleRaise]
    exact h
  | allIn q b =>
    show (handleAllIn s q b).2.folded i = true
    rw [folded_handleAllIn]
    exact h
  | check q =>
    show (handleCheck s q).2.folded i = true
    rw [folded_handleCheck]
    exact h
  | fold q => exact folded_handleFold s q i h

theorem nonFolded_length_mono (s t : GameState)
    (h : ∀ i, s.folded i = true → t.folded i = true) :
    (nonFolded t).length ≤ (nonFolded s).length := by
  apply List.Sublist.length_le
  apply List.monotone_filter_right
  intro i hi
  cases hs : s.folded i with
  | false => rfl
  | true =>
    rw [h i hs] at hi
    exact absurd hi (by decide)

theorem nonFolded_runActions_le (acts : List Action) (s : GameState) :
    (nonFolded (runActions s acts)).length ≤ (nonFolded s).length := by
  induction acts generalizing s with
  | nil => exact le_refl _
  | cons a rest ih =>
    exact le_trans (ih (applyAction s a))
      (nonFolded_length_mono s _ (folded_applyAction s a))

theorem betInv_applyAction (s : GameState) (h : BetInv s) (a : Action)
    (h2 : 2 ≤ (nonFolded (applyAction s a)).length) : BetInv (applyAction s a) := by
  cases a with
  | bet p x =>
    obtain ⟨q, c, h0, h1, hm⟩ := handleBet_moveTo s h p x
    exact betInv_moveTo s _ h q c h0 h1 hm
  | call p =>
    obtain ⟨q, c, h0, h1, hm⟩ := handleCall_moveTo s h p
    exact betInv_moveTo s _ h q c h0 h1 hm
  | raise p r =>
    obtain ⟨q, c, h0, h1, hm⟩ := handleRaise_moveTo s h p r
    exact betInv_moveTo s _ h q c h0 h1 hm
  | allIn i b =>
    obtain ⟨q, c, h0, h1, hm⟩ := handleAllIn_moveTo s h i b
    exact betInv_moveTo s _ h q c h0 h1 hm
  | check i => exact betInv_handleCheck s h i h2
  | fold i => exact betInv_handleFold s h i h2

theorem betInv_runActions (acts : List Action) (s : GameState) (h : BetInv s)
    (h2 : 2 ≤ (nonFolded (runActions s acts)).length) : BetInv (runActions s acts) := by
  induction acts generalizing s with
  | nil => exact h
  | cons a rest ih =>
    have h3 : 2 ≤ (nonFolded (applyAction s a)).length :=
      le_trans h2 (nonFolded_runActions_le rest (applyAction s a))
    exact ih (applyAction s a) (betInv_applyAction s h a h3) h2

/-- C15 (as the code behaves): from the start of a betting round
(`currentBet = 0`, every `currentBets[i] = 0`, chips and pot non-negative),
after any sequence of `handleBet`, `handleCall`, `handleRaise`, `handleAllIn`,
`handleCheck` and `handleFold` calls that leaves at least two seats not folded,
`currentBet` is the maximum of `currentBets[i]` over all four seats, the folded
ones included: no seat has more than `currentBet` in front of it and some seat
has exactly `currentBet`. -/
theorem currentBet_is_max_of_all_bets (s : GameState) (hn : NonNeg s)
    (hcb : s.currentBet = 0) (hb : ∀ i, s.currentBets i = 0) (acts : List Action)
    (h2 : 2 ≤ (nonFolded (runActions s acts)).length) :
    (∀ i, (runActions s acts).currentBets i ≤ (runActions s acts).currentBet)
    ∧ (∃ i, (runActions s acts).currentBets i = (runActions s acts).currentBet) := by
  have h0 : BetInv s := ⟨hn, fun i => by rw [hb i, hcb], 0, by rw [hb 0, hcb]⟩
  exact (betInv_runActions acts s h0 h2).2

/-- From the load-time state, seat 0 bets 10, seat 1 raises by 20, seat 0 folds
and seat 2 calls: three seats remain, `currentBet = 30` and seats 1 and 2 have
30 in front of them. -/
theorem currentBet_is_max_of_all_bets_witness :
    2 ≤ (nonFolded (runActions initialState
      [.bet 0 10, .raise 1 20, .fold 0, .call 2])).length
    ∧ (runActions initialState [.bet 0 10, .raise 1 20, .fold 0, .call 2]).currentBet = 30
    ∧ ((∀ i, (runActions initialState [.bet 0 10, .raise 1 20, .fold 0, .call 2]).currentBets i
          ≤ (runActions initialState [.bet 0 10, .raise 1 20, .fold 0, .call 2]).currentBet)
      ∧ (∃ i, (runActions initialState [.bet 0 10, .raise 1 20, .fold 0, .call 2]).currentBets i
          = (runActions initialState [.bet 0 10, .raise 1 20, .fold 0, .call 2]).currentBet)) :=
  ⟨by decide, by decide,
    currentBet_is_max_of_all_bets initialState
      ⟨fun i => by fin_cases i <;> decide, fun i => by fin_cases i <;> decide, by decide⟩
      rfl (fun _ => rfl) [.bet 0 10, .raise 1 20, .fold 0, .call 2] (by decide)⟩

/-- The seat with the highest bet folds: from the load-time state (no bets,
`currentBet = 0`, nobody folded) `handleBet(0, 10)` then `handleFold(0)` leaves
seats 1, 2 and 3 in the hand with `currentBets = 0` each while `currentBet` is
still 10, the folded seat's bet. -/
theorem bettor_folds_counterexample :
    initialState.currentBet = 0
    ∧ (∀ i, initialState.currentBets i = 0)
    ∧ nonFolded (runActions initialState [.bet 0 10, .fold 0]) = [1, 2, 3]
    ∧ (runActions initialState [.bet 0 10, .fold 0]).currentBet = 10
    ∧ (runActions initialState [.bet 0 10, .fold 0]).currentBets 0 = 10
    ∧ (∀ i ∈ nonFolded (runActions initialState [.bet 0 10, .fold 0]),
        (runActions initialState [.bet 0 10, .fold 0]).currentBets i = 0) := by
  decide

/-! ## All-in, `placeBet` and street banking -/

/-- What `handleAllIn(p, isRaise)` does for a seat that has chips. -/
theorem handleAllIn_of_pos (s : GameState) (p : Seat) (isRaise : Bool) (hc : 0 < s.chips p) :
    (handleAllIn s (seatIndex p) isRaise).1 = s.chips p
    ∧ (handleAllIn s (seatIndex p) isRaise).2.chips p = 0
    ∧ (handleAllIn s (seatIndex p) isRaise).2.currentBets p = s.currentBets p + s.chips p
    ∧ (handleAllIn s (seatIndex p) isRaise).2.currentBet
        = max s.currentBet (s.currentBets p + s.chips p)
    ∧ (s.currentBets p + s.chips p > s.currentBet → isRaise = true →
        (handleAllIn s (seatIndex p) isRaise).2.lastToAct = seatIndex p
        ∧ (handleAllIn s (seatIndex p) isRaise).2.lastRaiseAmount
            = s.currentBets p + s.chips p - s.currentBet)
    ∧ (¬ (s.currentBets p + s.chips p > s.currentBet ∧ isRaise = true) →
        (handleAllIn s (seatIndex p) isRaise).2.lastToAct = s.lastToAct
        ∧ (handleAllIn s (seatIndex p) isRaise).2.lastRaiseAmount = s.lastRaiseAmount)
    ∧ (handleAllIn s (seatIndex p) isRaise).2.pot = s.pot
    ∧ (handleAllIn s (seatIndex p) isRaise).2.folded = s.folded
    ∧ (∀ q, q ≠ p → (handleAllIn s (seatIndex p) isRaise).2.chips q = s.chips q
        ∧ (handleAllIn s (seatIndex p) isRaise).2.currentBets q = s.currentBets q) := by
  have hb := moved_currentBets_self s p (s.chips p)
  have hcb : (moved s p (s.chips p)).currentBet = s.currentBet := rfl
  have hch : (moved s p (s.chips p)).chips p = 0 := by
    rw [moved_chips_self]
    omega
  have hoth : ∀ q, q ≠ p → (moved s p (s.chips p)).chips q = s.chips q
      ∧ (moved s p (s.chips p)).currentBets q = s.currentBets q :=
    fun q hq => ⟨moved_chips_other s p q _ hq, moved_currentBets_other s p q _ hq⟩
  unfold handleAllIn
  rw [seatOf_seatIndex]
  dsimp only
  rw [if_neg (by omega), placeBet_pos s p (s.chips p) hc (le_refl _)]
  dsimp only
  rw [hb, hcb]
  by_cases hgt : s.currentBets p + s.chips p > s.currentBet
  · rw [if_pos hgt]
    cases isRaise
    · refine ⟨rfl, hch, hb, ?_, fun _ h => Bool.noConfusion h, fun _ => ⟨rfl, rfl⟩, rfl, rfl,
        hoth⟩
      show (moved s p (s.chips p)).currentBets p = _
      rw [hb, max_eq_right (le_of_lt hgt)]
    · refine ⟨rfl, hch, hb, ?_, fun _ _ => ⟨rfl, rfl⟩, fun h => absurd ⟨hgt, rfl⟩ h, rfl, rfl,
        hoth⟩
      show (moved s p (s.chips p)).currentBets p = _
      rw [hb, max_eq_right (le_of_lt hgt)]
  · rw [if_neg hgt]
    refine ⟨rfl, hch, hb, ?_, fun h => absurd h hgt, fun _ => ⟨rfl, rfl⟩, rfl, rfl, hoth⟩
    show s.currentBet = _
    rw [max_eq_left (by omega)]

/-- C22: the effect of an all-in.  For a seat `p` with `chips[p] = c > 0`,
`handleAllIn(p, isRaise)` returns `c`, leaves `chips[p] = 0` and adds `c` to
`currentBets[p]`; afterwards `currentBet` is the larger of its old value and
the seat's new bet.  If the new bet exceeds the old `currentBet` and `isRaise`
is true, then `lastToAct = p` and `lastRaiseAmount` is the new bet minus the
old `currentBet`; otherwise both keep their values.  The pot, the fold flags
and the other seats are untouched.  With `chips[p] <= 0` it returns 0 and
changes nothing. -/
theorem handleAllIn_effect (s : GameState) (p : Seat) (isRaise : Bool) :
    (0 < s.chips p →
      (handleAllIn s (seatIndex p) isRaise).1 = s.chips p
      ∧ (handleAllIn s (seatIndex p) isRaise).2.chips p = 0
      ∧ (handleAllIn s (seatIndex p) isRaise).2.currentBets p = s.currentBets p + s.chips p
      ∧ (handleAllIn s (seatIndex p) isRaise).2.currentBet
          = max s.currentBet (s.currentBets p + s.chips p)
      ∧ (s.currentBets p + s.chips p > s.currentBet → isRaise = true →
          (handleAllIn s (seatIndex p) isRaise).2.lastToAct = seatIndex p
          ∧ (handleAllIn s (seatIndex p) isRaise).2.lastRaiseAmount
              = s.currentBets p + s.chips p - s.currentBet)
      ∧ (¬ (s.currentBets p + s.chips p > s.currentBet ∧ isRaise = true) →
          (handleAllIn s (seatIndex p) isRaise).2.lastToAct = s.lastToAct
          ∧ (handleAllIn s (seatIndex p) isRaise).2.lastRaiseAmount = s.lastRaiseAmount)
      ∧ (handleAllIn s (seatIndex p) isRaise).2.pot = s.pot
      ∧ (handleAllIn s (seatIndex p) isRaise).2.folded = s.folded
      ∧ (∀ q, q ≠ p → (handleAllIn s (seatIndex p) isRaise).2.chips q = s.chips q
          ∧ (handleAllIn s (seatIndex p) isRaise).2.currentBets q = s.currentBets q))
    ∧ (s.chips p ≤ 0 → handleAllIn s (seatIndex p) isRaise = (0, s)) := by
  constructor
  · exact handleAllIn_of_pos s p isRaise
  · intro hc
    unfold handleAllIn
    rw [seatOf_seatIndex]
    dsimp only
    rw [if_pos hc]

/-- In the mid-round state seat 3 (90 chips, nothing bet, bet to match 30)
goes all-in as a raise: its bet and `currentBet` become 90, the raise is 60. -/
theorem handleAllIn_effect_witness :
    (handleAllIn midRoundState (seatIndex 3) true).1 = 90
    ∧ (handleAllIn midRoundState (seatIndex 3) true).2.chips 3 = 0
    ∧ (handleAllIn midRoundState (seatIndex 3) true).2.currentBet = max 30 (0 + 90)
    ∧ (handleAllIn midRoundState (seatIndex 3) true).2.lastRaiseAmount = 0 + 90 - 30 :=
  have h := (handleAllIn_effect midRoundState 3 true).1 (by decide)
  ⟨h.1, h.2.1, h.2.2.2.1, (h.2.2.2.2.1 (by decide) rfl).2⟩

theorem bankBets_pot (s : GameState) :
    (bankBets s).pot
      = s.pot + (s.currentBets 0 + s.currentBets 1 + s.currentBets 2 + s.currentBets 3) := by
  simp only [bankBets, seats, List.foldl, bankSeat, Function.update]
  simp
  ring

theorem bankBets_currentBets (s : GameState) (i : Seat) : (bankBets s).currentBets i = 0 := by
  fin_cases i <;> simp [bankBets, seats, List.foldl, bankSeat, Function.update]

theorem bankBets_eq (s : GameState) :
    bankBets s = { s with currentBets := (bankBets s).currentBets, pot := (bankBets s).pot } :=
  rfl

/-- The fields of `runOutRemainingCards()`: the bets are banked, the betting
round is closed, no card is dealt yet, and `roundStage` is 3 whenever it was 0,
1 or 2. -/
theorem runOutRemainingCards_fields (t : GameState) :
    (runOutRemainingCards t).pot = (bankBets t).pot
    ∧ (runOutRemainingCards t).currentBets = (bankBets t).currentBets
    ∧ (runOutRemainingCards t).chips = t.chips
    ∧ (runOutRemainingCards t).folded = t.folded
    ∧ (runOutRemainingCards t).communityCards = t.communityCards
    ∧ (runOutRemainingCards t).deck = t.deck
    ∧ (runOutRemainingCards t).bettingRoundActive = false
    ∧ (0 ≤ t.roundStage → t.roundStage ≤ 3 → (runOutRemainingCards t).roundStage = 3) := by
  have hc : (bankBets t).chips = t.chips := rfl
  have hf : (bankBets t).folded = t.folded := rfl
  have hcc : (bankBets t).communityCards = t.communityCards := rfl
  have hd : (bankBets t).deck = t.deck := rfl
  have hrs : (bankBets t).roundStage = t.roundStage := rfl
  unfold runOutRemainingCards
  dsimp only
  rw [← hc, ← hf, ← hcc, ← hd, ← hrs]
  generalize bankBets t = b
  by_cases h0 : b.roundStage = 0
  · rw [if_pos h0, if_pos (show (5 : Nat) > 0 by decide), if_pos h0,
      if_pos (show b.roundStage ≤ 1 by omega), if_pos (show b.roundStage ≤ 2 by omega)]
    exact ⟨rfl, rfl, rfl, rfl, rfl, rfl, rfl, fun _ _ => rfl⟩
  · rw [if_neg h0, if_neg h0]
    by_cases h1 : b.roundStage = 1
    · rw [if_pos h1, if_pos (show (2 : Nat) > 0 by decide),
        if_pos (show b.roundStage ≤ 1 by omega), if_pos (show b.roundStage ≤ 2 by omega)]
      exact ⟨rfl, rfl, rfl, rfl, rfl, rfl, rfl, fun _ _ => rfl⟩
    · rw [if_neg h1]
      by_cases h2 : b.roundStage = 2
      · rw [if_pos h2, if_pos (show (1 : Nat) > 0 by decide),
          if_neg (show ¬ b.roundStage ≤ 1 by omega), if_pos (show b.roundStage ≤ 2 by omega)]
        exact ⟨rfl, rfl, rfl, rfl, rfl, rfl, rfl, fun _ _ => rfl⟩
      · rw [if_neg h2, if_neg (show ¬ (0 : Nat) > 0 by decide)]
        refine ⟨rfl, rfl, rfl, rfl, rfl, rfl, rfl, fun _ _ => ?_⟩
        show b.roundStage = 3
        omega

/-- C25: street banking.  The loop `pot += currentBets[i]; currentBets[i] = 0`
that opens `nextRound`, `showdown` and `runOutRemainingCards` sets `pot` to the
old pot plus the four bets, every `currentBets[i]` to 0, and leaves the chips
(and everything else) as they were; `runOutRemainingCards` as a whole moves no
other chip. -/
theorem bankBets_banks_street (s : GameState) :
    (bankBets s).pot
        = s.pot + (s.currentBets 0 + s.currentBets 1 + s.currentBets 2 + s.currentBets 3)
    ∧ (∀ i, (bankBets s).currentBets i = 0)
    ∧ (bankBets s).chips = s.chips
    ∧ bankBets s = { s with currentBets := (bankBets s).currentBets, pot := (bankBets s).pot }
    ∧ (runOutRemainingCards s).pot
        = s.pot + (s.currentBets 0 + s.currentBets 1 + s.currentBets 2 + s.currentBets 3)
    ∧ (∀ i, (runOutRemainingCards s).currentBets i = 0)
    ∧ (runOutRemainingCards s).chips = s.chips := by
  obtain ⟨r1, r2, r3, -⟩ := runOutRemainingCards_fields s
  refine ⟨bankBets_pot s, bankBets_currentBets s, rfl, rfl, ?_, ?_, r3⟩
  · rw [r1, bankBets_pot]
  · intro i
    rw [r2, bankBets_currentBets]

/-- C26: `placeBet` clamps to the stack.  For a seat `p` with `chips[p] >= 0`
and an amount `a > 0`, `placeBet(p, a)` returns `m = min(a, chips[p])`, takes
`m` from `chips[p]` and adds it to `currentBets[p]`; `pot`, `currentBet`, the
fold flags and the other seats are unchanged, so `chips[p]` stays non-negative
and no more than the stack is committed.  For an index outside `0..3` or an
amount `a <= 0` it returns 0 and changes nothing. -/
theorem placeBet_clamps (s : GameState) :
    (∀ (p : Seat) (a : Int), 0 ≤ s.chips p → 0 < a →
      (placeBet s (seatIndex p) a).1 = min a (s.chips p)
      ∧ (placeBet s (seatIndex p) a).2.chips p = s.chips p - min a (s.chips p)
      ∧ (placeBet s (seatIndex p) a).2.currentBets p = s.currentBets p + min a (s.chips p)
      ∧ (placeBet s (seatIndex p) a).2.pot = s.pot
      ∧ (placeBet s (seatIndex p) a).2.currentBet = s.currentBet
      ∧ (placeBet s (seatIndex p) a).2.folded = s.folded
      ∧ (∀ q, q ≠ p → (placeBet s (seatIndex p) a).2.chips q = s.chips q
          ∧ (placeBet s (seatIndex p) a).2.currentBets q = s.currentBets q)
      ∧ 0 ≤ (placeBet s (seatIndex p) a).2.chips p
      ∧ (placeBet s (seatIndex p) a).1 ≤ s.chips p)
    ∧ (∀ (playerIndex a : Int), playerIndex < 0 ∨ 3 < playerIndex ∨ a ≤ 0 →
        placeBet s playerIndex a = (0, s)) := by
  constructor
  · intro p a hc ha
    rw [placeBet_eq, seatOf_seatIndex]
    dsimp only
    by_cases hm : min a (s.chips p) ≤ 0
    · have h0 : min a (s.chips p) = 0 := by
        have : 0 ≤ min a (s.chips p) := le_min (le_of_lt ha) hc
        omega
      rw [if_pos (Or.inr hm), h0]
      exact ⟨rfl, (sub_zero _).symm, (add_zero _).symm, rfl, rfl, rfl, fun _ _ => ⟨rfl, rfl⟩,
        hc, hc⟩
    · rw [if_neg (by omega)]
      refine ⟨rfl, moved_chips_self _ _ _, moved_currentBets_self _ _ _, rfl, rfl, rfl,
        fun q hq => ⟨moved_chips_other _ _ _ _ hq, moved_currentBets_other _ _ _ _ hq⟩, ?_,
        min_le_right _ _⟩
      rw [moved_chips_self]
      have := min_le_right a (s.chips p)
      omega
  · intro i a h
    rw [placeBet_eq]
    cases hso : seatOf i with
    | none => rfl
    | some p =>
      dsimp only
      rcases h with h | h | h
      · unfold seatOf at hso
        rw [if_neg (by omega)] at hso
        cases hso
      · unfold seatOf at hso
        rw [if_neg (by omega)] at hso
        cases hso
      · rw [if_pos (Or.inl h)]

/-- In the mid-round state seat 3 has 90 chips: a bet of 40 moves 40, a bet of
500 is cut down to the 90 chips it has. -/
theorem placeBet_clamps_witness :
    (placeBet midRoundState (seatIndex 3) 40).1 = min 40 90
    ∧ (placeBet midRoundState (seatIndex 3) 500).1 = min 500 90
    ∧ (placeBet midRoundState (seatIndex 3) 500).2.chips 3 = 90 - min 500 90
    ∧ placeBet midRoundState 4 10 = (0, midRoundState) :=
  ⟨((placeBet_clamps midRoundState).1 3 40 (by decide) (by decide)).1,
    ((placeBet_clamps midRoundState).1 3 500 (by decide) (by decide)).1,
    ((placeBet_clamps midRoundState).1 3 500 (by decide) (by decide)).2.1,
    (placeBet_clamps midRoundState).2 4 10 (Or.inr (Or.inl (by decide)))⟩

/-- A short all-in raise is refused: seat 3 holds 40 chips and faces a bet of
30 with the last raise at 20; raising with all it has left after the call,
`handleRaise(3, 10)`, returns `false` and moves nothing. -/
theorem short_all_in_raise_counterexample :
    shortRaiseState.folded 3 = false
    ∧ shortRaiseState.currentBet = 30
    ∧ shortRaiseState.currentBet - shortRaiseState.currentBets 3 = 30
    ∧ shortRaiseState.chips 3 = 40
    ∧ max shortRaiseState.lastRaiseAmount 1 = 20
    ∧ (handleRaise shortRaiseState 3 (40 - 30)).1 = .bool false
    ∧ (handleRaise shortRaiseState 3 (40 - 30)).2.chips 3 = 40
    ∧ (handleRaise shortRaiseState 3 (40 - 30)).2.currentBets 3 = 0
    ∧ (handleRaise shortRaiseState 3 (40 - 30)).2.currentBet = 30 := by
  decide

/-- C21 (as the code behaves): the minimum-raise test of `handleRaise` comes
before its all-in test.  For a non-folded seat `p` with `currentBet > 0` and
`0 <= toCall = currentBet - currentBets[p] < chips[p]`, the raise that commits
the whole stack, `handleRaise(p, chips[p] - toCall)`, is refused (returns
`false`, nothing changes) when `chips[p] - toCall < max(lastRaiseAmount, 1)`;
when `chips[p] - toCall >= max(lastRaiseAmount, 1)` it is accepted as an
all-in: it returns the stack, `chips[p]` becomes 0, `currentBet` becomes the
seat's new `currentBets[p]`, `lastRaiseAmount = chips[p] - toCall` and
`lastToAct = p`. -/
theorem handleRaise_all_in (s : GameState) (p : Seat) (hf : s.folded p = false)
    (hcb : 0 < s.currentBet) (h0 : 0 ≤ s.currentBet - s.currentBets p)
    (hlt : s.currentBet - s.currentBets p < s.chips p) :
    (s.chips p - (s.currentBet - s.currentBets p) < max s.lastRaiseAmount 1 →
      handleRaise s p (s.chips p - (s.currentBet - s.currentBets p)) = (.bool false, s))
    ∧ (max s.lastRaiseAmount 1 ≤ s.chips p - (s.currentBet - s.currentBets p) →
      (handleRaise s p (s.chips p - (s.currentBet - s.currentBets p))).1 = .num (s.chips p)
      ∧ (handleRaise s p (s.chips p - (s.currentBet - s.currentBets p))).2.chips p = 0
      ∧ (handleRaise s p (s.chips p - (s.currentBet - s.currentBets p))).2.currentBets p
          = s.currentBets p + s.chips p
      ∧ (handleRaise s p (s.chips p - (s.currentBet - s.currentBets p))).2.currentBet
          = s.currentBets p + s.chips p
      ∧ (handleRaise s p (s.chips p - (s.currentBet - s.currentBets p))).2.lastRaiseAmount
          = s.chips p - (s.currentBet - s.currentBets p)
      ∧ (handleRaise s p (s.chips p - (s.currentBet - s.currentBets p))).2.lastToAct
          = seatIndex p) := by
  constructor
  · intro hr
    unfold handleRaise
    rw [hf]
    simp only [Bool.false_eq_true, if_false]
    rw [if_pos ⟨hr, hcb⟩]
  · intro hr
    have hall : handleRaise s p (s.chips p - (s.currentBet - s.currentBets p))
        = (.num (handleAllIn s (seatIndex p) true).1, (handleAllIn s (seatIndex p) true).2) := by
      unfold handleRaise
      rw [hf]
      simp only [Bool.false_eq_true, if_false]
      rw [if_neg (fun h => absurd h.1 (by omega)), if_pos (by omega)]
    have hpos : 0 < s.chips p := by omega
    obtain ⟨a1, a2, a3, a4, a5, -⟩ := handleAllIn_of_pos s p true hpos
    have hgt : s.currentBets p + s.chips p > s.currentBet := by
      have : (1 : Int) ≤ max s.lastRaiseAmount 1 := le_max_right _ _
      omega
    rw [hall]
    refine ⟨by rw [a1], a2, a3, ?_, ?_, (a5 hgt rfl).1⟩
    · rw [a4, max_eq_right (le_of_lt hgt)]
    · rw [(a5 hgt rfl).2]
      omega

/-- Seat 3 of the mid-round state has 90 chips and faces a bet of 30 with the
last raise at 20: raising with the 60 left after the call is an all-in. -/
theorem handleRaise_all_in_witness :
    (handleRaise midRoundState 3 (90 - (30 - 0))).1 = .num 90
    ∧ (handleRaise midRoundState 3 (90 - (30 - 0))).2.chips 3 = 0
    ∧ (handleRaise midRoundState 3 (90 - (30 - 0))).2.currentBet = 0 + 90
    ∧ (handleRaise midRoundState 3 (90 - (30 - 0))).2.lastRaiseAmount = 90 - (30 - 0) :=
  have h := (handleRaise_all_in midRoundState 3 (by decide) (by decide) (by decide)
    (by decide)).2 (by decide)
  ⟨h.1, h.2.1, h.2.2.2.1, h.2.2.2.2.1⟩

/-! ## The run-out test -/

theorem nodup_nonFolded (s : GameState) : (nonFolded s).Nodup :=
  nodup_seats.filter _

/-- C24: the run-out predicate.  In a state with non-negative chips,
`shouldRunOutCards()` returns `true` exactly when at least two seats are not
folded, at least one non-folded seat has `chips = 0`, and either every
non-folded seat has `chips = 0` or exactly one non-folded seat has `chips > 0`
and that seat's `currentBets` equals `currentBet`. -/
theorem shouldRunOutCards_iff (s : GameState) (hc : ∀ i, 0 ≤ s.chips i) :
    shouldRunOutCards s = true ↔
      2 ≤ (nonFolded s).length
      ∧ (∃ i, s.folded i = false ∧ s.chips i = 0)
      ∧ ((∀ i, s.folded i = false → s.chips i = 0)
        ∨ (∃ j, s.folded j = false ∧ 0 < s.chips j
            ∧ (∀ i, s.folded i = false → 0 < s.chips i → i = j)
            ∧ s.currentBets j = s.currentBet)) := by
  have hpos : ∀ i, 0 < s.chips i ↔ s.chips i ≠ 0 := fun i => by
    have := hc i
    omega
  have hsplit := (nonFolded s).length_eq_length_filter_add (fun i => decide (s.chips i = 0))
  have hndN : ((nonFolded s).filter (fun i => !decide (s.chips i = 0))).Nodup :=
    (nodup_nonFolded s).filter _
  have hmemZ : ∀ i, i ∈ (nonFolded s).filter (fun i => decide (s.chips i = 0))
      ↔ s.folded i = false ∧ s.chips i = 0 := by
    intro i
    rw [List.mem_filter, mem_nonFolded, decide_eq_true_eq]
  have hmemN : ∀ i, i ∈ (nonFolded s).filter (fun i => !decide (s.chips i = 0))
      ↔ s.folded i = false ∧ s.chips i ≠ 0 := by
    intro i
    rw [List.mem_filter, mem_nonFolded]
    simp
  have hform : shouldRunOutCards s
      = if (nonFolded s).length ≤ 1 then false
        else if ((nonFolded s).filter (fun i => decide (s.chips i = 0))).length = 0 then false
        else (decide ((nonFolded s).length
              - ((nonFolded s).filter (fun i => decide (s.chips i = 0))).length = 0)
          || (decide ((nonFolded s).length
              - ((nonFolded s).filter (fun i => decide (s.chips i = 0))).length = 1)
            && (nonFolded s).all (fun i =>
              if s.chips i = 0 then true else decide (s.currentBets i = s.currentBet)))) := rfl
  rw [hform]
  by_cases h1 : (nonFolded s).length ≤ 1
  · rw [if_pos h1]
    constructor
    · intro h
      exact Bool.noConfusion h
    · rintro ⟨h2, -⟩
      omega
  rw [if_neg h1]
  by_cases h2 : ((nonFolded s).filter (fun i => decide (s.chips i = 0))).length = 0
  · rw [if_pos h2]
    constructor
    · intro h
      exact Bool.noConfusion h
    · rintro ⟨-, ⟨i, hi1, hi2⟩, -⟩
      have hm := (hmemZ i).mpr ⟨hi1, hi2⟩
      rw [List.length_eq_zero.mp h2] at hm
      exact absurd hm (List.not_mem_nil i)
  rw [if_neg h2]
  have hZ : ∃ i, s.folded i = false ∧ s.chips i = 0 := by
    obtain ⟨i, hi⟩ := List.exists_mem_of_length_pos (Nat.pos_of_ne_zero h2)
    exact ⟨i, (hmemZ i).mp hi⟩
  have hsub : (nonFolded s).length
      - ((nonFolded s).filter (fun i => decide (s.chips i = 0))).length
      = ((nonFolded s).filter (fun i => !decide (s.chips i = 0))).length := by
    omega
  rw [hsub]
  have hzero : ((nonFolded s).filter (fun i => !decide (s.chips i = 0))).length = 0
      ↔ ∀ i, s.folded i = false → s.chips i = 0 := by
    rw [List.length_eq_zero, List.eq_nil_iff_forall_not_mem]
    constructor
    · intro h i hi
      by_contra hne
      exact h i ((hmemN i).mpr ⟨hi, hne⟩)
    · intro h i hi
      exact ((hmemN i).mp hi).2 (h i ((hmemN i).mp hi).1)
  have hone : (((nonFolded s).filter (fun i => !decide (s.chips i = 0))).length = 1
        ∧ (nonFolded s).all (fun i =>
            if s.chips i = 0 then true else decide (s.currentBets i = s.currentBet)) = true)
      ↔ ∃ j, s.folded j = false ∧ 0 < s.chips j
          ∧ (∀ i, s.folded i = false → 0 < s.chips i → i = j)
          ∧ s.currentBets j = s.currentBet := by
    constructor
    · rintro ⟨hlen, hall⟩
      obtain ⟨j, hj⟩ := List.length_eq_one.mp hlen
      have hjN : j ∈ (nonFolded s).filter (fun i => !decide (s.chips i = 0)) := by
        rw [hj]
        exact List.mem_singleton_self j
      obtain ⟨hjf, hjc⟩ := (hmemN j).mp hjN
      refine ⟨j, hjf, (hpos j).mpr hjc, ?_, ?_⟩
      · intro i hif hic
        have hiN := (hmemN i).mpr ⟨hif, (hpos i).mp hic⟩
        rw [hj] at hiN
        exact List.mem_singleton.mp hiN
      · have := List.all_eq_true.mp hall j ((mem_nonFolded s j).mpr hjf)
        rw [if_neg hjc] at this
        exact of_decide_eq_true this
    · rintro ⟨j, hjf, hjc, huniq, hjb⟩
      have hjN := (hmemN j).mpr ⟨hjf, (hpos j).mp hjc⟩
      constructor
      · apply le_antisymm
        · have hsubset : (nonFolded s).filter (fun i => !decide (s.chips i = 0)) ⊆ [j] := by
            intro i hi
            obtain ⟨hif, hic⟩ := (hmemN i).mp hi
            exact List.mem_singleton.mpr (huniq i hif ((hpos i).mpr hic))
          exact (List.subperm_of_subset hndN hsubset).length_le
        · exact List.length_pos_of_mem hjN
      · apply List.all_eq_true.mpr
        intro i hi
        by_cases hic : s.chips i = 0
        · rw [if_pos hic]
        · rw [if_neg hic]
          have := huniq i ((mem_nonFolded s i).mp hi) ((hpos i).mpr hic)
          rw [this]
          exact decide_eq_true hjb
  have hlen2 : 2 ≤ (nonFolded s).length := by omega
  constructor
  · intro h
    refine ⟨hlen2, hZ, ?_⟩
    rcases Bool.or_eq_true _ _ ▸ h with h | h
    · exact Or.inl (hzero.mp (of_decide_eq_true h))
    · rw [Bool.and_eq_true] at h
      exact Or.inr (hone.mp ⟨of_decide_eq_true h.1, h.2⟩)
  · rintro ⟨-, -, h | h⟩
    · rw [Bool.or_eq_true]
      exact Or.inl (decide_eq_true (hzero.mpr h))
    · rw [Bool.or_eq_true, Bool.and_eq_true]
      obtain ⟨h1, h2⟩ := hone.mpr h
      exact Or.inr ⟨decide_eq_true h1, h2⟩

/-- Both remaining seats are all-in: the run-out test is positive. -/
theorem shouldRunOutCards_iff_witness :
    shouldRunOutCards allInPreflopState = true
    ∧ (shouldRunOutCards allInPreflopState = true ↔
      2 ≤ (nonFolded allInPreflopState).length
      ∧ (∃ i, allInPreflopState.folded i = false ∧ allInPreflopState.chips i = 0)
      ∧ ((∀ i, allInPreflopState.folded i = false → allInPreflopState.chips i = 0)
        ∨ (∃ j, allInPreflopState.folded j = false ∧ 0 < allInPreflopState.chips j
            ∧ (∀ i, allInPreflopState.folded i = false → 0 < allInPreflopState.chips i → i = j)
            ∧ allInPreflopState.currentBets j = allInPreflopState.currentBet))) :=
  ⟨by decide, shouldRunOutCards_iff allInPreflopState (fun i => by fin_cases i <;> decide)⟩

/-! ## Resetting the betting state -/

theorem foldl_resetSeat (s : GameState) :
    seats.foldl resetSeat s
      = { s with currentBets := fun _ => 0, playerHasActed := fun _ => false } := by
  have h1 : (seats.foldl resetSeat s).currentBets = fun _ => 0 := by
    funext i
    fin_cases i <;> simp [seats, List.foldl, resetSeat, Function.update]
  have h2 : (seats.foldl resetSeat s).playerHasActed = fun _ => false := by
    funext i
    fin_cases i <;> simp [seats, List.foldl, resetSeat, Function.update]
  have h3 : seats.foldl resetSeat s
      = { s with
          currentBets := (seats.foldl resetSeat s).currentBets
          playerHasActed := (seats.foldl resetSeat s).playerHasActed } := rfl
  rw [h3, h1, h2]

theorem foldl_clearActed (s : GameState) :
    seats.foldl clearActed s = { s with playerHasActed := fun _ => false } := by
  have h2 : (seats.foldl clearActed s).playerHasActed = fun _ => false := by
    funext i
    fin_cases i <;> simp [seats, List.foldl, clearActed, Function.update]
  have h3 : seats.foldl clearActed s
      = { s with playerHasActed := (seats.foldl clearActed s).playerHasActed } := rfl
  rw [h3, h2]

/-- The state `forceResetBettingState()` leaves, for non-negative chips and
pot. -/
theorem forceResetBettingState_eq (s : GameState) (hc : ∀ i, 0 ≤ s.chips i) (hp : 0 ≤ s.pot) :
    forceResetBettingState s
      = { s with
          currentBet := 0
          lastRaiseAmount := 0
          lastToAct := -1
          currentBets := fun _ => 0
          playerHasActed := fun _ => false
          isStartOfBettingRound := true
          bettingRoundActive := true } := by
  unfold forceResetBettingState
  dsimp only
  rw [foldl_resetSeat]
  have hn : ∀ b, NonNeg
      { s with
        currentBet := 0
        lastRaiseAmount := 0
        lastToAct := -1
        currentBets := fun _ => 0
        playerHasActed := fun _ => false
        isStartOfBettingRound := true
        bettingRoundActive := b } :=
    fun _ => ⟨hc, fun _ => le_refl _, hp⟩
  cases hb : s.bettingRoundActive
  · simp only [hb, Bool.not_false, if_true]
    exact updateChipsAndBets_of_nonNeg _ (hn true)
  · simp only [hb, Bool.not_true, Bool.false_eq_true, if_false]
    have := updateChipsAndBets_of_nonNeg _ (hn true)
    rw [← hb] at this ⊢
    exact this

/-- The fields that `startBettingRound()` leaves, for non-negative chips and
pot: those of `forceResetBettingState()`, a new `currentPlayer` and possibly
one more scheduled callback. -/
theorem startBettingRound_fields (s : GameState) (hc : ∀ i, 0 ≤ s.chips i) (hp : 0 ≤ s.pot) :
    (startBettingRound s).currentBet = 0
    ∧ (startBettingRound s).lastRaiseAmount = 0
    ∧ (startBettingRound s).lastToAct = -1
    ∧ (startBettingRound s).currentBets = (fun _ => 0)
    ∧ (startBettingRound s).playerHasActed = (fun _ => false)
    ∧ (startBettingRound s).pot = s.pot
    ∧ (startBettingRound s).chips = s.chips
    ∧ (startBettingRound s).roundStage = s.roundStage
    ∧ (startBettingRound s).communityCards = s.communityCards
    ∧ (startBettingRound s).deck = s.deck
    ∧ (startBettingRound s).folded = s.folded
    ∧ (startBettingRound s).bettingRoundActive = true := by
  unfold startBettingRound
  dsimp only
  have hr := forceResetBettingState_eq
    { s with isStartOfBettingRound := true, bettingRoundActive := true } hc hp
  rw [hr, foldl_clearActed]
  dsimp only
  split
  · exact ⟨rfl, rfl, rfl, rfl, rfl, rfl, rfl, rfl, rfl, rfl, rfl, rfl⟩
  · split
    · exact ⟨rfl, rfl, rfl, rfl, rfl, rfl, rfl, rfl, rfl, rfl, rfl, rfl⟩
    · split
      · exact ⟨rfl, rfl, rfl, rfl, rfl, rfl, rfl, rfl, rfl, rfl, rfl, rfl⟩
      · exact ⟨rfl, rfl, rfl, rfl, rfl, rfl, rfl, rfl, rfl, rfl, rfl, rfl⟩

theorem total_of_reset (s t : GameState) (h1 : t.chips = s.chips)
    (h2 : t.currentBets = fun _ => 0) (h3 : t.pot = s.pot) :
    total t = total s - betsSum s := by
  unfold total betsSum
  rw [h1, h2, h3]
  ring

theorem betsSum_eq_zero_iff (s : GameState) (hb : ∀ i, 0 ≤ s.currentBets i) :
    betsSum s = 0 ↔ ∀ i, s.currentBets i = 0 := by
  unfold betsSum
  have h0 := hb 0
  have h1 := hb 1
  have h2 := hb 2
  have h3 := hb 3
  constructor
  · intro h i
    fin_cases i
    · show s.currentBets 0 = 0
      omega
    · show s.currentBets 1 = 0
      omega
    · show s.currentBets 2 = 0
      omega
    · show s.currentBets 3 = 0
      omega
  · intro h
    rw [h 0, h 1, h 2, h 3]
    rfl

/-- C30: resetting the betting state does not bank outstanding bets.  In a
state with non-negative chips, bets and pot, `forceResetBettingState()` (and
`startBettingRound()`, which calls it) sets `currentBet = 0`,
`lastRaiseAmount = 0`, `lastToAct = -1`, every `currentBets[i] = 0` and every
`playerHasActed[i] = false`, and leaves `pot` and all chips unchanged; so the
total `Σ chips + Σ currentBets + pot` falls by exactly the sum of the bets
outstanding at the call and is preserved only when all four bets were 0. -/
theorem forceResetBettingState_drops_bets (s : GameState) (hn : NonNeg s) :
    ((forceResetBettingState s).currentBet = 0
      ∧ (forceResetBettingState s).lastRaiseAmount = 0
      ∧ (forceResetBettingState s).lastToAct = -1
      ∧ (∀ i, (forceResetBettingState s).currentBets i = 0)
      ∧ (∀ i, (forceResetBettingState s).playerHasActed i = false)
      ∧ (forceResetBettingState s).pot = s.pot
      ∧ (forceResetBettingState s).chips = s.chips
      ∧ total (forceResetBettingState s) = total s - betsSum s
      ∧ (total (forceResetBettingState s) = total s ↔ ∀ i, s.currentBets i = 0))
    ∧ ((startBettingRound s).currentBet = 0
      ∧ (startBettingRound s).lastRaiseAmount = 0
      ∧ (startBettingRound s).lastToAct = -1
      ∧ (∀ i, (startBettingRound s).currentBets i = 0)
      ∧ (∀ i, (startBettingRound s).playerHasActed i = false)
      ∧ (startBettingRound s).pot = s.pot
      ∧ (startBettingRound s).chips = s.chips
      ∧ total (startBettingRound s) = total s - betsSum s
      ∧ (total (startBettingRound s) = total s ↔ ∀ i, s.currentBets i = 0)) := by
  obtain ⟨hc, hb, hp⟩ := hn
  have hz := betsSum_eq_zero_iff s hb
  constructor
  · rw [forceResetBettingState_eq s hc hp]
    have ht := total_of_reset s
      { s with
        currentBet := 0
        lastRaiseAmount := 0
        lastToAct := -1
        currentBets := fun _ => 0
        playerHasActed := fun _ => false
        isStartOfBettingRound := true
        bettingRoundActive := true } rfl rfl rfl
    refine ⟨rfl, rfl, rfl, fun _ => rfl, fun _ => rfl, rfl, rfl, ht, ?_⟩
    rw [ht, ← hz]
    constructor <;> intro h <;> omega
  · obtain ⟨f1, f2, f3, f4, f5, f6, f7, -⟩ := startBettingRound_fields s hc hp
    have ht := total_of_reset s (startBettingRound s) f7 f4 f6
    refine ⟨f1, f2, f3, fun i => by rw [f4], fun i => by rw [f5], f6, f7, ht, ?_⟩
    rw [ht, ← hz]
    constructor <;> intro h <;> omega

/-- In the mid-round state 40 chips are bet (10 by seat 0, 30 by seat 1): the
reset wipes them, and the total falls from 390 to 350. -/
theorem forceResetBettingState_drops_bets_witness :
    total midRoundState = 390
    ∧ betsSum midRoundState = 40
    ∧ total (forceResetBettingState midRoundState) = total midRoundState - betsSum midRoundState
    ∧ (forceResetBettingState midRoundState).pot = midRoundState.pot
    ∧ total (startBettingRound midRoundState) = total midRoundState - betsSum midRoundState :=
  have h := forceResetBettingState_drops_bets midRoundState nonNeg_midRoundState
  ⟨by decide, by decide, h.1.2.2.2.2.2.2.2.1, h.1.2.2.2.2.2.1, h.2.2.2.2.2.2.2.2.1⟩

/-! ## Who may act -/

theorem handleFold_sets_folded (s : GameState) (p : Seat) (hf : s.folded p = false) :
    (handleFold s (seatIndex p)).1 = true
    ∧ (handleFold s (seatIndex p)).2.folded = Function.update s.folded p true
    ∧ (handleFold s (seatIndex p)).2.chips = s.chips := by
  unfold handleFold
  rw [seatOf_seatIndex]
  dsimp only
  rw [hf]
  simp only [Bool.false_eq_true, if_false]
  split
  · refine ⟨rfl, ?_, ?_⟩
    · exact folded_collectOutstandingBets _
    · obtain ⟨b, q, h⟩ := betsOnly_collectOutstandingBets
        { s with
          folded := Function.update s.folded p true
          playerHasActed := Function.update s.playerHasActed p true }
      show (collectOutstandingBets _).chips = s.chips
      rw [h]
  · refine ⟨rfl, ?_, ?_⟩
    · exact folded_checkBettingRoundEnd 4 _ _
    · exact (keepsTable_checkBettingRoundEnd 4 _ _).2.2.1

theorem folded_of_mem_showdownWinners (t : GameState) (p : Seat)
    (h : p ∈ showdownWinners t) : t.folded p = false := by
  unfold showdownWinners at h
  split at h
  · exact absurd h (List.not_mem_nil p)
  · rename_i best rest heq
    rw [← heq] at h
    obtain ⟨e, he, hep⟩ := List.mem_map.mp h
    have he2 : e ∈ showdownScores t :=
      (List.mem_insertionSort scoreOrder).mp (List.mem_filter.mp he).1
    unfold showdownScores at he2
    obtain ⟨i, hi, hie⟩ := List.mem_filterMap.mp he2
    have hfi : t.folded i = false := by
      have := (List.mem_filter.mp hi).2
      simpa using this
    have hip : i = p := by
      rw [← hep]
      split at hie
      · cases hie
      · dsimp only at hie
        split at hie
        · cases hie
        · cases hie
          rfl
    rw [← hip]
    exact hfi

/-- C29: an all-in seat that is asked to call is folded.  For a non-folded
seat `p` with `chips[p] = 0` and `currentBet > currentBets[p]`, `handleCall(p)`
returns 0 (the "no chips" result of `handleAllIn`) and changes nothing; 0 being
falsy, the call branch of `executeAIAction` runs `handleFold(p)` instead of
`checkBettingRoundEnd(p)`: the fold is accepted, `folded[p]` is set and no
chips move.  A folded seat is not among the winners of a showdown nor among
the non-folded seats from which an uncontested winner is taken. -/
theorem all_in_call_folds (s : GameState) (p : Seat) (hf : s.folded p = false)
    (hc : s.chips p = 0) (hb : s.currentBets p < s.currentBet) :
    handleCall s p = (.num 0, s)
    ∧ (JSVal.num 0).truthy = false
    ∧ callOrFold s p = (handleFold s (seatIndex p)).2
    ∧ (∀ betAmount, s.bettingRoundActive = true → s.currentPlayer = seatIndex p →
        executeAIActionCallback s p .call betAmount = (handleFold s (seatIndex p)).2)
    ∧ (handleFold s (seatIndex p)).1 = true
    ∧ (handleFold s (seatIndex p)).2.folded p = true
    ∧ (handleFold s (seatIndex p)).2.chips = s.chips
    ∧ (∀ t : GameState, t.folded p = true → p ∉ showdownWinners t ∧ p ∉ nonFolded t) := by
  have hcall : handleCall s p = (.num 0, s) := by
    unfold handleCall
    rw [hf]
    simp only [Bool.false_eq_true, if_false]
    rw [if_neg (by omega), if_pos (by omega)]
    unfold handleAllIn
    rw [seatOf_seatIndex]
    dsimp only
    rw [if_pos (by omega)]
  have hcf : callOrFold s p = (handleFold s (seatIndex p)).2 := by
    unfold callOrFold
    rw [hcall]
    rfl
  obtain ⟨f1, f2, f3⟩ := handleFold_sets_folded s p hf
  refine ⟨hcall, rfl, hcf, ?_, f1, ?_, f3, ?_⟩
  · intro b hact hcp
    unfold executeAIActionCallback
    rw [if_neg (by
      rintro (h | h | h)
      · rw [hact] at h
        exact Bool.noConfusion h
      · exact h hcp
      · rw [hf] at h
        exact Bool.noConfusion h)]
    exact hcf
  · rw [f2, Function.update_same]
  · intro t ht
    constructor
    · intro hmem
      have := folded_of_mem_showdownWinners t p hmem
      rw [ht] at this
      exact Bool.noConfusion this
    · intro hmem
      have := (mem_nonFolded t p).mp hmem
      rw [ht] at this
      exact Bool.noConfusion this

/-- Seat 0 has no chips and faces a bet of 30 on its turn: its call returns 0
and the call branch of the AI folds it. -/
theorem all_in_call_folds_witness :
    handleCall allInCallerState 0 = (.num 0, allInCallerState)
    ∧ (executeAIActionCallback allInCallerState 0 .call 0).folded 0 = true
    ∧ (executeAIActionCallback allInCallerState 0 .call 0).chips = allInCallerState.chips :=
  have h := all_in_call_folds allInCallerState 0 (by decide) (by decide) (by decide)
  ⟨h.1, by rw [h.2.2.2.1 0 (by decide) (by decide)]; exact h.2.2.2.2.2.1,
    by rw [h.2.2.2.1 0 (by decide) (by decide)]; exact h.2.2.2.2.2.2.1⟩

/-- The handlers other than `handleCheck` do not test the turn, and none tests
the award flag.  In the mid-round state it is seat 3's turn, yet
`handleCall(0)` is accepted and moves 20 chips of seat 0; `handleBet(0, 5)`,
`handleRaise(0, 20)` and `handleFold(0)` are accepted too.  After the pot has
been awarded (`potHasBeenAwarded`, betting round closed) `handleBet(3, 40)` and
`handleFold(3)` are still accepted. -/
theorem out_of_turn_counterexample :
    midRoundState.currentPlayer = 3
    ∧ midRoundState.folded 0 = false
    ∧ (handleCall midRoundState 0).1 = .bool true
    ∧ (handleCall midRoundState 0).2.chips 0 = 60
    ∧ (handleCall midRoundState 0).2.currentBets 0 = 30
    ∧ (handleBet midRoundState 0 5).1 = true
    ∧ (handleBet midRoundState 0 5).2.chips 0 = 75
    ∧ (handleRaise midRoundState 0 20).1 = .bool true
    ∧ (handleRaise midRoundState 0 20).2.currentBet = 50
    ∧ (handleFold midRoundState 0).1 = true
    ∧ (handleFold midRoundState 0).2.folded 0 = true
    ∧ awardedState.potHasBeenAwarded = true
    ∧ awardedState.bettingRoundActive = false
    ∧ (handleBet awardedState 3 40).1 = true
    ∧ (handleBet awardedState 3 40).2.chips 3 = 50
    ∧ (handleFold awardedState 3).1 = true
    ∧ (handleFold awardedState 3).2.folded 3 = true := by
  decide

theorem awardPotToPlayer_closes_round (s : GameState) (playerIdx : Int) (reason : String)
    (h : (awardPotToPlayer s playerIdx reason).1 = true) :
    (awardPotToPlayer s playerIdx reason).2.bettingRoundActive = false := by
  unfold awardPotToPlayer at h ⊢
  dsimp only at h ⊢
  generalize seatOf playerIdx = o at h ⊢
  cases o with
  | none => simp at h
  | some p0 =>
    dsimp only at h ⊢
    split at h
    · simp at h
    · rename_i h1
      rw [if_neg h1]
      split at h
      · simp at h
      · rename_i h2
        rw [if_neg h2]
        generalize List.foldl collectSeat _ seats = r at h ⊢
        obtain ⟨tp, s2⟩ := r
        dsimp only at h ⊢
        split at h
        · simp at h
        · rename_i h3
          rw [if_neg h3]
          rfl

/-- The guards of the paths that do test the turn.  `handleCheck(p)` returns
`false` and changes nothing when `p` is not `currentPlayer`.  The callback of
`executeAIAction(p, ...)`, a function the script never calls, does nothing
when the betting round is not active, when `p` is not `currentPlayer` or when
`p` has folded; `playerAction(action)` returns `false` and changes nothing
when `currentPlayer` is not seat 3, when seat 3 has folded or when the betting
round is not active.  An award closes the betting round (`awardPotToPlayer`
sets `bettingRoundActive = false` and `potHasBeenAwarded = true`). -/
theorem sibling_paths_guard_turn (s : GameState) :
    (∀ p : Seat, s.currentPlayer ≠ seatIndex p → handleCheck s (seatIndex p) = (false, s))
    ∧ (∀ (p : Seat) (decision : AIDecision) (betAmount : Int),
        s.bettingRoundActive = false ∨ s.currentPlayer ≠ seatIndex p ∨ s.folded p = true →
        executeAIActionCallback s p decision betAmount = s)
    ∧ (∀ (action : PlayerActionKind) (slider : Option Int),
        s.bettingRoundActive = false ∨ s.currentPlayer ≠ 3 ∨ s.folded 3 = true →
        playerAction s action slider = (false, s))
    ∧ (∀ (playerIdx : Int) (reason : String), (awardPotToPlayer s playerIdx reason).1 = true →
        (awardPotToPlayer s playerIdx reason).2.bettingRoundActive = false
        ∧ (awardPotToPlayer s playerIdx reason).2.potHasBeenAwarded = true) := by
  refine ⟨?_, ?_, ?_, ?_⟩
  · intro p hcp
    unfold handleCheck
    rw [seatOf_seatIndex]
    dsimp only
    rw [if_pos hcp]
    split
    · rfl
    · split <;> rfl
  · intro p d b h
    unfold executeAIActionCallback
    rw [if_pos h]
  · intro a v h
    unfold playerAction
    by_cases h1 : s.currentPlayer ≠ 3
    · rw [if_pos h1]
    · rw [if_neg h1]
      by_cases h2 : s.folded 3 = true
      · rw [if_pos h2]
      · rw [if_neg h2]
        rcases h with h | h | h
        · rw [h]
          rfl
        · exact absurd h h1
        · exact absurd h h2
  · intro i r h
    exact ⟨awardPotToPlayer_closes_round s i r h, awardPotToPlayer_true_flag s i r h⟩

/-- In the mid-round state it is seat 3's turn: a check by seat 0 and an AI
action for seat 0 are refused; once the pot is awarded the human player's
action is refused as well. -/
theorem sibling_paths_guard_turn_witness :
    handleCheck midRoundState (seatIndex 0) = (false, midRoundState)
    ∧ executeAIActionCallback midRoundState 0 .call 0 = midRoundState
    ∧ playerAction awardedState .fold none = (false, awardedState) :=
  ⟨(sibling_paths_guard_turn midRoundState).1 0 (by decide),
    (sibling_paths_guard_turn midRoundState).2.1 0 .call 0 (Or.inr (Or.inl (by decide))),
    (sibling_paths_guard_turn awardedState).2.2.1 .fold none (Or.inl rfl)⟩

/-- C23: out-of-turn and post-terminal actions are not rejected on the path
the opponents act through.  In `awardedState` the pot has been awarded, the
betting round is closed and it is seat 3's turn; seat 0 is not folded, holds
80 chips and has 10 in front of it against a bet of 30.  `aiTakeTurn(0)` does
not take its early exit there, and its callback with decision `'call'` runs
`handleCall(0)`, which returns `true`: 20 chips of seat 0 move to its bet, the
turn passes to seat 1 and a further opponent turn is scheduled.  With decision
`'raise'` of 20 the table bet rises to 50, with `'fold'` seat 0 is folded.  In
the same state the sibling paths drop the action: the callback of
`executeAIAction` changes nothing and `playerAction` returns `false`. -/
theorem stale_ai_action_accepted :
    awardedState.potHasBeenAwarded = true
    ∧ awardedState.bettingRoundActive = false
    ∧ awardedState.currentPlayer = 3
    ∧ awardedState.folded 0 = false
    ∧ awardedState.chips 0 = 80
    ∧ awardedState.currentBets 0 = 10
    ∧ awardedState.currentBet = 30
    ∧ (aiTakeTurnStart awardedState 0).1 = true
    ∧ (handleCall awardedState 0).1 = .bool true
    ∧ (handleCall awardedState 0).2.chips 0 = 60
    ∧ (handleCall awardedState 0).2.currentBets 0 = 30
    ∧ (aiTakeTurnCallback awardedState 0 .call 0).chips 0 = 60
    ∧ (aiTakeTurnCallback awardedState 0 .call 0).currentBets 0 = 30
    ∧ (aiTakeTurnCallback awardedState 0 .call 0).currentPlayer = 1
    ∧ (aiTakeTurnCallback awardedState 0 .call 0).timers = [.aiTakeTurn true]
    ∧ (aiTakeTurnCallback awardedState 0 .raise 20).chips 0 = 40
    ∧ (aiTakeTurnCallback awardedState 0 .raise 20).currentBet = 50
    ∧ (aiTakeTurnCallback awardedState 0 .fold 0).folded 0 = true
    ∧ (executeAIActionCallback awardedState 0 .call 0).chips 0 = 80
    ∧ (executeAIActionCallback awardedState 0 .call 0).currentBets 0 = 10
    ∧ (executeAIActionCallback awardedState 0 .call 0).currentPlayer = 3
    ∧ (playerAction awardedState .call none).1 = false
    ∧ (playerAction awardedState .call none).2.chips 3 = 90 := by
  decide

/-! ## Street progression -/

theorem popCard_concat (l : List Card) (c : Card) : popCard (l ++ [c]) = some (c, l) := by
  unfold popCard
  rw [List.getLast?_append_of_ne_nil _ (List.cons_ne_nil c []), List.dropLast_concat]
  rfl

theorem dealCommunity_eq (n : Nat) (s : GameState) (h : n ≤ s.deck.length) :
    dealCommunity n s
      = some { s with
          deck := (s.deck.reverse.drop n).reverse
          communityCards := s.communityCards ++ s.deck.reverse.take n } := by
  induction n generalizing s with
  | zero =>
    unfold dealCommunity
    simp
  | succ n ih =>
    rcases List.eq_nil_or_concat s.deck with hd | ⟨l, c, hd⟩
    · rw [hd] at h
      exact absurd h (by simp)
    · rw [List.concat_eq_append] at hd
      unfold dealCommunity
      rw [hd, popCard_concat]
      dsimp only
      rw [ih]
      · simp
      · rw [hd] at h
        simp at h
        exact h

theorem shouldRunOutCards_congr (s t : GameState) (h1 : t.folded = s.folded)
    (h2 : t.chips = s.chips) (h3 : t.currentBets = s.currentBets)
    (h4 : t.currentBet = s.currentBet) : shouldRunOutCards t = shouldRunOutCards s := by
  unfold shouldRunOutCards
  rw [h1, h2, h3, h4]

theorem nextRound_deal (s : GameState) (h0 : 0 ≤ s.roundStage) (h2 : s.roundStage ≤ 2)
    (hdeck : streetCards s.roundStage ≤ s.deck.length) :
    nextRound s = some (afterDeal (dealtState s)) := by
  have hrs : (bankBets s).roundStage = s.roundStage := rfl
  have hd : (bankBets s).deck = s.deck := rfl
  have hcc : (bankBets s).communityCards = s.communityCards := rfl
  unfold nextRound dealtState
  dsimp only
  rw [← hrs] at h0 h2 hdeck
  rw [← hd] at hdeck
  rw [← hrs, ← hd, ← hcc]
  clear hrs hd hcc
  generalize bankBets s = b at h0 h2 hdeck ⊢
  have hs : b.roundStage = 0 ∨ b.roundStage = 1 ∨ b.roundStage = 2 := by omega
  rcases hs with h | h | h
  · have hsc : streetCards b.roundStage = 3 := by rw [h]; rfl
    have hst : b.roundStage + 1 = 1 := by rw [h]; rfl
    rw [hsc] at hdeck
    rw [hsc, hst, if_pos h, dealCommunity_eq 3
      { b with
        isStartOfBettingRound := true
        potHasBeenAwarded := false
        lastAwardedPotTransactionId := 0 } hdeck]
    rfl
  · have hsc : streetCards b.roundStage = 1 := by rw [h]; rfl
    have hst : b.roundStage + 1 = 2 := by rw [h]; rfl
    rw [hsc] at hdeck
    rw [hsc, hst, if_neg (by omega), if_pos h, dealCommunity_eq 1
      { b with
        isStartOfBettingRound := true
        potHasBeenAwarded := false
        lastAwardedPotTransactionId := 0 } hdeck]
    rfl
  · have hsc : streetCards b.roundStage = 1 := by rw [h]; rfl
    have hst : b.roundStage + 1 = 3 := by rw [h]; rfl
    rw [hsc] at hdeck
    rw [hsc, hst, if_neg (by omega), if_neg (by omega), if_pos h, dealCommunity_eq 1
      { b with
        isStartOfBettingRound := true
        potHasBeenAwarded := false
        lastAwardedPotTransactionId := 0 } hdeck]
    rfl

theorem nextRound_river (s : GameState) (h : s.roundStage = 3) :
    nextRound s
      = some (schedule
          { bankBets s with
            isStartOfBettingRound := true
            potHasBeenAwarded := false
            lastAwardedPotTransactionId := 0 } .showdown) := by
  have hrs : (bankBets s).roundStage = s.roundStage := rfl
  unfold nextRound
  dsimp only
  rw [hrs, h, if_neg (by decide), if_neg (by decide), if_neg (by decide)]

theorem nonNeg_bankBets (s : GameState) (hn : NonNeg s) : NonNeg (bankBets s) := by
  obtain ⟨hc, hb, hp⟩ := hn
  refine ⟨hc, fun i => by rw [bankBets_currentBets], ?_⟩
  rw [bankBets_pot]
  have h0 := hb 0
  have h1 := hb 1
  have h2 := hb 2
  have h3 := hb 3
  omega

/-- One call of `nextRound()` before the river. -/
theorem nextRound_step (s : GameState) (hn : NonNeg s) (h0 : 0 ≤ s.roundStage)
    (h2 : s.roundStage ≤ 2) (hdeck : streetCards s.roundStage ≤ s.deck.length) :
    ∃ t, nextRound s = some t
      ∧ NonNeg t
      ∧ t.communityCards = s.communityCards ++ s.deck.reverse.take (streetCards s.roundStage)
      ∧ t.deck = (s.deck.reverse.drop (streetCards s.roundStage)).reverse
      ∧ t.chips = s.chips
      ∧ t.folded = s.folded
      ∧ (shouldRunOutCards (bankBets s) = false →
          t.roundStage = s.roundStage + 1 ∧ t.bettingRoundActive = true
          ∧ t.currentBet = 0 ∧ (∀ i, t.currentBets i = 0))
      ∧ (shouldRunOutCards (bankBets s) = true →
          t.roundStage = 3 ∧ t.bettingRoundActive = false) := by
  refine ⟨afterDeal (dealtState s), nextRound_deal s h0 h2 hdeck, ?_⟩
  have hnb := nonNeg_bankBets s hn
  have hnd : NonNeg (dealtState s) := nonNeg_congr _ _ hnb rfl rfl rfl
  have htest : shouldRunOutCards (dealtState s) = shouldRunOutCards (bankBets s) :=
    shouldRunOutCards_congr _ _ rfl rfl rfl rfl
  unfold afterDeal
  rw [htest]
  cases hr : shouldRunOutCards (bankBets s)
  · rw [if_neg (by simp)]
    obtain ⟨f1, f2, f3, f4, f5, f6, f7, f8, f9, f10, f11, f12⟩ :=
      startBettingRound_fields (dealtState s) hnd.1 hnd.2.2
    refine ⟨⟨?_, ?_, ?_⟩, f9, f10, f7, f11, fun _ => ⟨f8, f12, f1, fun i => by rw [f4]⟩,
      fun h => Bool.noConfusion h⟩
    · rw [f7]
      exact hnd.1
    · intro i
      rw [f4]
    · rw [f6]
      exact hnd.2.2
  · rw [if_pos rfl]
    obtain ⟨r1, r2, r3, r4, r5, r6, r7, r8⟩ := runOutRemainingCards_fields (dealtState s)
    refine ⟨⟨?_, ?_, ?_⟩, r5, r6, r3, r4, fun h => Bool.noConfusion h, fun _ => ⟨?_, r7⟩⟩
    · rw [r3]
      exact hnd.1
    · intro i
      rw [r2, bankBets_currentBets]
    · rw [r1]
      exact (nonNeg_bankBets _ hnd).2.2
    · apply r8
      · show 0 ≤ s.roundStage + 1
        omega
      · show s.roundStage + 1 ≤ 3
        omega

theorem streetCards_length (s : GameState) (hdeck : streetCards s.roundStage ≤ s.deck.length) :
    (s.communityCards ++ s.deck.reverse.take (streetCards s.roundStage)).length
        = s.communityCards.length + streetCards s.roundStage
    ∧ ((s.deck.reverse.drop (streetCards s.roundStage)).reverse).length
        = s.deck.length - streetCards s.roundStage := by
  constructor
  · rw [List.length_append, List.length_take, List.length_reverse, min_eq_left hdeck]
  · rw [List.length_reverse, List.length_drop, List.length_reverse]

/-- One street: a call of `nextRound()` at `roundStage` 0, 1 or 2 in which the
run-out test is negative. -/
theorem nextRound_street (s : GameState) (hn : NonNeg s) (h0 : 0 ≤ s.roundStage)
    (h2 : s.roundStage ≤ 2) (hdeck : streetCards s.roundStage ≤ s.deck.length)
    (hno : shouldRunOutCards (bankBets s) = false) :
    ∃ t, nextRound s = some t ∧ NonNeg t
      ∧ t.roundStage = s.roundStage + 1
      ∧ t.communityCards.length = s.communityCards.length + streetCards s.roundStage
      ∧ t.deck.length = s.deck.length - streetCards s.roundStage
      ∧ (StreetOk s → StreetOk t) := by
  obtain ⟨t, ht, hnt, hcc, hd, -, -, hno', -⟩ := nextRound_step s hn h0 h2 hdeck
  obtain ⟨l1, l2⟩ := streetCards_length s hdeck
  obtain ⟨hrs, -⟩ := hno' hno
  refine ⟨t, ht, hnt, hrs, by rw [hcc, l1], by rw [hd, l2], ?_⟩
  intro hok
  unfold StreetOk at hok ⊢
  rw [hrs, hcc, l1]
  rcases hok with ⟨a, b⟩ | ⟨a, b⟩ | ⟨a, b⟩ | ⟨a, b⟩
  · rw [a, b]
    exact Or.inr (Or.inl ⟨rfl, rfl⟩)
  · rw [a, b]
    exact Or.inr (Or.inr (Or.inl ⟨rfl, rfl⟩))
  · rw [a, b]
    exact Or.inr (Or.inr (Or.inr ⟨rfl, rfl⟩))
  · omega

/-- C27 (as the code behaves): street progression.  In a state with
non-negative amounts, a `nextRound()` call at `roundStage` 0, 1 or 2 with
enough cards in the deck banks the bets, moves 3, 1 or 1 cards from the end of
the deck to the board, and then makes the run-out test.  If the test is
negative, `roundStage` rises by 1 and a betting round is started, so the
number of community cards stays `[0, 3, 4, 5][roundStage]`; from
`roundStage = 0` with an empty board and five cards in the deck, three such
calls deal 3, 1 and 1 cards and reach `roundStage` 1, 2 and 3.  If the test is
positive (an all-in), `roundStage` is set to 3 at once, the betting round is
closed and the missing streets are left to scheduled callbacks.  At
`roundStage = 3` a call deals no card, leaves `roundStage = 3` and schedules
`showdown`. -/
theorem nextRound_deals_street (s : GameState) (hn : NonNeg s) :
    (0 ≤ s.roundStage → s.roundStage ≤ 2 → streetCards s.roundStage ≤ s.deck.length →
      ∃ t, nextRound s = some t
        ∧ t.communityCards = s.communityCards ++ s.deck.reverse.take (streetCards s.roundStage)
        ∧ t.deck = (s.deck.reverse.drop (streetCards s.roundStage)).reverse
        ∧ (shouldRunOutCards (bankBets s) = false →
            t.roundStage = s.roundStage + 1 ∧ t.bettingRoundActive = true
            ∧ (StreetOk s → StreetOk t))
        ∧ (shouldRunOutCards (bankBets s) = true →
            t.roundStage = 3 ∧ t.bettingRoundActive = false))
    ∧ (s.roundStage = 3 →
        ∃ t, nextRound s = some t ∧ t.roundStage = 3
          ∧ t.communityCards = s.communityCards ∧ t.deck = s.deck
          ∧ t.timers = s.timers ++ [.showdown])
    ∧ (s.roundStage = 0 → s.communityCards = [] → 5 ≤ s.deck.length →
        shouldRunOutCards (bankBets s) = false →
        ∃ s1, nextRound s = some s1 ∧ s1.roundStage = 1 ∧ s1.communityCards.length = 3
          ∧ s1.deck.length = s.deck.length - 3
          ∧ (shouldRunOutCards (bankBets s1) = false →
            ∃ s2, nextRound s1 = some s2 ∧ s2.roundStage = 2 ∧ s2.communityCards.length = 4
              ∧ s2.deck.length = s.deck.length - 4
              ∧ (shouldRunOutCards (bankBets s2) = false →
                ∃ s3, nextRound s2 = some s3 ∧ s3.roundStage = 3
                  ∧ s3.communityCards.length = 5
                  ∧ s3.deck.length = s.deck.length - 5))) := by
  refine ⟨?_, ?_, ?_⟩
  · intro h0 h2 hdeck
    obtain ⟨t, ht, -, hcc, hd, -, -, hno, hyes⟩ := nextRound_step s hn h0 h2 hdeck
    refine ⟨t, ht, hcc, hd, fun h => ⟨(hno h).1, (hno h).2.1, ?_⟩, hyes⟩
    obtain ⟨t', ht', -, -, -, -, hok⟩ := nextRound_street s hn h0 h2 hdeck h
    rw [ht] at ht'
    cases ht'
    exact hok
  · intro h3
    exact ⟨_, nextRound_river s h3, h3, rfl, rfl, rfl⟩
  · intro hst hcc hdeck hno
    have sc0 : streetCards s.roundStage = 3 := by rw [hst]; rfl
    obtain ⟨s1, e1, n1, r1, c1, d1, -⟩ :=
      nextRound_street s hn (by omega) (by omega) (by omega) hno
    rw [hst] at r1
    rw [hcc, sc0] at c1
    rw [sc0] at d1
    refine ⟨s1, e1, r1, c1, d1, fun hno1 => ?_⟩
    have sc1 : streetCards s1.roundStage = 1 := by rw [r1]; rfl
    obtain ⟨s2, e2, n2, r2, c2, d2, -⟩ :=
      nextRound_street s1 n1 (by omega) (by omega) (by omega) hno1
    rw [r1] at r2
    rw [c1, sc1] at c2
    rw [d1, sc1] at d2
    refine ⟨s2, e2, r2, c2, by omega, fun hno2 => ?_⟩
    have sc2 : streetCards s2.roundStage = 1 := by rw [r2]; rfl
    obtain ⟨s3, e3, -, r3, c3, d3, -⟩ :=
      nextRound_street s2 n2 (by omega) (by omega) (by omega) hno2
    rw [r2] at r3
    rw [c2, sc2] at c3
    rw [d2, sc2] at d3
    exact ⟨s3, e3, r3, c3, by omega⟩

theorem nonNeg_preflopState : NonNeg preflopState :=
  ⟨fun i => by fin_cases i <;> decide, fun i => by fin_cases i <;> decide, by decide⟩

/-- Four seats with chips, six cards in the deck, nothing on the board: the
first `nextRound()` deals the flop, and further calls without an all-in deal
the turn and the river. -/
theorem nextRound_deals_street_witness :
    (nextRound preflopState).map (fun t => t.roundStage) = some 1
    ∧ (nextRound preflopState).map (fun t => t.communityCards)
        = some [⟨.vA, .clubs⟩, ⟨.v3, .hearts⟩, ⟨.v7, .diamonds⟩]
    ∧ ∃ s1, nextRound preflopState = some s1 ∧ s1.roundStage = 1
        ∧ s1.communityCards.length = 3
        ∧ s1.deck.length = preflopState.deck.length - 3
        ∧ (shouldRunOutCards (bankBets s1) = false →
          ∃ s2, nextRound s1 = some s2 ∧ s2.roundStage = 2 ∧ s2.communityCards.length = 4
            ∧ s2.deck.length = preflopState.deck.length - 4
            ∧ (shouldRunOutCards (bankBets s2) = false →
              ∃ s3, nextRound s2 = some s3 ∧ s3.roundStage = 3
                ∧ s3.communityCards.length = 5
                ∧ s3.deck.length = preflopState.deck.length - 5)) :=
  ⟨by decide, by decide,
    (nextRound_deals_street preflopState nonNeg_preflopState).2.2 rfl rfl (by decide)
      (by decide)⟩

/-- An all-in before the flop: seats 0 and 1 have no chips left, the board is
empty and the deck holds six cards.  One `nextRound()` call deals the three
flop cards and, the run-out test being positive, sets `roundStage = 3` right
away: `roundStage` has risen by 3 and the board holds 3 cards, not 5. -/
theorem run_out_skips_streets_counterexample :
    allInPreflopState.roundStage = 0
    ∧ allInPreflopState.communityCards = []
    ∧ allInPreflopState.deck.length = 6
    ∧ (nextRound allInPreflopState).map (fun t => t.roundStage) = some 3
    ∧ (nextRound allInPreflopState).map (fun t => t.communityCards.length) = some 3
    ∧ (nextRound allInPreflopState).map (fun t => t.deck.length) = some 3
    ∧ (nextRound allInPreflopState).map (fun t => t.timers)
        = some [.runOutTurn, .runOutRiver, .showdown] := by
  decide

/-! ## Agreement of the three evaluators on the hand category -/

/-! ## The three evaluators and the hand category -/

theorem getHandScore_category (cards : List Card) (h5 : 5 ≤ cards.length) :
    getHandScore cards
      = handCategory (scoreIsRoyalFlush cards) (scoreIsStraightFlush cards)
          (decide ((countsArray cards).get? 0 = some 4))
          (decide ((countsArray cards).get? 0 = some 3
            ∧ ((countsArray cards).get? 1).any (fun c => decide (c ≥ 2)) = true))
          (scoreIsFlush cards) (straightIdx (scoreSortedVals cards))
          (decide ((countsArray cards).get? 0 = some 3))
          (decide ((countsArray cards).get? 0 = some 2 ∧ (countsArray cards).get? 1 = some 2))
          (decide ((countsArray cards).get? 0 = some 2)) := by
  unfold getHandScore handCategory
  dsimp only
  rw [if_neg (by omega), if_neg (by rw [List.length_map]; omega)]
  simp only [decide_eq_true_eq]

theorem handValue_category (rs : List Int) (c0 c1 : RankCount) (rest : List RankCount)
    (isFlush : Bool) (fr : List Int) (sh sfh : Option Int) (royal : Bool) :
    (handValue rs (c0 :: c1 :: rest) isFlush fr sh sfh royal).getD 0 0
      = handCategory royal (truthy sfh) (decide (c0.count = 4))
          (decide (c0.count = 3 ∧ c1.count ≥ 2)) isFlush (truthy sh)
          (decide (c0.count = 3)) (decide (c0.count = 2 ∧ c1.count = 2))
          (decide (c0.count = 2)) := by
  rcases handValue_branches rs c0 c1 rest isFlush fr sh sfh royal with
    ⟨e, h1⟩ | ⟨e, h1, h2⟩ | ⟨e, h1, h2, h3⟩ | ⟨e, h1, h2, h3, h4⟩ | ⟨e, h1, h2, h3, h4, h5⟩
    | ⟨e, h1, h2, h3, h4, h5, h6⟩ | ⟨e, h1, h2, h3, h4, h5, h6⟩ | ⟨e, h1, h2, h3, h4, h5, h6⟩
    | ⟨e, h1, h2, h3, h4, h5, h6⟩ | ⟨e, h1, h2, h3, h4, h5, h6, h7⟩
  · rw [e, h1]
    rfl
  · rw [e, h1, h2]
    rfl
  · rw [e, h1, h2, h3]
    rfl
  · rw [e, h1, h2]
    simp [handCategory, h3, h4]
  · rw [e, h1, h2, h5]
    simp [handCategory, h3, h4]
  · rw [e, h1, h2, h5, h6]
    simp [handCategory, h3, h4]
  · rw [e, h1, h2, h3, h4]
    simp [handCategory, h5, h6]
  · rw [e, h1, h2, h3, h4]
    simp [handCategory, h5, h6]
  · rw [e, h1, h2, h3, h4]
    simp [handCategory, h5, h6]
  · rw [e, h1, h2, h3, h4]
    simp [handCategory, h5, h6, h7]

theorem sortDesc_sorted_ge (l : List Int) : (sortDesc l).Sorted (fun a b => a ≥ b) :=
  List.sorted_insertionSort _ _

/-- The counts of `evaluateHand`, read off its sorted array `counts`, are the
array `countsArray` of `getHandScore`. -/
theorem rankCounts_counts (cards : List Card) :
    (rankCounts cards).map (fun c => (c.count : Int)) = countsArray cards := by
  unfold rankCounts countsArray
  dsimp only
  apply List.eq_of_perm_of_sorted (r := fun a b : Int => a ≥ b) ?_ ?_ (sortDesc_sorted_ge _)
  · refine ((List.perm_insertionSort _ _).map _).trans
      (List.Perm.trans ?_ (List.perm_insertionSort _ _).symm)
    rw [List.filter_eq_self.mpr]
    · rw [List.map_map]
      rfl
    · intro e he
      rw [List.mem_map] at he
      obtain ⟨v, hv, rfl⟩ := he
      rw [mem_objectKeys] at hv
      simpa using List.count_pos_iff.mpr hv
  · rw [List.Sorted, List.pairwise_map]
    refine (List.sorted_insertionSort countsOrder _).imp ?_
    intro a b hab
    rw [countsOrder_iff] at hab
    show (a.count : Int) ≥ (b.count : Int)
    omega

theorem freqOrder_iff (a b : Value × Nat) :
    freqOrder a b ↔ b.2 < a.2
      ∨ (b.2 = a.2 ∧ valueOrderIndexOf b.1 ≤ valueOrderIndexOf a.1) := by
  unfold freqOrder
  by_cases h : b.2 = a.2
  · simp [h]
  · simp only [h, if_false, false_and, or_false]
    omega

/-- The counts of `getBestHand`, read off its sorted array `valuesByFreq`, are
the array `countsArray` of `getHandScore`. -/
theorem valuesByFreq_counts (cards : List Card) :
    (((objectKeys (cards.map (fun c => c.value))).map
        (fun v => (v, (cards.map (fun c => c.value)).count v))).insertionSort freqOrder).map
      (fun e => (e.2 : Int)) = countsArray cards := by
  unfold countsArray
  dsimp only
  apply List.eq_of_perm_of_sorted (r := fun a b : Int => a ≥ b) ?_ ?_ (sortDesc_sorted_ge _)
  · refine ((List.perm_insertionSort _ _).map _).trans
      (List.Perm.trans ?_ (List.perm_insertionSort _ _).symm)
    rw [List.map_map]
    rfl
  · rw [List.Sorted, List.pairwise_map]
    refine (List.sorted_insertionSort freqOrder _).imp ?_
    intro a b hab
    rw [freqOrder_iff] at hab
    show (a.2 : Int) ≥ (b.2 : Int)
    omega

/-! ## Straights, by membership -/

theorem truthy_straightHighOf_iff {u : List Int} (hs : u.Sorted (fun x y => x > y))
    (hpos : ∀ x, x ∈ u → 2 ≤ x) :
    truthy (straightHighOf u) = true ↔ ∃ h, IsStraight u h := by
  constructor
  · intro ht
    obtain ⟨x, hx, -⟩ := truthy_eq_true ht
    exact ⟨x, (straightHighOf_sound hs hpos hx).1⟩
  · rintro ⟨h, hst⟩
    obtain ⟨-, -, -, ht⟩ := straightHighOf_complete hs hpos hst
    exact ht

theorem getD_neg (v : List Int) (i : Nat) :
    (v.map (fun x => -x)).getD i 0 = -(v.getD i 0) := by
  have := List.getD_map (l := v) (n := i) (d := (0 : Int)) (fun x : Int => -x)
  simpa using this

theorem findStraightAsc_isSome (v : List Int) :
    (findStraightAsc v).isSome = (findStraightHigh (v.map (fun x => -x))).isSome := by
  rw [Bool.eq_iff_iff]
  unfold findStraightAsc findStraightHigh
  rw [List.findSome?_isSome_iff, List.findSome?_isSome_iff, List.length_map]
  constructor
  · rintro ⟨i, hi, hc⟩
    refine ⟨i, hi, ?_⟩
    rw [getD_neg, getD_neg]
    split at hc
    · rename_i h4
      rw [if_pos (by omega)]
      rfl
    · exact absurd hc (by simp)
  · rintro ⟨i, hi, hc⟩
    refine ⟨i, hi, ?_⟩
    rw [getD_neg, getD_neg] at hc
    split at hc
    · rename_i h4
      rw [if_pos (by omega)]
      rfl
    · exact absurd hc (by simp)

theorem sorted_neg {v : List Int} (hs : v.Sorted (fun x y => x < y)) :
    (v.map (fun x => -x)).Sorted (fun x y => x > y) := by
  rw [List.Sorted, List.pairwise_map]
  refine List.Pairwise.imp ?_ hs
  intro a b hab
  show -a > -b
  omega

theorem mem_neg (v : List Int) (x : Int) : x ∈ v.map (fun y => -y) ↔ -x ∈ v := by
  rw [List.mem_map]
  constructor
  · rintro ⟨a, ha, rfl⟩
    simpa using ha
  · intro h
    exact ⟨-x, h, by simp⟩

theorem hasWheelIdx_iff (v : List Int) :
    hasWheelIdx v = true ↔ 0 ∈ v ∧ 1 ∈ v ∧ 2 ∈ v ∧ 3 ∈ v ∧ 12 ∈ v := by
  simp [hasWheelIdx, and_assoc]

/-- The straight test of `getHandScore` on a strictly increasing list of
positions finds a straight exactly when one is there. -/
theorem straightIdx_iff {v : List Int} (hs : v.Sorted (fun x y => x < y)) :
    straightIdx v = true ↔ ∃ h, IsStraight (v.map (fun x => x + 2)) h := by
  have hmem : ∀ x, x ∈ v.map (fun y => y + 2) ↔ x - 2 ∈ v := by
    intro x
    rw [List.mem_map]
    constructor
    · rintro ⟨a, ha, rfl⟩
      simpa using ha
    · intro h
      exact ⟨x - 2, h, by omega⟩
  unfold straightIdx
  rw [Bool.or_eq_true, findStraightAsc_isSome]
  constructor
  · rintro (h | h)
    · obtain ⟨x, hx⟩ := Option.isSome_iff_exists.mp h
      obtain ⟨m0, m1, m2, m3, m4⟩ := findStraightHigh_sound (sorted_neg hs) hx
      rw [mem_neg] at m0 m1 m2 m3 m4
      refine ⟨-x + 6, Or.inl ⟨?_, ?_, ?_, ?_, ?_⟩⟩
      · rw [hmem]
        have : -x + 6 - 2 = -(x - 4) := by omega
        rw [this]
        exact m4
      · rw [hmem]
        have : -x + 6 - 1 - 2 = -(x - 3) := by omega
        rw [this]
        exact m3
      · rw [hmem]
        have : -x + 6 - 2 - 2 = -(x - 2) := by omega
        rw [this]
        exact m2
      · rw [hmem]
        have : -x + 6 - 3 - 2 = -(x - 1) := by omega
        rw [this]
        exact m1
      · rw [hmem]
        have : -x + 6 - 4 - 2 = -x := by omega
        rw [this]
        exact m0
    · obtain ⟨w0, w1, w2, w3, w12⟩ := (hasWheelIdx_iff v).mp h
      refine ⟨5, Or.inr ⟨rfl, ?_, ?_, ?_, ?_, ?_⟩⟩
      · rw [hmem]
        exact w12
      · rw [hmem]
        exact w3
      · rw [hmem]
        exact w2
      · rw [hmem]
        exact w1
      · rw [hmem]
        exact w0
  · rintro ⟨h, ⟨m0, m1, m2, m3, m4⟩ | ⟨rfl, w14, w5, w4, w3, w2⟩⟩
    · rw [hmem] at m0 m1 m2 m3 m4
      left
      have n0 : -(h - 6) ∈ v.map (fun x => -x) := by
        rw [mem_neg]
        have : - -(h - 6) = h - 4 - 2 := by omega
        rw [this]
        exact m4
      have n1 : -(h - 6) - 1 ∈ v.map (fun x => -x) := by
        rw [mem_neg]
        have : -(-(h - 6) - 1) = h - 3 - 2 := by omega
        rw [this]
        exact m3
      have n2 : -(h - 6) - 2 ∈ v.map (fun x => -x) := by
        rw [mem_neg]
        have : -(-(h - 6) - 2) = h - 2 - 2 := by omega
        rw [this]
        exact m2
      have n3 : -(h - 6) - 3 ∈ v.map (fun x => -x) := by
        rw [mem_neg]
        have : -(-(h - 6) - 3) = h - 1 - 2 := by omega
        rw [this]
        exact m1
      have n4 : -(h - 6) - 4 ∈ v.map (fun x => -x) := by
        rw [mem_neg]
        have : -(-(h - 6) - 4) = h - 2 := by omega
        rw [this]
        exact m0
      obtain ⟨h', -, hf⟩ := findStraightHigh_complete (sorted_neg hs) n0 n1 n2 n3 n4
      rw [hf]
      rfl
    · rw [hmem] at w14 w5 w4 w3 w2
      right
      exact (hasWheelIdx_iff v).mpr ⟨w2, w3, w4, w5, w14⟩

theorem RANKS_eq_idx (v : Value) : RANKS v = valueOrderIndexOf v + 2 := by
  cases v <;> rfl

theorem ranksOf_eq_idx (cards : List Card) :
    ranksOf cards = (cards.map (fun c => valueOrderIndexOf c.value)).map (fun x => x + 2) := by
  unfold ranksOf
  rw [List.map_map]
  apply List.map_congr_left
  intro c _
  exact RANKS_eq_idx c.value

theorem isStraight_congr {u v : List Int} (h : ∀ x, x ∈ u ↔ x ∈ v) :
    (∃ high, IsStraight u high) ↔ ∃ high, IsStraight v high :=
  ⟨fun ⟨a, ha⟩ => ⟨a, isStraight_mono ha (fun x hx => (h x).mp hx)⟩,
    fun ⟨a, ha⟩ => ⟨a, isStraight_mono ha (fun x hx => (h x).mpr hx)⟩⟩

theorem sortAsc_sorted (l : List Int) : (sortAsc l).Sorted (fun a b => a ≤ b) :=
  List.sorted_insertionSort _ _

theorem sortAsc_perm (l : List Int) : (sortAsc l).Perm l :=
  List.perm_insertionSort _ _

theorem strict_asc_of_sorted_nodup {l : List Int} (h1 : l.Sorted (fun a b => a ≤ b))
    (h2 : l.Nodup) : l.Sorted (fun a b => a < b) := by
  unfold List.Sorted at h1 ⊢
  unfold List.Nodup at h2
  refine (h1.and h2).imp ?_
  intro a b hab
  exact lt_of_le_of_ne hab.1 hab.2

theorem uniq_sortAsc_strict (l : List Int) :
    (uniqFirst (sortAsc l)).Sorted (fun a b => a < b) :=
  strict_asc_of_sorted_nodup ((sortAsc_sorted l).sublist (uniqFirst_sublist _))
    (nodup_uniqFirst _)

theorem sortAsc_uniq_strict (l : List Int) :
    (sortAsc (uniqFirst l)).Sorted (fun a b => a < b) :=
  strict_asc_of_sorted_nodup (sortAsc_sorted _)
    ((sortAsc_perm _).nodup_iff.mpr (nodup_uniqFirst _))

theorem mem_uniq_sortAsc (l : List Int) (x : Int) : x ∈ uniqFirst (sortAsc l) ↔ x ∈ l :=
  (mem_uniqFirst _ x).trans (sortAsc_perm l).mem_iff

theorem mem_sortAsc_uniq (l : List Int) (x : Int) : x ∈ sortAsc (uniqFirst l) ↔ x ∈ l :=
  (sortAsc_perm _).mem_iff.trans (mem_uniqFirst l x)

theorem mem_map_add_two {l l' : List Int} (h : ∀ x, x ∈ l' ↔ x ∈ l) (x : Int) :
    x ∈ l'.map (fun y => y + 2) ↔ x ∈ l.map (fun y => y + 2) := by
  simp only [List.mem_map, h]

/-- The straight test of `getHandScore`, by membership of ranks. -/
theorem scoreStraight_iff (cards : List Card) :
    straightIdx (scoreSortedVals cards) = true ↔ ∃ h, IsStraight (ranksOf cards) h := by
  unfold scoreSortedVals
  rw [straightIdx_iff (uniq_sortAsc_strict _), ranksOf_eq_idx]
  exact isStraight_congr (mem_map_add_two (mem_uniq_sortAsc _))

/-- The straight test of `getHandScore` on the cards it takes for the flush,
by membership of ranks. -/
theorem scoreFlushStraight_iff (cards : List Card) :
    straightIdx (sortAsc (uniqFirst (cards.map (fun c => valueOrderIndexOf c.value)))) = true
      ↔ ∃ h, IsStraight (ranksOf cards) h := by
  rw [straightIdx_iff (sortAsc_uniq_strict _), ranksOf_eq_idx]
  exact isStraight_congr (mem_map_add_two (mem_sortAsc_uniq _))

/-- The straight test of `evaluateHand`, by membership of ranks. -/
theorem evalStraight_iff (cards : List Card) :
    truthy (straightHighOf (sortDesc (uniqFirst (analyzeRanks cards)))) = true
      ↔ ∃ h, IsStraight (ranksOf cards) h := by
  rw [truthy_straightHighOf_iff (uniq_strict _)
    (fun x hx => (mem_analyzeRanks_range ((mem_uniq _ x).mp hx)).1)]
  exact isStraight_congr (fun x => (mem_uniq _ x).trans (analyzeRanks_perm cards).mem_iff)

/-- The straight-flush test of `evaluateHand` on cards of one suit, by
membership of ranks. -/
theorem evalFlushStraight_iff (cards : List Card) (hnd : cards.Nodup) (hss : SameSuit cards) :
    truthy (straightHighOf (analyzeRanks cards)) = true
      ↔ ∃ h, IsStraight (ranksOf cards) h := by
  rw [truthy_straightHighOf_iff (analyzeRanks_strict_of_sameSuit cards hnd hss)
    (fun x hx => (mem_analyzeRanks_range hx).1)]
  exact isStraight_congr (fun x => (analyzeRanks_perm cards).mem_iff)

/-- The royal-flush test of `evaluateHand` on cards of one suit, by membership
of ranks. -/
theorem evalRoyal_iff (cards : List Card) (hnd : cards.Nodup) (hss : SameSuit cards) :
    findStraightHigh (analyzeRanks cards) = some 14
      ↔ 14 ∈ ranksOf cards ∧ 13 ∈ ranksOf cards ∧ 12 ∈ ranksOf cards ∧ 11 ∈ ranksOf cards
        ∧ 10 ∈ ranksOf cards := by
  have hs := analyzeRanks_strict_of_sameSuit cards hnd hss
  have hm := fun x => (analyzeRanks_perm cards).mem_iff (a := x)
  constructor
  · intro h
    obtain ⟨m0, m1, m2, m3, m4⟩ := findStraightHigh_sound hs h
    exact ⟨(hm _).mp m0, (hm _).mp m1, (hm _).mp m2, (hm _).mp m3, (hm _).mp m4⟩
  · rintro ⟨m0, m1, m2, m3, m4⟩
    obtain ⟨h', hge, hf⟩ := findStraightHigh_complete hs (h := 14) ((hm _).mpr m0)
      ((hm _).mpr m1) ((hm _).mpr m2) ((hm _).mpr m3) ((hm _).mpr m4)
    have := (mem_analyzeRanks_range (findStraightHigh_sound hs hf).1).2
    have : h' = 14 := by omega
    rw [hf, this]

theorem scoreIsFlush_eq (cards : List Card) :
    scoreIsFlush cards = (flushSuitOf cards).isSome := by
  unfold scoreIsFlush flushSuitOf
  dsimp only
  rw [Bool.eq_iff_iff, List.any_eq_true, List.find?_isSome]

theorem scoreFlushSuit_eq (cards : List Card) : scoreFlushSuit cards = flushSuitOf cards := by
  unfold scoreFlushSuit
  dsimp only
  rw [scoreIsFlush_eq]
  cases h : flushSuitOf cards with
  | none => rfl
  | some s =>
    rw [← h]
    unfold flushSuitOf
    dsimp only
    rw [if_pos]
    unfold flushSuitOf at h
    dsimp only at h
    rw [h]
    rfl

theorem filter_flushSuit (cards : List Card) (s : Suit) :
    cards.filter (fun c => decide (some c.suit = some s))
      = cards.filter (fun c => decide (c.suit = s)) := by
  apply List.filter_congr
  intro c _
  simp

theorem isStraight_of_filter {cards : List Card} {p : Card → Bool} {h : Int}
    (hs : IsStraight (ranksOf (cards.filter p)) h) : IsStraight (ranksOf cards) h := by
  refine isStraight_mono hs ?_
  intro x hx
  unfold ranksOf at hx ⊢
  obtain ⟨c, hc, rfl⟩ := List.mem_map.mp hx
  exact List.mem_map.mpr ⟨c, (List.mem_filter.mp hc).1, rfl⟩

/-- The straight-flush test of `getHandScore`, by membership of ranks. -/
theorem scoreIsStraightFlush_iff (cards : List Card) :
    scoreIsStraightFlush cards = true
      ↔ ∃ s, flushSuitOf cards = some s
          ∧ ∃ h, IsStraight (ranksOf (cards.filter (fun c => decide (c.suit = s)))) h := by
  unfold scoreIsStraightFlush
  dsimp only
  rw [scoreIsFlush_eq, scoreFlushSuit_eq]
  cases hfl : flushSuitOf cards with
  | none =>
    simp
  | some s =>
    rw [filter_flushSuit]
    simp only [Option.isSome_some, Bool.true_and, Option.some.injEq, exists_eq_left']
    rw [← scoreFlushStraight_iff]
    constructor
    · intro h
      split at h
      · exact h
      · exact absurd h (by simp)
    · intro h
      rw [if_pos]
      · exact h
      · rw [scoreStraight_iff]
        obtain ⟨a, ha⟩ := (scoreFlushStraight_iff _).mp h
        exact ⟨a, isStraight_of_filter ha⟩

theorem mem_ranksOf_idx (cards : List Card) (k : Int) :
    k + 2 ∈ ranksOf cards ↔ k ∈ cards.map (fun c => valueOrderIndexOf c.value) := by
  rw [ranksOf_eq_idx, List.mem_map]
  constructor
  · rintro ⟨a, ha, hk⟩
    have : a = k := by omega
    rw [← this]
    exact ha
  · intro h
    exact ⟨k, h, rfl⟩

/-- The royal-flush test of `getHandScore`, by membership of ranks. -/
theorem scoreIsRoyalFlush_iff (cards : List Card) :
    scoreIsRoyalFlush cards = true
      ↔ ∃ s, flushSuitOf cards = some s
          ∧ 14 ∈ ranksOf (cards.filter (fun c => decide (c.suit = s)))
          ∧ 13 ∈ ranksOf (cards.filter (fun c => decide (c.suit = s)))
          ∧ 12 ∈ ranksOf (cards.filter (fun c => decide (c.suit = s)))
          ∧ 11 ∈ ranksOf (cards.filter (fun c => decide (c.suit = s)))
          ∧ 10 ∈ ranksOf (cards.filter (fun c => decide (c.suit = s))) := by
  have hall : ∀ l : List Int, ([8, 9, 10, 11, 12].all (fun v => l.contains v)) = true
      ↔ 12 ∈ l ∧ 11 ∈ l ∧ 10 ∈ l ∧ 9 ∈ l ∧ 8 ∈ l := by
    intro l
    simp only [List.all_cons, List.all_nil, Bool.and_true, Bool.and_eq_true,
      List.contains, List.elem_eq_mem, decide_eq_true_eq]
    tauto
  unfold scoreIsRoyalFlush
  dsimp only
  constructor
  · intro h
    split at h
    · rename_i hsf
      obtain ⟨s, hs, -⟩ := (scoreIsStraightFlush_iff cards).mp hsf
      rw [scoreFlushSuit_eq, hs, filter_flushSuit, hall] at h
      obtain ⟨m12, m11, m10, m9, m8⟩ := h
      exact ⟨s, hs, (mem_ranksOf_idx _ 12).mpr m12, (mem_ranksOf_idx _ 11).mpr m11,
        (mem_ranksOf_idx _ 10).mpr m10, (mem_ranksOf_idx _ 9).mpr m9,
        (mem_ranksOf_idx _ 8).mpr m8⟩
    · exact absurd h (by simp)
  · rintro ⟨s, hs, m14, m13, m12, m11, m10⟩
    have hsf : scoreIsStraightFlush cards = true :=
      (scoreIsStraightFlush_iff cards).mpr ⟨s, hs, 14, Or.inl ⟨m14, m13, m12, m11, m10⟩⟩
    rw [if_pos hsf, scoreFlushSuit_eq, hs, filter_flushSuit, hall]
    exact ⟨(mem_ranksOf_idx _ 12).mp m14, (mem_ranksOf_idx _ 11).mp m13,
      (mem_ranksOf_idx _ 10).mp m12, (mem_ranksOf_idx _ 9).mp m11,
      (mem_ranksOf_idx _ 8).mp m10⟩

/-- The five count tests of `getHandScore` read the same numbers as the
`counts` list of `evaluateHand`. -/
theorem countsArray_tests (cards : List Card) (c0 c1 : RankCount) (rest : List RankCount)
    (h : countsCanon (analyzeRanks cards) = c0 :: c1 :: rest) :
    decide ((countsArray cards).get? 0 = some 4) = decide (c0.count = 4)
    ∧ decide ((countsArray cards).get? 0 = some 3
        ∧ ((countsArray cards).get? 1).any (fun c => decide (c ≥ 2)) = true)
      = decide (c0.count = 3 ∧ c1.count ≥ 2)
    ∧ decide ((countsArray cards).get? 0 = some 3) = decide (c0.count = 3)
    ∧ decide ((countsArray cards).get? 0 = some 2 ∧ (countsArray cards).get? 1 = some 2)
      = decide (c0.count = 2 ∧ c1.count = 2)
    ∧ decide ((countsArray cards).get? 0 = some 2) = decide (c0.count = 2) := by
  have hc : countsArray cards = (c0.count : Int) :: (c1.count : Int)
      :: rest.map (fun c => (c.count : Int)) := by
    rw [← rankCounts_counts, rankCounts_eq, h]
    rfl
  rw [hc]
  simp only [List.get?_cons_zero, List.get?_cons_succ, Option.some.injEq, Option.any_some,
    decide_eq_true_eq]
  refine ⟨?_, ?_, ?_, ?_, ?_⟩ <;> apply decide_eq_decide.mpr <;> omega

/-- On five or more distinct cards `getHandScore` is the category number that
`evaluateHand` puts first in its result. -/
theorem getHandScore_eq_evaluateHand (cards : List Card) (hnd : cards.Nodup)
    (h5 : 5 ≤ cards.length) :
    getHandScore cards = (evaluateHand cards).getD 0 0 := by
  obtain ⟨c0, c1, rest, hcc⟩ := countsCanon_two cards hnd h5
  obtain ⟨t1, t2, t3, t4, t5⟩ := countsArray_tests cards c0 c1 rest hcc
  have hst : straightIdx (scoreSortedVals cards)
      = truthy (straightHighOf (sortDesc (uniqFirst (analyzeRanks cards)))) := by
    rw [Bool.eq_iff_iff, scoreStraight_iff, evalStraight_iff]
  rw [getHandScore_category cards h5, t1, t2, t3, t4, t5, hst, scoreIsFlush_eq]
  cases hfl : flushSuitOf cards with
  | none =>
    rw [evaluateHand_noflush_form cards h5 hfl, hcc, handValue_category]
    have hsf : scoreIsStraightFlush cards = false := by
      rw [Bool.eq_false_iff, Ne, scoreIsStraightFlush_iff, hfl]
      simp
    have hr : scoreIsRoyalFlush cards = false := by
      rw [Bool.eq_false_iff, Ne, scoreIsRoyalFlush_iff, hfl]
      simp
    rw [hsf, hr]
    rfl
  | some s =>
    have hndf := hnd.filter (fun c => decide (c.suit = s))
    have hss := sameSuit_filter cards s
    rw [evaluateHand_flush_form cards hnd h5 s hfl, hcc, handValue_category]
    have hsf : scoreIsStraightFlush cards
        = truthy (straightHighOf
            (analyzeRanks (cards.filter (fun c => decide (c.suit = s))))) := by
      rw [Bool.eq_iff_iff, scoreIsStraightFlush_iff, evalFlushStraight_iff _ hndf hss, hfl]
      simp
    have hr : scoreIsRoyalFlush cards
        = decide (findStraightHigh (analyzeRanks (cards.filter (fun c => decide (c.suit = s))))
            = some 14) := by
      rw [Bool.eq_iff_iff, scoreIsRoyalFlush_iff, decide_eq_true_eq, evalRoyal_iff _ hndf hss, hfl]
      simp
    rw [hsf, hr]
    rfl

theorem valueOrderIndexOf_injective : Function.Injective valueOrderIndexOf := by
  intro a b h
  cases a <;> cases b <;> first | rfl | (exact absurd h (by decide))

theorem valueOrderIndexOf_range (v : Value) :
    0 ≤ valueOrderIndexOf v ∧ valueOrderIndexOf v ≤ 12 := by
  cases v <;> decide

/-- One step of the regular loop of `getStraight`. -/
theorem getStraight_loop_cons (a : Int) (t : List Int) :
    (List.range ((a :: t).length - 4)).findSome? (fun i =>
        if (a :: t).getD i 0 - (a :: t).getD (i + 4) 0 = 4
            ∧ (uniqFirst (((a :: t).drop i).take 5)).length = 5 then
          some ((((a :: t).drop i).take 5).filterMap valueOrderAt)
        else none)
      = if t.length < 4 then none
        else if a - t.getD 3 0 = 4 ∧ (uniqFirst ((a :: t).take 5)).length = 5 then
          some (((a :: t).take 5).filterMap valueOrderAt)
        else (List.range (t.length - 4)).findSome? (fun i =>
          if t.getD i 0 - t.getD (i + 4) 0 = 4 ∧ (uniqFirst ((t.drop i).take 5)).length = 5 then
            some (((t.drop i).take 5).filterMap valueOrderAt)
          else none) := by
  by_cases h : t.length < 4
  · rw [if_pos h]
    have : (a :: t).length - 4 = 0 := by simp only [List.length_cons]; omega
    rw [this]
    rfl
  · rw [if_neg h]
    have : (a :: t).length - 4 = (t.length - 4) + 1 := by simp only [List.length_cons]; omega
    rw [this, List.range_succ_eq_map, List.findSome?_cons, List.findSome?_map]
    simp only [List.getD_cons_zero, List.getD_cons_succ, List.drop_zero]
    split <;> rename_i heq
    · split at heq
      · rename_i h4
        rw [if_pos h4]
        exact heq.symm
      · exact absurd heq (by simp)
    · split at heq
      · exact absurd heq (by simp)
      · rename_i h4
        rw [if_neg h4]
        rfl

/-- On a strictly decreasing list the regular loop of `getStraight` stops where
the loop of `evaluateHand` stops, and returns the five values from there. -/
theorem getStraight_loop_eq (u : List Int) (hs : u.Sorted (fun x y => x > y)) :
    (List.range (u.length - 4)).findSome? (fun i =>
        if u.getD i 0 - u.getD (i + 4) 0 = 4 ∧ (uniqFirst ((u.drop i).take 5)).length = 5 then
          some (((u.drop i).take 5).filterMap valueOrderAt)
        else none)
      = (findStraightHigh u).map
          (fun h => [h, h - 1, h - 2, h - 3, h - 4].filterMap valueOrderAt) := by
  induction u with
  | nil => rfl
  | cons a t ih =>
    obtain ⟨h1, h2⟩ := strict_cons hs
    rw [getStraight_loop_cons, findStraightHigh_cons, ih h2]
    by_cases hlen : t.length < 4
    · rw [if_pos hlen, if_pos hlen]
      rfl
    · rw [if_neg hlen, if_neg hlen]
      by_cases h4 : a - t.getD 3 0 = 4
      · rw [if_pos h4]
        rcases t with _ | ⟨t0, _ | ⟨t1, _ | ⟨t2, _ | ⟨t3, t'⟩⟩⟩⟩ <;>
          simp only [List.length_cons, List.length_nil] at hlen <;> try omega
        simp only [List.getD_cons_succ, List.getD_cons_zero] at h4
        simp only [List.Sorted, List.pairwise_cons, List.mem_cons, forall_eq_or_imp] at h2
        have ha0 := h1 t0 (by simp)
        obtain ⟨⟨h01, -⟩, ⟨h12, -⟩, ⟨h23, -⟩, -⟩ := h2
        have e0 : t0 = a - 1 := by omega
        have e1 : t1 = a - 2 := by omega
        have e2 : t2 = a - 3 := by omega
        have e3 : t3 = a - 4 := by omega
        subst e0 e1 e2 e3
        have htake : (a :: (a - 1) :: (a - 2) :: (a - 3) :: (a - 4) :: t').take 5
            = [a, a - 1, a - 2, a - 3, a - 4] := rfl
        rw [htake, uniqFirst_strict5 (by omega) (by omega) (by omega) (by omega), if_pos]
        · rfl
        · exact ⟨by simp only [List.getD_cons_succ, List.getD_cons_zero]; omega, rfl⟩
      · rw [if_neg h4, if_neg (fun h => h4 h.1)]

theorem idxs_strict (vals : List Value) (hnd : vals.Nodup) :
    (sortDesc (vals.map valueOrderIndexOf)).Sorted (fun a b => a > b) :=
  strict_of_sorted_nodup (sortDesc_sorted _)
    ((sortDesc_perm _).nodup_iff.mpr (hnd.map valueOrderIndexOf_injective))

theorem mem_idxs (vals : List Value) (x : Int) :
    x ∈ sortDesc (vals.map valueOrderIndexOf) ↔ x + 2 ∈ vals.map RANKS := by
  rw [(sortDesc_perm _).mem_iff, List.mem_map, List.mem_map]
  constructor
  · rintro ⟨v, hv, rfl⟩
    exact ⟨v, hv, RANKS_eq_idx v⟩
  · rintro ⟨v, hv, h⟩
    refine ⟨v, hv, ?_⟩
    rw [RANKS_eq_idx] at h
    omega

theorem contains_iff_rank (vals : List Value) (v : Value) :
    vals.contains v = true ↔ RANKS v ∈ vals.map RANKS := by
  simp only [List.contains, List.elem_eq_mem, decide_eq_true_eq]
  rw [List.mem_map]
  constructor
  · intro h
    exact ⟨v, h, rfl⟩
  · rintro ⟨w, hw, h⟩
    rw [← RANKS_injective h]
    exact hw

theorem getStraight_short {vals : List Value} (h : vals.length < 5) : getStraight vals = none := by
  unfold getStraight
  rw [if_pos h]

theorem getStraight_of_regular (vals : List Value) (hnd : vals.Nodup) (h5 : 5 ≤ vals.length)
    (h : Int) (hf : findStraightHigh (sortDesc (vals.map valueOrderIndexOf)) = some h) :
    getStraight vals = some ([h, h - 1, h - 2, h - 3, h - 4].filterMap valueOrderAt) := by
  unfold getStraight
  dsimp only
  rw [if_neg (by omega), getStraight_loop_eq _ (idxs_strict vals hnd), hf]
  rfl

theorem getStraight_of_none (vals : List Value) (hnd : vals.Nodup) (h5 : 5 ≤ vals.length)
    (hf : findStraightHigh (sortDesc (vals.map valueOrderIndexOf)) = none) :
    getStraight vals
      = if vals.contains .vA && vals.contains .v2 && vals.contains .v3 && vals.contains .v4
          && vals.contains .v5 then some [.v5, .v4, .v3, .v2, .vA] else none := by
  unfold getStraight
  dsimp only
  rw [if_neg (by omega), getStraight_loop_eq _ (idxs_strict vals hnd), hf]
  rfl

theorem length_of_isStraight {u : List Int} {h : Int} (hs : IsStraight u h) : 5 ≤ u.length := by
  rcases hs with ⟨m0, m1, m2, m3, m4⟩ | ⟨-, m0, m1, m2, m3, m4⟩
  · have hsub : [h, h - 1, h - 2, h - 3, h - 4] ⊆ u := by
      intro x hx
      simp only [List.mem_cons, List.mem_singleton, List.not_mem_nil, or_false] at hx
      rcases hx with rfl | rfl | rfl | rfl | rfl <;> assumption
    have hnd : [h, h - 1, h - 2, h - 3, h - 4].Nodup := by
      simp only [List.nodup_cons, List.mem_cons, List.mem_singleton, List.not_mem_nil, or_false,
        not_false_eq_true, List.nodup_nil, and_true]
      omega
    exact (List.subperm_of_subset hnd hsub).length_le
  · have hsub : [(14 : Int), 5, 4, 3, 2] ⊆ u := by
      intro x hx
      simp only [List.mem_cons, List.mem_singleton, List.not_mem_nil, or_false] at hx
      rcases hx with rfl | rfl | rfl | rfl | rfl <;> assumption
    exact (List.subperm_of_subset (by decide) hsub).length_le

/-- The helper `getStraight` of `getBestHand` finds a straight exactly when
five ranks in a row, or ace to five, are among distinct values. -/
theorem getStraight_isSome_iff (vals : List Value) (hnd : vals.Nodup) :
    (getStraight vals).isSome = true ↔ ∃ h, IsStraight (vals.map RANKS) h := by
  by_cases h5 : vals.length < 5
  · rw [getStraight_short h5]
    constructor
    · intro h
      exact absurd h (by simp)
    · rintro ⟨h, hs⟩
      have := length_of_isStraight hs
      rw [List.length_map] at this
      omega
  · have hstr := idxs_strict vals hnd
    cases hf : findStraightHigh (sortDesc (vals.map valueOrderIndexOf)) with
    | some h =>
      rw [getStraight_of_regular vals hnd (by omega) h hf]
      obtain ⟨m0, m1, m2, m3, m4⟩ := findStraightHigh_sound hstr hf
      rw [mem_idxs] at m0 m1 m2 m3 m4
      refine ⟨fun _ => ⟨h + 2, Or.inl ⟨m0, ?_, ?_, ?_, ?_⟩⟩, fun _ => rfl⟩
      · rw [show h + 2 - 1 = h - 1 + 2 by omega]
        exact m1
      · rw [show h + 2 - 2 = h - 2 + 2 by omega]
        exact m2
      · rw [show h + 2 - 3 = h - 3 + 2 by omega]
        exact m3
      · rw [show h + 2 - 4 = h - 4 + 2 by omega]
        exact m4
    | none =>
      rw [getStraight_of_none vals hnd (by omega) hf]
      have hw : (vals.contains .vA && vals.contains .v2 && vals.contains .v3
          && vals.contains .v4 && vals.contains .v5) = true
          ↔ 14 ∈ vals.map RANKS ∧ 2 ∈ vals.map RANKS ∧ 3 ∈ vals.map RANKS
            ∧ 4 ∈ vals.map RANKS ∧ 5 ∈ vals.map RANKS := by
        simp only [Bool.and_eq_true, contains_iff_rank, and_assoc]
        rfl
      constructor
      · intro h
        split at h
        · rename_i hc
          obtain ⟨w14, w2, w3, w4, w5⟩ := hw.mp hc
          exact ⟨5, Or.inr ⟨rfl, w14, w5, w4, w3, w2⟩⟩
        · exact absurd h (by simp)
      · rintro ⟨h, ⟨m0, m1, m2, m3, m4⟩ | ⟨-, w14, w5, w4, w3, w2⟩⟩
        · exfalso
          have n0 : h - 2 ∈ sortDesc (vals.map valueOrderIndexOf) := by
            rw [mem_idxs, show h - 2 + 2 = h by omega]
            exact m0
          have n1 : h - 2 - 1 ∈ sortDesc (vals.map valueOrderIndexOf) := by
            rw [mem_idxs, show h - 2 - 1 + 2 = h - 1 by omega]
            exact m1
          have n2 : h - 2 - 2 ∈ sortDesc (vals.map valueOrderIndexOf) := by
            rw [mem_idxs, show h - 2 - 2 + 2 = h - 2 by omega]
            exact m2
          have n3 : h - 2 - 3 ∈ sortDesc (vals.map valueOrderIndexOf) := by
            rw [mem_idxs, show h - 2 - 3 + 2 = h - 3 by omega]
            exact m3
          have n4 : h - 2 - 4 ∈ sortDesc (vals.map valueOrderIndexOf) := by
            rw [mem_idxs, show h - 2 - 4 + 2 = h - 4 by omega]
            exact m4
          obtain ⟨h', -, hf'⟩ := findStraightHigh_complete hstr n0 n1 n2 n3 n4
          rw [hf] at hf'
          exact absurd hf' (by simp)
        · rw [if_pos (hw.mpr ⟨w14, w2, w3, w4, w5⟩)]
          rfl

/-- The royal test of `getBestHand` on the straight `getStraight` returns:
it holds exactly when ten to ace are among distinct values. -/
theorem getStraight_royal (vals : List Value) (hnd : vals.Nodup) (fs : List Value)
    (hg : getStraight vals = some fs) :
    (fs.get? 0 = some Value.vA ∧ fs.get? 1 = some Value.vK)
      ↔ 14 ∈ vals.map RANKS ∧ 13 ∈ vals.map RANKS ∧ 12 ∈ vals.map RANKS
        ∧ 11 ∈ vals.map RANKS ∧ 10 ∈ vals.map RANKS := by
  have h5 : 5 ≤ vals.length := by
    by_contra hlt
    rw [getStraight_short (by omega)] at hg
    exact absurd hg (by simp)
  have hstr := idxs_strict vals hnd
  have hrange : ∀ x, x ∈ sortDesc (vals.map valueOrderIndexOf) → 0 ≤ x ∧ x ≤ 12 := by
    intro x hx
    rw [(sortDesc_perm _).mem_iff, List.mem_map] at hx
    obtain ⟨v, -, rfl⟩ := hx
    exact valueOrderIndexOf_range v
  cases hf : findStraightHigh (sortDesc (vals.map valueOrderIndexOf)) with
  | some h =>
    rw [getStraight_of_regular vals hnd h5 h hf] at hg
    obtain ⟨m0, m1, m2, m3, m4⟩ := findStraightHigh_sound hstr hf
    have r0 := hrange _ m0
    have r4 := hrange _ m4
    have hfs : fs = [h, h - 1, h - 2, h - 3, h - 4].filterMap valueOrderAt := by
      simpa using hg.symm
    constructor
    · intro hr
      have h12 : h = 12 := by
        rw [hfs] at hr
        obtain ⟨hl, hu⟩ : 4 ≤ h ∧ h ≤ 12 := ⟨by omega, by omega⟩
        interval_cases h <;> first | rfl | (exact absurd hr.1 (by decide))
      subst h12
      rw [mem_idxs] at m0 m1 m2 m3 m4
      exact ⟨m0, m1, m2, m3, m4⟩
    · rintro ⟨m14, m13, m12, m11, m10⟩
      have n0 : (12 : Int) ∈ sortDesc (vals.map valueOrderIndexOf) := (mem_idxs _ _).mpr m14
      have n1 : (12 : Int) - 1 ∈ sortDesc (vals.map valueOrderIndexOf) := (mem_idxs _ _).mpr m13
      have n2 : (12 : Int) - 2 ∈ sortDesc (vals.map valueOrderIndexOf) := (mem_idxs _ _).mpr m12
      have n3 : (12 : Int) - 3 ∈ sortDesc (vals.map valueOrderIndexOf) := (mem_idxs _ _).mpr m11
      have n4 : (12 : Int) - 4 ∈ sortDesc (vals.map valueOrderIndexOf) := (mem_idxs _ _).mpr m10
      obtain ⟨h', hge, hf'⟩ := findStraightHigh_complete hstr n0 n1 n2 n3 n4
      rw [hf] at hf'
      have hh : h = h' := by simpa using hf'
      have h12 : h = 12 := by omega
      rw [hfs, h12]
      decide
  | none =>
    rw [getStraight_of_none vals hnd h5 hf] at hg
    constructor
    · intro hr
      split at hg
      · have hfs : fs = [Value.v5, .v4, .v3, .v2, .vA] := by simpa using hg.symm
        rw [hfs] at hr
        exact absurd hr.1 (by decide)
      · exact absurd hg (by simp)
    · rintro ⟨m14, m13, m12, m11, m10⟩
      exfalso
      have n0 : (12 : Int) ∈ sortDesc (vals.map valueOrderIndexOf) := (mem_idxs _ _).mpr m14
      have n1 : (12 : Int) - 1 ∈ sortDesc (vals.map valueOrderIndexOf) := (mem_idxs _ _).mpr m13
      have n2 : (12 : Int) - 2 ∈ sortDesc (vals.map valueOrderIndexOf) := (mem_idxs _ _).mpr m12
      have n3 : (12 : Int) - 3 ∈ sortDesc (vals.map valueOrderIndexOf) := (mem_idxs _ _).mpr m11
      have n4 : (12 : Int) - 4 ∈ sortDesc (vals.map valueOrderIndexOf) := (mem_idxs _ _).mpr m10
      obtain ⟨h', -, hf'⟩ := findStraightHigh_complete hstr n0 n1 n2 n3 n4
      rw [hf] at hf'
      exact absurd hf' (by simp)

/-- The rank `getBestHand` returns is the category chosen by its nine tests,
read in the order of the code. -/
theorem getBestHand_rank (cards : List Card) (h5 : 5 ≤ cards.length)
    (vbf : List (Value × Nat))
    (hvbf : vbf = ((objectKeys (cards.map (fun c => c.value))).map
      (fun v => (v, (cards.map (fun c => c.value)).count v))).insertionSort freqOrder)
    (fc : List Value)
    (hfc : fc = ((flushSuitOf cards).map
      (fun fs => (cards.filter (fun c => c.suit = fs)).map (fun c => c.value))).getD [])
    (sv : List Value)
    (hsv : sv = (uniqFirst (cards.map (fun c => c.value))).insertionSort
      (fun a b => valueOrderIndexOf b - valueOrderIndexOf a ≤ 0)) :
    (getBestHand cards).rank
      = handCategory
          ((if fc.length ≥ 5 then getStraight fc else none).any
            (fun fs => decide (fs.get? 0 = some Value.vA ∧ fs.get? 1 = some Value.vK)))
          (if fc.length ≥ 5 then getStraight fc else none).isSome
          (decide (vbf.length > 0 ∧ (vbf.get? 0).map (fun e => e.2) = some 4))
          (decide (vbf.length > 1 ∧ (vbf.get? 0).map (fun e => e.2) = some 3
            ∧ ((vbf.get? 1).map (fun e => decide (e.2 ≥ 2))).getD false = true))
          (decide (fc.length ≥ 5))
          (getStraight sv).isSome
          (decide (vbf.length > 0 ∧ (vbf.get? 0).map (fun e => e.2) = some 3))
          (decide (vbf.length > 1 ∧ (vbf.get? 0).map (fun e => e.2) = some 2
            ∧ (vbf.get? 1).map (fun e => e.2) = some 2))
          (decide (vbf.length > 0 ∧ (vbf.get? 0).map (fun e => e.2) = some 2)) := by
  have hfs : (uniqFirst (cards.map (fun c => c.suit))).find?
      (fun s => decide ((cards.map (fun c => c.suit)).count s ≥ 5)) = flushSuitOf cards := rfl
  unfold getBestHand
  dsimp only
  rw [if_neg (by omega), ← hvbf, ← hsv, hfs]
  generalize flushSuitOf cards = fl at hfc ⊢
  cases fl <;>
    simp only [Option.map_none', Option.getD_none, Option.map_some', Option.getD_some] at hfc <;>
    dsimp only <;> rw [← hfc]
  all_goals
    generalize (if fc.length ≥ 5 then getStraight fc else none) = fst
    unfold handCategory
    cases fst with
    | some fs =>
      dsimp only
      by_cases hr : fs.get? 0 = some Value.vA ∧ fs.get? 1 = some Value.vK
      · simp only [Option.any_some, Option.isSome_some, decide_eq_true_eq]
        rw [if_pos hr, if_pos hr]
      · simp only [Option.any_some, Option.isSome_some, decide_eq_true_eq]
        rw [if_neg hr, if_neg hr, if_pos trivial]
    | none =>
      dsimp only
      simp only [Option.any_none, Option.isSome_none, Bool.false_eq_true, if_false,
        decide_eq_true_eq]
      by_cases h1 : vbf.length > 0 ∧ (vbf.get? 0).map (fun e => e.2) = some 4
      · rw [if_pos h1, if_pos h1]
      · rw [if_neg h1, if_neg h1]
        by_cases h2 : vbf.length > 1 ∧ (vbf.get? 0).map (fun e => e.2) = some 3
            ∧ ((vbf.get? 1).map (fun e => decide (e.2 ≥ 2))).getD false = true
        · rw [if_pos h2, if_pos h2]
        · rw [if_neg h2, if_neg h2]
          by_cases h3 : fc.length ≥ 5
          · rw [if_pos h3, if_pos h3]
          · rw [if_neg h3, if_neg h3]
            cases hgs : getStraight sv with
            | some st => rfl
            | none =>
              dsimp only
              simp only [Option.isSome_none, Bool.false_eq_true, if_false]
              by_cases h4 : vbf.length > 0 ∧ (vbf.get? 0).map (fun e => e.2) = some 3
              · rw [if_pos h4, if_pos h4]
              · rw [if_neg h4, if_neg h4]
                by_cases h5 : vbf.length > 1 ∧ (vbf.get? 0).map (fun e => e.2) = some 2
                    ∧ (vbf.get? 1).map (fun e => e.2) = some 2
                · rw [if_pos h5, if_pos h5]
                · rw [if_neg h5, if_neg h5]
                  by_cases h6 : vbf.length > 0 ∧ (vbf.get? 0).map (fun e => e.2) = some 2
                  · rw [if_pos h6, if_pos h6]
                  · rw [if_neg h6, if_neg h6]

theorem values_nodup_of_sameSuit (cards : List Card) (hnd : cards.Nodup)
    (hss : SameSuit cards) : (cards.map (fun c => c.value)).Nodup := by
  have h := ranksOf_nodup_of_sameSuit cards hnd hss
  unfold ranksOf at h
  have hm : cards.map (fun c => RANKS c.value) = (cards.map (fun c => c.value)).map RANKS := by
    rw [List.map_map]
    rfl
  rw [hm] at h
  exact List.Nodup.of_map _ h

theorem map_RANKS_values (cards : List Card) :
    (cards.map (fun c => c.value)).map RANKS = ranksOf cards := by
  unfold ranksOf
  rw [List.map_map]
  rfl

/-- The five count tests of `getBestHand` read the same numbers as those of
`getHandScore`. -/
theorem valuesByFreq_tests (cards : List Card) (vbf : List (Value × Nat))
    (hvbf : vbf = ((objectKeys (cards.map (fun c => c.value))).map
      (fun v => (v, (cards.map (fun c => c.value)).count v))).insertionSort freqOrder) :
    decide (vbf.length > 0 ∧ (vbf.get? 0).map (fun e => e.2) = some 4)
      = decide ((countsArray cards).get? 0 = some 4)
    ∧ decide (vbf.length > 1 ∧ (vbf.get? 0).map (fun e => e.2) = some 3
          ∧ ((vbf.get? 1).map (fun e => decide (e.2 ≥ 2))).getD false = true)
      = decide ((countsArray cards).get? 0 = some 3
          ∧ ((countsArray cards).get? 1).any (fun c => decide (c ≥ 2)) = true)
    ∧ decide (vbf.length > 0 ∧ (vbf.get? 0).map (fun e => e.2) = some 3)
      = decide ((countsArray cards).get? 0 = some 3)
    ∧ decide (vbf.length > 1 ∧ (vbf.get? 0).map (fun e => e.2) = some 2
          ∧ (vbf.get? 1).map (fun e => e.2) = some 2)
      = decide ((countsArray cards).get? 0 = some 2 ∧ (countsArray cards).get? 1 = some 2)
    ∧ decide (vbf.length > 0 ∧ (vbf.get? 0).map (fun e => e.2) = some 2)
      = decide ((countsArray cards).get? 0 = some 2) := by
  have hm : vbf.map (fun e => (e.2 : Int)) = countsArray cards := by
    rw [hvbf]
    exact valuesByFreq_counts cards
  rw [← hm]
  clear hm hvbf
  rcases vbf with _ | ⟨e0, _ | ⟨e1, vr⟩⟩
  · simp
  · simp only [List.length_cons, List.length_nil, List.get?_cons_zero, List.get?_cons_succ,
      List.get?_nil, List.map_cons, List.map_nil, Option.map_some', Option.map_none',
      Option.some.injEq, Option.any_none, Option.getD_none]
    refine ⟨?_, ?_, ?_, ?_, ?_⟩ <;> apply decide_eq_decide.mpr <;> simp <;> omega
  · simp only [List.length_cons, List.get?_cons_zero, List.get?_cons_succ,
      List.map_cons, Option.map_some', Option.some.injEq, Option.any_some, Option.getD_some,
      decide_eq_true_eq]
    refine ⟨?_, ?_, ?_, ?_, ?_⟩ <;> apply decide_eq_decide.mpr <;> omega

/-- The flush cards of `getBestHand`, for either outcome of the flush search. -/
theorem bestFlushCards (cards : List Card) (hnd : cards.Nodup) (fc : List Value)
    (hfc : fc = ((flushSuitOf cards).map
      (fun fs => (cards.filter (fun c => c.suit = fs)).map (fun c => c.value))).getD []) :
    (flushSuitOf cards = none ∧ fc = [])
    ∨ (∃ s, flushSuitOf cards = some s ∧ 5 ≤ fc.length ∧ fc.Nodup
        ∧ fc.map RANKS = ranksOf (cards.filter (fun c => decide (c.suit = s)))) := by
  cases hfl : flushSuitOf cards with
  | none =>
    rw [hfl] at hfc
    exact Or.inl ⟨rfl, hfc⟩
  | some s =>
    rw [hfl] at hfc
    simp only [Option.map_some', Option.getD_some] at hfc
    have hcount := flushSuitOf_some hfl
    rw [count_suit_eq_length_filter] at hcount
    refine Or.inr ⟨s, rfl, ?_, ?_, ?_⟩
    · rw [hfc, List.length_map]
      exact hcount
    · rw [hfc]
      exact values_nodup_of_sameSuit _ (hnd.filter _) (sameSuit_filter cards s)
    · rw [hfc]
      exact map_RANKS_values _

theorem bestFlush_eq (cards : List Card) (hnd : cards.Nodup) (fc : List Value)
    (hfc : fc = ((flushSuitOf cards).map
      (fun fs => (cards.filter (fun c => c.suit = fs)).map (fun c => c.value))).getD []) :
    decide (fc.length ≥ 5) = scoreIsFlush cards := by
  rw [scoreIsFlush_eq]
  rcases bestFlushCards cards hnd fc hfc with ⟨hfl, he⟩ | ⟨s, hfl, hlen, -, -⟩
  · rw [hfl, he]
    rfl
  · rw [hfl]
    simpa using hlen

theorem bestStraight_eq (cards : List Card) (sv : List Value)
    (hsv : sv = (uniqFirst (cards.map (fun c => c.value))).insertionSort
      (fun a b => valueOrderIndexOf b - valueOrderIndexOf a ≤ 0)) :
    (getStraight sv).isSome = straightIdx (scoreSortedVals cards) := by
  have hperm : sv.Perm (uniqFirst (cards.map (fun c => c.value))) := by
    rw [hsv]
    exact List.perm_insertionSort _ _
  have hnd : sv.Nodup := hperm.nodup_iff.mpr (nodup_uniqFirst _)
  rw [Bool.eq_iff_iff, getStraight_isSome_iff sv hnd, scoreStraight_iff]
  apply isStraight_congr
  intro x
  rw [← map_RANKS_values, List.mem_map, List.mem_map]
  constructor
  · rintro ⟨v, hv, rfl⟩
    exact ⟨v, (mem_uniqFirst _ v).mp (hperm.mem_iff.mp hv), rfl⟩
  · rintro ⟨v, hv, rfl⟩
    exact ⟨v, hperm.mem_iff.mpr ((mem_uniqFirst _ v).mpr hv), rfl⟩

theorem bestStraightFlush_eq (cards : List Card) (hnd : cards.Nodup) (fc : List Value)
    (hfc : fc = ((flushSuitOf cards).map
      (fun fs => (cards.filter (fun c => c.suit = fs)).map (fun c => c.value))).getD []) :
    (if fc.length ≥ 5 then getStraight fc else none).isSome = scoreIsStraightFlush cards := by
  rw [Bool.eq_iff_iff, scoreIsStraightFlush_iff]
  rcases bestFlushCards cards hnd fc hfc with ⟨hfl, he⟩ | ⟨s, hfl, hlen, hndf, hr⟩
  · rw [hfl, he]
    simp
  · rw [if_pos hlen, getStraight_isSome_iff fc hndf, hr, hfl]
    simp

theorem bestRoyal_eq (cards : List Card) (hnd : cards.Nodup) (fc : List Value)
    (hfc : fc = ((flushSuitOf cards).map
      (fun fs => (cards.filter (fun c => c.suit = fs)).map (fun c => c.value))).getD []) :
    (if fc.length ≥ 5 then getStraight fc else none).any
        (fun fs => decide (fs.get? 0 = some Value.vA ∧ fs.get? 1 = some Value.vK))
      = scoreIsRoyalFlush cards := by
  rw [Bool.eq_iff_iff, scoreIsRoyalFlush_iff]
  rcases bestFlushCards cards hnd fc hfc with ⟨hfl, he⟩ | ⟨s, hfl, hlen, hndf, hr⟩
  · rw [hfl, he]
    simp
  · rw [if_pos hlen, hfl]
    simp only [Option.some.injEq, exists_eq_left']
    rw [← hr]
    cases hg : getStraight fc with
    | none =>
      constructor
      · intro h
        exact absurd h (by simp)
      · rintro ⟨m14, m13, m12, m11, m10⟩
        exfalso
        have hs : (getStraight fc).isSome = true :=
          (getStraight_isSome_iff fc hndf).mpr ⟨14, Or.inl ⟨m14, m13, m12, m11, m10⟩⟩
        rw [hg] at hs
        exact absurd hs (by simp)
    | some fs =>
      rw [← getStraight_royal fc hndf fs hg]
      simp

/-- On five or more distinct cards `getBestHand` returns as rank the category
number that `getHandScore` returns. -/
theorem getBestHand_rank_eq_getHandScore (cards : List Card) (hnd : cards.Nodup)
    (h5 : 5 ≤ cards.length) :
    (getBestHand cards).rank = getHandScore cards := by
  obtain ⟨t1, t2, t3, t4, t5⟩ := valuesByFreq_tests cards _ rfl
  rw [getHandScore_category cards h5, getBestHand_rank cards h5 _ rfl _ rfl _ rfl,
    t1, t2, t3, t4, t5, bestFlush_eq cards hnd _ rfl, bestStraight_eq cards _ rfl,
    bestStraightFlush_eq cards hnd _ rfl, bestRoyal_eq cards hnd _ rfl]

theorem handValue_ne_nil (rs : List Int) (counts : List RankCount) (isFlush : Bool)
    (fr : List Int) (sh sfh : Option Int) (royal : Bool) :
    handValue rs counts isFlush fr sh sfh royal ≠ [] := by
  unfold handValue
  cases counts with
  | nil => simp
  | cons c0 rest =>
    dsimp only
    repeat' split
    all_goals simp

theorem evaluateHand_ne_nil (cards : List Card) : evaluateHand cards ≠ [] := by
  unfold evaluateHand
  dsimp only
  split
  · simp
  · split
    · simp
    · exact handValue_ne_nil _ _ _ _ _ _ _

theorem get?_zero_of_ne_nil {l : List Int} (h : l ≠ []) : l.get? 0 = some (l.getD 0 0) := by
  cases l with
  | nil => exact absurd rfl h
  | cons a t => rfl

/-- C28: the three evaluators agree on the hand category. For every list of
five or more distinct cards (so for every list of 5 to 7 distinct cards),
`evaluateHand(cards)[0]` and `getBestHand(cards).rank` are both the number
`getHandScore(cards)` returns. -/
theorem evaluators_agree_on_category (cards : List Card) (hnd : cards.Nodup)
    (h5 : 5 ≤ cards.length) :
    (evaluateHand cards).get? 0 = some (getHandScore cards)
      ∧ (getBestHand cards).rank = getHandScore cards := by
  refine ⟨?_, getBestHand_rank_eq_getHandScore cards hnd h5⟩
  rw [get?_zero_of_ne_nil (evaluateHand_ne_nil cards), getHandScore_eq_evaluateHand cards hnd h5]

theorem evaluators_agree_on_category_witness :
    wheelFlushHand.Nodup ∧ 5 ≤ wheelFlushHand.length ∧ getHandScore wheelFlushHand = 8
      ∧ (evaluateHand wheelFlushHand).get? 0 = some (getHandScore wheelFlushHand)
      ∧ (getBestHand wheelFlushHand).rank = getHandScore wheelFlushHand :=
  ⟨by decide, by decide, by decide,
    evaluators_agree_on_category wheelFlushHand (by decide) (by decide)⟩

end Poker
